import Mathlib

/-
Verification of the chess rules-and-search engine (bitboard chess core).

The development shallowly embeds the JavaScript sources:
  chess.js     (board constants and index utilities)
  bitboard.js  (Chess.Bitboard: an unsigned 64-bit integer built from two
               unsigned 32-bit halves; we embed its 64-bit value as a Nat
               kept below 2^64, which is the documented contract of the class)
  zobrist.js   (Chess.Zobrist: a 64-bit XOR fingerprint; the process-wide
               table of random values is a parameter `R` of the embedding)
  move.js      (Chess.Move: a move packed into one integer)
  position.js  (Chess.Position: game state, generation, make/unmake, status)
  ai.js        (Chess.AI: alpha-beta search with quiescence)

Mutating JavaScript methods are embedded as functions returning the new
state; methods whose net effect is only a return value keep only that value.
-/

set_option maxRecDepth 20000

namespace Chess

/-! ## chess.js : constants and utilities -/

/-- Number of ranks (rows) in a chess board (`Chess.RANKS`). -/
def RANKS : Nat := 8

/-- Index of the last rank (`Chess.LAST_RANK`). -/
def LAST_RANK : Nat := RANKS - 1

/-- Number of files (columns) in a chess board (`Chess.FILES`). -/
def FILES : Nat := 8

/-- Index of the last file (`Chess.LAST_FILE`). -/
def LAST_FILE : Nat := FILES - 1

/-- Piece codes (`Chess.Piece`): pawn 0, knight 1, bishop 2, rook 3, queen 4, king 5. -/
def Piece.PAWN : Nat := 0

def Piece.KNIGHT : Nat := 1

def Piece.BISHOP : Nat := 2

def Piece.ROOK : Nat := 3

def Piece.QUEEN : Nat := 4

def Piece.KING : Nat := 5

/-- Color codes (`Chess.PieceColor`): white 0, black 1. -/
def PieceColor.WHITE : Nat := 0

def PieceColor.BLACK : Nat := 1

/-- Rank of a square index (`Chess.getRank`): `index >>> 3`. -/
def getRank (index : Nat) : Nat := index >>> 3

/-- File of a square index (`Chess.getFile`): `index & 7`. -/
def getFile (index : Nat) : Nat := index &&& 7

/-- Square index from rank and file (`Chess.getIndex`): `file + rank * 8`. -/
def getIndex (rank file : Nat) : Nat := file + rank * FILES

/-- Color flip (`Chess.getOtherPieceColor`): `color ^ 1`. -/
def getOtherPieceColor (color : Nat) : Nat := color ^^^ 1

/-- Light-square test (`Chess.isLight`): `!!((rank + file) % 2)`. -/
def isLight (rank file : Nat) : Bool := (rank + file) % 2 ≠ 0

/-! ## bitboard.js : 64-bit bitboards as natural numbers below 2^64 -/

namespace Bitboard

/-- All 64 bits set; `Chess.Bitboard.makeOne()` = `make(0xFFFFFFFF, 0xFFFFFFFF)`. -/
def MASK64 : Nat := 2 ^ 64 - 1

/-- The 64-bit value assembled from unsigned 32-bit halves (`Chess.Bitboard.make`). -/
def make (low high : Nat) : Nat := low % 2 ^ 32 + high % 2 ^ 32 * 2 ^ 32

/-- Population count (`popcnt`): the number of set bits.  The source computes
it with 32-bit bit-twiddling per half; the value is the number of set bits of
the 64-bit quantity, computed here bit by bit with fuel 64. -/
def popcntAux : Nat → Nat → Nat
  | 0, _ => 0
  | fuel + 1, v => v % 2 + popcntAux fuel (v / 2)

/-- Population count of a bitboard (`Chess.Bitboard.prototype.popcnt`). -/
def popcnt (v : Nat) : Nat := popcntAux 64 v

/-- Position of the lowest set bit (`getLowestBitPosition`).  The source
counts the zeros below the lowest set bit with popcnt32 bit-twiddling on
the halves; the count is computed here bit by bit, and the empty bitboard
yields 32 + 32 = 64 exactly as the two halves do. -/
def lowestBitAux : Nat → Nat → Nat
  | 0, _ => 0
  | fuel + 1, v => if v % 2 = 1 then 0 else 1 + lowestBitAux fuel (v / 2)

/-- Position of the lowest set bit; 64 when the bitboard is empty. -/
def getLowestBitPosition (v : Nat) : Nat := lowestBitAux 64 v

/-- Clearing the lowest set bit (`popLowestBit`).  The source clears the
lowest set bit of the low half when it is nonzero and of the high half
otherwise; on the 64-bit value both cases equal `v &&& (v - 1)`. -/
def popLowestBit (v : Nat) : Nat := v &&& (v - 1)

/-- Emptiness test (`isEmpty`). -/
def isEmpty (v : Nat) : Bool := v = 0

/-- Bit test (`isSet`).  JavaScript computes `1 << index` on a half with the
shift count taken mod 32, so indices 0-63 behave as expected. -/
def isSet (v index : Nat) : Bool :=
  if index < 32 then v.testBit index else v.testBit (32 + (index - 32) % 32)

/-- Negated bit test (`isClear`). -/
def isClear (v index : Nat) : Bool := !isSet v index

/-- Setting one bit (`setBit`). -/
def setBit (v index : Nat) : Nat :=
  if index < 32 then v ||| 2 ^ index else v ||| 2 ^ (32 + (index - 32) % 32)

/-- Clearing one bit (`clearBit`). -/
def clearBit (v index : Nat) : Nat :=
  if index < 32 then v &&& (MASK64 ^^^ 2 ^ index)
  else v &&& (MASK64 ^^^ 2 ^ (32 + (index - 32) % 32))

/-- Bitwise complement over the 64-bit domain (`not`). -/
def bnot (v : Nat) : Nat := v ^^^ MASK64

/-- Conjunction with a complement (`and_not`). -/
def andNot (v other : Nat) : Nat := v &&& bnot other

/-- Left shift by 0-63 bits (`shl`), truncated to 64 bits as the two
half-words are. -/
def shl (v amount : Nat) : Nat := (v <<< amount) &&& MASK64

/-- Right shift by 0-63 bits (`shr`). -/
def shr (v amount : Nat) : Nat := v >>> amount

/-- Signed shift (`shiftLeft`): negative amounts shift right, amounts with
magnitude above 63 clear the bitboard.  The sign analysis is written as a
match on the two integer constructors (`negSucc n` is `-(n + 1)`). -/
def shiftLeft (v : Nat) : Int → Nat
  | Int.ofNat n => if 63 < n then 0 else shl v n
  | Int.negSucc n => if 63 < n + 1 then 0 else shr v (n + 1)

/-- One-bit bitboard (`makeIndex`). -/
def makeIndex (index : Nat) : Nat := setBit 0 index

/-- One-bit bitboard at a square index produced by signed arithmetic; the
generator only forms in-range indices. -/
def makeIndexI (index : Int) : Nat := makeIndex index.toNat

/-- Bitboard of all ones (`makeOne` / `Chess.Bitboard.ONE`). -/
def ONE : Nat := make 0xFFFFFFFF 0xFFFFFFFF

/-- Light squares (`Chess.Bitboard.LIGHT_SQUARES`). -/
def LIGHT_SQUARES : Nat := make 0x55AA55AA 0x55AA55AA

/-- Dark squares (`Chess.Bitboard.DARK_SQUARES`). -/
def DARK_SQUARES : Nat := make 0xAA55AA55 0xAA55AA55

/-- File bitboard (`makeFile`). -/
def makeFile (file : Nat) : Nat := shl (make 0x01010101 0x01010101) file

/-- Rank bitboard (`makeRank`). -/
def makeRank (rank : Nat) : Nat := shl (make 0xFF 0) (rank * 8)

/-- Lookup in `Chess.Bitboard.FILES`. -/
def FILES_BB (file : Nat) : Nat := makeFile file

/-- Lookup in `Chess.Bitboard.RANKS`. -/
def RANKS_BB (rank : Nat) : Nat := makeRank rank

/-- Knight movement pattern from a square (`makeKnightMovement`), built by
shifting a one-bit board and masking off file wraparound. -/
def makeKnightMovement (index : Nat) : Nat :=
  let b := setBit 0 index
  let l1 := andNot (shr b 1) (FILES_BB 7)
  let l2 := andNot (andNot (shr b 2) (FILES_BB 7)) (FILES_BB 6)
  let r1 := andNot (shl b 1) (FILES_BB 0)
  let r2 := andNot (andNot (shl b 2) (FILES_BB 0)) (FILES_BB 1)
  let v1 := l2 ||| r2
  let v2 := l1 ||| r1
  shl v1 8 ||| shr v1 8 ||| shl v2 16 ||| shr v2 16

/-- King movement pattern from a square (`makeKingMovement`). -/
def makeKingMovement (index : Nat) : Nat :=
  let b := setBit 0 index
  let c := andNot (shr b 1) (FILES_BB 7) ||| andNot (shl b 1) (FILES_BB 0)
  let u := shr (b ||| c) 8
  let d := shl (b ||| c) 8
  c ||| u ||| d

/-- Lookup in the precomputed array `Chess.Bitboard.KNIGHT_MOVEMENTS`. -/
def KNIGHT_MOVEMENTS (index : Nat) : Nat := makeKnightMovement index

/-- Lookup in the precomputed array `Chess.Bitboard.KING_MOVEMENTS`. -/
def KING_MOVEMENTS (index : Nat) : Nat := makeKingMovement index

end Bitboard

/-! ## move.js : packed move encoding -/

/-- Move kinds (`Chess.Move.Kind`). -/
def Kind.POSITIONAL : Nat := 0

def Kind.DOUBLE_PAWN_PUSH : Nat := 1

def Kind.KING_CASTLE : Nat := 2

def Kind.QUEEN_CASTLE : Nat := 3

def Kind.CAPTURE : Nat := 4

def Kind.EN_PASSANT_CAPTURE : Nat := 5

def Kind.KNIGHT_PROMOTION : Nat := 8

def Kind.BISHOP_PROMOTION : Nat := 9

def Kind.ROOK_PROMOTION : Nat := 10

def Kind.QUEEN_PROMOTION : Nat := 11

def Kind.KNIGHT_PROMOTION_CAPTURE : Nat := 12

def Kind.BISHOP_PROMOTION_CAPTURE : Nat := 13

def Kind.ROOK_PROMOTION_CAPTURE : Nat := 14

def Kind.QUEEN_PROMOTION_CAPTURE : Nat := 15

/-- Representation of a chess move (`Chess.Move`): all fields are packed into
one integer `value`. -/
structure Move where
  value : Nat
deriving DecidableEq, Repr

/-- The `Chess.Move` constructor.  The source squares may be produced by
signed arithmetic (`index - movement`); a null captured piece is stored as
pawn (`capturedPiece | 0`). -/
def Move.make (f t : Int) (kind piece : Nat) (capturedPiece : Option Nat) : Move :=
  ⟨(t.toNat &&& 0x3F) ||| ((f.toNat &&& 0x3F) <<< 6) ||| ((kind &&& 0xF) <<< 12) |||
    ((piece &&& 0x7) <<< 16) ||| ((capturedPiece.getD 0 &&& 0x7) <<< 19)⟩

/-- Destination square (`getTo`). -/
def Move.getTo (m : Move) : Nat := m.value &&& 0x3F

/-- Source square (`getFrom`). -/
def Move.getFrom (m : Move) : Nat := (m.value >>> 6) &&& 0x3F

/-- Move kind (`getKind`). -/
def Move.getKind (m : Move) : Nat := (m.value >>> 12) &&& 0xF

/-- Moving piece (`getPiece`). -/
def Move.getPiece (m : Move) : Nat := (m.value >>> 16) &&& 0x7

/-- Capture flag (`isCapture`): bit 2 of the kind. -/
def Move.isCapture (m : Move) : Bool := m.getKind &&& 4 ≠ 0

/-- Captured piece (`getCapturedPiece`); meaningful only for captures. -/
def Move.getCapturedPiece (m : Move) : Nat := (m.value >>> 19) &&& 0x7

/-- Promotion flag (`isPromotion`): bit 3 of the kind. -/
def Move.isPromotion (m : Move) : Bool := m.getKind &&& 8 ≠ 0

/-- Castle test (`isCastle`). -/
def Move.isCastle (m : Move) : Bool :=
  m.getKind = Kind.KING_CASTLE ∨ m.getKind = Kind.QUEEN_CASTLE

/-- Promoted piece (`getPromotedPiece`): knight + low two kind bits for
promotions, pawn otherwise. -/
def Move.getPromotedPiece (m : Move) : Nat :=
  if m.isPromotion then Piece.KNIGHT + (m.getKind &&& 3) else Piece.PAWN

/-- Square of the captured piece (`getCaptureSquare`): the destination except
for en passant, where it is the square behind the destination. -/
def Move.getCaptureSquare (m : Move) : Nat :=
  if m.getKind ≠ Kind.EN_PASSANT_CAPTURE then m.getTo
  else if m.getFrom < m.getTo then m.getTo - FILES else m.getTo + FILES

/-! ## zobrist.js : 64-bit XOR fingerprints

`Chess.Zobrist.RANDOM_VALUES` is a process-wide table of random 32-bit
values generated once at startup; `update(position)` XORs the pair at
`position`, `position + 1` into the two halves of the hash.  The embedding
takes the table as a parameter `R : Nat → Nat` giving the 64-bit XOR delta
at each table position, and a hash value is a `Nat`. -/

namespace Zobrist

/-- Table layout (`Chess.Zobrist.Position`), in 32-bit slots: turn at 0,
piece-color-square data from 2, castling rights from 1538, en-passant file
from 1570. -/
def POSITION_TURN : Nat := 0

def POSITION_PIECE_COLOR_SQUARE : Nat := 2

def POSITION_CASTLING_RIGHTS : Nat := 2 + 6 * 2 * 64 * 2

def POSITION_EN_PASSANT_FILE : Nat := POSITION_CASTLING_RIGHTS + 16 * 2

/-- XOR one table entry into the hash (`update`). -/
def update (R : Nat → Nat) (z position : Nat) : Nat := z ^^^ R position

/-- Turn feature (`updateTurn`). -/
def updateTurn (R : Nat → Nat) (z : Nat) : Nat := update R z POSITION_TURN

/-- Piece placement feature (`updatePieceColorSquare`). -/
def updatePieceColorSquare (R : Nat → Nat) (z piece color index : Nat) : Nat :=
  update R z (POSITION_PIECE_COLOR_SQUARE + piece + color * 6 + index * 6 * 2)

/-- Placement features for every set bit of a bitboard
(`updatePieceColorBitboard`), by lowest-bit extraction. -/
def updatePieceColorBitboardAux (R : Nat → Nat) (piece color : Nat) :
    Nat → Nat → Nat → Nat
  | 0, z, _ => z
  | fuel + 1, z, bb =>
    if bb = 0 then z
    else
      updatePieceColorBitboardAux R piece color fuel
        (updatePieceColorSquare R z piece color (Bitboard.getLowestBitPosition bb))
        (Bitboard.popLowestBit bb)

/-- Placement features for a whole bitboard (`updatePieceColorBitboard`). -/
def updatePieceColorBitboard (R : Nat → Nat) (z piece color bb : Nat) : Nat :=
  updatePieceColorBitboardAux R piece color 64 z bb

/-- Castling-rights feature (`updateCastlingRights`): one slot for the whole
4-bit value. -/
def updateCastlingRights (R : Nat → Nat) (z castlingRights : Nat) : Nat :=
  update R z (POSITION_EN_PASSANT_FILE - 16 * 2 + castlingRights)

/-- En-passant file feature (`updateEnPassantFile`). -/
def updateEnPassantFile (R : Nat → Nat) (z enPassantFile : Nat) : Nat :=
  update R z (POSITION_EN_PASSANT_FILE + enPassantFile)

/-- En-passant feature from a square (`updateEnPassantSquare`): a no-op for
the sentinel value −1. -/
def updateEnPassantSquare (R : Nat → Nat) (z : Nat) (enPassantSquare : Int) : Nat :=
  if 0 ≤ enPassantSquare then updateEnPassantFile R z (getFile enPassantSquare.toNat)
  else z

end Zobrist

/-! ## position.js : the game state -/

/-- Game-over classification (`Chess.Position.Status`). -/
def Status.NORMAL : Nat := 0

def Status.CHECKMATE : Nat := 1

def Status.STALEMATE_DRAW : Nat := 2

def Status.FIFTY_MOVE_RULE_DRAW : Nat := 3

def Status.THREEFOLD_REPETITION_RULE_DRAW : Nat := 4

def Status.INSUFFICIENT_MATERIAL_DRAW : Nat := 5

/-- Index of the white-occupancy bitboard (`Chess.Position.ANY_WHITE`). -/
def ANY_WHITE : Nat := Piece.KING + 1

/-- Index of the black-occupancy bitboard (`Chess.Position.ANY_BLACK`). -/
def ANY_BLACK : Nat := ANY_WHITE + 1

/-- Initial rook squares (`Chess.Position.ROOK_INDICES`), indexed by
castling-rights index. -/
def ROOK_INDICES : Nat → Nat
  | 0 => 7
  | 1 => 63
  | 2 => 0
  | 3 => 56
  | _ => 0

/-- Wraparound masks for sliding rays (`Chess.Position.SLIDING_MASKS`),
indexed by `1 + fileDirection`. -/
def SLIDING_MASKS : Int → Nat
  | 0 => Bitboard.bnot (Bitboard.makeFile LAST_FILE)
  | 1 => Bitboard.ONE
  | 2 => Bitboard.bnot (Bitboard.makeFile 0)
  | _ => 0

/-- The chess game state (`Chess.Position`).  The eight bitboards of the
source array are the eight `bb…` fields (pawn, knight, bishop, rook, queen,
king, any-white, any-black).  Stacks grow at the head.  `halfMoveClock`
(capital M) mirrors the distinct property of that spelling that
`unmakeMove` assigns, separate from `halfmoveClock` read everywhere else. -/
structure Position where
  hashKey : Nat
  bitboards : List Nat
  pieces : List (Option Nat)
  turn : Nat
  castlingRights : Nat
  enPassantSquare : Int
  halfmoveClock : Nat
  madeMoves : List Move
  irreversibleHistory : List Int
  hashHistory : List Nat
  halfMoveClock : Nat
deriving DecidableEq, Repr

namespace Position

/-- Bitboard-array lookup `this.bitboards[i]`. -/
def getBitboard (p : Position) (i : Nat) : Nat := p.bitboards.getD i 0

/-- Bitboard-array update `this.bitboards[i] = v`. -/
def setBitboard (p : Position) (i v : Nat) : Position :=
  { p with bitboards := p.bitboards.set i v }

/-- Occupancy of one color (`getColorBitboard`). -/
def getColorBitboard (p : Position) (color : Nat) : Nat :=
  p.getBitboard (ANY_WHITE + color)

/-- Squares holding a piece type of either color (`getPieceBitboard`). -/
def getPieceBitboard (p : Position) (piece : Nat) : Nat := p.getBitboard piece

/-- Squares holding one piece type of one color (`getPieceColorBitboard`). -/
def getPieceColorBitboard (p : Position) (piece color : Nat) : Nat :=
  p.getPieceBitboard piece &&& p.getColorBitboard color

/-- Square of a color's king (`getKingPosition`). -/
def getKingPosition (p : Position) (color : Nat) : Nat :=
  Bitboard.getLowestBitPosition (p.getPieceColorBitboard Piece.KING color)

/-- All occupied squares (`getOccupiedBitboard`). -/
def getOccupiedBitboard (p : Position) : Nat :=
  p.getBitboard ANY_WHITE ||| p.getBitboard ANY_BLACK

/-- All empty squares (`getEmptyBitboard`). -/
def getEmptyBitboard (p : Position) : Nat :=
  Bitboard.bnot p.getOccupiedBitboard

/-- Side to move (`getTurnColor`). -/
def getTurnColor (p : Position) : Nat := p.turn

/-- Scan of the piece bitboards at one square (`findPieceAtOrNull`). -/
def findPieceAtOrNull (p : Position) (index : Nat) : Option Nat :=
  (List.range 6).find? fun piece => Bitboard.isSet (p.getPieceBitboard piece) index

/-- Lookup-table read at one square (`getPieceAtOrNull`). -/
def getPieceAtOrNull (p : Position) (index : Nat) : Option Nat :=
  p.pieces.getD index none

/-- Rebuild of the lookup table from the bitboards
(`fillPiecesFromBitboards`). -/
def fillPiecesFromBitboards (p : Position) : Position :=
  { p with pieces := (List.range 64).map p.findPieceAtOrNull }

/-- Hash recomputed from scratch (`updateHashKey`): turn, piece placement,
castling rights and en-passant square; the halfmove clock is not part of
the hash. -/
def computeHashKey (R : Nat → Nat) (p : Position) : Nat :=
  let z0 := 0
  let z1 := if p.getTurnColor ≠ 0 then Zobrist.updateTurn R z0 else z0
  let z2 := (List.range 2).foldl
    (fun z color =>
      (List.range 6).foldl
        (fun z piece =>
          Zobrist.updatePieceColorBitboard R z piece color
            (p.getPieceColorBitboard piece color))
        z)
    z1
  let z3 := Zobrist.updateCastlingRights R z2 p.castlingRights
  Zobrist.updateEnPassantSquare R z3 p.enPassantSquare

/-- In-place variant of `updateHashKey`. -/
def updateHashKey (R : Nat → Nat) (p : Position) : Position :=
  { p with hashKey := computeHashKey R p }

/-- Squares attacked by pawns of a color (`makePawnAttackMask`). -/
def makePawnAttackMask (color pawns : Nat) : Nat :=
  let white := color = PieceColor.WHITE
  let attacks1 := Bitboard.shiftLeft (Bitboard.andNot pawns (Bitboard.FILES_BB 0))
    (if white then 7 else -9)
  let attacks2 := Bitboard.shiftLeft (Bitboard.andNot pawns (Bitboard.FILES_BB LAST_FILE))
    (if white then 9 else -7)
  attacks1 ||| attacks2

/-- Loop of `makeSlidingAttackMask`.  The loop guard `fromBB.and(mask)`
destructively masks off wrapped-around bits before they are accumulated or
advanced; a ray moves at least one square per iteration, so 64 iterations
always suffice. -/
def slidingAux (occupied : Nat) (direction : Int) (mask : Nat) :
    Nat → Nat → Nat → Nat
  | 0, acc, _ => acc
  | fuel + 1, acc, cur =>
    let cur2 := cur &&& mask
    if cur2 = 0 then acc
    else
      slidingAux occupied direction mask fuel (acc ||| cur2)
        (Bitboard.shiftLeft (Bitboard.andNot cur2 occupied) direction)

/-- Ray-cast attack squares in one direction (`makeSlidingAttackMask`). -/
def makeSlidingAttackMask (fromBB occupied : Nat) (rankDirection fileDirection : Int) : Nat :=
  let direction := rankDirection * (FILES : Int) + fileDirection
  slidingAux occupied direction (SLIDING_MASKS (1 + fileDirection)) 64 0
    (Bitboard.shiftLeft fromBB direction)

/-- Diagonal ray attacks (`makeBishopAttackMask`). -/
def makeBishopAttackMask (fromBB occupied : Nat) : Nat :=
  makeSlidingAttackMask fromBB occupied 1 1 ||| makeSlidingAttackMask fromBB occupied 1 (-1) |||
    makeSlidingAttackMask fromBB occupied (-1) 1 ||| makeSlidingAttackMask fromBB occupied (-1) (-1)

/-- Straight ray attacks (`makeRookAttackMask`). -/
def makeRookAttackMask (fromBB occupied : Nat) : Nat :=
  makeSlidingAttackMask fromBB occupied 0 1 ||| makeSlidingAttackMask fromBB occupied 0 (-1) |||
    makeSlidingAttackMask fromBB occupied 1 0 ||| makeSlidingAttackMask fromBB occupied (-1) 0

/-- Square-attacked-by test (`isAttacked`). -/
def isAttacked (p : Position) (color index : Nat) : Bool :=
  let pawns := p.getPieceColorBitboard Piece.PAWN color
  if Bitboard.isSet (makePawnAttackMask color pawns) index then true
  else
    let knights := p.getPieceColorBitboard Piece.KNIGHT color
    if Bitboard.KNIGHT_MOVEMENTS index &&& knights ≠ 0 then true
    else
      let king := p.getPieceColorBitboard Piece.KING color
      if Bitboard.KING_MOVEMENTS index &&& king ≠ 0 then true
      else
        let occupied := p.getOccupiedBitboard
        let queens := p.getPieceColorBitboard Piece.QUEEN color
        let bq := p.getPieceColorBitboard Piece.BISHOP color ||| queens
        if Bitboard.isSet (makeBishopAttackMask bq occupied) index then true
        else
          let rq := p.getPieceColorBitboard Piece.ROOK color ||| queens
          if Bitboard.isSet (makeRookAttackMask rq occupied) index then true
          else false

/-- Check test for the side to move (`isKingInCheck`). -/
def isKingInCheck (p : Position) : Bool :=
  p.isAttacked (getOtherPieceColor p.getTurnColor) (p.getKingPosition p.getTurnColor)

/-- Castling-rights bit index (`getCastlingIndex`). -/
def getCastlingIndex (color : Nat) (kingSide : Bool) : Nat :=
  color + (if kingSide then 0 else 2)

/-- Home square of a castling rook (`getCastlingRookSquare`). -/
def getCastlingRookSquare (color : Nat) (kingSide : Bool) : Nat :=
  ROOK_INDICES (getCastlingIndex color kingSide)

/-- Castling-rights bit test (`hasCastlingRight`). -/
def hasCastlingRight (p : Position) (color : Nat) (kingSide : Bool) : Bool :=
  p.castlingRights &&& (1 <<< getCastlingIndex color kingSide) ≠ 0

/-- Castling-rights bit clearing (`clearCastlingRight`): the hash feature of
the whole 4-bit value is XORed out and the new value's feature XORed in. -/
def clearCastlingRight (R : Nat → Nat) (p : Position) (color : Nat) (kingSide : Bool) :
    Position :=
  let z1 := Zobrist.updateCastlingRights R p.hashKey p.castlingRights
  let newRights := p.castlingRights &&& (Bitboard.MASK64 ^^^ (1 <<< getCastlingIndex color kingSide))
  { p with castlingRights := newRights,
           hashKey := Zobrist.updateCastlingRights R z1 newRights }

/-- Attack test for the king's castling route (`isCastlingLegal`). -/
def isCastlingLegal (p : Position) (color : Nat) (kingSide : Bool) : Bool :=
  let otherColor := getOtherPieceColor color
  let direction : Int := if kingSide then 1 else -1
  let kingPosition : Int := if color = PieceColor.WHITE then 4 else 60
  !p.isAttacked otherColor kingPosition.toNat &&
    !p.isAttacked otherColor (kingPosition + direction).toNat &&
    !p.isAttacked otherColor (kingPosition + 2 * direction).toNat

/-- Castle availability (`canCastle`): the rights bit, emptiness of the
squares between king and rook, and (for the legal variant) safety of the
king's route. -/
def canCastle (p : Position) (color : Nat) (kingSide onlyLegal : Bool) : Bool :=
  if !p.hasCastlingRight color kingSide then false
  else
    let direction : Int := if kingSide then 1 else -1
    let kingPosition : Int := if color = PieceColor.WHITE then 4 else 60
    let occupied := p.getOccupiedBitboard
    if Bitboard.isSet occupied (kingPosition + direction).toNat ||
        Bitboard.isSet occupied (kingPosition + 2 * direction).toNat then false
    else if !kingSide && Bitboard.isSet occupied (kingPosition + 3 * direction).toNat then
      false
    else if onlyLegal && !p.isCastlingLegal color kingSide then false
    else true

/-- En-passant availability (`canEnPassant`). -/
def canEnPassant (p : Position) : Bool := 0 ≤ p.enPassantSquare

/-- Fifty-move-rule test (`isFiftyMoveRuleDraw`). -/
def isFiftyMoveRuleDraw (p : Position) : Bool := 100 ≤ p.halfmoveClock

/-- Threefold-repetition test (`isThreefoldRepetitionRuleDraw`): the hash
history is reduced to the number of entries equal to the current hash. -/
def isThreefoldRepetitionRuleDraw (p : Position) : Bool :=
  3 ≤ p.hashHistory.foldl (fun previousValue currentValue =>
    previousValue + if currentValue = p.hashKey then 1 else 0) 0

/-- Insufficient-material test (`isInsufficientMaterialDraw`). -/
def isInsufficientMaterialDraw (p : Position) : Bool :=
  if !Bitboard.isEmpty (p.getPieceBitboard Piece.PAWN) then false
  else if !Bitboard.isEmpty (p.getPieceBitboard Piece.ROOK) then false
  else if !Bitboard.isEmpty (p.getPieceBitboard Piece.QUEEN) then false
  else
    let whiteCount := Bitboard.popcnt (p.getColorBitboard PieceColor.WHITE)
    let blackCount := Bitboard.popcnt (p.getColorBitboard PieceColor.BLACK)
    if whiteCount + blackCount < 4 then true
    else if !Bitboard.isEmpty (p.getPieceBitboard Piece.KNIGHT) then false
    else
      let bishops := p.getPieceBitboard Piece.BISHOP
      if bishops &&& Bitboard.LIGHT_SQUARES = bishops ||
          bishops &&& Bitboard.DARK_SQUARES = bishops then true
      else false

/-- Draw test (`isDraw`). -/
def isDraw (p : Position) : Bool :=
  p.isFiftyMoveRuleDraw || p.isThreefoldRepetitionRuleDraw || p.isInsufficientMaterialDraw

/-- One move per set bit of a target mask, by lowest-bit extraction (the
`while` loops of `addPawnMoves` and `addNormalMoves`; a 64-bit mask is
exhausted within 64 extractions). -/
def movesFromMask : Nat → Nat → (Nat → Move) → List Move
  | 0, _, _ => []
  | fuel + 1, toMask, f =>
    if toMask = 0 then []
    else
      f (Bitboard.getLowestBitPosition toMask) ::
        movesFromMask fuel (Bitboard.popLowestBit toMask) f

/-- Moves contributed by each set bit of a piece bitboard (the `while` loops
over knights, queens, bishops and rooks in `generateMoves`). -/
def piecesFromMask : Nat → Nat → (Nat → List Move) → List Move
  | 0, _, _ => []
  | fuel + 1, bb, g =>
    if bb = 0 then []
    else
      g (Bitboard.getLowestBitPosition bb) ++
        piecesFromMask fuel (Bitboard.popLowestBit bb) g

/-- Pseudo-legal move generation (`generateMoves`), assembled in source
order: pawn double pushes, pawn single pushes, pawn push promotions, pawn
captures and capture promotions (left then right), en-passant captures,
then knight, queen, bishop, rook and king moves, then castles. -/
def generateMoves (p : Position) (onlyCaptures : Bool) : List Move :=
  let turnColor := p.getTurnColor
  let opponentBB := p.getColorBitboard (getOtherPieceColor turnColor)
  let occupied := p.getOccupiedBitboard
  let addPawnMoves := fun (toMask : Nat) (movement : Int) (kind : Nat) =>
    movesFromMask 64 toMask fun index =>
      Move.make ((index : Int) - movement) index kind Piece.PAWN (p.getPieceAtOrNull index)
  let addPawnPromotions := fun (toMask : Nat) (movement : Int) (capture : Bool) =>
    addPawnMoves toMask movement
        (if capture then Kind.QUEEN_PROMOTION_CAPTURE else Kind.QUEEN_PROMOTION) ++
      addPawnMoves toMask movement
        (if capture then Kind.ROOK_PROMOTION_CAPTURE else Kind.ROOK_PROMOTION) ++
      addPawnMoves toMask movement
        (if capture then Kind.BISHOP_PROMOTION_CAPTURE else Kind.BISHOP_PROMOTION) ++
      addPawnMoves toMask movement
        (if capture then Kind.KNIGHT_PROMOTION_CAPTURE else Kind.KNIGHT_PROMOTION)
  let fileDirection : Int := 1 - 2 * (turnColor : Int)
  let rankDirection : Int := (FILES : Int) * fileDirection
  let turnPawns := p.getPieceColorBitboard Piece.PAWN turnColor
  let lastRow := Bitboard.RANKS_BB (if turnColor ≠ 0 then 0 else LAST_RANK)
  let pawnPushMoves :=
    if !onlyCaptures then
      let doublePawnPushed :=
        Bitboard.andNot
          (Bitboard.andNot
            (Bitboard.shiftLeft (turnPawns &&& Bitboard.RANKS_BB (if turnColor ≠ 0 then 6 else 1))
              (2 * rankDirection))
            occupied)
          (Bitboard.shiftLeft occupied rankDirection)
      let positionalPawnMoved :=
        Bitboard.andNot (Bitboard.shiftLeft turnPawns rankDirection) occupied
      addPawnMoves doublePawnPushed (2 * rankDirection) Kind.DOUBLE_PAWN_PUSH ++
        addPawnMoves (Bitboard.andNot positionalPawnMoved lastRow) rankDirection
          Kind.POSITIONAL ++
        addPawnPromotions (positionalPawnMoved &&& lastRow) rankDirection false
    else []
  let leftFile := Bitboard.FILES_BB (if turnColor ≠ 0 then LAST_FILE else 0)
  let leftCaptureMovement := rankDirection - fileDirection
  let pawnLeftCaptured :=
    Bitboard.shiftLeft (Bitboard.andNot turnPawns leftFile) leftCaptureMovement &&& opponentBB
  let rightFile := Bitboard.FILES_BB (if turnColor ≠ 0 then 0 else LAST_FILE)
  let rightCaptureMovement := rankDirection + fileDirection
  let pawnRightCaptured :=
    Bitboard.shiftLeft (Bitboard.andNot turnPawns rightFile) rightCaptureMovement &&& opponentBB
  let pawnCaptureMoves :=
    addPawnMoves (Bitboard.andNot pawnLeftCaptured lastRow) leftCaptureMovement Kind.CAPTURE ++
      addPawnPromotions (pawnLeftCaptured &&& lastRow) leftCaptureMovement true ++
      addPawnMoves (Bitboard.andNot pawnRightCaptured lastRow) rightCaptureMovement
        Kind.CAPTURE ++
      addPawnPromotions (pawnRightCaptured &&& lastRow) rightCaptureMovement true
  let enPassantMoves :=
    if p.canEnPassant then
      let pawnLeftEnPassant :=
        Bitboard.shiftLeft
          (Bitboard.andNot (Bitboard.makeIndexI (p.enPassantSquare + fileDirection) &&& turnPawns)
            leftFile)
          leftCaptureMovement
      let pawnRightEnPassant :=
        Bitboard.shiftLeft
          (Bitboard.andNot (Bitboard.makeIndexI (p.enPassantSquare - fileDirection) &&& turnPawns)
            rightFile)
          rightCaptureMovement
      addPawnMoves pawnLeftEnPassant leftCaptureMovement Kind.EN_PASSANT_CAPTURE ++
        addPawnMoves pawnRightEnPassant rightCaptureMovement Kind.EN_PASSANT_CAPTURE
    else []
  let addNormalMoves := fun (start : Nat) (toMask : Nat) (piece : Nat) =>
    movesFromMask 64 toMask fun toSquare =>
      Move.make (start : Int) toSquare
        (if Bitboard.isSet opponentBB toSquare then Kind.CAPTURE else Kind.POSITIONAL) piece
        (p.getPieceAtOrNull toSquare)
  let mask0 := Bitboard.bnot (p.getColorBitboard turnColor)
  let mask := if onlyCaptures then mask0 &&& opponentBB else mask0
  let knightMoves :=
    piecesFromMask 64 (p.getPieceColorBitboard Piece.KNIGHT turnColor) fun knightPosition =>
      addNormalMoves knightPosition (Bitboard.KNIGHT_MOVEMENTS knightPosition &&& mask)
        Piece.KNIGHT
  let queenMoves :=
    piecesFromMask 64 (p.getPieceColorBitboard Piece.QUEEN turnColor) fun queenPosition =>
      addNormalMoves queenPosition
        ((makeBishopAttackMask (Bitboard.makeIndex queenPosition) occupied |||
            makeRookAttackMask (Bitboard.makeIndex queenPosition) occupied) &&& mask)
        Piece.QUEEN
  let bishopMoves :=
    piecesFromMask 64 (p.getPieceColorBitboard Piece.BISHOP turnColor) fun bishopPosition =>
      addNormalMoves bishopPosition
        (makeBishopAttackMask (Bitboard.makeIndex bishopPosition) occupied &&& mask)
        Piece.BISHOP
  let rookMoves :=
    piecesFromMask 64 (p.getPieceColorBitboard Piece.ROOK turnColor) fun rookPosition =>
      addNormalMoves rookPosition
        (makeRookAttackMask (Bitboard.makeIndex rookPosition) occupied &&& mask) Piece.ROOK
  let kingPosition := p.getKingPosition turnColor
  let kingMoves :=
    addNormalMoves kingPosition (Bitboard.KING_MOVEMENTS kingPosition &&& mask) Piece.KING
  let castleMoves :=
    if !onlyCaptures then
      (if p.canCastle turnColor true true then
        [Move.make (kingPosition : Int) ((kingPosition : Int) + 2) Kind.KING_CASTLE
          Piece.KING none]
      else []) ++
        (if p.canCastle turnColor false true then
          [Move.make (kingPosition : Int) ((kingPosition : Int) - 2) Kind.QUEEN_CASTLE
            Piece.KING none]
        else [])
    else []
  pawnPushMoves ++ pawnCaptureMoves ++ enPassantMoves ++ knightMoves ++ queenMoves ++
    bishopMoves ++ rookMoves ++ kingMoves ++ castleMoves

/-- Removal of a captured piece (`capturePiece`). -/
def capturePiece (R : Nat → Nat) (p : Position) (piece color index : Nat) : Position :=
  let p1 := p.setBitboard piece (Bitboard.clearBit (p.getPieceBitboard piece) index)
  let p2 := p1.setBitboard (ANY_WHITE + color)
    (Bitboard.clearBit (p1.getColorBitboard color) index)
  { p2 with pieces := p2.pieces.set index none,
            hashKey := Zobrist.updatePieceColorSquare R p2.hashKey piece color index }

/-- Replacement of a captured piece (`unCapturePiece`). -/
def unCapturePiece (R : Nat → Nat) (p : Position) (piece color index : Nat) : Position :=
  let p1 := p.setBitboard piece (Bitboard.setBit (p.getPieceBitboard piece) index)
  let p2 := p1.setBitboard (ANY_WHITE + color)
    (Bitboard.setBit (p1.getColorBitboard color) index)
  { p2 with pieces := p2.pieces.set index (some piece),
            hashKey := Zobrist.updatePieceColorSquare R p2.hashKey piece color index }

/-- Relocation of one piece (`movePiece`): the from/to bits are flipped by
XOR in both the piece and color bitboards. -/
def movePiece (R : Nat → Nat) (p : Position) (piece color f t : Nat) : Position :=
  let fromToBB := Bitboard.makeIndex f ||| Bitboard.makeIndex t
  let p1 := p.setBitboard piece (p.getPieceBitboard piece ^^^ fromToBB)
  let p2 := p1.setBitboard (ANY_WHITE + color) (p1.getColorBitboard color ^^^ fromToBB)
  { p2 with pieces := (p2.pieces.set f none).set t (some piece),
            hashKey :=
              Zobrist.updatePieceColorSquare R
                (Zobrist.updatePieceColorSquare R p2.hashKey piece color f) piece color t }

/-- Rook relocation of a castle move (`castleRook`). -/
def castleRook (R : Nat → Nat) (p : Position) (color : Nat) (kingSide : Bool) : Position :=
  let f := getCastlingRookSquare color kingSide
  let t := if kingSide then f - 2 else f + 3
  movePiece R p Piece.ROOK color f t

/-- Reverse rook relocation of a castle move (`unCastleRook`). -/
def unCastleRook (R : Nat → Nat) (p : Position) (color : Nat) (kingSide : Bool) : Position :=
  let t := getCastlingRookSquare color kingSide
  let f := if kingSide then t - 2 else t + 3
  movePiece R p Piece.ROOK color f t

/-- Promotion exchange of piece types at one square (`promotePiece`). -/
def promotePiece (R : Nat → Nat) (p : Position) (pieceOld pieceNew color index : Nat) :
    Position :=
  let p1 := p.setBitboard pieceOld (Bitboard.clearBit (p.getPieceBitboard pieceOld) index)
  let p2 := p1.setBitboard pieceNew (Bitboard.setBit (p1.getPieceBitboard pieceNew) index)
  { p2 with pieces := p2.pieces.set index (some pieceNew),
            hashKey :=
              Zobrist.updatePieceColorSquare R
                (Zobrist.updatePieceColorSquare R p2.hashKey pieceOld color index) pieceNew
                color index }

/-- Piece mutation of a move (`updatePieces`): capture, castle rook
relocation, relocation of the moving piece, promotion — in that order. -/
def updatePieces (R : Nat → Nat) (p : Position) (m : Move) : Position :=
  let p1 :=
    if m.isCapture then
      capturePiece R p m.getCapturedPiece (getOtherPieceColor p.getTurnColor)
        m.getCaptureSquare
    else p
  let p2 :=
    if m.isCastle then castleRook R p1 p1.getTurnColor (m.getKind = Kind.KING_CASTLE) else p1
  let p3 := movePiece R p2 m.getPiece p2.getTurnColor m.getFrom m.getTo
  if m.isPromotion then
    promotePiece R p3 Piece.PAWN m.getPromotedPiece p3.getTurnColor m.getTo
  else p3

/-- Reverse piece mutation of a move (`revertPieces`), in exact reverse
order of `updatePieces`. -/
def revertPieces (R : Nat → Nat) (p : Position) (m : Move) : Position :=
  let p1 :=
    if m.isPromotion then
      promotePiece R p m.getPromotedPiece Piece.PAWN p.getTurnColor m.getTo
    else p
  let p2 := movePiece R p1 m.getPiece p1.getTurnColor m.getTo m.getFrom
  let p3 :=
    if m.isCastle then unCastleRook R p2 p2.getTurnColor (m.getKind = Kind.KING_CASTLE) else p2
  if m.isCapture then
    unCapturePiece R p3 m.getCapturedPiece (getOtherPieceColor p3.getTurnColor)
      m.getCaptureSquare
  else p3

/-- Legality check by trial mutation (`isMoveLegal`): the pieces are
updated, king safety is read off, and the pieces are reverted; the verdict
is the value of the call. -/
def isMoveLegal (R : Nat → Nat) (p : Position) (m : Move) : Bool :=
  !(isKingInCheck (updatePieces R p m))

/-- Move listing (`getMoves`): pseudo-legal moves, optionally filtered by
`isMoveLegal`. -/
def getMoves (R : Nat → Nat) (p : Position) (pseudoLegal onlyCaptures : Bool) : List Move :=
  let moves := generateMoves p onlyCaptures
  if pseudoLegal then moves else moves.filter (isMoveLegal R p)

/-- The castling-rights bits invalidated by the moving piece (the king-move
and rook-move cases of `makeMove`). -/
def moverCastlingClears (R : Nat → Nat) (turnColor : Nat) (m : Move) (p : Position) :
    Position :=
  if m.getPiece = Piece.KING then
    clearCastlingRight R (clearCastlingRight R p turnColor true) turnColor false
  else if m.getPiece = Piece.ROOK then
    if m.getFrom = getCastlingRookSquare turnColor true then
      clearCastlingRight R p turnColor true
    else if m.getFrom = getCastlingRookSquare turnColor false then
      clearCastlingRight R p turnColor false
    else p
  else p

/-- The castling-rights bits invalidated by a rook captured on its home
square (the captured-rook case of `makeMove`). -/
def capturedRookCastlingClears (R : Nat → Nat) (otherColor : Nat) (m : Move) (p : Position) :
    Position :=
  if m.getCapturedPiece = Piece.ROOK then
    if m.getCaptureSquare = getCastlingRookSquare otherColor true then
      clearCastlingRight R p otherColor true
    else if m.getCaptureSquare = getCastlingRookSquare otherColor false then
      clearCastlingRight R p otherColor false
    else p
  else p

/-- Move application (`makeMove`).  The current hash is pushed first; if the
piece mutation leaves the mover's king attacked, the mutation is reverted,
the pushed hash is popped and the move is rejected.  Otherwise the move and
the pre-move en-passant square, castling rights and halfmove clock are
pushed, the en-passant square, castling rights, halfmove clock, turn and
their hash features are updated, and the move is accepted. -/
def makeMove (R : Nat → Nat) (p : Position) (m : Move) : Bool × Position :=
  let p1 := { p with hashHistory := p.hashKey :: p.hashHistory }
  let p2 := updatePieces R p1 m
  if isKingInCheck p2 then
    let p3 := revertPieces R p2 m
    (false, { p3 with hashHistory := p3.hashHistory.tail })
  else
    let p3 := { p2 with
      madeMoves := m :: p2.madeMoves,
      irreversibleHistory :=
        (p2.halfmoveClock : Int) :: (p2.castlingRights : Int) :: p2.enPassantSquare ::
          p2.irreversibleHistory }
    let newEnPassantSquare : Int :=
      if m.getKind = Kind.DOUBLE_PAWN_PUSH then (m.getTo : Int) else -1
    let p4 := { p3 with
      hashKey :=
        Zobrist.updateEnPassantSquare R
          (Zobrist.updateEnPassantSquare R p3.hashKey p3.enPassantSquare) newEnPassantSquare,
      enPassantSquare := newEnPassantSquare }
    let turnColor := p.getTurnColor
    let p5 := moverCastlingClears R turnColor m p4
    let otherColor := getOtherPieceColor turnColor
    let p6 := capturedRookCastlingClears R otherColor m p5
    let p7 := { p6 with
      halfmoveClock :=
        if m.isCapture || m.getPiece = Piece.PAWN then 0 else p6.halfmoveClock + 1,
      turn := otherColor,
      hashKey := Zobrist.updateTurn R p6.hashKey }
    (true, p7)

/-- Count of made moves (`getMadeMoveCount`). -/
def getMadeMoveCount (p : Position) : Nat := p.madeMoves.length

/-- Undo availability (`canUndo`). -/
def canUndo (p : Position) : Bool := p.getMadeMoveCount ≠ 0

/-- Latest made move (`getLastMove`). -/
def getLastMove (p : Position) : Option Move := p.madeMoves.head?

/-- Move retraction (`unmakeMove`).  The popped halfmove clock is assigned
to the differently spelled property `halfMoveClock`, leaving
`halfmoveClock` unchanged, exactly as the source line
`this.halfMoveClock = this.irreversibleHistory.pop()` does. -/
def unmakeMove (R : Nat → Nat) (p : Position) : Option Move × Position :=
  match p.madeMoves with
  | [] => (none, p)
  | move :: restMoves =>
    let p1 := { p with
      madeMoves := restMoves,
      turn := getOtherPieceColor p.getTurnColor,
      hashKey := Zobrist.updateTurn R p.hashKey }
    let p2 := revertPieces R p1 move
    let p3 := { p2 with
      halfMoveClock := (p2.irreversibleHistory.headD 0).toNat,
      irreversibleHistory := p2.irreversibleHistory.tail }
    let restoredRights := (p3.irreversibleHistory.headD 0).toNat
    let p4 := { p3 with
      hashKey :=
        Zobrist.updateCastlingRights R
          (Zobrist.updateCastlingRights R p3.hashKey p3.castlingRights) restoredRights,
      castlingRights := restoredRights,
      irreversibleHistory := p3.irreversibleHistory.tail }
    let restoredEnPassant := p4.irreversibleHistory.headD 0
    let p5 := { p4 with
      hashKey :=
        Zobrist.updateEnPassantSquare R
          (Zobrist.updateEnPassantSquare R p4.hashKey p4.enPassantSquare) restoredEnPassant,
      enPassantSquare := restoredEnPassant,
      irreversibleHistory := p4.irreversibleHistory.tail,
      hashHistory := p4.hashHistory.tail }
    (some move, p5)

/-- Status classification (`getStatus`): no legal moves is checkmate or
stalemate by check; otherwise the fifty-move, repetition and
insufficient-material draws are tested in that order. -/
def getStatus (R : Nat → Nat) (p : Position) : Nat :=
  if (getMoves R p false false).length = 0 then
    if p.isKingInCheck then Status.CHECKMATE else Status.STALEMATE_DRAW
  else if p.isFiftyMoveRuleDraw then Status.FIFTY_MOVE_RULE_DRAW
  else if p.isThreefoldRepetitionRuleDraw then Status.THREEFOLD_REPETITION_RULE_DRAW
  else if p.isInsufficientMaterialDraw then Status.INSUFFICIENT_MATERIAL_DRAW
  else Status.NORMAL

end Position

/-- The start-of-game record before the lookup table and hash are filled
in (the field initializers of the `Chess.Position` constructor). -/
def initialSetup : Position := {
    hashKey := 0
    bitboards := [
      Bitboard.RANKS_BB 1 ||| Bitboard.RANKS_BB 6,
      Bitboard.makeIndex 1 ||| Bitboard.makeIndex 6 ||| Bitboard.makeIndex 57 |||
        Bitboard.makeIndex 62,
      Bitboard.makeIndex 2 ||| Bitboard.makeIndex 5 ||| Bitboard.makeIndex 58 |||
        Bitboard.makeIndex 61,
      Bitboard.makeIndex 0 ||| Bitboard.makeIndex 7 ||| Bitboard.makeIndex 56 |||
        Bitboard.makeIndex 63,
      Bitboard.makeIndex 3 ||| Bitboard.makeIndex 59,
      Bitboard.makeIndex 4 ||| Bitboard.makeIndex 60,
      Bitboard.RANKS_BB 0 ||| Bitboard.RANKS_BB 1,
      Bitboard.RANKS_BB 6 ||| Bitboard.RANKS_BB 7]
    pieces := []
    turn := PieceColor.WHITE
    castlingRights := 15
    enPassantSquare := -1
    halfmoveClock := 0
    madeMoves := []
    irreversibleHistory := []
    hashHistory := []
    halfMoveClock := 0 }

/-- The standard initial arrangement (the `Chess.Position` constructor):
bitboards of the starting pieces, the lookup table filled from them, white
to move, full castling rights, no en-passant square, zero clocks and empty
history stacks, and the hash computed by `updateHashKey`. -/
def initialPosition (R : Nat → Nat) : Position :=
  Position.updateHashKey R (Position.fillPiecesFromBitboards initialSetup)

/-- Perft node counting (`Chess.Position.perft`): the number of leaves of
the game tree at a given depth, counted by making every generated
pseudo-legal move that is accepted and recursing. -/
def perft (R : Nat → Nat) : Nat → Position → Nat
  | 0, _ => 1
  | depth + 1, p =>
    (Position.getMoves R p true false).foldl
      (fun nodes move =>
        let r := Position.makeMove R p move
        if r.1 then nodes + perft R depth r.2 else nodes)
      0

/-! ## ai.js : evaluation and alpha-beta search

`Chess.AI.prototype.search` mutates one `Chess.Position` through paired
`makeMove`/`unmakeMove` calls; the embedding threads that state through the
move loops explicitly.  JavaScript's `±Infinity` window bounds are embedded
as the sentinel `±INF`: the search only compares and copies window values,
never does arithmetic on them, and every finite score it produces is far
below `INF` in magnitude, so the sentinel behaves exactly as the IEEE
infinities do.  The quiescence recursion of the source has no structural
bound, so its embedding takes explicit fuel; the JavaScript function
corresponds to the embedding on any fuel large enough that the base cases
are reached first. -/

namespace AI

/-- Material values (`Chess.AI.PIECE_VALUES`). -/
def PIECE_VALUES : Nat → Int
  | 0 => 100
  | 1 => 300
  | 2 => 300
  | 3 => 500
  | 4 => 900
  | 5 => 20000
  | _ => 0

/-- Bishop-pair bonus (`Chess.AI.BISHOP_PAIR_VALUE`). -/
def BISHOP_PAIR_VALUE : Int := PIECE_VALUES Piece.PAWN / 2

/-- Piece-square tables (`Chess.AI.PIECE_SQUARE_TABLES`), indexed by piece
then square. -/
def PIECE_SQUARE_TABLES : List (List Int) := [
  [0, 0, 0, 0, 0, 0, 0, 0,
   50, 50, 50, 50, 50, 50, 50, 50,
   10, 10, 20, 30, 30, 20, 10, 10,
   5, 5, 10, 25, 25, 10, 5, 5,
   0, 0, 0, 20, 20, 0, 0, 0,
   5, -5, -10, 0, 0, -10, -5, 5,
   5, 10, 10, -20, -20, 10, 10, 5,
   0, 0, 0, 0, 0, 0, 0, 0],
  [-50, -40, -30, -30, -30, -30, -40, -50,
   -40, -20, 0, 0, 0, 0, -20, -40,
   -30, 0, 10, 15, 15, 10, 0, -30,
   -30, 5, 15, 20, 20, 15, 5, -30,
   -30, 0, 15, 20, 20, 15, 0, -30,
   -30, 5, 10, 15, 15, 10, 5, -30,
   -40, -20, 0, 5, 5, 0, -20, -40,
   -50, -40, -30, -30, -30, -30, -40, -50],
  [-20, -10, -10, -10, -10, -10, -10, -20,
   -10, 0, 0, 0, 0, 0, 0, -10,
   -10, 0, 5, 10, 10, 5, 0, -10,
   -10, 5, 5, 10, 10, 5, 5, -10,
   -10, 0, 10, 10, 10, 10, 0, -10,
   -10, 10, 10, 10, 10, 10, 10, -10,
   -10, 5, 0, 0, 0, 0, 5, -10,
   -20, -10, -10, -10, -10, -10, -10, -20],
  [0, 0, 0, 0, 0, 0, 0, 0,
   5, 10, 10, 10, 10, 10, 10, 5,
   -5, 0, 0, 0, 0, 0, 0, -5,
   -5, 0, 0, 0, 0, 0, 0, -5,
   -5, 0, 0, 0, 0, 0, 0, -5,
   -5, 0, 0, 0, 0, 0, 0, -5,
   -5, 0, 0, 0, 0, 0, 0, -5,
   0, 0, 0, 5, 5, 0, 0, 0],
  [-20, -10, -10, -5, -5, -10, -10, -20,
   -10, 0, 0, 0, 0, 0, 0, -10,
   -10, 0, 5, 5, 5, 5, 0, -10,
   -5, 0, 5, 5, 5, 5, 0, -5,
   0, 0, 5, 5, 5, 5, 0, -5,
   -10, 5, 5, 5, 5, 5, 0, -10,
   -10, 0, 5, 0, 0, 0, 0, -10,
   -20, -10, -10, -5, -5, -10, -10, -20],
  [-30, -40, -40, -50, -50, -40, -40, -30,
   -30, -40, -40, -50, -50, -40, -40, -30,
   -30, -40, -40, -50, -50, -40, -40, -30,
   -30, -40, -40, -50, -50, -40, -40, -30,
   -20, -30, -30, -40, -40, -30, -30, -20,
   -10, -20, -20, -20, -20, -20, -20, -10,
   20, 20, 0, 0, 0, 0, 20, 20,
   20, 30, 10, 0, 0, 10, 30, 20]]

/-- Material count of one color (`Chess.AI.getMaterialValue`): piece values
for pawn through queen, plus the bishop-pair bonus. -/
def getMaterialValue (p : Position) (color : Nat) : Int :=
  let base := (List.range 5).foldl
    (fun v piece =>
      v + (Bitboard.popcnt (p.getPieceColorBitboard piece color) : Int) * PIECE_VALUES piece)
    0
  if 1 < Bitboard.popcnt (p.getPieceColorBitboard Piece.BISHOP color) then
    base + BISHOP_PAIR_VALUE
  else base

/-- Material balance (`Chess.AI.evaluateMaterial`). -/
def evaluateMaterial (p : Position) : Int :=
  getMaterialValue p PieceColor.WHITE - getMaterialValue p PieceColor.BLACK

/-- Piece-square sum over the set bits of one bitboard, by lowest-bit
extraction (the `while` loop of `getPieceSquareValue`); black reads the
table directly and white through the rank flip `56 ^ index`. -/
def pieceSquareAux (table : List Int) (color : Nat) : Nat → Nat → Int
  | 0, _ => 0
  | fuel + 1, bb =>
    if bb = 0 then 0
    else
      let index := Bitboard.getLowestBitPosition bb
      table.getD (if color ≠ 0 then index else 56 ^^^ index) 0 +
        pieceSquareAux table color fuel (Bitboard.popLowestBit bb)

/-- Piece-square value of one color (`Chess.AI.getPieceSquareValue`). -/
def getPieceSquareValue (p : Position) (color : Nat) : Int :=
  (List.range 6).foldl
    (fun v piece =>
      v + pieceSquareAux (PIECE_SQUARE_TABLES.getD piece []) color 64
        (p.getPieceColorBitboard piece color))
    0

/-- Location balance (`Chess.AI.evaluateLocations`). -/
def evaluateLocations (p : Position) : Int :=
  getPieceSquareValue p PieceColor.WHITE - getPieceSquareValue p PieceColor.BLACK

/-- Static evaluation (`Chess.AI.evaluate`): material plus location. -/
def evaluate (p : Position) : Int := evaluateMaterial p + evaluateLocations p

/-- Move-ordering score (`scoreMove` inside `search`).  The capture ratio
`(1 + capturedPiece) / (1 + piece)` is a JavaScript floating-point
division; it is embedded as the exact rational, which orders the same
moves the binary64 quotients do up to rounding ties. -/
def scoreMove (m : Move) : Rat :=
  let score0 : Rat :=
    if m.isCapture then
      ((1 + m.getCapturedPiece : Nat) : Rat) / ((1 + m.getPiece : Nat) : Rat)
    else 0
  let s1 := 6 * score0 + (m.getPiece : Rat)
  let s2 := 16 * s1 + (m.getKind : Rat)
  let s3 := 64 * s2 + (m.getTo : Rat)
  64 * s3 + (m.getFrom : Rat)

/-- Move ordering (`sortMoves` inside `search`): descending score. -/
def sortMoves (moves : List Move) : List Move :=
  moves.mergeSort fun a b => decide (scoreMove b ≤ scoreMove a)

/-- The window sentinel standing for JavaScript's `Infinity`. -/
def INF : Int := 10 ^ 15

/-- The move loop of `quiescenceSearch`: each accepted move is made, scored
by the callback and unmade, narrowing the window or cutting off. -/
def qLoop (R : Nat → Nat) (qs : Position → Int → Int → Int) (white : Bool) :
    List Move → Position → Int → Int → Int
  | [], _, alpha, beta => if white then alpha else beta
  | m :: rest, p, alpha, beta =>
    let r := Position.makeMove R p m
    if r.1 then
      let value := qs r.2 alpha beta
      let p2 := (Position.unmakeMove R r.2).2
      if white then
        if beta ≤ value then beta
        else qLoop R qs white rest p2 (if alpha < value then value else alpha) beta
      else
        if value ≤ alpha then alpha
        else qLoop R qs white rest p2 alpha (if value < beta then value else beta)
    else qLoop R qs white rest r.2 alpha beta

/-- Quiescence search (`quiescenceSearch`): draws score 0, the stand-pat
value bounds the window, and only captures are searched unless the king is
in check.  The source recursion has no structural bound; fuel 0 is the
embedding's base case for paths longer than the fuel. -/
def quiescenceSearch (R : Nat → Nat) : Nat → Position → Int → Int → Int
  | 0, _, _, _ => 0
  | fuel + 1, p, alpha, beta =>
    if p.isDraw then 0
    else
      let standPatValue := evaluate p
      let white : Bool := p.getTurnColor = PieceColor.WHITE
      if white then
        if beta ≤ standPatValue then beta
        else
          qLoop R (quiescenceSearch R fuel) white
            (sortMoves (Position.getMoves R p true !p.isKingInCheck)) p
            (if alpha < standPatValue then standPatValue else alpha) beta
      else
        if standPatValue ≤ alpha then alpha
        else
          qLoop R (quiescenceSearch R fuel) white
            (sortMoves (Position.getMoves R p true !p.isKingInCheck)) p alpha
            (if standPatValue < beta then standPatValue else beta)

/-- The move loop of `alphaBeta`: window updates, the beta cutoff, the
legal-move flag, and the mutated position carried to the post-loop tests. -/
def abLoop (R : Nat → Nat) (ab : Position → Int → Int → Int) (white : Bool) :
    List Move → Position → Int → Int → Bool → Int × Int × Bool × Position
  | [], p, alpha, beta, legal => (alpha, beta, legal, p)
  | m :: rest, p, alpha, beta, legal =>
    let r := Position.makeMove R p m
    if r.1 then
      let value := ab r.2 alpha beta
      let p2 := (Position.unmakeMove R r.2).2
      let alpha2 := if white then (if alpha < value then value else alpha) else alpha
      let beta2 := if white then beta else (if value < beta then value else beta)
      if beta2 ≤ alpha2 then (alpha2, beta2, true, p2)
      else abLoop R ab white rest p2 alpha2 beta2 true
    else abLoop R ab white rest r.2 alpha beta legal

/-- Fixed-depth alpha-beta (`alphaBeta`): depth 0 drops into quiescence; no
legal move is stalemate 0 or a king-value mate score; draws score 0. -/
def alphaBeta (R : Nat → Nat) (qfuel : Nat) : Nat → Position → Int → Int → Int
  | 0, p, alpha, beta => quiescenceSearch R qfuel p alpha beta
  | depth + 1, p, alpha, beta =>
    let white : Bool := p.getTurnColor = PieceColor.WHITE
    match abLoop R (alphaBeta R qfuel depth) white
      (sortMoves (Position.getMoves R p true false)) p alpha beta false with
    | (alpha2, beta2, legal, pEnd) =>
      if !legal then
        if !pEnd.isKingInCheck then 0
        else if white then -PIECE_VALUES Piece.KING else PIECE_VALUES Piece.KING
      else if pEnd.isDraw then 0
      else if white then alpha2 else beta2

/-- The root loop of `Chess.AI.prototype.search`: each accepted move is
searched at depth 3 and the best window move is remembered; a rejected move
leaves `bestMove` alone. -/
def searchLoop (R : Nat → Nat) (ab : Position → Int → Int → Int) :
    List Move → Position → Int → Int → Option Move → Option Move
  | [], _, _, _, best => best
  | m :: rest, p, alpha, beta, best =>
    let r := Position.makeMove R p m
    if r.1 then
      let value := ab r.2 alpha beta
      let p2 := (Position.unmakeMove R r.2).2
      if p2.getTurnColor = PieceColor.WHITE then
        if alpha < value then searchLoop R ab rest p2 value beta (some m)
        else searchLoop R ab rest p2 alpha beta best
      else
        if value < beta then searchLoop R ab rest p2 alpha value (some m)
        else searchLoop R ab rest p2 alpha beta best
    else searchLoop R ab rest r.2 alpha beta best

/-- Best-move search (`Chess.AI.prototype.search`): the pseudo-legal moves
are sorted and searched at depth 3 inside an infinite window; null is
returned when no move is accepted. -/
def search (R : Nat → Nat) (qfuel : Nat) (p : Position) : Option Move :=
  searchLoop R (alphaBeta R qfuel 3) (sortMoves (Position.getMoves R p true false)) p
    (-INF) INF none

end AI

/-! ## Sample Zobrist tables and concrete positions used in witnesses -/

/-- The all-zero Zobrist table, the cheapest instantiation of the random
table for concrete evaluation. -/
def R0 : Nat → Nat := fun _ => 0

/-- A sample Zobrist table with distinct nonzero entries, standing in for
one draw of the random table. -/
def R1 : Nat → Nat := fun i => (i + 1) * 2654435761 % 2 ^ 64

/-- The initial position over the sample table `R1`. -/
def init1 : Position := initialPosition R1

/-- The knight move b1-c3 in the initial position (a quiet non-pawn move,
so the halfmove clock ticks from 0 to 1 when it is made). -/
def knightMoveB1C3 : Move := Move.make 1 18 Kind.POSITIONAL Piece.KNIGHT none

/-- The double pawn push e2-e4, a legal move of the initial position. -/
def pawnMoveE2E4 : Move := Move.make 12 28 Kind.DOUBLE_PAWN_PUSH Piece.PAWN none

/-- A position with white king e1, white knights b1 and g1, and black king
e8: no pawns, rooks or queens, four pieces in total, knights present and no
bishops.  Reachable in a real game (all other pieces captured); used to
separate the insufficient-material test from the claim wording. -/
def twoKnightsPos : Position :=
  let p0 : Position := {
    hashKey := 0
    bitboards := [
      0,
      Bitboard.makeIndex 1 ||| Bitboard.makeIndex 6,
      0,
      0,
      0,
      Bitboard.makeIndex 4 ||| Bitboard.makeIndex 60,
      Bitboard.makeIndex 1 ||| Bitboard.makeIndex 6 ||| Bitboard.makeIndex 4,
      Bitboard.makeIndex 60]
    pieces := []
    turn := PieceColor.WHITE
    castlingRights := 0
    enPassantSquare := -1
    halfmoveClock := 0
    madeMoves := []
    irreversibleHistory := []
    hashHistory := []
    halfMoveClock := 0 }
  Position.updateHashKey R1 (Position.fillPiecesFromBitboards p0)

/-- The insufficient-material condition in the words of the specification:
no pawns, rooks or queens remain, and either the total piece count is less
than 4, or all remaining bishops are confined to squares of one color
(light squares per `Chess.isLight`). -/
def specInsufficientMaterial (p : Position) : Prop :=
  p.getPieceBitboard Piece.PAWN = 0 ∧ p.getPieceBitboard Piece.ROOK = 0 ∧
    p.getPieceBitboard Piece.QUEEN = 0 ∧
    (Bitboard.popcnt (p.getColorBitboard PieceColor.WHITE) +
        Bitboard.popcnt (p.getColorBitboard PieceColor.BLACK) < 4 ∨
      (∀ i < 64, (p.getPieceBitboard Piece.BISHOP).testBit i →
        isLight (getRank i) (getFile i) = true) ∨
      (∀ i < 64, (p.getPieceBitboard Piece.BISHOP).testBit i →
        isLight (getRank i) (getFile i) = false))

/-- The insufficient-material condition amended with the knight test the
code performs: when the piece count reaches 4, the board must also hold no
knights before the bishops-on-one-color case can apply. -/
def specInsufficientMaterialAmended (p : Position) : Prop :=
  p.getPieceBitboard Piece.PAWN = 0 ∧ p.getPieceBitboard Piece.ROOK = 0 ∧
    p.getPieceBitboard Piece.QUEEN = 0 ∧
    (Bitboard.popcnt (p.getColorBitboard PieceColor.WHITE) +
        Bitboard.popcnt (p.getColorBitboard PieceColor.BLACK) < 4 ∨
      (p.getPieceBitboard Piece.KNIGHT = 0 ∧
        ((∀ i < 64, (p.getPieceBitboard Piece.BISHOP).testBit i →
          isLight (getRank i) (getFile i) = true) ∨
        (∀ i < 64, (p.getPieceBitboard Piece.BISHOP).testBit i →
          isLight (getRank i) (getFile i) = false))))

/-- Squares strictly between two squares of the same rank, in the words of
the specification's castling condition. -/
def betweenSquares (a b : Nat) : List Nat :=
  (List.range 64).filter fun i => decide (min a b < i ∧ i < max a b)

/-- The castle move the generator offers for the side to move: the king
moves two squares toward the rook from its current square. -/
def castleMoveOf (p : Position) (kingSide : Bool) : Move :=
  Move.make (p.getKingPosition p.getTurnColor : Int)
    ((p.getKingPosition p.getTurnColor : Int) + if kingSide then 2 else -2)
    (if kingSide then Kind.KING_CASTLE else Kind.QUEEN_CASTLE) Piece.KING none

/-- The position after 1. f3 e5 2. g4 Qh4#, the fastest checkmate, built by
four accepted `makeMove` calls from the initial position. -/
def foolsMatePos : Position :=
  (Position.makeMove R1
    (Position.makeMove R1
      (Position.makeMove R1
        (Position.makeMove R1 init1 (Move.make 13 21 Kind.POSITIONAL Piece.PAWN none)).2
        (Move.make 52 36 Kind.DOUBLE_PAWN_PUSH Piece.PAWN none)).2
      (Move.make 14 30 Kind.DOUBLE_PAWN_PUSH Piece.PAWN none)).2
    (Move.make 59 31 Kind.POSITIONAL Piece.QUEEN none)).2

/-- The facts about a position and a move that the piece mutations of
`makeMove` rely on: well-formed array lengths, 64-bit bitboards, a
two-valued turn, the moving piece on its source square, the captured piece
on its capture square (present in its piece and color bitboards, with the
capture square at the destination except for en passant), an otherwise
empty destination, the castling rook on its home square with an empty
target, and a promotion destination free of pawns and of the promoted
piece type.  Every pseudo-legal move of a position arising in play has
them; they are exactly what makes the set/XOR mutations of `updatePieces`
invertible by `revertPieces`. -/
def MoveConsistent (p : Position) (m : Move) : Prop :=
  p.bitboards.length = 8 ∧
  (∀ b ∈ p.bitboards, b < 2 ^ 64) ∧
  p.pieces.length = 64 ∧
  p.turn < 2 ∧
  m.getPiece < 6 ∧
  m.getFrom ≠ m.getTo ∧
  p.getPieceAtOrNull m.getFrom = some m.getPiece ∧
  (if m.isCapture then
      m.getCapturedPiece < 6 ∧ m.getCaptureSquare < 64 ∧
      p.getPieceAtOrNull m.getCaptureSquare = some m.getCapturedPiece ∧
      Bitboard.isSet (p.getPieceBitboard m.getCapturedPiece) m.getCaptureSquare = true ∧
      Bitboard.isSet (p.getColorBitboard (getOtherPieceColor p.getTurnColor))
        m.getCaptureSquare = true ∧
      (m.getCaptureSquare = m.getTo ∨
        (m.getKind = Kind.EN_PASSANT_CAPTURE ∧ m.getCaptureSquare ≠ m.getTo ∧
          m.getCaptureSquare ≠ m.getFrom))
    else True) ∧
  (¬(m.isCapture = true ∧ m.getCaptureSquare = m.getTo) →
    p.getPieceAtOrNull m.getTo = none) ∧
  (if m.isCastle then
      (let ks : Bool := m.getKind = Kind.KING_CASTLE
       let rf := Position.getCastlingRookSquare p.getTurnColor ks
       let rt := if ks then rf - 2 else rf + 3
       rf ≠ rt ∧ rf ≠ m.getFrom ∧ rf ≠ m.getTo ∧ rt ≠ m.getFrom ∧ rt ≠ m.getTo ∧
         rf < 64 ∧ rt < 64 ∧
         p.getPieceAtOrNull rf = some Piece.ROOK ∧ p.getPieceAtOrNull rt = none)
    else True) ∧
  (if m.isPromotion then
      m.getPiece = Piece.PAWN ∧
      Bitboard.isSet (p.getPieceBitboard Piece.PAWN) m.getTo = false ∧
      (m.isCapture = true → m.getCapturedPiece ≠ Piece.PAWN) ∧
      (¬(m.isCapture = true ∧ m.getCapturedPiece = m.getPromotedPiece) →
        Bitboard.isSet (p.getPieceBitboard m.getPromotedPiece) m.getTo = false)
    else True)

/-- Agreement of the piece lookup table and the bitboards at one square:
an empty entry has no piece or color bit, an occupied entry has exactly its
piece's bit and exactly one color bit. -/
def Position.SquareOk (p : Position) (i : Nat) : Prop :=
  (p.pieces.getD i none).getD 0 < 6 ∧
  (p.pieces.getD i none = none →
    (∀ pc < 6, (p.getPieceBitboard pc).testBit i = false) ∧
    (p.getColorBitboard PieceColor.WHITE).testBit i = false ∧
    (p.getColorBitboard PieceColor.BLACK).testBit i = false) ∧
  (∀ pc < 6, p.pieces.getD i none = some pc →
    (p.getPieceBitboard pc).testBit i = true ∧
    (∀ pc2 < 6, pc2 ≠ pc → (p.getPieceBitboard pc2).testBit i = false) ∧
    ((p.getColorBitboard PieceColor.WHITE).testBit i = true ∧
      (p.getColorBitboard PieceColor.BLACK).testBit i = false ∨
     (p.getColorBitboard PieceColor.WHITE).testBit i = false ∧
      (p.getColorBitboard PieceColor.BLACK).testBit i = true))

/-- Validity of the en-passant square: either the sentinel −1, or the
double-pushed opponent pawn it was set to, with the capture destination
behind it empty. -/
def Position.EnPassantOk (p : Position) : Prop :=
  p.enPassantSquare = -1 ∨
  (0 ≤ p.enPassantSquare ∧
    (if p.turn = 0 then 32 ≤ p.enPassantSquare.toNat ∧ p.enPassantSquare.toNat < 40
      else 24 ≤ p.enPassantSquare.toNat ∧ p.enPassantSquare.toNat < 32) ∧
    p.getPieceAtOrNull p.enPassantSquare.toNat = some Piece.PAWN ∧
    (p.getColorBitboard (getOtherPieceColor p.getTurnColor)).testBit
      p.enPassantSquare.toNat = true ∧
    p.getPieceAtOrNull
      (if p.turn = 0 then p.enPassantSquare.toNat + 8
        else p.enPassantSquare.toNat - 8) = none)

/-- Validity of the castling rights: a set right has its rook on its home
square and its king on its start square, in that right's color. -/
def Position.CastleOk (p : Position) : Prop :=
  ∀ c < 2, ∀ s : Bool, Position.hasCastlingRight p c s = true →
    p.getPieceAtOrNull (Position.getCastlingRookSquare c s) = some Piece.ROOK ∧
    (p.getColorBitboard c).testBit (Position.getCastlingRookSquare c s) = true ∧
    p.getPieceAtOrNull (if c = 0 then 4 else 60) = some Piece.KING ∧
    (p.getColorBitboard c).testBit (if c = 0 then 4 else 60) = true

/-- The state invariant of positions arising in play, without reference to
the Zobrist table: well-formed arrays, 64-bit bitboards, a two-valued
turn, 4-bit castling rights, square-by-square table/bitboard agreement,
one king each, no pawns on the first or last rank, valid en-passant and
castling data, and a side that just moved whose king is not attacked. -/
def Position.StateOk (p : Position) : Prop :=
  p.bitboards.length = 8 ∧
  (∀ b ∈ p.bitboards, b < 2 ^ 64) ∧
  p.pieces.length = 64 ∧
  p.turn < 2 ∧
  p.castlingRights < 16 ∧
  (∀ i < 64, Position.SquareOk p i) ∧
  (∀ c < 2, ∃ k < 64, p.getPieceColorBitboard Piece.KING c = 2 ^ k) ∧
  (∀ i < 64, (p.getPieceBitboard Piece.PAWN).testBit i = true → 8 ≤ i ∧ i < 56) ∧
  Position.EnPassantOk p ∧
  Position.CastleOk p ∧
  Position.isAttacked p p.getTurnColor
    (p.getKingPosition (getOtherPieceColor p.getTurnColor)) = false

/-- The full invariant: the state invariant plus agreement of the
incrementally maintained hash with the hash recomputed from scratch. -/
def Position.Invariant (R : Nat → Nat) (p : Position) : Prop :=
  Position.StateOk p ∧ p.hashKey = Position.computeHashKey R p

/-- Bitwise containment of one bitboard in another. -/
def BitSub (x y : Nat) : Prop := ∀ i, x.testBit i = true → y.testBit i = true

/-- Additional facts every generated move carries beyond `MoveConsistent`:
a 4-bit kind, a mover of the side to move, no capture of a king, castle
moves from the king's start square under a granted right, and double pawn
pushes from the right rank over an empty middle square. -/
def Position.MoveExtras (p : Position) (m : Move) : Prop :=
  m.getKind < 16 ∧
  (p.getColorBitboard p.getTurnColor).testBit m.getFrom = true ∧
  (m.isCapture = true → m.getCapturedPiece ≠ Piece.KING) ∧
  (m.isCastle = true →
    m.getPiece = Piece.KING ∧
    m.getFrom = (if p.getTurnColor = 0 then 4 else 60) ∧
    Position.hasCastlingRight p p.getTurnColor (m.getKind = Kind.KING_CASTLE) = true) ∧
  (m.getKind = Kind.DOUBLE_PAWN_PUSH →
    m.getPiece = Piece.PAWN ∧
    (if p.getTurnColor = 0 then
      m.getFrom = m.getTo - 16 ∧ 24 ≤ m.getTo ∧ m.getTo < 32 ∧
        p.getPieceAtOrNull (m.getTo - 8) = none
     else
      m.getFrom = m.getTo + 16 ∧ 32 ≤ m.getTo ∧ m.getTo < 40 ∧
        p.getPieceAtOrNull (m.getTo + 8) = none)) ∧
  (m.getPiece = Piece.PAWN ∧ m.isPromotion = false → 8 ≤ m.getTo ∧ m.getTo < 56)

/-- The positions a game reaches: the initial position, followed by any
sequence of accepted `makeMove` calls on moves of the current move list
and of `unmakeMove` calls. -/
inductive Reachable (R : Nat → Nat) : Position → Prop
  | init : Reachable R (initialPosition R)
  | make {p : Position} {m : Move} : Reachable R p →
      m ∈ Position.generateMoves p false → (Position.makeMove R p m).1 = true →
      Reachable R (Position.makeMove R p m).2
  | unmake {p : Position} : Reachable R p → Reachable R (Position.unmakeMove R p).2

/-- The positions reached by accepted `makeMove` calls alone. -/
inductive MakeReachable (R : Nat → Nat) : Position → Prop
  | init : MakeReachable R (initialPosition R)
  | make {p : Position} {m : Move} : MakeReachable R p →
      m ∈ Position.generateMoves p false → (Position.makeMove R p m).1 = true →
      MakeReachable R (Position.makeMove R p m).2

/-- The halfmove-clock slots of two undo stacks may differ while the
castling-rights and en-passant slots of every pushed triple agree. -/
inductive IrrevRel : List Int → List Int → Prop
  | nil : IrrevRel [] []
  | push (c1 c2 r e : Int) {t1 t2 : List Int} : IrrevRel t1 t2 →
      IrrevRel (c1 :: r :: e :: t1) (c2 :: r :: e :: t2)

/-- Equality of positions up to the two halfmove-clock fields and the
halfmove-clock slots of the undo stack: `unmakeMove` fails to restore the
clock (it writes the differently spelled property), so a make/unmake
round trip drifts exactly within this relation. -/
def ClockAgnostic (p q : Position) : Prop :=
  p.hashKey = q.hashKey ∧ p.bitboards = q.bitboards ∧ p.pieces = q.pieces ∧
  p.turn = q.turn ∧ p.castlingRights = q.castlingRights ∧
  p.enPassantSquare = q.enPassantSquare ∧ p.madeMoves = q.madeMoves ∧
  p.hashHistory = q.hashHistory ∧ IrrevRel p.irreversibleHistory q.irreversibleHistory

/-- The position after 1. e4 e5 2. Bb5, built by three accepted `makeMove`
calls from the initial position: the black d7 pawn is pinned against the
e8 king by the bishop on b5. -/
def pinnedPos : Position :=
  (Position.makeMove R1
    (Position.makeMove R1
      (Position.makeMove R1 init1 pawnMoveE2E4).2
      (Move.make 52 36 Kind.DOUBLE_PAWN_PUSH Piece.PAWN none)).2
    (Move.make 5 33 Kind.POSITIONAL Piece.BISHOP none)).2

/-- The pawn push d7-d6, pseudo-legal in `pinnedPos` but exposing the black
king to the bishop on b5. -/
def moveD7D6 : Move := Move.make 51 43 Kind.POSITIONAL Piece.PAWN none

/-- The result of making the knight move b1-c3 in the initial position. -/
def c1Made : Bool × Position := Position.makeMove R1 init1 knightMoveB1C3

/-- The position after making and unmaking the knight move b1-c3. -/
def c1Unmade : Position := (Position.unmakeMove R1 c1Made.2).2


/-! ### Zobrist fold canonicalization helpers -/

/-- Number of set bits among the 64 board bits. -/
def bitCount (bb : Nat) : Nat := List.countP (fun i => bb.testBit i) (List.range 64)

/-- Zobrist slot of one piece/color/square feature. -/
def pcsSlot (piece color index : Nat) : Nat :=
  Zobrist.POSITION_PIECE_COLOR_SQUARE + piece + color * 6 + index * 6 * 2

/-- XOR of the Zobrist slots of the set bits of a bitboard, over a square list. -/
def slotFoldL (R : Nat → Nat) (piece color : Nat) : List Nat → Nat → Nat
  | [], _ => 0
  | i :: l, bb =>
    if bb.testBit i then R (pcsSlot piece color i) ^^^ slotFoldL R piece color l bb
    else slotFoldL R piece color l bb

/-- XOR of the Zobrist slots of the set bits of a bitboard. -/
def slotFold (R : Nat → Nat) (piece color bb : Nat) : Nat :=
  slotFoldL R piece color (List.range 64) bb

/-- XOR of the placement features of a family of piece/color bitboards. -/
def pairFold (R : Nat → Nat) (F : Nat → Nat → Nat) : List (Nat × Nat) → Nat
  | [] => 0
  | pr :: l => slotFold R pr.1 pr.2 (F pr.1 pr.2) ^^^ pairFold R F l

/-- The twelve piece/color pairs in the fold order of `computeHashKey`. -/
def allPairs : List (Nat × Nat) :=
  [(0, 0), (1, 0), (2, 0), (3, 0), (4, 0), (5, 0),
   (0, 1), (1, 1), (2, 1), (3, 1), (4, 1), (5, 1)]

/-- XOR of all placement features of a position's board. -/
def boardFold (R : Nat → Nat) (p : Position) : Nat :=
  pairFold R (fun pc c => p.getPieceColorBitboard pc c) allPairs


/-! ### Post-move square maps -/

/-- Home square of the rook of the castle move being made. -/
def Position.castleRookFrom (p : Position) (m : Move) : Nat :=
  Position.getCastlingRookSquare p.getTurnColor (m.getKind = Kind.KING_CASTLE)

/-- Destination square of the rook of the castle move being made. -/
def Position.castleRookTo (p : Position) (m : Move) : Nat :=
  if m.getKind = Kind.KING_CASTLE then Position.castleRookFrom p m - 2
  else Position.castleRookFrom p m + 3

/-- Contents of each square after the piece mutation of a move. -/
def Position.postPieceAt (p : Position) (m : Move) (i : Nat) : Option Nat :=
  if i = m.getTo then some (if m.isPromotion then m.getPromotedPiece else m.getPiece)
  else if i = m.getFrom then none
  else if m.isCapture = true ∧ i = m.getCaptureSquare then none
  else if m.isCastle = true ∧ i = Position.castleRookFrom p m then none
  else if m.isCastle = true ∧ i = Position.castleRookTo p m then some Piece.ROOK
  else p.pieces.getD i none

/-- Color occupancy of each square after the piece mutation of a move. -/
def Position.postColorBit (p : Position) (m : Move) (c i : Nat) : Bool :=
  if i = m.getTo then decide (c = p.getTurnColor)
  else if i = m.getFrom then false
  else if m.isCapture = true ∧ i = m.getCaptureSquare then false
  else if m.isCastle = true ∧ i = Position.castleRookFrom p m then false
  else if m.isCastle = true ∧ i = Position.castleRookTo p m then
    decide (c = p.getTurnColor)
  else (p.getColorBitboard c).testBit i

/-- XOR of the Zobrist placement slots touched by the piece mutation of a
move. -/
def Position.moveHashDelta (R : Nat → Nat) (p : Position) (m : Move) : Nat :=
  (if m.isCapture = true then
    R (pcsSlot m.getCapturedPiece (getOtherPieceColor p.getTurnColor) m.getCaptureSquare)
  else 0) ^^^
  (if m.isCastle = true then
    R (pcsSlot Piece.ROOK p.getTurnColor (Position.castleRookFrom p m)) ^^^
      R (pcsSlot Piece.ROOK p.getTurnColor (Position.castleRookTo p m))
  else 0) ^^^
  R (pcsSlot m.getPiece p.getTurnColor m.getFrom) ^^^
  R (pcsSlot m.getPiece p.getTurnColor m.getTo) ^^^
  (if m.isPromotion = true then
    R (pcsSlot Piece.PAWN p.getTurnColor m.getTo) ^^^
      R (pcsSlot m.getPromotedPiece p.getTurnColor m.getTo)
  else 0)

end Chess

/-! # Theorems -/

namespace Chess

/-! ## General bitboard lemmas -/

theorem Bitboard.and_eq_self_iff (x m : Nat) :
    x &&& m = x ↔ ∀ i, x.testBit i → m.testBit i = true := by
  constructor
  · intro h i hx
    have hb : (x &&& m).testBit i = x.testBit i := by rw [h]
    rw [Nat.testBit_and] at hb
    cases hm : m.testBit i with
    | true => rfl
    | false => rw [hm, Bool.and_false] at hb; rw [← hb] at hx; exact absurd hx (by simp)
  · intro h
    apply Nat.eq_of_testBit_eq
    intro i
    rw [Nat.testBit_and]
    cases hx : x.testBit i with
    | true => rw [h i hx, Bool.and_true]
    | false => rw [Bool.false_and]

theorem Bitboard.testBit_high_eq_false (x i : Nat) (hx : x < 2 ^ 64) (hi : 64 ≤ i) :
    x.testBit i = false :=
  Nat.testBit_lt_two_pow (lt_of_lt_of_le hx (Nat.pow_le_pow_right (by omega) hi))

theorem Bitboard.light_testBit_eq :
    ∀ i < 64, Bitboard.LIGHT_SQUARES.testBit i = isLight (getRank i) (getFile i) := by
  decide

theorem Bitboard.dark_testBit_eq :
    ∀ i < 64, Bitboard.DARK_SQUARES.testBit i = !isLight (getRank i) (getFile i) := by
  decide

theorem Bitboard.and_light_eq_self_iff (x : Nat) (hx : x < 2 ^ 64) :
    x &&& Bitboard.LIGHT_SQUARES = x ↔
      ∀ i < 64, x.testBit i → isLight (getRank i) (getFile i) = true := by
  rw [Bitboard.and_eq_self_iff]
  constructor
  · intro h i hi hb
    rw [← Bitboard.light_testBit_eq i hi]
    exact h i hb
  · intro h i hb
    by_cases hi : i < 64
    · rw [Bitboard.light_testBit_eq i hi]
      exact h i hi hb
    · rw [Bitboard.testBit_high_eq_false x i hx (by omega)] at hb
      exact absurd hb (by simp)

theorem Bitboard.and_dark_eq_self_iff (x : Nat) (hx : x < 2 ^ 64) :
    x &&& Bitboard.DARK_SQUARES = x ↔
      ∀ i < 64, x.testBit i → isLight (getRank i) (getFile i) = false := by
  rw [Bitboard.and_eq_self_iff]
  constructor
  · intro h i hi hb
    have := h i hb
    rw [Bitboard.dark_testBit_eq i hi] at this
    simpa using this
  · intro h i hb
    by_cases hi : i < 64
    · rw [Bitboard.dark_testBit_eq i hi, h i hi hb]
      rfl
    · rw [Bitboard.testBit_high_eq_false x i hx (by omega)] at hb
      exact absurd hb (by simp)

/-! ## C6: threefold repetition counts hash-history entries -/

theorem foldl_repetition_count (z : Nat) (l : List Nat) (n : Nat) :
    l.foldl (fun previousValue currentValue =>
      previousValue + if currentValue = z then 1 else 0) n = n + l.count z := by
  induction l generalizing n with
  | nil => simp
  | cons a t ih =>
    rw [List.foldl_cons, ih, List.count_cons]
    by_cases h : a = z
    · simp [h]
      omega
    · simp [h]

/-- C6: the repetition draw holds exactly when the current hash equals at
least 3 entries of `hashHistory`: a hash occurring for the 3rd time among
the entries triggers it, and one occurring only twice does not. -/
theorem threefold_iff_three_entries (p : Position) :
    Position.isThreefoldRepetitionRuleDraw p = true ↔
      3 ≤ p.hashHistory.count p.hashKey := by
  unfold Position.isThreefoldRepetitionRuleDraw
  rw [foldl_repetition_count]
  simp

/-! ## C7: insufficient material -/

/-- C7 (amended): the insufficient-material draw holds iff no pawns, rooks
or queens remain and either the piece count is below 4, or no knights
remain and the bishops are confined to one square color. -/
theorem insufficientMaterial_iff_amended (p : Position)
    (hB : p.getPieceBitboard Piece.BISHOP < 2 ^ 64) :
    Position.isInsufficientMaterialDraw p = true ↔ specInsufficientMaterialAmended p := by
  unfold Position.isInsufficientMaterialDraw specInsufficientMaterialAmended
  simp only [Bitboard.isEmpty]
  by_cases h1 : p.getPieceBitboard Piece.PAWN = 0
  · by_cases h2 : p.getPieceBitboard Piece.ROOK = 0
    · by_cases h3 : p.getPieceBitboard Piece.QUEEN = 0
      · by_cases h4 : Bitboard.popcnt (p.getColorBitboard PieceColor.WHITE) +
            Bitboard.popcnt (p.getColorBitboard PieceColor.BLACK) < 4
        · simp [h1, h2, h3, h4]
        · by_cases h5 : p.getPieceBitboard Piece.KNIGHT = 0
          · simp only [h1, h2, h3, h4, h5, decide_True, decide_False, Bool.not_true,
              Bool.not_false, if_false, if_true, Bool.false_eq_true, iff_true, true_and,
              false_or]
            rw [← Bitboard.and_light_eq_self_iff (p.getPieceBitboard Piece.BISHOP) hB,
              ← Bitboard.and_dark_eq_self_iff (p.getPieceBitboard Piece.BISHOP) hB]
            by_cases h : p.getPieceBitboard Piece.BISHOP &&& Bitboard.LIGHT_SQUARES =
                p.getPieceBitboard Piece.BISHOP ∨
                p.getPieceBitboard Piece.BISHOP &&& Bitboard.DARK_SQUARES =
                p.getPieceBitboard Piece.BISHOP <;>
              simp [h, h4]
          · simp [h1, h2, h3, h4, h5]
      · simp [h3]
    · simp [h2]
  · simp [h1]

/-- Witness for the amended C7 theorem at the two-knights position. -/
theorem insufficientMaterial_iff_amended_witness :
    twoKnightsPos.getPieceBitboard Piece.BISHOP < 2 ^ 64 ∧
      (Position.isInsufficientMaterialDraw twoKnightsPos = true ↔
        specInsufficientMaterialAmended twoKnightsPos) :=
  ⟨by decide, insufficientMaterial_iff_amended twoKnightsPos (by decide)⟩

/-- C7 counterexample: with kings and two knights only (four pieces, no
bishops), the claim's condition holds — no pawns, rooks or queens, and the
no-bishops case makes "all bishops on one color" vacuously true — yet the
code does not declare an insufficient-material draw, because knights are
on the board. -/
theorem insufficientMaterial_claim_false_at_twoKnights :
    Position.isInsufficientMaterialDraw twoKnightsPos = false ∧
      specInsufficientMaterial twoKnightsPos := by
  constructor
  · decide
  · refine ⟨by decide, by decide, by decide, Or.inr (Or.inl ?_)⟩
    decide

/-! ## Move-encoding lemmas -/

theorem and63_eq_mod (x : Nat) : x &&& 63 = x % 64 := by
  have h := Nat.and_pow_two_sub_one_eq_mod x 6
  norm_num at h
  exact h

theorem and15_eq_mod (x : Nat) : x &&& 15 = x % 16 := by
  have h := Nat.and_pow_two_sub_one_eq_mod x 4
  norm_num at h
  exact h

theorem and7_eq_mod (x : Nat) : x &&& 7 = x % 8 := by
  have h := Nat.and_pow_two_sub_one_eq_mod x 3
  norm_num at h
  exact h

theorem lor_shift_add {a : Nat} (b i : Nat) (h : a < 2 ^ i) :
    a ||| b * 2 ^ i = b * 2 ^ i + a := by
  rw [Nat.lor_comm, Nat.mul_comm b, ← Nat.mul_add_lt_is_or h, Nat.mul_comm]

theorem Move.make_value (f t : Int) (k pc : Nat) (c : Option Nat) :
    (Move.make f t k pc c).value =
      c.getD 0 % 8 * 524288 + pc % 8 * 65536 + k % 16 * 4096 + f.toNat % 64 * 64 +
        t.toNat % 64 := by
  unfold Move.make
  simp only [and63_eq_mod, and15_eq_mod, and7_eq_mod, Nat.shiftLeft_eq]
  rw [lor_shift_add _ 6 (by omega)]
  rw [lor_shift_add _ 12 (by omega)]
  rw [lor_shift_add _ 16 (by omega)]
  rw [lor_shift_add _ 19 (by omega)]
  norm_num
  omega

theorem Move.getTo_make (f t : Int) (k pc : Nat) (c : Option Nat) :
    (Move.make f t k pc c).getTo = t.toNat % 64 := by
  unfold Move.getTo
  rw [Move.make_value, and63_eq_mod]
  omega

theorem Move.getFrom_make (f t : Int) (k pc : Nat) (c : Option Nat) :
    (Move.make f t k pc c).getFrom = f.toNat % 64 := by
  unfold Move.getFrom
  rw [Move.make_value, Nat.shiftRight_eq_div_pow, and63_eq_mod]
  norm_num
  omega

theorem Move.getKind_make (f t : Int) (k pc : Nat) (c : Option Nat) :
    (Move.make f t k pc c).getKind = k % 16 := by
  unfold Move.getKind
  rw [Move.make_value, Nat.shiftRight_eq_div_pow, and15_eq_mod]
  norm_num
  omega

theorem Move.getPiece_make (f t : Int) (k pc : Nat) (c : Option Nat) :
    (Move.make f t k pc c).getPiece = pc % 8 := by
  unfold Move.getPiece
  rw [Move.make_value, Nat.shiftRight_eq_div_pow, and7_eq_mod]
  norm_num
  omega

theorem Move.getCapturedPiece_make (f t : Int) (k pc : Nat) (c : Option Nat) :
    (Move.make f t k pc c).getCapturedPiece = c.getD 0 % 8 := by
  unfold Move.getCapturedPiece
  rw [Move.make_value, Nat.shiftRight_eq_div_pow, and7_eq_mod]
  norm_num
  omega

/-! ## Extraction-loop membership lemmas -/

theorem movesFromMask_mem {fuel mask : Nat} {g : Nat → Move} {m : Move}
    (h : m ∈ Position.movesFromMask fuel mask g) : ∃ i, m = g i := by
  induction fuel generalizing mask with
  | zero => simp [Position.movesFromMask] at h
  | succ n ih =>
    unfold Position.movesFromMask at h
    by_cases hm : mask = 0
    · simp [hm] at h
    · simp only [hm, if_false, List.mem_cons] at h
      rcases h with h | h
      · exact ⟨_, h⟩
      · exact ih h

theorem piecesFromMask_mem {fuel bb : Nat} {g : Nat → List Move} {m : Move}
    (h : m ∈ Position.piecesFromMask fuel bb g) : ∃ i, m ∈ g i := by
  induction fuel generalizing bb with
  | zero => simp [Position.piecesFromMask] at h
  | succ n ih =>
    unfold Position.piecesFromMask at h
    by_cases hm : bb = 0
    · simp [hm] at h
    · simp only [hm, if_false, List.mem_append] at h
      rcases h with h | h
      · exact ⟨_, h⟩
      · exact ih h

/-! ## Congruence and frame lemmas for the mutation pipeline -/

theorem Position.isAttacked_congr (p q : Position) (h : p.bitboards = q.bitboards)
    (color index : Nat) : p.isAttacked color index = q.isAttacked color index := by
  unfold Position.isAttacked Position.getPieceColorBitboard Position.getPieceBitboard
    Position.getColorBitboard Position.getOccupiedBitboard Position.getBitboard
  rw [h]

theorem Position.getKingPosition_congr (p q : Position) (h : p.bitboards = q.bitboards)
    (color : Nat) : p.getKingPosition color = q.getKingPosition color := by
  unfold Position.getKingPosition Position.getPieceColorBitboard Position.getPieceBitboard
    Position.getColorBitboard Position.getBitboard
  rw [h]

theorem Position.isKingInCheck_congr (p q : Position) (hb : p.bitboards = q.bitboards)
    (ht : p.turn = q.turn) : p.isKingInCheck = q.isKingInCheck := by
  unfold Position.isKingInCheck Position.getTurnColor
  rw [ht, Position.isAttacked_congr p q hb, Position.getKingPosition_congr p q hb]

/-- The piece mutation of a move leaves the turn unchanged. -/
theorem Position.updatePieces_turn (R : Nat → Nat) (p : Position) (m : Move) :
    (Position.updatePieces R p m).turn = p.turn := by
  unfold Position.updatePieces
  by_cases hc : m.isCapture = true <;> by_cases hca : m.isCastle = true <;>
    by_cases hp : m.isPromotion = true <;> simp only [hc, hca, hp, if_true, if_false] <;> rfl

/-- The piece mutation of a move commutes with changing the hash history. -/
theorem Position.updatePieces_set_hashHistory (R : Nat → Nat) (p : Position) (m : Move)
    (hs : List Nat) :
    Position.updatePieces R { p with hashHistory := hs } m =
      { Position.updatePieces R p m with hashHistory := hs } := by
  unfold Position.updatePieces
  by_cases hc : m.isCapture = true <;> by_cases hca : m.isCastle = true <;>
    by_cases hp : m.isPromotion = true <;> simp only [hc, hca, hp, if_true, if_false] <;> rfl

theorem Position.moverCastlingClears_bitboards (R : Nat → Nat) (tc : Nat) (m : Move)
    (p : Position) : (Position.moverCastlingClears R tc m p).bitboards = p.bitboards := by
  unfold Position.moverCastlingClears
  (repeat' split) <;> rfl

theorem Position.moverCastlingClears_pieces (R : Nat → Nat) (tc : Nat) (m : Move)
    (p : Position) : (Position.moverCastlingClears R tc m p).pieces = p.pieces := by
  unfold Position.moverCastlingClears
  (repeat' split) <;> rfl

theorem Position.moverCastlingClears_turn (R : Nat → Nat) (tc : Nat) (m : Move)
    (p : Position) : (Position.moverCastlingClears R tc m p).turn = p.turn := by
  unfold Position.moverCastlingClears
  (repeat' split) <;> rfl

theorem Position.capturedRookCastlingClears_bitboards (R : Nat → Nat) (oc : Nat) (m : Move)
    (p : Position) : (Position.capturedRookCastlingClears R oc m p).bitboards = p.bitboards := by
  unfold Position.capturedRookCastlingClears
  (repeat' split) <;> rfl

theorem Position.capturedRookCastlingClears_pieces (R : Nat → Nat) (oc : Nat) (m : Move)
    (p : Position) : (Position.capturedRookCastlingClears R oc m p).pieces = p.pieces := by
  unfold Position.capturedRookCastlingClears
  (repeat' split) <;> rfl

theorem Position.capturedRookCastlingClears_turn (R : Nat → Nat) (oc : Nat) (m : Move)
    (p : Position) : (Position.capturedRookCastlingClears R oc m p).turn = p.turn := by
  unfold Position.capturedRookCastlingClears
  (repeat' split) <;> rfl

/-- An accepted `makeMove` (the mover's king safe after the piece mutation)
returns true, the mutated board, and the flipped turn. -/
theorem Position.makeMove_accepted_fields (R : Nat → Nat) (p : Position) (m : Move)
    (h : Position.isKingInCheck (Position.updatePieces R p m) = false) :
    (Position.makeMove R p m).1 = true ∧
    (Position.makeMove R p m).2.bitboards = (Position.updatePieces R p m).bitboards ∧
    (Position.makeMove R p m).2.pieces = (Position.updatePieces R p m).pieces ∧
    (Position.makeMove R p m).2.turn = getOtherPieceColor p.turn := by
  have hcond : Position.isKingInCheck
      { Position.updatePieces R p m with hashHistory := p.hashKey :: p.hashHistory } =
      false :=
    (Position.isKingInCheck_congr _ (Position.updatePieces R p m) rfl rfl).trans h
  unfold Position.makeMove
  simp only [Position.updatePieces_set_hashHistory, hcond, Bool.false_eq_true, if_false]
  refine ⟨by trivial, ?_, ?_, ?_⟩ <;>
    (try simp only [Position.capturedRookCastlingClears_bitboards,
      Position.moverCastlingClears_bitboards, Position.capturedRookCastlingClears_pieces,
      Position.moverCastlingClears_pieces, Position.capturedRookCastlingClears_turn,
      Position.moverCastlingClears_turn]
     try rfl)

/-! ## C5: legal moves are pseudo-legal and never leave the king attacked -/

/-- C5: every move of the legality-filtered list is in the pseudo-legal
list, and applying a legal move through `makeMove` is accepted and leaves
the moving side's king unattacked by the opponent. -/
theorem legalMoves_subset_pseudo_and_king_safe (R : Nat → Nat) (p : Position) (m : Move)
    (h : m ∈ Position.getMoves R p false false) :
    m ∈ Position.getMoves R p true false ∧
    (Position.makeMove R p m).1 = true ∧
    Position.isAttacked (Position.makeMove R p m).2 (getOtherPieceColor p.getTurnColor)
      ((Position.makeMove R p m).2.getKingPosition p.getTurnColor) = false := by
  have hsplit : m ∈ Position.generateMoves p false ∧ Position.isMoveLegal R p m = true := by
    have h' := h
    unfold Position.getMoves at h'
    simp only [Bool.false_eq_true, if_false] at h'
    exact List.mem_filter.mp h'
  obtain ⟨hgen, hleg⟩ := hsplit
  have hcheck : Position.isKingInCheck (Position.updatePieces R p m) = false := by
    unfold Position.isMoveLegal at hleg
    simpa using hleg
  obtain ⟨hfst, hbb, -, -⟩ := Position.makeMove_accepted_fields R p m hcheck
  refine ⟨?_, hfst, ?_⟩
  · unfold Position.getMoves
    simpa using hgen
  · have hatt := Position.isAttacked_congr (Position.makeMove R p m).2
      (Position.updatePieces R p m) hbb (getOtherPieceColor p.getTurnColor)
      ((Position.makeMove R p m).2.getKingPosition p.getTurnColor)
    rw [hatt, Position.getKingPosition_congr (Position.makeMove R p m).2
      (Position.updatePieces R p m) hbb]
    have hturn : (Position.updatePieces R p m).turn = p.turn :=
      Position.updatePieces_turn R p m
    unfold Position.isKingInCheck Position.getTurnColor at hcheck
    rw [hturn] at hcheck
    exact hcheck

/-- Witness for C5 at the double pawn push e2-e4 of the initial position. -/
theorem legalMoves_subset_pseudo_and_king_safe_witness :
    pawnMoveE2E4 ∈ Position.getMoves R1 init1 false false ∧
      (Position.makeMove R1 init1 pawnMoveE2E4).1 = true := by
  have h : pawnMoveE2E4 ∈ Position.getMoves R1 init1 false false := by decide!
  exact ⟨h, (legalMoves_subset_pseudo_and_king_safe R1 init1 pawnMoveE2E4 h).2.1⟩

/-! ## C8: castling gating -/

theorem Position.canCastle_iff (p : Position) (s : Bool) (ht : p.turn < 2) :
    Position.canCastle p p.getTurnColor s true = true ↔
      (Position.hasCastlingRight p p.getTurnColor s = true ∧
        (∀ i ∈ betweenSquares (if p.getTurnColor = PieceColor.WHITE then 4 else 60)
            (getCastlingRookSquare p.getTurnColor s),
          Bitboard.isSet p.getOccupiedBitboard i = false) ∧
        Position.isAttacked p (getOtherPieceColor p.getTurnColor)
          ((if p.getTurnColor = PieceColor.WHITE then (4 : Int) else 60)).toNat = false ∧
        Position.isAttacked p (getOtherPieceColor p.getTurnColor)
          ((if p.getTurnColor = PieceColor.WHITE then (4 : Int) else 60) +
            (if s then 1 else -1)).toNat = false ∧
        Position.isAttacked p (getOtherPieceColor p.getTurnColor)
          ((if p.getTurnColor = PieceColor.WHITE then (4 : Int) else 60) +
            2 * (if s then 1 else -1)).toNat = false) := by
  have h01 : p.getTurnColor = 0 ∨ p.getTurnColor = 1 := by
    unfold Position.getTurnColor
    omega
  rcases h01 with h | h <;> cases s <;>
    rw [h] <;>
    unfold Position.canCastle Position.isCastlingLegal <;>
    simp only [PieceColor.WHITE] <;>
    norm_num
  · intro _
    rw [show betweenSquares 4 (getCastlingRookSquare 0 false) = [1, 2, 3] from by decide]
    constructor
    · rintro ⟨⟨o1, o2⟩, o3, ⟨a0, a1⟩, a2⟩
      refine ⟨?_, a0, a1, a2⟩
      intro i hi
      fin_cases hi <;> assumption
    · rintro ⟨hbet, a0, a1, a2⟩
      exact ⟨⟨hbet 3 (by decide), hbet 2 (by decide)⟩, hbet 1 (by decide), ⟨a0, a1⟩, a2⟩
  · intro _
    rw [show betweenSquares 4 (getCastlingRookSquare 0 true) = [5, 6] from by decide]
    constructor
    · rintro ⟨⟨o1, o2⟩, ⟨a0, a1⟩, a2⟩
      refine ⟨?_, a0, a1, a2⟩
      intro i hi
      fin_cases hi <;> assumption
    · rintro ⟨hbet, a0, a1, a2⟩
      exact ⟨⟨hbet 5 (by decide), hbet 6 (by decide)⟩, ⟨a0, a1⟩, a2⟩
  · intro _
    rw [show betweenSquares 60 (getCastlingRookSquare 1 false) = [57, 58, 59] from by decide]
    constructor
    · rintro ⟨⟨o1, o2⟩, o3, ⟨a0, a1⟩, a2⟩
      refine ⟨?_, a0, a1, a2⟩
      intro i hi
      fin_cases hi <;> assumption
    · rintro ⟨hbet, a0, a1, a2⟩
      exact ⟨⟨hbet 59 (by decide), hbet 58 (by decide)⟩, hbet 57 (by decide), ⟨a0, a1⟩, a2⟩
  · intro _
    rw [show betweenSquares 60 (getCastlingRookSquare 1 true) = [61, 62] from by decide]
    constructor
    · rintro ⟨⟨o1, o2⟩, ⟨a0, a1⟩, a2⟩
      refine ⟨?_, a0, a1, a2⟩
      intro i hi
      fin_cases hi <;> assumption
    · rintro ⟨hbet, a0, a1, a2⟩
      exact ⟨⟨hbet 61 (by decide), hbet 62 (by decide)⟩, ⟨a0, a1⟩, a2⟩

theorem castleMoveOf_getKind (p : Position) (s : Bool) :
    (castleMoveOf p s).getKind = if s then Kind.KING_CASTLE else Kind.QUEEN_CASTLE := by
  unfold castleMoveOf
  cases s <;> rw [Move.getKind_make] <;> rfl

theorem castleMoveOf_ne_make (p : Position) (s : Bool) (f t : Int) (k pc : Nat)
    (c : Option Nat) (hk : k % 16 ≠ if s then Kind.KING_CASTLE else Kind.QUEEN_CASTLE) :
    ¬(castleMoveOf p s = Move.make f t k pc c) := by
  intro he
  have h1 := congrArg Move.getKind he
  rw [castleMoveOf_getKind, Move.getKind_make] at h1
  exact hk h1.symm

/-- The castle move of a side appears in the generated list exactly when
`canCastle` grants it: no other part of the generator emits a castle-kind
move. -/
theorem generateMoves_castle_iff (p : Position) (s : Bool) :
    castleMoveOf p s ∈ Position.generateMoves p false ↔
      Position.canCastle p p.getTurnColor s true = true := by
  unfold Position.generateMoves
  simp only [Bool.not_false, if_true, Bool.false_eq_true, if_false, List.mem_append,
    List.append_nil, List.nil_append, or_assoc]
  constructor
  · intro hm
    rcases hm with h | h | h | h | h | h | h | h | h | h | h | h | h | h | h | h | h | h |
      h | h | h | h | h | h
    case _ =>
      obtain ⟨i, hi⟩ := movesFromMask_mem h
      exact absurd hi (castleMoveOf_ne_make p s _ _ _ _ _ (by cases s <;> decide))
    case _ =>
      obtain ⟨i, hi⟩ := movesFromMask_mem h
      exact absurd hi (castleMoveOf_ne_make p s _ _ _ _ _ (by cases s <;> decide))
    case _ =>
      obtain ⟨i, hi⟩ := movesFromMask_mem h
      exact absurd hi (castleMoveOf_ne_make p s _ _ _ _ _ (by cases s <;> decide))
    case _ =>
      obtain ⟨i, hi⟩ := movesFromMask_mem h
      exact absurd hi (castleMoveOf_ne_make p s _ _ _ _ _ (by cases s <;> decide))
    case _ =>
      obtain ⟨i, hi⟩ := movesFromMask_mem h
      exact absurd hi (castleMoveOf_ne_make p s _ _ _ _ _ (by cases s <;> decide))
    case _ =>
      obtain ⟨i, hi⟩ := movesFromMask_mem h
      exact absurd hi (castleMoveOf_ne_make p s _ _ _ _ _ (by cases s <;> decide))
    case _ =>
      obtain ⟨i, hi⟩ := movesFromMask_mem h
      exact absurd hi (castleMoveOf_ne_make p s _ _ _ _ _ (by cases s <;> decide))
    case _ =>
      obtain ⟨i, hi⟩ := movesFromMask_mem h
      exact absurd hi (castleMoveOf_ne_make p s _ _ _ _ _ (by cases s <;> decide))
    case _ =>
      obtain ⟨i, hi⟩ := movesFromMask_mem h
      exact absurd hi (castleMoveOf_ne_make p s _ _ _ _ _ (by cases s <;> decide))
    case _ =>
      obtain ⟨i, hi⟩ := movesFromMask_mem h
      exact absurd hi (castleMoveOf_ne_make p s _ _ _ _ _ (by cases s <;> decide))
    case _ =>
      obtain ⟨i, hi⟩ := movesFromMask_mem h
      exact absurd hi (castleMoveOf_ne_make p s _ _ _ _ _ (by cases s <;> decide))
    case _ =>
      obtain ⟨i, hi⟩ := movesFromMask_mem h
      exact absurd hi (castleMoveOf_ne_make p s _ _ _ _ _ (by cases s <;> decide))
    case _ =>
      obtain ⟨i, hi⟩ := movesFromMask_mem h
      exact absurd hi (castleMoveOf_ne_make p s _ _ _ _ _ (by cases s <;> decide))
    case _ =>
      obtain ⟨i, hi⟩ := movesFromMask_mem h
      exact absurd hi (castleMoveOf_ne_make p s _ _ _ _ _ (by cases s <;> decide))
    case _ =>
      obtain ⟨i, hi⟩ := movesFromMask_mem h
      exact absurd hi (castleMoveOf_ne_make p s _ _ _ _ _ (by cases s <;> decide))
    case _ =>
      obtain ⟨i, hi⟩ := movesFromMask_mem h
      exact absurd hi (castleMoveOf_ne_make p s _ _ _ _ _ (by cases s <;> decide))
    case _ =>
      by_cases hep : Position.canEnPassant p = true
      · rw [if_pos hep] at h
        rcases List.mem_append.mp h with h | h <;>
          (obtain ⟨i, hi⟩ := movesFromMask_mem h
           exact absurd hi (castleMoveOf_ne_make p s _ _ _ _ _ (by cases s <;> decide)))
      · rw [if_neg hep] at h
        exact absurd h (List.not_mem_nil _)
    case _ =>
      obtain ⟨j, hj⟩ := piecesFromMask_mem h
      obtain ⟨i, hi⟩ := movesFromMask_mem hj
      exact absurd hi (castleMoveOf_ne_make p s _ _ _ _ _ (by split <;> cases s <;> decide))
    case _ =>
      obtain ⟨j, hj⟩ := piecesFromMask_mem h
      obtain ⟨i, hi⟩ := movesFromMask_mem hj
      exact absurd hi (castleMoveOf_ne_make p s _ _ _ _ _ (by split <;> cases s <;> decide))
    case _ =>
      obtain ⟨j, hj⟩ := piecesFromMask_mem h
      obtain ⟨i, hi⟩ := movesFromMask_mem hj
      exact absurd hi (castleMoveOf_ne_make p s _ _ _ _ _ (by split <;> cases s <;> decide))
    case _ =>
      obtain ⟨j, hj⟩ := piecesFromMask_mem h
      obtain ⟨i, hi⟩ := movesFromMask_mem hj
      exact absurd hi (castleMoveOf_ne_make p s _ _ _ _ _ (by split <;> cases s <;> decide))
    case _ =>
      obtain ⟨i, hi⟩ := movesFromMask_mem h
      exact absurd hi (castleMoveOf_ne_make p s _ _ _ _ _ (by split <;> cases s <;> decide))
    case _ =>
      cases s with
      | true =>
        by_cases hc : Position.canCastle p p.getTurnColor true true = true
        · exact hc
        · rw [if_neg hc] at h
          exact absurd h (List.not_mem_nil _)
      | false =>
        by_cases hc : Position.canCastle p p.getTurnColor true true = true
        · rw [if_pos hc] at h
          rw [List.mem_singleton] at h
          exact absurd h (castleMoveOf_ne_make p false _ _ _ _ _ (by decide))
        · rw [if_neg hc] at h
          exact absurd h (List.not_mem_nil _)
    case _ =>
      cases s with
      | false =>
        by_cases hc : Position.canCastle p p.getTurnColor false true = true
        · exact hc
        · rw [if_neg hc] at h
          exact absurd h (List.not_mem_nil _)
      | true =>
        by_cases hc : Position.canCastle p p.getTurnColor false true = true
        · rw [if_pos hc] at h
          rw [List.mem_singleton] at h
          exact absurd h (castleMoveOf_ne_make p true _ _ _ _ _ (by decide))
        · rw [if_neg hc] at h
          exact absurd h (List.not_mem_nil _)
  · intro hc
    cases s with
    | true =>
      iterate 22 apply Or.inr
      apply Or.inl
      rw [if_pos hc]
      exact List.mem_singleton.mpr rfl
    | false =>
      iterate 23 apply Or.inr
      rw [if_pos hc]
      exact List.mem_singleton.mpr rfl

/-- C8: the generator offers the castle move of the side to move for a given
wing if and only if the corresponding castling-rights bit is set, every square
strictly between the king and that rook is empty, and the king's start, transit
and destination squares are all unattacked by the opponent. -/
theorem castle_offered_iff (p : Position) (s : Bool) (ht : p.turn < 2) :
    castleMoveOf p s ∈ Position.generateMoves p false ↔
      (Position.hasCastlingRight p p.getTurnColor s = true ∧
        (∀ i ∈ betweenSquares (if p.getTurnColor = PieceColor.WHITE then 4 else 60)
            (Position.getCastlingRookSquare p.getTurnColor s),
          Bitboard.isSet p.getOccupiedBitboard i = false) ∧
        Position.isAttacked p (getOtherPieceColor p.getTurnColor)
          ((if p.getTurnColor = PieceColor.WHITE then (4 : Int) else 60)).toNat = false ∧
        Position.isAttacked p (getOtherPieceColor p.getTurnColor)
          ((if p.getTurnColor = PieceColor.WHITE then (4 : Int) else 60) +
            (if s then 1 else -1)).toNat = false ∧
        Position.isAttacked p (getOtherPieceColor p.getTurnColor)
          ((if p.getTurnColor = PieceColor.WHITE then (4 : Int) else 60) +
            2 * (if s then 1 else -1)).toNat = false) :=
  (generateMoves_castle_iff p s).trans (Position.canCastle_iff p s ht)

/-- Witness for C8 at the initial position: kingside castling is not offered
because the f1 square between king and rook is occupied. -/
theorem castle_offered_iff_witness :
    init1.turn < 2 ∧ castleMoveOf init1 true ∉ Position.generateMoves init1 false := by
  refine ⟨by decide, fun hmem => ?_⟩
  have h := (castle_offered_iff init1 true (by decide)).mp hmem
  have h5 := h.2.1 5 (by decide)
  exact absurd h5 (by decide!)

/-! ## C2: a rejected makeMove leaves the state unchanged -/

theorem list_getD_set_self {α : Type} :
    ∀ (l : List α) (i : Nat) (a d : α), i < l.length → (l.set i a).getD i d = a
  | [], _, _, _, h => absurd h (Nat.not_lt_zero _)
  | _ :: _, 0, _, _, _ => rfl
  | _ :: l, i + 1, a, d, h => list_getD_set_self l i a d (Nat.lt_of_succ_lt_succ h)

theorem list_getD_set_ne {α : Type} :
    ∀ (l : List α) (i j : Nat) (a d : α), i ≠ j → (l.set i a).getD j d = l.getD j d
  | [], _, _, _, _, _ => rfl
  | _ :: _, 0, 0, _, _, h => absurd rfl h
  | _ :: _, 0, _ + 1, _, _, _ => rfl
  | _ :: _, _ + 1, 0, _, _, _ => rfl
  | _ :: l, i + 1, j + 1, a, d, h =>
    list_getD_set_ne l i j a d fun e => h (congrArg Nat.succ e)

theorem list_set_getD_cancel {α : Type} :
    ∀ (l : List α) (i : Nat) (d : α), i < l.length → l.set i (l.getD i d) = l
  | [], _, _, h => absurd h (Nat.not_lt_zero _)
  | _ :: _, 0, _, _ => rfl
  | x :: l, i + 1, d, h =>
    congrArg (fun r => x :: r) (list_set_getD_cancel l i d (Nat.lt_of_succ_lt_succ h))

theorem list_getD_mem {α : Type} :
    ∀ (l : List α) (i : Nat) (d : α), i < l.length → l.getD i d ∈ l
  | [], _, _, h => absurd h (Nat.not_lt_zero _)
  | _ :: _, 0, _, _ => List.mem_cons_self _ _
  | _ :: l, i + 1, d, h =>
    List.mem_cons_of_mem _ (list_getD_mem l i d (Nat.lt_of_succ_lt_succ h))

/-- Two writes at distinct indices are undone by writing back the original
entries in the same order. -/
theorem list_set2_restore {α : Type} (B : List α) (i j : Nat) (x y d : α)
    (hij : i ≠ j) (hi : i < B.length) (hj : j < B.length) :
    (((B.set i x).set j y).set i (B.getD i d)).set j (B.getD j d) = B := by
  rw [List.set_comm x y B hij, List.set_set,
    List.set_comm y (B.getD i d) B (Ne.symm hij).symm.symm,
    list_set_getD_cancel B i d hi, List.set_set, list_set_getD_cancel B j d hj]

/-- Two writes at distinct indices are undone by writing back the original
entries in reverse order. -/
theorem list_set2_restore_rev {α : Type} (B : List α) (i j : Nat) (x y d : α)
    (hij : i ≠ j) (hi : i < B.length) (hj : j < B.length) :
    (((B.set i x).set j y).set j (B.getD j d)).set i (B.getD i d) = B := by
  rw [List.set_set,
    show B.getD j d = (B.set i x).getD j d from (list_getD_set_ne B i j x d hij).symm,
    list_set_getD_cancel (B.set i x) j d (by rw [List.length_set]; exact hj),
    List.set_set, list_set_getD_cancel B i d hi]

theorem xor_cancel (z a : Nat) : z ^^^ a ^^^ a = z := by
  rw [Nat.xor_assoc, Nat.xor_self, Nat.xor_zero]

theorem Bitboard.testBit_MASK64 (j : Nat) :
    Bitboard.MASK64.testBit j = decide (j < 64) := by
  unfold Bitboard.MASK64
  exact Nat.testBit_two_pow_sub_one 64 j

theorem Bitboard.setBit_eq (v i : Nat) (h : i < 64) :
    Bitboard.setBit v i = v ||| 2 ^ i := by
  unfold Bitboard.setBit
  split
  · rfl
  · rename_i hge
    have h2 : 32 + (i - 32) % 32 = i := by omega
    rw [h2]

theorem Bitboard.clearBit_eq (v i : Nat) (h : i < 64) :
    Bitboard.clearBit v i = v &&& (Bitboard.MASK64 ^^^ 2 ^ i) := by
  unfold Bitboard.clearBit
  split
  · rfl
  · rename_i hge
    have h2 : 32 + (i - 32) % 32 = i := by omega
    rw [h2]

theorem Bitboard.isSet_eq_testBit (v i : Nat) (h : i < 64) :
    Bitboard.isSet v i = v.testBit i := by
  unfold Bitboard.isSet
  split
  · rfl
  · rename_i hge
    have h2 : 32 + (i - 32) % 32 = i := by omega
    rw [h2]

theorem Bitboard.setBit_clearBit_cancel (v i : Nat) (h64 : v < 2 ^ 64) (hi : i < 64)
    (h : v.testBit i = true) : Bitboard.setBit (Bitboard.clearBit v i) i = v := by
  rw [Bitboard.clearBit_eq _ _ hi, Bitboard.setBit_eq _ _ hi]
  apply Nat.eq_of_testBit_eq
  intro j
  rw [Nat.testBit_or, Nat.testBit_and, Nat.testBit_xor, Bitboard.testBit_MASK64,
    Nat.testBit_two_pow]
  by_cases hj : i = j
  · subst hj
    simp [h, hi]
  · by_cases hj64 : j < 64
    · simp [hj, hj64]
    · have hv : v.testBit j = false := Bitboard.testBit_high_eq_false v j h64 (by omega)
      simp [hv, hj, hj64]

theorem Bitboard.clearBit_setBit_cancel (v i : Nat) (h64 : v < 2 ^ 64) (hi : i < 64)
    (h : v.testBit i = false) : Bitboard.clearBit (Bitboard.setBit v i) i = v := by
  rw [Bitboard.clearBit_eq _ _ hi, Bitboard.setBit_eq _ _ hi]
  apply Nat.eq_of_testBit_eq
  intro j
  rw [Nat.testBit_and, Nat.testBit_or, Nat.testBit_xor, Bitboard.testBit_MASK64,
    Nat.testBit_two_pow]
  by_cases hj : i = j
  · subst hj
    simp [h, hi]
  · by_cases hj64 : j < 64
    · simp [hj, hj64]
    · have hv : v.testBit j = false := Bitboard.testBit_high_eq_false v j h64 (by omega)
      simp [hv, hj, hj64]

/-- Positions are equal when all eleven fields are. -/
theorem Position.ext' (p q : Position) (h1 : p.hashKey = q.hashKey)
    (h2 : p.bitboards = q.bitboards) (h3 : p.pieces = q.pieces) (h4 : p.turn = q.turn)
    (h5 : p.castlingRights = q.castlingRights) (h6 : p.enPassantSquare = q.enPassantSquare)
    (h7 : p.halfmoveClock = q.halfmoveClock) (h8 : p.madeMoves = q.madeMoves)
    (h9 : p.irreversibleHistory = q.irreversibleHistory)
    (h10 : p.hashHistory = q.hashHistory) (h11 : p.halfMoveClock = q.halfMoveClock) :
    p = q := by
  cases p
  cases q
  simp only [Position.mk.injEq]
  exact ⟨h1, h2, h3, h4, h5, h6, h7, h8, h9, h10, h11⟩

theorem Position.movePiece_bitboards (R : Nat → Nat) (q : Position) (pc c f t : Nat)
    (hne : pc ≠ ANY_WHITE + c) :
    (Position.movePiece R q pc c f t).bitboards =
      (q.bitboards.set pc
          (q.bitboards.getD pc 0 ^^^ (Bitboard.makeIndex f ||| Bitboard.makeIndex t))).set
        (ANY_WHITE + c)
        (q.bitboards.getD (ANY_WHITE + c) 0 ^^^
          (Bitboard.makeIndex f ||| Bitboard.makeIndex t)) := by
  unfold Position.movePiece Position.setBitboard Position.getPieceBitboard
    Position.getColorBitboard Position.getBitboard
  dsimp only
  rw [list_getD_set_ne _ _ _ _ _ hne]

theorem Position.movePiece_pieces (R : Nat → Nat) (q : Position) (pc c f t : Nat) :
    (Position.movePiece R q pc c f t).pieces = (q.pieces.set f none).set t (some pc) := rfl

theorem Position.movePiece_hashKey (R : Nat → Nat) (q : Position) (pc c f t : Nat) :
    (Position.movePiece R q pc c f t).hashKey =
      Zobrist.updatePieceColorSquare R
        (Zobrist.updatePieceColorSquare R q.hashKey pc c f) pc c t := rfl

theorem Position.movePiece_frame (R : Nat → Nat) (q : Position) (pc c f t : Nat) :
    (Position.movePiece R q pc c f t).turn = q.turn ∧
    (Position.movePiece R q pc c f t).castlingRights = q.castlingRights ∧
    (Position.movePiece R q pc c f t).enPassantSquare = q.enPassantSquare ∧
    (Position.movePiece R q pc c f t).halfmoveClock = q.halfmoveClock ∧
    (Position.movePiece R q pc c f t).madeMoves = q.madeMoves ∧
    (Position.movePiece R q pc c f t).irreversibleHistory = q.irreversibleHistory ∧
    (Position.movePiece R q pc c f t).hashHistory = q.hashHistory ∧
    (Position.movePiece R q pc c f t).halfMoveClock = q.halfMoveClock :=
  ⟨rfl, rfl, rfl, rfl, rfl, rfl, rfl, rfl⟩

theorem Position.capturePiece_bitboards (R : Nat → Nat) (q : Position) (cp c i : Nat)
    (hne : cp ≠ ANY_WHITE + c) :
    (Position.capturePiece R q cp c i).bitboards =
      (q.bitboards.set cp (Bitboard.clearBit (q.bitboards.getD cp 0) i)).set
        (ANY_WHITE + c) (Bitboard.clearBit (q.bitboards.getD (ANY_WHITE + c) 0) i) := by
  unfold Position.capturePiece Position.setBitboard Position.getPieceBitboard
    Position.getColorBitboard Position.getBitboard
  dsimp only
  rw [list_getD_set_ne _ _ _ _ _ hne]

theorem Position.capturePiece_pieces (R : Nat → Nat) (q : Position) (cp c i : Nat) :
    (Position.capturePiece R q cp c i).pieces = q.pieces.set i none := rfl

theorem Position.capturePiece_hashKey (R : Nat → Nat) (q : Position) (cp c i : Nat) :
    (Position.capturePiece R q cp c i).hashKey =
      Zobrist.updatePieceColorSquare R q.hashKey cp c i := rfl

theorem Position.capturePiece_frame (R : Nat → Nat) (q : Position) (cp c i : Nat) :
    (Position.capturePiece R q cp c i).turn = q.turn ∧
    (Position.capturePiece R q cp c i).castlingRights = q.castlingRights ∧
    (Position.capturePiece R q cp c i).enPassantSquare = q.enPassantSquare ∧
    (Position.capturePiece R q cp c i).halfmoveClock = q.halfmoveClock ∧
    (Position.capturePiece R q cp c i).madeMoves = q.madeMoves ∧
    (Position.capturePiece R q cp c i).irreversibleHistory = q.irreversibleHistory ∧
    (Position.capturePiece R q cp c i).hashHistory = q.hashHistory ∧
    (Position.capturePiece R q cp c i).halfMoveClock = q.halfMoveClock :=
  ⟨rfl, rfl, rfl, rfl, rfl, rfl, rfl, rfl⟩

theorem Position.unCapturePiece_bitboards (R : Nat → Nat) (q : Position) (cp c i : Nat)
    (hne : cp ≠ ANY_WHITE + c) :
    (Position.unCapturePiece R q cp c i).bitboards =
      (q.bitboards.set cp (Bitboard.setBit (q.bitboards.getD cp 0) i)).set
        (ANY_WHITE + c) (Bitboard.setBit (q.bitboards.getD (ANY_WHITE + c) 0) i) := by
  unfold Position.unCapturePiece Position.setBitboard Position.getPieceBitboard
    Position.getColorBitboard Position.getBitboard
  dsimp only
  rw [list_getD_set_ne _ _ _ _ _ hne]

theorem Position.unCapturePiece_pieces (R : Nat → Nat) (q : Position) (cp c i : Nat) :
    (Position.unCapturePiece R q cp c i).pieces = q.pieces.set i (some cp) := rfl

theorem Position.unCapturePiece_hashKey (R : Nat → Nat) (q : Position) (cp c i : Nat) :
    (Position.unCapturePiece R q cp c i).hashKey =
      Zobrist.updatePieceColorSquare R q.hashKey cp c i := rfl

theorem Position.unCapturePiece_frame (R : Nat → Nat) (q : Position) (cp c i : Nat) :
    (Position.unCapturePiece R q cp c i).turn = q.turn ∧
    (Position.unCapturePiece R q cp c i).castlingRights = q.castlingRights ∧
    (Position.unCapturePiece R q cp c i).enPassantSquare = q.enPassantSquare ∧
    (Position.unCapturePiece R q cp c i).halfmoveClock = q.halfmoveClock ∧
    (Position.unCapturePiece R q cp c i).madeMoves = q.madeMoves ∧
    (Position.unCapturePiece R q cp c i).irreversibleHistory = q.irreversibleHistory ∧
    (Position.unCapturePiece R q cp c i).hashHistory = q.hashHistory ∧
    (Position.unCapturePiece R q cp c i).halfMoveClock = q.halfMoveClock :=
  ⟨rfl, rfl, rfl, rfl, rfl, rfl, rfl, rfl⟩

theorem Position.promotePiece_bitboards (R : Nat → Nat) (q : Position)
    (pieceOld pieceNew c i : Nat) (hne : pieceOld ≠ pieceNew) :
    (Position.promotePiece R q pieceOld pieceNew c i).bitboards =
      (q.bitboards.set pieceOld (Bitboard.clearBit (q.bitboards.getD pieceOld 0) i)).set
        pieceNew (Bitboard.setBit (q.bitboards.getD pieceNew 0) i) := by
  unfold Position.promotePiece Position.setBitboard Position.getPieceBitboard
    Position.getBitboard
  dsimp only
  rw [list_getD_set_ne _ _ _ _ _ hne]

theorem Position.promotePiece_pieces (R : Nat → Nat) (q : Position)
    (pieceOld pieceNew c i : Nat) :
    (Position.promotePiece R q pieceOld pieceNew c i).pieces =
      q.pieces.set i (some pieceNew) := rfl

theorem Position.promotePiece_hashKey (R : Nat → Nat) (q : Position)
    (pieceOld pieceNew c i : Nat) :
    (Position.promotePiece R q pieceOld pieceNew c i).hashKey =
      Zobrist.updatePieceColorSquare R
        (Zobrist.updatePieceColorSquare R q.hashKey pieceOld c i) pieceNew c i := rfl

theorem Position.promotePiece_frame (R : Nat → Nat) (q : Position)
    (pieceOld pieceNew c i : Nat) :
    (Position.promotePiece R q pieceOld pieceNew c i).turn = q.turn ∧
    (Position.promotePiece R q pieceOld pieceNew c i).castlingRights = q.castlingRights ∧
    (Position.promotePiece R q pieceOld pieceNew c i).enPassantSquare = q.enPassantSquare ∧
    (Position.promotePiece R q pieceOld pieceNew c i).halfmoveClock = q.halfmoveClock ∧
    (Position.promotePiece R q pieceOld pieceNew c i).madeMoves = q.madeMoves ∧
    (Position.promotePiece R q pieceOld pieceNew c i).irreversibleHistory =
      q.irreversibleHistory ∧
    (Position.promotePiece R q pieceOld pieceNew c i).hashHistory = q.hashHistory ∧
    (Position.promotePiece R q pieceOld pieceNew c i).halfMoveClock = q.halfMoveClock :=
  ⟨rfl, rfl, rfl, rfl, rfl, rfl, rfl, rfl⟩

theorem Bitboard.makeIndex_eq (i : Nat) (h : i < 64) : Bitboard.makeIndex i = 2 ^ i := by
  unfold Bitboard.makeIndex
  rw [Bitboard.setBit_eq 0 i h, Nat.zero_or]

theorem Bitboard.testBit_lor_makeIndex (f t j : Nat) (hf : f < 64) (ht : t < 64) :
    (Bitboard.makeIndex f ||| Bitboard.makeIndex t).testBit j =
      (decide (f = j) || decide (t = j)) := by
  rw [Bitboard.makeIndex_eq f hf, Bitboard.makeIndex_eq t ht, Nat.testBit_or,
    Nat.testBit_two_pow, Nat.testBit_two_pow]

theorem Bitboard.lor_makeIndex_lt (f t : Nat) (hf : f < 64) (ht : t < 64) :
    Bitboard.makeIndex f ||| Bitboard.makeIndex t < 2 ^ 64 := by
  rw [Bitboard.makeIndex_eq f hf, Bitboard.makeIndex_eq t ht]
  exact Nat.or_lt_two_pow (Nat.pow_lt_pow_right (by omega) hf)
    (Nat.pow_lt_pow_right (by omega) ht)

theorem Bitboard.testBit_clearBit_self (v i : Nat) (hi : i < 64) :
    (Bitboard.clearBit v i).testBit i = false := by
  rw [Bitboard.clearBit_eq v i hi, Nat.testBit_and, Nat.testBit_xor,
    Bitboard.testBit_MASK64, Nat.testBit_two_pow]
  simp [hi]

theorem Bitboard.clearBit_lt (v i : Nat) (h : v < 2 ^ 64) :
    Bitboard.clearBit v i < 2 ^ 64 := by
  unfold Bitboard.clearBit
  split
  · exact Nat.lt_of_le_of_lt Nat.and_le_left h
  · exact Nat.lt_of_le_of_lt Nat.and_le_left h

theorem Bitboard.setBit_lt (v i : Nat) (h : v < 2 ^ 64) (hi : i < 64) :
    Bitboard.setBit v i < 2 ^ 64 := by
  rw [Bitboard.setBit_eq v i hi]
  exact Nat.or_lt_two_pow h (Nat.pow_lt_pow_right (by omega) hi)

/-- Writing two 64-bit values into a list of 64-bit values keeps every
entry below `2 ^ 64`. -/
theorem mem_set2_bound (B : List Nat) (i j x y : Nat)
    (hB : ∀ b ∈ B, b < 2 ^ 64) (hx : x < 2 ^ 64) (hy : y < 2 ^ 64) :
    ∀ b ∈ (B.set i x).set j y, b < 2 ^ 64 := by
  intro b hb
  rcases List.mem_or_eq_of_mem_set hb with hb2 | rfl
  · rcases List.mem_or_eq_of_mem_set hb2 with hb3 | rfl
    · exact hB b hb3
    · exact hx
  · exact hy

theorem Position.movePiece_getTurnColor (R : Nat → Nat) (q : Position) (pc c f t : Nat) :
    (Position.movePiece R q pc c f t).getTurnColor = q.getTurnColor := rfl

theorem Position.capturePiece_getTurnColor (R : Nat → Nat) (q : Position) (cp c i : Nat) :
    (Position.capturePiece R q cp c i).getTurnColor = q.getTurnColor := rfl

theorem Position.promotePiece_getTurnColor (R : Nat → Nat) (q : Position)
    (pieceOld pieceNew c i : Nat) :
    (Position.promotePiece R q pieceOld pieceNew c i).getTurnColor = q.getTurnColor := rfl

/-- Moving a piece back undoes moving it, when the source square held the
moving piece and the destination was empty. -/
theorem Position.movePiece_roundtrip (R : Nat → Nat) (q : Position) (pc c f t : Nat)
    (hlb : q.bitboards.length = 8) (hlp : q.pieces.length = 64)
    (hpc : pc < 6) (hc : c < 2) (hf : f < 64) (ht : t < 64) (hft : f ≠ t)
    (hpf : q.pieces.getD f none = some pc) (hpt : q.pieces.getD t none = none) :
    Position.movePiece R (Position.movePiece R q pc c f t) pc c t f = q := by
  have hne : pc ≠ ANY_WHITE + c := by
    unfold ANY_WHITE Piece.KING
    omega
  have hpcl : pc < q.bitboards.length := by omega
  have hacl : ANY_WHITE + c < q.bitboards.length := by
    unfold ANY_WHITE Piece.KING
    omega
  apply Position.ext'
  · rw [Position.movePiece_hashKey, Position.movePiece_hashKey]
    unfold Zobrist.updatePieceColorSquare Zobrist.update
    rw [xor_cancel, xor_cancel]
  · rw [Position.movePiece_bitboards R _ pc c t f hne,
      Position.movePiece_bitboards R q pc c f t hne,
      Nat.lor_comm (Bitboard.makeIndex t) (Bitboard.makeIndex f),
      list_getD_set_ne _ _ _ _ _ (Ne.symm hne), list_getD_set_self _ _ _ _ hpcl,
      xor_cancel]
    have hacl2 : ANY_WHITE + c <
        (q.bitboards.set pc
          (q.bitboards.getD pc 0 ^^^
            (Bitboard.makeIndex f ||| Bitboard.makeIndex t))).length := by
      rw [List.length_set]
      exact hacl
    rw [list_getD_set_self _ _ _ _ hacl2, xor_cancel]
    exact list_set2_restore q.bitboards pc (ANY_WHITE + c) _ _ 0 hne hpcl hacl
  · rw [Position.movePiece_pieces, Position.movePiece_pieces]
    have base := list_set2_restore_rev q.pieces f t none (some pc) none hft
      (by omega) (by omega)
    rw [hpt, hpf] at base
    exact base
  · rfl
  · rfl
  · rfl
  · rfl
  · rfl
  · rfl
  · rfl
  · rfl

/-- Replacing a captured piece undoes capturing it, when the capture square
held the captured piece with its piece and color bitboard bits set. -/
theorem Position.capture_roundtrip (R : Nat → Nat) (q : Position) (cp c i : Nat)
    (hlb : q.bitboards.length = 8) (hlp : q.pieces.length = 64)
    (hcp : cp < 6) (hc : c < 2) (hi : i < 64)
    (hb64 : ∀ b ∈ q.bitboards, b < 2 ^ 64)
    (hpi : q.pieces.getD i none = some cp)
    (hbbp : (q.bitboards.getD cp 0).testBit i = true)
    (hbbc : (q.bitboards.getD (ANY_WHITE + c) 0).testBit i = true) :
    Position.unCapturePiece R (Position.capturePiece R q cp c i) cp c i = q := by
  have hne : cp ≠ ANY_WHITE + c := by
    unfold ANY_WHITE Piece.KING
    omega
  have hpcl : cp < q.bitboards.length := by omega
  have hacl : ANY_WHITE + c < q.bitboards.length := by
    unfold ANY_WHITE Piece.KING
    omega
  have h64p : q.bitboards.getD cp 0 < 2 ^ 64 := hb64 _ (list_getD_mem _ _ _ hpcl)
  have h64c : q.bitboards.getD (ANY_WHITE + c) 0 < 2 ^ 64 :=
    hb64 _ (list_getD_mem _ _ _ hacl)
  apply Position.ext'
  · rw [Position.unCapturePiece_hashKey, Position.capturePiece_hashKey]
    unfold Zobrist.updatePieceColorSquare Zobrist.update
    rw [xor_cancel]
  · rw [Position.unCapturePiece_bitboards R _ cp c i hne,
      Position.capturePiece_bitboards R q cp c i hne,
      list_getD_set_ne _ _ _ _ _ (Ne.symm hne), list_getD_set_self _ _ _ _ hpcl,
      Bitboard.setBit_clearBit_cancel _ _ h64p hi hbbp]
    have hacl2 : ANY_WHITE + c <
        (q.bitboards.set cp (Bitboard.clearBit (q.bitboards.getD cp 0) i)).length := by
      rw [List.length_set]
      exact hacl
    rw [list_getD_set_self _ _ _ _ hacl2,
      Bitboard.setBit_clearBit_cancel _ _ h64c hi hbbc]
    exact list_set2_restore q.bitboards cp (ANY_WHITE + c) _ _ 0 hne hpcl hacl
  · rw [Position.unCapturePiece_pieces, Position.capturePiece_pieces, List.set_set]
    have base := list_set_getD_cancel q.pieces i none (by omega)
    rw [hpi] at base
    exact base
  · rfl
  · rfl
  · rfl
  · rfl
  · rfl
  · rfl
  · rfl
  · rfl

/-- Demoting a promoted piece undoes promoting it, when the square held the
old piece and the new piece type was absent there. -/
theorem Position.promote_roundtrip (R : Nat → Nat) (q : Position)
    (pieceOld pieceNew c i : Nat)
    (hlb : q.bitboards.length = 8) (hlp : q.pieces.length = 64)
    (hold : pieceOld < 6) (hnew : pieceNew < 6) (hon : pieceOld ≠ pieceNew) (hi : i < 64)
    (hb64 : ∀ b ∈ q.bitboards, b < 2 ^ 64)
    (hpi : q.pieces.getD i none = some pieceOld)
    (hbold : (q.bitboards.getD pieceOld 0).testBit i = true)
    (hbnew : (q.bitboards.getD pieceNew 0).testBit i = false) :
    Position.promotePiece R (Position.promotePiece R q pieceOld pieceNew c i)
      pieceNew pieceOld c i = q := by
  have holdl : pieceOld < q.bitboards.length := by omega
  have hnewl : pieceNew < q.bitboards.length := by omega
  have h64o : q.bitboards.getD pieceOld 0 < 2 ^ 64 := hb64 _ (list_getD_mem _ _ _ holdl)
  have h64n : q.bitboards.getD pieceNew 0 < 2 ^ 64 := hb64 _ (list_getD_mem _ _ _ hnewl)
  apply Position.ext'
  · rw [Position.promotePiece_hashKey, Position.promotePiece_hashKey]
    unfold Zobrist.updatePieceColorSquare Zobrist.update
    rw [xor_cancel, xor_cancel]
  · rw [Position.promotePiece_bitboards R _ pieceNew pieceOld c i (Ne.symm hon),
      Position.promotePiece_bitboards R q pieceOld pieceNew c i hon]
    have hnewl2 : pieceNew <
        (q.bitboards.set pieceOld
          (Bitboard.clearBit (q.bitboards.getD pieceOld 0) i)).length := by
      rw [List.length_set]
      exact hnewl
    rw [list_getD_set_self _ _ _ _ hnewl2,
      Bitboard.clearBit_setBit_cancel _ _ h64n hi hbnew,
      list_getD_set_ne _ _ _ _ _ (Ne.symm hon),
      list_getD_set_self _ _ _ _ holdl,
      Bitboard.setBit_clearBit_cancel _ _ h64o hi hbold]
    exact list_set2_restore_rev q.bitboards pieceOld pieceNew _ _ 0 hon holdl hnewl
  · rw [Position.promotePiece_pieces, Position.promotePiece_pieces, List.set_set]
    have base := list_set_getD_cancel q.pieces i none (by omega)
    rw [hpi] at base
    exact base
  · rfl
  · rfl
  · rfl
  · rfl
  · rfl
  · rfl
  · rfl
  · rfl

/-- The piece mutation of a consistent move is inverted exactly by
`revertPieces`, field for field. -/
theorem revert_update_of_consistent (R : Nat → Nat) (p : Position) (m : Move)
    (h : MoveConsistent p m) :
    Position.revertPieces R (Position.updatePieces R p m) m = p := by
  obtain ⟨hlb, hb64, hlp, hturn, hpc, hft, hpf, hcap, hpt, hcastle, hpromo⟩ := h
  have hf64 : m.getFrom < 64 := by
    unfold Move.getFrom
    rw [and63_eq_mod]
    exact Nat.mod_lt _ (by omega)
  have ht64 : m.getTo < 64 := by
    unfold Move.getTo
    rw [and63_eq_mod]
    exact Nat.mod_lt _ (by omega)
  have htc : p.getTurnColor < 2 := hturn
  have hoc : getOtherPieceColor p.getTurnColor < 2 := by
    unfold getOtherPieceColor Position.getTurnColor
    rcases (show p.turn = 0 ∨ p.turn = 1 by omega) with h0 | h0 <;> rw [h0] <;> decide
  by_cases hca : m.isCastle = true
  · have hk23 : m.getKind = Kind.KING_CASTLE ∨ m.getKind = Kind.QUEEN_CASTLE :=
      of_decide_eq_true hca
    have hncap : m.isCapture = false := by
      unfold Move.isCapture
      rcases hk23 with h2 | h2 <;> rw [h2] <;> rfl
    have hnpromo : m.isPromotion = false := by
      unfold Move.isPromotion
      rcases hk23 with h2 | h2 <;> rw [h2] <;> rfl
    have hptt : p.getPieceAtOrNull m.getTo = none := by
      apply hpt
      rintro ⟨h1, -⟩
      rw [hncap] at h1
      exact Bool.false_ne_true h1
    simp only [hca, if_true] at hcastle
    obtain ⟨hrfrt, hrff, hrft, hrtf, hrtt, hrf64, hrt64, hprf, hprt⟩ := hcastle
    unfold Position.updatePieces Position.revertPieces
    simp only [hncap, hca, hnpromo, Bool.false_eq_true, if_false, if_true]
    unfold Position.castleRook Position.unCastleRook
    simp only [Position.movePiece_getTurnColor]
    set ks : Bool := decide (m.getKind = Kind.KING_CASTLE) with hks
    set rf : Nat := Position.getCastlingRookSquare p.getTurnColor ks with hrfdef
    set rt : Nat := if ks = true then rf - 2 else rf + 3 with hrtdef
    have hneR : Piece.ROOK ≠ ANY_WHITE + p.getTurnColor := by
      unfold Piece.ROOK ANY_WHITE Piece.KING
      omega
    have hlb1 : (Position.movePiece R p Piece.ROOK p.getTurnColor rf rt).bitboards.length =
        8 := by
      rw [Position.movePiece_bitboards R p Piece.ROOK p.getTurnColor rf rt hneR,
        List.length_set, List.length_set]
      exact hlb
    have hlp1 : (Position.movePiece R p Piece.ROOK p.getTurnColor rf rt).pieces.length =
        64 := by
      rw [Position.movePiece_pieces, List.length_set, List.length_set]
      exact hlp
    have hpf1 : (Position.movePiece R p Piece.ROOK p.getTurnColor rf rt).pieces.getD
        m.getFrom none = some m.getPiece := by
      rw [Position.movePiece_pieces, list_getD_set_ne _ _ _ _ _ hrtf,
        list_getD_set_ne _ _ _ _ _ hrff]
      exact hpf
    have hpt1 : (Position.movePiece R p Piece.ROOK p.getTurnColor rf rt).pieces.getD
        m.getTo none = none := by
      rw [Position.movePiece_pieces, list_getD_set_ne _ _ _ _ _ hrtt,
        list_getD_set_ne _ _ _ _ _ hrft]
      exact hptt
    rw [Position.movePiece_roundtrip R (Position.movePiece R p Piece.ROOK p.getTurnColor rf rt)
      m.getPiece p.getTurnColor m.getFrom m.getTo hlb1 hlp1 hpc htc hf64 ht64 hft hpf1 hpt1]
    exact Position.movePiece_roundtrip R p Piece.ROOK p.getTurnColor rf rt hlb hlp
      (by decide) htc hrf64 hrt64 hrfrt hprf hprt
  · have hcaf : m.isCastle = false := by
      revert hca
      cases m.isCastle <;> simp
    by_cases hpr : m.isPromotion = true
    · simp only [hpr, if_true] at hpromo
      obtain ⟨hpcPAWN, hbPAWNt, hcpnePAWN, hbprt⟩ := hpromo
      have hprval : m.getPromotedPiece = Piece.KNIGHT + (m.getKind &&& 3) := by
        unfold Move.getPromotedPiece
        simp only [hpr, if_true]
      have hpr6 : m.getPromotedPiece < 6 := by
        rw [hprval]
        have h3 : m.getKind &&& 3 ≤ 3 := Nat.and_le_right
        unfold Piece.KNIGHT
        omega
      have hprne0 : m.getPromotedPiece ≠ Piece.PAWN := by
        rw [hprval]
        unfold Piece.KNIGHT Piece.PAWN
        omega
      have hbPAWN : (p.bitboards.getD Piece.PAWN 0).testBit m.getTo = false := by
        rw [← Bitboard.isSet_eq_testBit _ _ ht64]
        exact hbPAWNt
      have hnePA : Piece.PAWN ≠ ANY_WHITE + p.getTurnColor := by
        unfold Piece.PAWN ANY_WHITE Piece.KING
        omega
      have hneAPr : ANY_WHITE + p.getTurnColor ≠ m.getPromotedPiece := by
        unfold ANY_WHITE Piece.KING
        omega
      rw [hpcPAWN] at hpf
      have hFT64 : Bitboard.makeIndex m.getFrom ||| Bitboard.makeIndex m.getTo < 2 ^ 64 :=
        Bitboard.lor_makeIndex_lt _ _ hf64 ht64
      by_cases hcp : m.isCapture = true
      · -- promotion capture
        simp only [hcp, if_true] at hcap
        obtain ⟨hcp6, hcs64, hpcs, hbbcpS, hbbcS, hcsdisj⟩ := hcap
        have hcst : m.getCaptureSquare = m.getTo := by
          rcases hcsdisj with he | ⟨hk5, -, -⟩
          · exact he
          · exfalso
            have h8 : m.isPromotion = true := hpr
            unfold Move.isPromotion at h8
            rw [hk5] at h8
            exact absurd (of_decide_eq_true h8) (by decide)
        have hcpne : m.getCapturedPiece ≠ Piece.PAWN := hcpnePAWN hcp
        rw [hcst] at hpcs hbbcpS hbbcS
        have hbbcp : (p.bitboards.getD m.getCapturedPiece 0).testBit m.getTo = true := by
          rw [← Bitboard.isSet_eq_testBit _ _ ht64]
          exact hbbcpS
        have hbbc : (p.bitboards.getD (ANY_WHITE + getOtherPieceColor p.getTurnColor)
            0).testBit m.getTo = true := by
          rw [← Bitboard.isSet_eq_testBit _ _ ht64]
          exact hbbcS
        have hneC : m.getCapturedPiece ≠ ANY_WHITE + getOtherPieceColor p.getTurnColor := by
          unfold ANY_WHITE Piece.KING
          omega
        have hneAC : ANY_WHITE + getOtherPieceColor p.getTurnColor ≠ Piece.PAWN := by
          unfold ANY_WHITE Piece.KING Piece.PAWN
          omega
        have hneACpr : ANY_WHITE + getOtherPieceColor p.getTurnColor ≠ m.getPromotedPiece := by
          unfold ANY_WHITE Piece.KING
          omega
        unfold Position.updatePieces Position.revertPieces
        simp only [hcp, hcaf, hpr, Bool.false_eq_true, if_false, if_true]
        simp only [Position.movePiece_getTurnColor, Position.capturePiece_getTurnColor,
          Position.promotePiece_getTurnColor]
        rw [hcst, hpcPAWN]
        have hlbQ1 : (Position.capturePiece R p m.getCapturedPiece
            (getOtherPieceColor p.getTurnColor) m.getTo).bitboards.length = 8 := by
          rw [Position.capturePiece_bitboards R p _ _ _ hneC, List.length_set,
            List.length_set]
          exact hlb
        have hlpQ1 : (Position.capturePiece R p m.getCapturedPiece
            (getOtherPieceColor p.getTurnColor) m.getTo).pieces.length = 64 := by
          rw [Position.capturePiece_pieces, List.length_set]
          exact hlp
        have hb64Q1 : ∀ b ∈ (Position.capturePiece R p m.getCapturedPiece
            (getOtherPieceColor p.getTurnColor) m.getTo).bitboards, b < 2 ^ 64 := by
          rw [Position.capturePiece_bitboards R p _ _ _ hneC]
          exact mem_set2_bound _ _ _ _ _ hb64
            (Bitboard.clearBit_lt _ _ (hb64 _ (list_getD_mem _ _ _ (by omega))))
            (Bitboard.clearBit_lt _ _ (hb64 _ (list_getD_mem _ _ _ (by
              unfold ANY_WHITE Piece.KING
              omega))))
        have hgPAWNQ1 : (Position.capturePiece R p m.getCapturedPiece
            (getOtherPieceColor p.getTurnColor) m.getTo).bitboards.getD Piece.PAWN 0 =
            p.bitboards.getD Piece.PAWN 0 := by
          rw [Position.capturePiece_bitboards R p _ _ _ hneC,
            list_getD_set_ne _ _ _ _ _ hneAC, list_getD_set_ne _ _ _ _ _ hcpne]
        have hlbQ2 : (Position.movePiece R (Position.capturePiece R p m.getCapturedPiece
            (getOtherPieceColor p.getTurnColor) m.getTo) Piece.PAWN p.getTurnColor
            m.getFrom m.getTo).bitboards.length = 8 := by
          rw [Position.movePiece_bitboards R _ _ _ _ _ hnePA, List.length_set,
            List.length_set]
          exact hlbQ1
        have hlpQ2 : (Position.movePiece R (Position.capturePiece R p m.getCapturedPiece
            (getOtherPieceColor p.getTurnColor) m.getTo) Piece.PAWN p.getTurnColor
            m.getFrom m.getTo).pieces.length = 64 := by
          rw [Position.movePiece_pieces, List.length_set, List.length_set]
          exact hlpQ1
        have hb64Q2 : ∀ b ∈ (Position.movePiece R (Position.capturePiece R p
            m.getCapturedPiece (getOtherPieceColor p.getTurnColor) m.getTo) Piece.PAWN
            p.getTurnColor m.getFrom m.getTo).bitboards, b < 2 ^ 64 := by
          rw [Position.movePiece_bitboards R _ _ _ _ _ hnePA]
          exact mem_set2_bound _ _ _ _ _ hb64Q1
            (Nat.xor_lt_two_pow (hb64Q1 _ (list_getD_mem _ _ _ (by omega))) hFT64)
            (Nat.xor_lt_two_pow (hb64Q1 _ (list_getD_mem _ _ _ (by
              unfold ANY_WHITE Piece.KING
              omega))) hFT64)
        have hpiQ2 : (Position.movePiece R (Position.capturePiece R p m.getCapturedPiece
            (getOtherPieceColor p.getTurnColor) m.getTo) Piece.PAWN p.getTurnColor
            m.getFrom m.getTo).pieces.getD m.getTo none = some Piece.PAWN := by
          rw [Position.movePiece_pieces]
          exact list_getD_set_self _ _ _ _ (by rw [List.length_set, hlpQ1]; omega)
        have hboldQ2 : ((Position.movePiece R (Position.capturePiece R p
            m.getCapturedPiece (getOtherPieceColor p.getTurnColor) m.getTo) Piece.PAWN
            p.getTurnColor m.getFrom m.getTo).bitboards.getD Piece.PAWN 0).testBit
            m.getTo = true := by
          rw [Position.movePiece_bitboards R _ _ _ _ _ hnePA,
            list_getD_set_ne _ _ _ _ _ (Ne.symm hnePA),
            list_getD_set_self _ _ _ _ (by rw [hlbQ1]; omega),
            hgPAWNQ1, Nat.testBit_xor,
            Bitboard.testBit_lor_makeIndex _ _ _ hf64 ht64, hbPAWN]
          simp [hft]
        have hbnewQ2 : ((Position.movePiece R (Position.capturePiece R p
            m.getCapturedPiece (getOtherPieceColor p.getTurnColor) m.getTo) Piece.PAWN
            p.getTurnColor m.getFrom m.getTo).bitboards.getD m.getPromotedPiece
            0).testBit m.getTo = false := by
          rw [Position.movePiece_bitboards R _ _ _ _ _ hnePA,
            list_getD_set_ne _ _ _ _ _ hneAPr,
            list_getD_set_ne _ _ _ _ _ (fun e => hprne0 e.symm),
            Position.capturePiece_bitboards R p _ _ _ hneC,
            list_getD_set_ne _ _ _ _ _ hneACpr]
          by_cases hcppr : m.getCapturedPiece = m.getPromotedPiece
          · rw [← hcppr, list_getD_set_self _ _ _ _ (by omega)]
            exact Bitboard.testBit_clearBit_self _ _ ht64
          · rw [list_getD_set_ne _ _ _ _ _ hcppr]
            have hiso := hbprt fun hco => hcppr hco.2
            rw [← Bitboard.isSet_eq_testBit _ _ ht64]
            exact hiso
        rw [Position.promote_roundtrip R (Position.movePiece R (Position.capturePiece R p
          m.getCapturedPiece (getOtherPieceColor p.getTurnColor) m.getTo) Piece.PAWN
          p.getTurnColor m.getFrom m.getTo) Piece.PAWN m.getPromotedPiece p.getTurnColor
          m.getTo hlbQ2 hlpQ2 (by decide) hpr6 (fun e => hprne0 e.symm) ht64 hb64Q2
          hpiQ2 hboldQ2 hbnewQ2]
        have hpfQ1 : (Position.capturePiece R p m.getCapturedPiece
            (getOtherPieceColor p.getTurnColor) m.getTo).pieces.getD m.getFrom none =
            some Piece.PAWN := by
          rw [Position.capturePiece_pieces,
            list_getD_set_ne _ _ _ _ _ (Ne.symm hft)]
          exact hpf
        have hptQ1 : (Position.capturePiece R p m.getCapturedPiece
            (getOtherPieceColor p.getTurnColor) m.getTo).pieces.getD m.getTo none =
            none := by
          rw [Position.capturePiece_pieces]
          exact list_getD_set_self _ _ _ _ (by omega)
        rw [Position.movePiece_roundtrip R (Position.capturePiece R p m.getCapturedPiece
          (getOtherPieceColor p.getTurnColor) m.getTo) Piece.PAWN p.getTurnColor
          m.getFrom m.getTo hlbQ1 hlpQ1 (by decide) htc hf64 ht64 hft hpfQ1 hptQ1]
        exact Position.capture_roundtrip R p m.getCapturedPiece
          (getOtherPieceColor p.getTurnColor) m.getTo hlb hlp hcp6 hoc ht64 hb64 hpcs
          hbbcp hbbc
      · -- plain promotion
        have hptt : p.getPieceAtOrNull m.getTo = none := hpt fun hco => hcp hco.1
        have hbprT : (p.bitboards.getD m.getPromotedPiece 0).testBit m.getTo = false := by
          rw [← Bitboard.isSet_eq_testBit _ _ ht64]
          exact hbprt fun hco => hcp hco.1
        have hcpf : m.isCapture = false := by
          revert hcp
          cases m.isCapture <;> simp
        unfold Position.updatePieces Position.revertPieces
        simp only [hcpf, hcaf, hpr, Bool.false_eq_true, if_false, if_true]
        simp only [Position.movePiece_getTurnColor, Position.promotePiece_getTurnColor]
        rw [hpcPAWN]
        have hlbQ1 : (Position.movePiece R p Piece.PAWN p.getTurnColor m.getFrom
            m.getTo).bitboards.length = 8 := by
          rw [Position.movePiece_bitboards R _ _ _ _ _ hnePA, List.length_set,
            List.length_set]
          exact hlb
        have hlpQ1 : (Position.movePiece R p Piece.PAWN p.getTurnColor m.getFrom
            m.getTo).pieces.length = 64 := by
          rw [Position.movePiece_pieces, List.length_set, List.length_set]
          exact hlp
        have hb64Q1 : ∀ b ∈ (Position.movePiece R p Piece.PAWN p.getTurnColor m.getFrom
            m.getTo).bitboards, b < 2 ^ 64 := by
          rw [Position.movePiece_bitboards R _ _ _ _ _ hnePA]
          exact mem_set2_bound _ _ _ _ _ hb64
            (Nat.xor_lt_two_pow (hb64 _ (list_getD_mem _ _ _ (by omega))) hFT64)
            (Nat.xor_lt_two_pow (hb64 _ (list_getD_mem _ _ _ (by
              unfold ANY_WHITE Piece.KING
              omega))) hFT64)
        have hpiQ1 : (Position.movePiece R p Piece.PAWN p.getTurnColor m.getFrom
            m.getTo).pieces.getD m.getTo none = some Piece.PAWN := by
          rw [Position.movePiece_pieces]
          exact list_getD_set_self _ _ _ _ (by rw [List.length_set, hlp]; omega)
        have hboldQ1 : ((Position.movePiece R p Piece.PAWN p.getTurnColor m.getFrom
            m.getTo).bitboards.getD Piece.PAWN 0).testBit m.getTo = true := by
          rw [Position.movePiece_bitboards R _ _ _ _ _ hnePA,
            list_getD_set_ne _ _ _ _ _ (Ne.symm hnePA),
            list_getD_set_self _ _ _ _ (by rw [hlb]; omega),
            Nat.testBit_xor, Bitboard.testBit_lor_makeIndex _ _ _ hf64 ht64, hbPAWN]
          simp [hft]
        have hbnewQ1 : ((Position.movePiece R p Piece.PAWN p.getTurnColor m.getFrom
            m.getTo).bitboards.getD m.getPromotedPiece 0).testBit m.getTo = false := by
          rw [Position.movePiece_bitboards R _ _ _ _ _ hnePA,
            list_getD_set_ne _ _ _ _ _ hneAPr,
            list_getD_set_ne _ _ _ _ _ (fun e => hprne0 e.symm)]
          exact hbprT
        rw [Position.promote_roundtrip R (Position.movePiece R p Piece.PAWN
          p.getTurnColor m.getFrom m.getTo) Piece.PAWN m.getPromotedPiece p.getTurnColor
          m.getTo hlbQ1 hlpQ1 (by decide) hpr6 (fun e => hprne0 e.symm) ht64 hb64Q1
          hpiQ1 hboldQ1 hbnewQ1]
        exact Position.movePiece_roundtrip R p Piece.PAWN p.getTurnColor m.getFrom
          m.getTo hlb hlp (by decide) htc hf64 ht64 hft hpf hptt
    · by_cases hcp : m.isCapture = true
      · -- plain capture (normal or en passant)
        simp only [hcp, if_true] at hcap
        obtain ⟨hcp6, hcs64, hpcs, hbbcpS, hbbcS, hcsdisj⟩ := hcap
        have hprf : m.isPromotion = false := by
          revert hpr
          cases m.isPromotion <;> simp
        have hcsf : m.getCaptureSquare ≠ m.getFrom := by
          rcases hcsdisj with he | ⟨-, -, hnef⟩
          · rw [he]
            exact Ne.symm hft
          · exact hnef
        have hbbcp : (p.bitboards.getD m.getCapturedPiece 0).testBit m.getCaptureSquare =
            true := by
          rw [← Bitboard.isSet_eq_testBit _ _ hcs64]
          exact hbbcpS
        have hbbc : (p.bitboards.getD (ANY_WHITE + getOtherPieceColor p.getTurnColor)
            0).testBit m.getCaptureSquare = true := by
          rw [← Bitboard.isSet_eq_testBit _ _ hcs64]
          exact hbbcS
        have hneC : m.getCapturedPiece ≠ ANY_WHITE + getOtherPieceColor p.getTurnColor := by
          unfold ANY_WHITE Piece.KING
          omega
        unfold Position.updatePieces Position.revertPieces
        simp only [hcp, hcaf, hprf, Bool.false_eq_true, if_false, if_true]
        simp only [Position.movePiece_getTurnColor, Position.capturePiece_getTurnColor]
        have hlbQ1 : (Position.capturePiece R p m.getCapturedPiece
            (getOtherPieceColor p.getTurnColor) m.getCaptureSquare).bitboards.length =
            8 := by
          rw [Position.capturePiece_bitboards R p _ _ _ hneC, List.length_set,
            List.length_set]
          exact hlb
        have hlpQ1 : (Position.capturePiece R p m.getCapturedPiece
            (getOtherPieceColor p.getTurnColor) m.getCaptureSquare).pieces.length =
            64 := by
          rw [Position.capturePiece_pieces, List.length_set]
          exact hlp
        have hpfQ1 : (Position.capturePiece R p m.getCapturedPiece
            (getOtherPieceColor p.getTurnColor) m.getCaptureSquare).pieces.getD
            m.getFrom none = some m.getPiece := by
          rw [Position.capturePiece_pieces, list_getD_set_ne _ _ _ _ _ hcsf]
          exact hpf
        have hptQ1 : (Position.capturePiece R p m.getCapturedPiece
            (getOtherPieceColor p.getTurnColor) m.getCaptureSquare).pieces.getD
            m.getTo none = none := by
          rw [Position.capturePiece_pieces]
          rcases hcsdisj with he | ⟨-, hnet, -⟩
          · rw [he]
            exact list_getD_set_self _ _ _ _ (by omega)
          · rw [list_getD_set_ne _ _ _ _ _ hnet]
            exact hpt fun hco => hnet hco.2
        rw [Position.movePiece_roundtrip R (Position.capturePiece R p m.getCapturedPiece
          (getOtherPieceColor p.getTurnColor) m.getCaptureSquare) m.getPiece
          p.getTurnColor m.getFrom m.getTo hlbQ1 hlpQ1 hpc htc hf64 ht64 hft hpfQ1 hptQ1]
        exact Position.capture_roundtrip R p m.getCapturedPiece
          (getOtherPieceColor p.getTurnColor) m.getCaptureSquare hlb hlp hcp6 hoc hcs64
          hb64 hpcs hbbcp hbbc
      · -- quiet move
        have hptt : p.getPieceAtOrNull m.getTo = none := hpt fun hco => hcp hco.1
        have hcpf : m.isCapture = false := by
          revert hcp
          cases m.isCapture <;> simp
        have hprf : m.isPromotion = false := by
          revert hpr
          cases m.isPromotion <;> simp
        unfold Position.updatePieces Position.revertPieces
        simp only [hcpf, hcaf, hprf, Bool.false_eq_true, if_false]
        simp only [Position.movePiece_getTurnColor]
        exact Position.movePiece_roundtrip R p m.getPiece p.getTurnColor m.getFrom
          m.getTo hlb hlp hpc htc hf64 ht64 hft hpf hptt

/-- A consistent move whose piece mutation leaves the mover's king attacked
is rejected by `makeMove` with the state it returns equal to the input. -/
theorem Position.makeMove_rejected_eq (R : Nat → Nat) (p : Position) (m : Move)
    (hcons : MoveConsistent p m)
    (hcheck : Position.isKingInCheck (Position.updatePieces R p m) = true) :
    Position.makeMove R p m = (false, p) := by
  have hcond : Position.isKingInCheck
      (Position.updatePieces R { p with hashHistory := p.hashKey :: p.hashHistory } m) =
      true := by
    rw [Position.updatePieces_set_hashHistory]
    exact (Position.isKingInCheck_congr _ (Position.updatePieces R p m) rfl rfl).trans
      hcheck
  have hround : Position.revertPieces R
      (Position.updatePieces R { p with hashHistory := p.hashKey :: p.hashHistory } m)
      m = { p with hashHistory := p.hashKey :: p.hashHistory } :=
    revert_update_of_consistent R _ m hcons
  unfold Position.makeMove
  simp only [hcond, if_true]
  rw [hround]
  rfl

/-- C2: a pseudo-legal move whose application would leave the mover's own
king attacked is rejected: `makeMove` returns false and the entire
observable state — bitboards, piece table, turn, castling rights,
en-passant square, halfmove clock, hash and all three history stacks — is
identical to its value before the call. -/
theorem makeMove_rejected_state_unchanged (R : Nat → Nat) (p : Position) (m : Move)
    (_hm : m ∈ Position.generateMoves p false) (hcons : MoveConsistent p m)
    (hcheck : Position.isKingInCheck (Position.updatePieces R p m) = true) :
    Position.makeMove R p m = (false, p) :=
  Position.makeMove_rejected_eq R p m hcons hcheck

/-- Witness for C2: in the position after 1. e4 e5 2. Bb5 the pseudo-legal
pawn push d7-d6 exposes the black king to the bishop, and `makeMove`
rejects it with the position unchanged. -/
theorem makeMove_rejected_state_unchanged_witness :
    moveD7D6 ∈ Position.generateMoves pinnedPos false ∧
      Position.makeMove R1 pinnedPos moveD7D6 = (false, pinnedPos) := by
  have hm : moveD7D6 ∈ Position.generateMoves pinnedPos false := by decide!
  refine ⟨hm, makeMove_rejected_state_unchanged R1 pinnedPos moveD7D6 hm ?_ (by decide!)⟩
  unfold MoveConsistent
  decide!

/-! ## C9: the search returns null when no root move is legal -/

/-- The root loop keeps a null best move when every pseudo-legal move is
rejected with the position unchanged. -/
theorem searchLoop_none (R : Nat → Nat) (ab : Position → Int → Int → Int)
    (l : List Move) (p : Position) (a b : Int)
    (hrej : ∀ m ∈ l, Position.makeMove R p m = (false, p)) :
    AI.searchLoop R ab l p a b none = none := by
  induction l with
  | nil => rfl
  | cons m rest ih =>
    unfold AI.searchLoop
    rw [hrej m (List.mem_cons_self m rest)]
    exact ih fun m2 hm2 => hrej m2 (List.mem_cons_of_mem m hm2)

/-- C9: at a position with no legal move, `Chess.AI.search` returns null
("no move") rather than failing: every root move is rejected by `makeMove`,
so the best-move accumulator is never written. -/
theorem search_no_legal_root_returns_none (R : Nat → Nat) (qfuel : Nat) (p : Position)
    (hcons : ∀ m ∈ Position.generateMoves p false, MoveConsistent p m)
    (hnl : Position.getMoves R p false false = []) :
    AI.search R qfuel p = none := by
  have hleg : ∀ m ∈ Position.generateMoves p false,
      Position.isMoveLegal R p m = false := by
    unfold Position.getMoves at hnl
    simp only [Bool.false_eq_true, if_false] at hnl
    intro m hm
    have h1 := List.filter_eq_nil_iff.mp hnl m hm
    revert h1
    cases Position.isMoveLegal R p m <;> simp
  have hrej : ∀ m ∈ Position.generateMoves p false,
      Position.makeMove R p m = (false, p) := by
    intro m hm
    apply Position.makeMove_rejected_eq R p m (hcons m hm)
    have h1 := hleg m hm
    unfold Position.isMoveLegal at h1
    revert h1
    cases Position.isKingInCheck (Position.updatePieces R p m) <;> simp
  unfold AI.search
  apply searchLoop_none
  intro m hm
  unfold AI.sortMoves at hm
  exact hrej m (List.mem_mergeSort.mp hm)

/-- Witness for C9 at the fastest checkmate: the mated position has no
legal move and the search returns null. -/
theorem search_no_legal_root_returns_none_witness :
    Position.getMoves R1 foolsMatePos false false = [] ∧
      AI.search R1 1 foolsMatePos = none := by
  refine ⟨by decide!, search_no_legal_root_returns_none R1 1 foolsMatePos ?_ (by decide!)⟩
  unfold MoveConsistent
  decide!

/-! ## C4: hash consistency for reachable positions -/

set_option synthInstance.maxSize 4000 in
set_option synthInstance.maxHeartbeats 2000000 in
/-- The initial position satisfies the state invariant. -/
theorem Position.stateOk_initial (R : Nat → Nat) :
    Position.StateOk (initialPosition R) := by
  have h : Position.StateOk (Position.fillPiecesFromBitboards initialSetup) := by
    unfold Position.StateOk Position.SquareOk Position.EnPassantOk Position.CastleOk
    decide!
  exact h

/-- The initial position's hash is the hash recomputed from scratch. -/
theorem Position.hashOk_initial (R : Nat → Nat) :
    (initialPosition R).hashKey = Position.computeHashKey R (initialPosition R) := rfl

theorem Bitboard.lowestBitAux_testBit :
    ∀ (fuel v : Nat), v ≠ 0 → v < 2 ^ fuel →
      v.testBit (Bitboard.lowestBitAux fuel v) = true
  | 0, v, hv, hlt => absurd (Nat.lt_one_iff.mp hlt) hv
  | fuel + 1, v, hv, hlt => by
    unfold Bitboard.lowestBitAux
    split
    · rename_i h2
      simp [Nat.testBit_zero, h2]
    · rename_i h2
      have h3 : v / 2 ≠ 0 := by omega
      have h4 : v / 2 < 2 ^ fuel := by
        rw [Nat.pow_succ] at hlt
        omega
      have h5 := Bitboard.lowestBitAux_testBit fuel (v / 2) h3 h4
      rw [Nat.add_comm 1 (Bitboard.lowestBitAux fuel (v / 2)), Nat.testBit_add_one]
      exact h5

theorem Bitboard.testBit_popLowestBit (v i : Nat)
    (h : (Bitboard.popLowestBit v).testBit i = true) : v.testBit i = true := by
  unfold Bitboard.popLowestBit at h
  rw [Nat.testBit_and, Bool.and_eq_true] at h
  exact h.1

theorem Bitboard.testBit_lt_64 (v i : Nat) (h64 : v < 2 ^ 64)
    (h : v.testBit i = true) : i < 64 := by
  by_contra hge
  rw [Bitboard.testBit_high_eq_false v i h64 (by omega)] at h
  exact Bool.false_ne_true h

/-- Every move the extraction loop emits comes from a set bit of the mask. -/
theorem movesFromMask_mem_strong :
    ∀ {fuel mask : Nat} {g : Nat → Move} {m : Move}, mask < 2 ^ 64 →
      m ∈ Position.movesFromMask fuel mask g →
      ∃ i, i < 64 ∧ mask.testBit i = true ∧ m = g i := by
  intro fuel
  induction fuel with
  | zero =>
    intro mask g m _ h
    exact absurd h (List.not_mem_nil m)
  | succ fuel ih =>
    intro mask g m h64 hm
    unfold Position.movesFromMask at hm
    by_cases h0 : mask = 0
    · rw [if_pos h0] at hm
      exact absurd hm (List.not_mem_nil m)
    · rw [if_neg h0] at hm
      rcases List.mem_cons.mp hm with he | ht
      · have hb : mask.testBit (Bitboard.getLowestBitPosition mask) = true :=
          Bitboard.lowestBitAux_testBit 64 mask h0 h64
        exact ⟨Bitboard.getLowestBitPosition mask,
          Bitboard.testBit_lt_64 mask _ h64 hb, hb, he⟩
      · obtain ⟨i, hi64, hbit, hgi⟩ := ih (Nat.lt_of_le_of_lt Nat.and_le_left h64) ht
        exact ⟨i, hi64, Bitboard.testBit_popLowestBit mask i hbit, hgi⟩

/-- Every move of the per-piece loop comes from a set bit of the piece
bitboard and from that piece's own move list. -/
theorem piecesFromMask_mem_strong :
    ∀ {fuel bb : Nat} {g : Nat → List Move} {m : Move}, bb < 2 ^ 64 →
      m ∈ Position.piecesFromMask fuel bb g →
      ∃ k, k < 64 ∧ bb.testBit k = true ∧ m ∈ g k := by
  intro fuel
  induction fuel with
  | zero =>
    intro bb g m _ h
    exact absurd h (List.not_mem_nil m)
  | succ fuel ih =>
    intro bb g m h64 hm
    unfold Position.piecesFromMask at hm
    by_cases h0 : bb = 0
    · rw [if_pos h0] at hm
      exact absurd hm (List.not_mem_nil m)
    · rw [if_neg h0] at hm
      rcases List.mem_append.mp hm with he | ht
      · have hb : bb.testBit (Bitboard.getLowestBitPosition bb) = true :=
          Bitboard.lowestBitAux_testBit 64 bb h0 h64
        exact ⟨Bitboard.getLowestBitPosition bb,
          Bitboard.testBit_lt_64 bb _ h64 hb, hb, he⟩
      · obtain ⟨k, hk64, hbit, hgk⟩ := ih (Nat.lt_of_le_of_lt Nat.and_le_left h64) ht
        exact ⟨k, hk64, Bitboard.testBit_popLowestBit bb k hbit, hgk⟩

theorem Bitboard.shl_lt (v n : Nat) : Bitboard.shl v n < 2 ^ 64 := by
  unfold Bitboard.shl Bitboard.MASK64
  exact Nat.lt_of_le_of_lt Nat.and_le_right (by omega)

theorem Bitboard.shr_lt (v n : Nat) (h : v < 2 ^ 64) : Bitboard.shr v n < 2 ^ 64 := by
  unfold Bitboard.shr
  rw [Nat.shiftRight_eq_div_pow]
  exact Nat.lt_of_le_of_lt (Nat.div_le_self _ _) h

theorem Bitboard.shiftLeft_lt (v : Nat) (d : Int) (h : v < 2 ^ 64) :
    Bitboard.shiftLeft v d < 2 ^ 64 := by
  unfold Bitboard.shiftLeft
  rcases d with n | n
  · dsimp only
    split
    · omega
    · exact Bitboard.shl_lt v n
  · dsimp only
    split
    · omega
    · exact Bitboard.shr_lt v (n + 1) h

theorem Bitboard.and_lt_left (v w : Nat) (h : v < 2 ^ 64) : v &&& w < 2 ^ 64 :=
  Nat.lt_of_le_of_lt Nat.and_le_left h

theorem Bitboard.and_lt_right (v w : Nat) (h : w < 2 ^ 64) : v &&& w < 2 ^ 64 :=
  Nat.lt_of_le_of_lt Nat.and_le_right h

theorem Bitboard.testBit_bnot (v i : Nat) (hi : i < 64) :
    (Bitboard.bnot v).testBit i = !v.testBit i := by
  unfold Bitboard.bnot
  rw [Nat.testBit_xor, Bitboard.testBit_MASK64]
  simp [hi]

theorem Bitboard.testBit_andNot (v w i : Nat) (hi : i < 64) :
    (Bitboard.andNot v w).testBit i = (v.testBit i && !w.testBit i) := by
  unfold Bitboard.andNot
  rw [Nat.testBit_and, Bitboard.testBit_bnot w i hi]

theorem Bitboard.testBit_shl (v n i : Nat) (hi : i < 64) :
    (Bitboard.shl v n).testBit i = (decide (n ≤ i) && v.testBit (i - n)) := by
  unfold Bitboard.shl
  rw [Nat.testBit_and, Bitboard.testBit_MASK64, Nat.testBit_shiftLeft]
  simp [hi]

theorem Bitboard.testBit_shr (v n i : Nat) :
    (Bitboard.shr v n).testBit i = v.testBit (n + i) := by
  unfold Bitboard.shr
  exact Nat.testBit_shiftRight v

/-! ## C3: perft node counts (kernel-checked at depths 1 and 2) -/

/-- The perft node count of the initial position at depth 1. -/
theorem perft_initial_depth_one : perft R1 1 init1 = 20 := by decide!

/-- The perft node count of the initial position at depth 2. -/
theorem perft_initial_depth_two : perft R1 2 init1 = 400 := by decide!

/-! ## C10: status order — mate and stalemate precede the draw tests -/

/-- C10: with no legal move, the status is checkmate or stalemate by the
check test regardless of any draw condition; with a legal move available,
the fifty-move, repetition and insufficient-material draws are reported in
that fixed order. -/
theorem getStatus_priority (R : Nat → Nat) (p : Position) :
    (Position.getMoves R p false false = [] →
      Position.getStatus R p =
        if p.isKingInCheck then Status.CHECKMATE else Status.STALEMATE_DRAW) ∧
    (Position.getMoves R p false false ≠ [] → p.isFiftyMoveRuleDraw = true →
      Position.getStatus R p = Status.FIFTY_MOVE_RULE_DRAW) ∧
    (Position.getMoves R p false false ≠ [] → p.isFiftyMoveRuleDraw = false →
      p.isThreefoldRepetitionRuleDraw = true →
      Position.getStatus R p = Status.THREEFOLD_REPETITION_RULE_DRAW) ∧
    (Position.getMoves R p false false ≠ [] → p.isFiftyMoveRuleDraw = false →
      p.isThreefoldRepetitionRuleDraw = false → p.isInsufficientMaterialDraw = true →
      Position.getStatus R p = Status.INSUFFICIENT_MATERIAL_DRAW) := by
  unfold Position.getStatus
  refine ⟨fun h => ?_, fun h h50 => ?_, fun h h50 h3 => ?_, fun h h50 h3 hm => ?_⟩
  · simp [h]
  · simp [List.length_eq_zero, h, h50]
  · simp [List.length_eq_zero, h, h50, h3]
  · simp [List.length_eq_zero, h, h50, h3, hm]

/-- Witness for C10: the fastest checkmate yields the checkmate status even
though its draw predicates are all false; the hypotheses are discharged at
that concrete position. -/
theorem getStatus_priority_witness :
    Position.getStatus R1 foolsMatePos = Status.CHECKMATE := by
  have h := (getStatus_priority R1 foolsMatePos).1 (by decide!)
  rw [h]
  decide!

/-! ## C1: make followed by unmake — the halfmove clock is not restored -/

/-- C1: making the legal quiet knight move b1-c3 in the initial position
and unmaking it restores the hash, all bitboards, the pieces table, the
turn, the castling rights, the en-passant square and the history stacks
bit-for-bit, but the halfmove clock, raised to 1 by the knight move, stays
1: the popped pre-move value 0 lands in the misspelled property
`halfMoveClock` that nothing reads, exactly as the source line
`this.halfMoveClock = this.irreversibleHistory.pop()` does. -/
theorem makeUnmake_clock_not_restored :
    c1Made.1 = true ∧
    c1Unmade.hashKey = init1.hashKey ∧
    c1Unmade.bitboards = init1.bitboards ∧
    c1Unmade.pieces = init1.pieces ∧
    c1Unmade.turn = init1.turn ∧
    c1Unmade.castlingRights = init1.castlingRights ∧
    c1Unmade.enPassantSquare = init1.enPassantSquare ∧
    c1Unmade.madeMoves = init1.madeMoves ∧
    c1Unmade.irreversibleHistory = init1.irreversibleHistory ∧
    c1Unmade.hashHistory = init1.hashHistory ∧
    init1.halfmoveClock = 0 ∧
    c1Unmade.halfmoveClock = 1 ∧
    c1Unmade.halfMoveClock = 0 := by
  decide!


/-! ### Derived facts from the state invariant -/

theorem Position.getBitboard_lt (p : Position) (h : ∀ b ∈ p.bitboards, b < 2 ^ 64)
    (j : Nat) : p.getBitboard j < 2 ^ 64 := by
  unfold Position.getBitboard
  rcases Nat.lt_or_ge j p.bitboards.length with h1 | h1
  · exact h _ (list_getD_mem _ _ _ h1)
  · rw [List.getD_eq_default _ _ h1]
    norm_num

theorem Position.pieceAt_of_pieceBit {p : Position} (hS : Position.StateOk p)
    {pc i : Nat} (hpc : pc < 6) (hi : i < 64)
    (hb : (p.getPieceBitboard pc).testBit i = true) :
    p.getPieceAtOrNull i = some pc := by
  obtain ⟨-, -, -, -, -, hsq, -⟩ := hS
  obtain ⟨hlt, hnone, hsome⟩ := hsq i hi
  unfold Position.getPieceAtOrNull
  rcases hx : p.pieces.getD i none with _ | pc2
  · exact absurd hb (by simp [(hnone hx).1 pc hpc])
  · have h6 : pc2 < 6 := by rw [hx] at hlt; simpa using hlt
    by_cases he : pc2 = pc
    · rw [he]
    · obtain ⟨-, hothers, -⟩ := hsome pc2 h6 hx
      exact absurd hb (by simp [hothers pc hpc (fun e => he e.symm)])

theorem Position.bits_of_pieceAt {p : Position} (hS : Position.StateOk p)
    {i pc : Nat} (hi : i < 64) (hx : p.getPieceAtOrNull i = some pc) :
    pc < 6 ∧ (p.getPieceBitboard pc).testBit i = true ∧
    (∀ pc2 < 6, pc2 ≠ pc → (p.getPieceBitboard pc2).testBit i = false) ∧
    ((p.getColorBitboard 0).testBit i = true ∧ (p.getColorBitboard 1).testBit i = false ∨
     (p.getColorBitboard 0).testBit i = false ∧ (p.getColorBitboard 1).testBit i = true) := by
  obtain ⟨-, -, -, -, -, hsq, -⟩ := hS
  obtain ⟨hlt, hnone, hsome⟩ := hsq i hi
  unfold Position.getPieceAtOrNull at hx
  have h6 : pc < 6 := by rw [hx] at hlt; simpa using hlt
  obtain ⟨h1, h2, h3⟩ := hsome pc h6 hx
  exact ⟨h6, h1, h2, h3⟩

theorem Position.bits_of_empty {p : Position} (hS : Position.StateOk p)
    {i : Nat} (hi : i < 64) (hx : p.getPieceAtOrNull i = none) :
    (∀ pc < 6, (p.getPieceBitboard pc).testBit i = false) ∧
    (p.getColorBitboard 0).testBit i = false ∧
    (p.getColorBitboard 1).testBit i = false := by
  obtain ⟨-, -, -, -, -, hsq, -⟩ := hS
  obtain ⟨-, hnone, -⟩ := hsq i hi
  unfold Position.getPieceAtOrNull at hx
  exact hnone hx

theorem Position.empty_of_colorBits {p : Position} (hS : Position.StateOk p)
    {i : Nat} (hi : i < 64)
    (h0 : (p.getColorBitboard 0).testBit i = false)
    (h1 : (p.getColorBitboard 1).testBit i = false) :
    p.getPieceAtOrNull i = none := by
  rcases hx : p.getPieceAtOrNull i with _ | pc
  · rfl
  · rcases (Position.bits_of_pieceAt hS hi hx).2.2.2 with ⟨ha, -⟩ | ⟨-, hb⟩
    · rw [h0] at ha; cases ha
    · rw [h1] at hb; cases hb

theorem Position.occupied_testBit (p : Position) (i : Nat) :
    p.getOccupiedBitboard.testBit i =
      ((p.getColorBitboard 0).testBit i || (p.getColorBitboard 1).testBit i) := by
  unfold Position.getOccupiedBitboard Position.getColorBitboard ANY_BLACK
  rw [Nat.testBit_or]
  norm_num [ANY_WHITE, Piece.KING]

theorem Position.empty_of_not_occupied {p : Position} (hS : Position.StateOk p)
    {i : Nat} (hi : i < 64) (h : p.getOccupiedBitboard.testBit i = false) :
    p.getPieceAtOrNull i = none := by
  rw [Position.occupied_testBit] at h
  rcases Bool.or_eq_false_iff.mp h with ⟨h0, h1⟩
  exact Position.empty_of_colorBits hS hi h0 h1

theorem Position.opponent_pieceAt {p : Position} (hS : Position.StateOk p)
    {c i : Nat} (hc : c < 2) (hi : i < 64)
    (hb : (p.getColorBitboard c).testBit i = true) :
    ∃ pc, pc < 6 ∧ p.getPieceAtOrNull i = some pc ∧
      (p.getPieceBitboard pc).testBit i = true ∧
      (p.getColorBitboard (getOtherPieceColor c)).testBit i = false := by
  rcases hx : p.getPieceAtOrNull i with _ | pc
  · obtain ⟨-, hw, hbk⟩ := Position.bits_of_empty hS hi hx
    interval_cases c
    · rw [hw] at hb; cases hb
    · rw [hbk] at hb; cases hb
  · obtain ⟨h6, hbit, -, hcol⟩ := Position.bits_of_pieceAt hS hi hx
    refine ⟨pc, h6, rfl, hbit, ?_⟩
    interval_cases c
    · rcases hcol with ⟨-, hbl⟩ | ⟨hw, -⟩
      · exact hbl
      · rw [hw] at hb; cases hb
    · rcases hcol with ⟨-, hbl⟩ | ⟨hw, -⟩
      · rw [hbl] at hb; cases hb
      · exact hw

theorem lowestBit_two_pow : ∀ k, k < 64 → Bitboard.getLowestBitPosition (2 ^ k) = k := by
  decide

theorem Position.kingPos_spec {p : Position} (hS : Position.StateOk p)
    {c : Nat} (hc : c < 2) :
    p.getKingPosition c < 64 ∧
    p.getPieceColorBitboard Piece.KING c = 2 ^ p.getKingPosition c ∧
    p.getPieceAtOrNull (p.getKingPosition c) = some Piece.KING ∧
    (p.getColorBitboard c).testBit (p.getKingPosition c) = true := by
  obtain ⟨-, hking, -⟩ := hS.2.2.2.2.2
  obtain ⟨k, hk64, hkbb⟩ := hking c hc
  have hkp : p.getKingPosition c = k := by
    unfold Position.getKingPosition
    rw [hkbb]
    exact lowestBit_two_pow k hk64
  rw [hkp]
  have hbit : (p.getPieceColorBitboard Piece.KING c).testBit k = true := by
    rw [hkbb, Nat.testBit_two_pow]
    simp
  unfold Position.getPieceColorBitboard at hbit
  rw [Nat.testBit_and, Bool.and_eq_true] at hbit
  refine ⟨hk64, hkbb, ?_, hbit.2⟩
  exact Position.pieceAt_of_pieceBit hS (by norm_num [Piece.KING]) hk64 hbit.1

/-! ### Bitwise containment and monotonicity of the sliding rays -/

theorem bitSub_refl (x : Nat) : BitSub x x := fun _ h => h

theorem bitSub_trans {x y z : Nat} (h1 : BitSub x y) (h2 : BitSub y z) : BitSub x z :=
  fun i hi => h2 i (h1 i hi)

theorem bitSub_zero (x : Nat) : BitSub 0 x := by
  intro i hi
  rw [Nat.zero_testBit] at hi
  cases hi

theorem ne_zero_of_testBit {v i : Nat} (h : v.testBit i = true) : v ≠ 0 := by
  intro h0
  rw [h0, Nat.zero_testBit] at h
  cases h

theorem exists_testBit_of_ne_zero {v : Nat} (h : v ≠ 0) : ∃ i, v.testBit i = true := by
  obtain ⟨i, hi, -⟩ := Nat.exists_most_significant_bit h
  exact ⟨i, hi⟩

theorem eq_zero_of_bitSub_zero {x : Nat} (h : BitSub x 0) : x = 0 := by
  by_contra h0
  obtain ⟨i, hi⟩ := exists_testBit_of_ne_zero h0
  have := h i hi
  rw [Nat.zero_testBit] at this
  cases this

theorem bitSub_or {x y z w : Nat} (h1 : BitSub x y) (h2 : BitSub z w) :
    BitSub (x ||| z) (y ||| w) := by
  intro i hi
  rw [Nat.testBit_or] at hi ⊢
  rcases Bool.or_eq_true_iff.mp hi with h | h
  · rw [h1 i h]; rfl
  · rw [h2 i h]
    simp

theorem bitSub_orLeft (x y : Nat) : BitSub x (x ||| y) := by
  intro i hi
  rw [Nat.testBit_or, hi]
  rfl

theorem bitSub_and {x y : Nat} (z : Nat) (h : BitSub x y) : BitSub (x &&& z) (y &&& z) := by
  intro i hi
  rw [Nat.testBit_and, Bool.and_eq_true] at hi ⊢
  exact ⟨h i hi.1, hi.2⟩

theorem bitSub_andNot {x y : Nat} (z : Nat) (h : BitSub x y) :
    BitSub (Bitboard.andNot x z) (Bitboard.andNot y z) := by
  unfold Bitboard.andNot
  exact bitSub_and _ h

theorem bitSub_shl {x y : Nat} (n : Nat) (h : BitSub x y) :
    BitSub (Bitboard.shl x n) (Bitboard.shl y n) := by
  intro i hi
  have hi64 : i < 64 := Bitboard.testBit_lt_64 _ i (Bitboard.shl_lt x n) hi
  rw [Bitboard.testBit_shl _ _ _ hi64] at hi ⊢
  rw [Bool.and_eq_true] at hi
  rw [hi.1, h _ hi.2]
  rfl

theorem bitSub_shr {x y : Nat} (n : Nat) (h : BitSub x y) :
    BitSub (Bitboard.shr x n) (Bitboard.shr y n) := by
  intro i hi
  rw [Bitboard.testBit_shr] at hi ⊢
  exact h _ hi

theorem bitSub_shiftLeft {x y : Nat} (d : Int) (h : BitSub x y) :
    BitSub (Bitboard.shiftLeft x d) (Bitboard.shiftLeft y d) := by
  rcases d with n | n <;> unfold Bitboard.shiftLeft <;> dsimp only <;> split
  · exact bitSub_refl 0
  · exact bitSub_shl n h
  · exact bitSub_refl 0
  · exact bitSub_shr (n + 1) h

theorem slidingAux_extensive :
    ∀ (fuel : Nat) (occ : Nat) (dir : Int) (mask acc cur : Nat),
      BitSub acc (Position.slidingAux occ dir mask fuel acc cur)
  | 0, _, _, _, _, _ => bitSub_refl _
  | fuel + 1, occ, dir, mask, acc, cur => by
    unfold Position.slidingAux
    dsimp only
    split
    · exact bitSub_refl _
    · exact bitSub_trans (bitSub_orLeft _ _) (slidingAux_extensive fuel occ dir mask _ _)

theorem slidingAux_mono :
    ∀ (fuel : Nat) (occ : Nat) (dir : Int) (mask acc acc' cur cur' : Nat),
      BitSub acc acc' → BitSub cur cur' →
      BitSub (Position.slidingAux occ dir mask fuel acc cur)
        (Position.slidingAux occ dir mask fuel acc' cur')
  | 0, _, _, _, _, _, _, _ => fun ha _ => ha
  | fuel + 1, occ, dir, mask, acc, acc', cur, cur' => by
    intro ha hc
    unfold Position.slidingAux
    dsimp only
    by_cases h1 : cur &&& mask = 0
    · rw [if_pos h1]
      by_cases h2 : cur' &&& mask = 0
      · rw [if_pos h2]
        exact ha
      · rw [if_neg h2]
        exact bitSub_trans ha
          (bitSub_trans (bitSub_orLeft _ _) (slidingAux_extensive fuel occ dir mask _ _))
    · rw [if_neg h1]
      have h2 : ¬(cur' &&& mask = 0) := by
        intro h0
        apply h1
        apply eq_zero_of_bitSub_zero
        rw [← h0]
        exact bitSub_and mask hc
      rw [if_neg h2]
      exact slidingAux_mono fuel occ dir mask _ _ _ _
        (bitSub_or ha (bitSub_and mask hc))
        (bitSub_shiftLeft dir (bitSub_andNot occ (bitSub_and mask hc)))

theorem makeSlidingAttackMask_mono {f f' : Nat} (occ : Nat) (rd fd : Int)
    (h : BitSub f f') :
    BitSub (Position.makeSlidingAttackMask f occ rd fd)
      (Position.makeSlidingAttackMask f' occ rd fd) := by
  unfold Position.makeSlidingAttackMask
  exact slidingAux_mono 64 occ _ _ 0 0 _ _ (bitSub_refl 0) (bitSub_shiftLeft _ h)

theorem makeBishopAttackMask_mono {f f' : Nat} (occ : Nat) (h : BitSub f f') :
    BitSub (Position.makeBishopAttackMask f occ) (Position.makeBishopAttackMask f' occ) := by
  unfold Position.makeBishopAttackMask
  exact bitSub_or (bitSub_or (bitSub_or (makeSlidingAttackMask_mono occ _ _ h)
    (makeSlidingAttackMask_mono occ _ _ h)) (makeSlidingAttackMask_mono occ _ _ h))
    (makeSlidingAttackMask_mono occ _ _ h)

theorem makeRookAttackMask_mono {f f' : Nat} (occ : Nat) (h : BitSub f f') :
    BitSub (Position.makeRookAttackMask f occ) (Position.makeRookAttackMask f' occ) := by
  unfold Position.makeRookAttackMask
  exact bitSub_or (bitSub_or (bitSub_or (makeSlidingAttackMask_mono occ _ _ h)
    (makeSlidingAttackMask_mono occ _ _ h)) (makeSlidingAttackMask_mono occ _ _ h))
    (makeSlidingAttackMask_mono occ _ _ h)

theorem bitSub_makeIndex {k bb : Nat} (hk : k < 64) (hb : bb.testBit k = true) :
    BitSub (Bitboard.makeIndex k) bb := by
  intro i hi
  rw [Bitboard.makeIndex_eq k hk, Nat.testBit_two_pow] at hi
  have : k = i := of_decide_eq_true hi
  rw [← this]
  exact hb

/-! ### The attacker clauses of `isAttacked` -/

theorem knight_sym : ∀ k, k < 64 → ∀ t, t < 64 →
    (Bitboard.KNIGHT_MOVEMENTS k).testBit t = (Bitboard.KNIGHT_MOVEMENTS t).testBit k := by
  decide

theorem king_sym : ∀ k, k < 64 → ∀ t, t < 64 →
    (Bitboard.KING_MOVEMENTS k).testBit t = (Bitboard.KING_MOVEMENTS t).testBit k := by
  decide

theorem Position.isAttacked_of_pawns (p : Position) (c idx : Nat)
    (h : Bitboard.isSet
      (Position.makePawnAttackMask c (p.getPieceColorBitboard Piece.PAWN c)) idx = true) :
    Position.isAttacked p c idx = true := by
  unfold Position.isAttacked
  dsimp only
  rw [h]
  simp

theorem Position.isAttacked_of_knights (p : Position) (c idx k : Nat)
    (hidx : idx < 64) (hk : k < 64)
    (hkn : (p.getPieceColorBitboard Piece.KNIGHT c).testBit k = true)
    (hm : (Bitboard.KNIGHT_MOVEMENTS k).testBit idx = true) :
    Position.isAttacked p c idx = true := by
  have hb : (Bitboard.KNIGHT_MOVEMENTS idx &&&
      p.getPieceColorBitboard Piece.KNIGHT c).testBit k = true := by
    rw [Nat.testBit_and, ← knight_sym k hk idx hidx, hm, hkn]
    rfl
  unfold Position.isAttacked
  dsimp only
  split
  · rfl
  · rw [if_pos (ne_zero_of_testBit hb)]

theorem Position.isAttacked_of_king (p : Position) (c idx k : Nat)
    (hidx : idx < 64) (hk : k < 64)
    (hkn : (p.getPieceColorBitboard Piece.KING c).testBit k = true)
    (hm : (Bitboard.KING_MOVEMENTS k).testBit idx = true) :
    Position.isAttacked p c idx = true := by
  have hb : (Bitboard.KING_MOVEMENTS idx &&&
      p.getPieceColorBitboard Piece.KING c).testBit k = true := by
    rw [Nat.testBit_and, ← king_sym k hk idx hidx, hm, hkn]
    rfl
  unfold Position.isAttacked
  dsimp only
  split
  · rfl
  · split
    · rfl
    · rw [if_pos (ne_zero_of_testBit hb)]

theorem Position.isAttacked_of_bishop (p : Position) (c idx k : Nat)
    (hidx : idx < 64) (hk : k < 64)
    (hb : (p.getPieceColorBitboard Piece.BISHOP c |||
      p.getPieceColorBitboard Piece.QUEEN c).testBit k = true)
    (hatt : (Position.makeBishopAttackMask (Bitboard.makeIndex k)
      p.getOccupiedBitboard).testBit idx = true) :
    Position.isAttacked p c idx = true := by
  have hsub : (Position.makeBishopAttackMask
      (p.getPieceColorBitboard Piece.BISHOP c ||| p.getPieceColorBitboard Piece.QUEEN c)
      p.getOccupiedBitboard).testBit idx = true :=
    makeBishopAttackMask_mono _ (bitSub_makeIndex hk hb) idx hatt
  unfold Position.isAttacked
  dsimp only
  split
  · rfl
  · split
    · rfl
    · split
      · rfl
      · rw [if_pos (by rw [Bitboard.isSet_eq_testBit _ _ hidx]; exact hsub)]

theorem Position.isAttacked_of_rook (p : Position) (c idx k : Nat)
    (hidx : idx < 64) (hk : k < 64)
    (hb : (p.getPieceColorBitboard Piece.ROOK c |||
      p.getPieceColorBitboard Piece.QUEEN c).testBit k = true)
    (hatt : (Position.makeRookAttackMask (Bitboard.makeIndex k)
      p.getOccupiedBitboard).testBit idx = true) :
    Position.isAttacked p c idx = true := by
  have hsub : (Position.makeRookAttackMask
      (p.getPieceColorBitboard Piece.ROOK c ||| p.getPieceColorBitboard Piece.QUEEN c)
      p.getOccupiedBitboard).testBit idx = true :=
    makeRookAttackMask_mono _ (bitSub_makeIndex hk hb) idx hatt
  unfold Position.isAttacked
  dsimp only
  split
  · rfl
  · split
    · rfl
    · split
      · rfl
      · split
        · rfl
        · rw [if_pos (by rw [Bitboard.isSet_eq_testBit _ _ hidx]; exact hsub)]

/-- A square of the opposing color that the side to move attacks cannot hold
the opposing king: the state invariant says the side that just moved is not
in check. -/
theorem Position.not_king_of_attacked {p : Position} (hS : Position.StateOk p)
    {i : Nat} (hi : i < 64)
    (hocc : (p.getColorBitboard (getOtherPieceColor p.getTurnColor)).testBit i = true)
    (hatt : Position.isAttacked p p.getTurnColor i = true) :
    p.getPieceAtOrNull i ≠ some Piece.KING := by
  intro hx
  have hoc : getOtherPieceColor p.getTurnColor < 2 := by
    have ht : p.turn < 2 := hS.2.2.2.1
    unfold getOtherPieceColor Position.getTurnColor
    interval_cases h : p.turn <;> decide
  obtain ⟨hk64, hkbb, -, -⟩ := Position.kingPos_spec hS hoc
  obtain ⟨-, hbit, -, -⟩ := Position.bits_of_pieceAt hS hi hx
  have hcb : (p.getPieceColorBitboard Piece.KING
      (getOtherPieceColor p.getTurnColor)).testBit i = true := by
    unfold Position.getPieceColorBitboard
    rw [Nat.testBit_and, hbit, hocc]
    rfl
  have hik : i = p.getKingPosition (getOtherPieceColor p.getTurnColor) := by
    rw [hkbb, Nat.testBit_two_pow] at hcb
    exact (of_decide_eq_true hcb).symm
  have hfree := hS.2.2.2.2.2.2.2.2.2.2
  rw [← hik] at hfree
  rw [hfree] at hatt
  cases hatt


/-! ### Small decoding helpers -/

theorem testBit_shl_decode {v n i : Nat} (hi : i < 64)
    (h : (Bitboard.shl v n).testBit i = true) : n ≤ i ∧ v.testBit (i - n) = true := by
  rw [Bitboard.testBit_shl _ _ _ hi, Bool.and_eq_true] at h
  exact ⟨of_decide_eq_true h.1, h.2⟩

theorem testBit_and_decode {x y i : Nat} (h : (x &&& y).testBit i = true) :
    x.testBit i = true ∧ y.testBit i = true := by
  rw [Nat.testBit_and, Bool.and_eq_true] at h
  exact h

theorem testBit_andNot_decode {x y i : Nat} (hi : i < 64)
    (h : (Bitboard.andNot x y).testBit i = true) :
    x.testBit i = true ∧ y.testBit i = false := by
  rw [Bitboard.testBit_andNot _ _ _ hi, Bool.and_eq_true] at h
  exact ⟨h.1, by simpa using h.2⟩

theorem testBit_shr_decode {v n i : Nat} (h : (Bitboard.shr v n).testBit i = true) :
    v.testBit (n + i) = true := by
  rw [Bitboard.testBit_shr] at h
  exact h

theorem ranks_testBit : ∀ r, r < 8 → ∀ i, i < 64 →
    (Bitboard.RANKS_BB r).testBit i = decide (8 * r ≤ i ∧ i < 8 * r + 8) := by
  decide

theorem files_testBit : ∀ fl, fl < 8 → ∀ i, i < 64 →
    (Bitboard.FILES_BB fl).testBit i = decide (i % 8 = fl) := by
  decide

theorem ranks_lt (r : Nat) : Bitboard.RANKS_BB r < 2 ^ 64 := by
  unfold Bitboard.RANKS_BB Bitboard.makeRank
  exact Bitboard.shl_lt _ _

theorem getOtherPieceColor_lt {c : Nat} (hc : c < 2) : getOtherPieceColor c < 2 := by
  interval_cases c <;> decide

theorem Position.king_unique {p : Position} (hS : Position.StateOk p) {c i : Nat}
    (hc : c < 2) (hi : i < 64) (hKi : p.getPieceAtOrNull i = some Piece.KING)
    (hci : (p.getColorBitboard c).testBit i = true) : p.getKingPosition c = i := by
  obtain ⟨-, hkbb, -, -⟩ := Position.kingPos_spec hS hc
  obtain ⟨-, hbit, -, -⟩ := Position.bits_of_pieceAt hS hi hKi
  have hcb : (p.getPieceColorBitboard Piece.KING c).testBit i = true := by
    unfold Position.getPieceColorBitboard
    rw [Nat.testBit_and, hbit, hci]
    rfl
  rw [hkbb, Nat.testBit_two_pow] at hcb
  exact of_decide_eq_true hcb

theorem Position.empty_of_cbits {p : Position} (hS : Position.StateOk p) {c t : Nat}
    (hc2 : c < 2) (ht : t < 64)
    (h1 : (p.getColorBitboard c).testBit t = false)
    (h2 : (p.getColorBitboard (getOtherPieceColor c)).testBit t = false) :
    p.getPieceAtOrNull t = none := by
  interval_cases c
  · rw [show getOtherPieceColor 0 = 1 from rfl] at h2
    exact Position.empty_of_colorBits hS ht h1 h2
  · rw [show getOtherPieceColor 1 = 0 from rfl] at h2
    exact Position.empty_of_colorBits hS ht h2 h1

/-! ### Packed-move accessor computations -/

theorem Move.isCapture_make (f t : Int) (k pc : Nat) (c : Option Nat) :
    (Move.make f t k pc c).isCapture = decide (k % 16 &&& 4 ≠ 0) := by
  unfold Move.isCapture
  rw [Move.getKind_make]

theorem Move.isPromotion_make (f t : Int) (k pc : Nat) (c : Option Nat) :
    (Move.make f t k pc c).isPromotion = decide (k % 16 &&& 8 ≠ 0) := by
  unfold Move.isPromotion
  rw [Move.getKind_make]

theorem Move.isCastle_make (f t : Int) (k pc : Nat) (c : Option Nat) :
    (Move.make f t k pc c).isCastle =
      decide (k % 16 = Kind.KING_CASTLE ∨ k % 16 = Kind.QUEEN_CASTLE) := by
  unfold Move.isCastle
  rw [Move.getKind_make]

/-! ### Pawn attacks produced by the capture masks -/

theorem Position.attack_pawn_wl (p : Position) {t : Nat} (ht : t < 64) (h7 : 7 ≤ t)
    (hp : (p.getPieceColorBitboard Piece.PAWN 0).testBit (t - 7) = true)
    (hf : (Bitboard.FILES_BB 0).testBit (t - 7) = false) :
    Position.isAttacked p 0 t = true := by
  apply Position.isAttacked_of_pawns
  rw [Bitboard.isSet_eq_testBit _ _ ht]
  unfold Position.makePawnAttackMask
  dsimp only
  rw [show (if (0 : Nat) = PieceColor.WHITE then (7 : Int) else -9) = (7 : Int) by
    norm_num [PieceColor.WHITE]]
  have eS : ∀ x : Nat, Bitboard.shiftLeft x (7 : Int) = Bitboard.shl x 7 := fun x => rfl
  rw [eS, Nat.testBit_or]
  refine Bool.or_eq_true_iff.mpr (Or.inl ?_)
  rw [Bitboard.testBit_shl _ _ _ ht,
    Bitboard.testBit_andNot _ _ _ (by omega : t - 7 < 64), hp, hf]
  simp [h7]

theorem Position.attack_pawn_wr (p : Position) {t : Nat} (ht : t < 64) (h9 : 9 ≤ t)
    (hp : (p.getPieceColorBitboard Piece.PAWN 0).testBit (t - 9) = true)
    (hf : (Bitboard.FILES_BB LAST_FILE).testBit (t - 9) = false) :
    Position.isAttacked p 0 t = true := by
  apply Position.isAttacked_of_pawns
  rw [Bitboard.isSet_eq_testBit _ _ ht]
  unfold Position.makePawnAttackMask
  dsimp only
  rw [show (if (0 : Nat) = PieceColor.WHITE then (9 : Int) else -7) = (9 : Int) by
    norm_num [PieceColor.WHITE]]
  have eS : ∀ x : Nat, Bitboard.shiftLeft x (9 : Int) = Bitboard.shl x 9 := fun x => rfl
  rw [eS, Nat.testBit_or]
  refine Bool.or_eq_true_iff.mpr (Or.inr ?_)
  rw [Bitboard.testBit_shl _ _ _ ht,
    Bitboard.testBit_andNot _ _ _ (by omega : t - 9 < 64), hp, hf]
  simp [h9]

theorem Position.attack_pawn_bl (p : Position) {t : Nat} (ht : t < 64)
    (ht7 : t + 7 < 64)
    (hp : (p.getPieceColorBitboard Piece.PAWN 1).testBit (t + 7) = true)
    (hf : (Bitboard.FILES_BB LAST_FILE).testBit (t + 7) = false) :
    Position.isAttacked p 1 t = true := by
  apply Position.isAttacked_of_pawns
  rw [Bitboard.isSet_eq_testBit _ _ ht]
  unfold Position.makePawnAttackMask
  dsimp only
  rw [show (if (1 : Nat) = PieceColor.WHITE then (9 : Int) else -7) = (-7 : Int) by
    norm_num [PieceColor.WHITE]]
  have eS : ∀ x : Nat, Bitboard.shiftLeft x (-7 : Int) = Bitboard.shr x 7 := fun x => rfl
  rw [eS, Nat.testBit_or]
  refine Bool.or_eq_true_iff.mpr (Or.inr ?_)
  rw [Bitboard.testBit_shr, Nat.add_comm 7 t,
    Bitboard.testBit_andNot _ _ _ ht7, hp, hf]
  rfl

theorem Position.attack_pawn_br (p : Position) {t : Nat} (ht : t < 64)
    (ht9 : t + 9 < 64)
    (hp : (p.getPieceColorBitboard Piece.PAWN 1).testBit (t + 9) = true)
    (hf : (Bitboard.FILES_BB 0).testBit (t + 9) = false) :
    Position.isAttacked p 1 t = true := by
  apply Position.isAttacked_of_pawns
  rw [Bitboard.isSet_eq_testBit _ _ ht]
  unfold Position.makePawnAttackMask
  dsimp only
  rw [show (if (1 : Nat) = PieceColor.WHITE then (7 : Int) else -9) = (-9 : Int) by
    norm_num [PieceColor.WHITE]]
  have eS : ∀ x : Nat, Bitboard.shiftLeft x (-9 : Int) = Bitboard.shr x 9 := fun x => rfl
  rw [eS, Nat.testBit_or]
  refine Bool.or_eq_true_iff.mpr (Or.inl ?_)
  rw [Bitboard.testBit_shr, Nat.add_comm 9 t,
    Bitboard.testBit_andNot _ _ _ ht9, hp, hf]
  rfl

/-! ### Consistency of each generated move shape -/

theorem moveOk_pawn_push (p : Position) (hS : Position.StateOk p) (c f t kind : Nat)
    (htc : p.getTurnColor = c)
    (hf : f < 64) (ht : t < 64) (hne : f ≠ t)
    (hkind : kind = 0 ∨ kind = 1)
    (hrange : 8 ≤ t ∧ t < 56)
    (hpf : p.getPieceAtOrNull f = some Piece.PAWN)
    (hcf : (p.getColorBitboard c).testBit f = true)
    (hpt : p.getPieceAtOrNull t = none)
    (hdpp : kind = 1 →
      (if c = 0 then f = t - 16 ∧ 24 ≤ t ∧ t < 32 ∧ p.getPieceAtOrNull (t - 8) = none
        else f = t + 16 ∧ 32 ≤ t ∧ t < 40 ∧ p.getPieceAtOrNull (t + 8) = none))
    (cap : Option Nat) :
    MoveConsistent p (Move.make (f : Int) (t : Int) kind Piece.PAWN cap) ∧
    Position.MoveExtras p (Move.make (f : Int) (t : Int) kind Piece.PAWN cap) := by
  set m := Move.make (f : Int) (t : Int) kind Piece.PAWN cap with hm
  have hkind16 : kind % 16 = kind := by rcases hkind with rfl | rfl <;> rfl
  have hfrom : m.getFrom = f := by rw [hm, Move.getFrom_make]; omega
  have hto : m.getTo = t := by rw [hm, Move.getTo_make]; omega
  have hgk : m.getKind = kind := by rw [hm, Move.getKind_make, hkind16]
  have hgp : m.getPiece = Piece.PAWN := by rw [hm, Move.getPiece_make]; rfl
  have hic : m.isCapture = false := by
    rw [hm, Move.isCapture_make]
    rcases hkind with rfl | rfl <;> rfl
  have hica : m.isCastle = false := by
    rw [hm, Move.isCastle_make]
    rcases hkind with rfl | rfl <;> rfl
  have hipr : m.isPromotion = false := by
    rw [hm, Move.isPromotion_make]
    rcases hkind with rfl | rfl <;> rfl
  constructor
  · refine ⟨hS.1, hS.2.1, hS.2.2.1, hS.2.2.2.1, ?_, ?_, ?_, ?_, ?_, ?_, ?_⟩
    · rw [hgp]; decide
    · rw [hfrom, hto]; exact hne
    · rw [hfrom, hgp]; exact hpf
    · simp [hic]
    · intro _; rw [hto]; exact hpt
    · simp [hica]
    · simp [hipr]
  · refine ⟨?_, ?_, ?_, ?_, ?_, ?_⟩
    · rw [hgk]; rcases hkind with rfl | rfl <;> decide
    · rw [hfrom, htc]; exact hcf
    · intro hcontra; rw [hic] at hcontra; exact absurd hcontra Bool.false_ne_true
    · intro hcontra; rw [hica] at hcontra; exact absurd hcontra Bool.false_ne_true
    · intro hd
      rw [hgk] at hd
      refine ⟨hgp, ?_⟩
      rw [htc, hfrom, hto]
      exact hdpp hd
    · intro _
      rw [hto]
      exact hrange

theorem moveOk_pawn_push_promo (p : Position) (hS : Position.StateOk p) (c f t kind : Nat)
    (htc : p.getTurnColor = c)
    (hf : f < 64) (ht : t < 64) (hne : f ≠ t)
    (hkind : kind = 8 ∨ kind = 9 ∨ kind = 10 ∨ kind = 11)
    (hpf : p.getPieceAtOrNull f = some Piece.PAWN)
    (hcf : (p.getColorBitboard c).testBit f = true)
    (hpt : p.getPieceAtOrNull t = none)
    (cap : Option Nat) :
    MoveConsistent p (Move.make (f : Int) (t : Int) kind Piece.PAWN cap) ∧
    Position.MoveExtras p (Move.make (f : Int) (t : Int) kind Piece.PAWN cap) := by
  set m := Move.make (f : Int) (t : Int) kind Piece.PAWN cap with hm
  have hkind16 : kind % 16 = kind := by rcases hkind with rfl | rfl | rfl | rfl <;> rfl
  have hfrom : m.getFrom = f := by rw [hm, Move.getFrom_make]; omega
  have hto : m.getTo = t := by rw [hm, Move.getTo_make]; omega
  have hgk : m.getKind = kind := by rw [hm, Move.getKind_make, hkind16]
  have hgp : m.getPiece = Piece.PAWN := by rw [hm, Move.getPiece_make]; rfl
  have hic : m.isCapture = false := by
    rw [hm, Move.isCapture_make]
    rcases hkind with rfl | rfl | rfl | rfl <;> rfl
  have hica : m.isCastle = false := by
    rw [hm, Move.isCastle_make]
    rcases hkind with rfl | rfl | rfl | rfl <;> rfl
  have hipr : m.isPromotion = true := by
    rw [hm, Move.isPromotion_make]
    rcases hkind with rfl | rfl | rfl | rfl <;> rfl
  have hpplt : m.getPromotedPiece < 6 := by
    rw [hm]
    unfold Move.getPromotedPiece Move.isPromotion
    rw [Move.getKind_make]
    rcases hkind with rfl | rfl | rfl | rfl <;> decide
  have hempt := Position.bits_of_empty hS ht hpt
  constructor
  · refine ⟨hS.1, hS.2.1, hS.2.2.1, hS.2.2.2.1, ?_, ?_, ?_, ?_, ?_, ?_, ?_⟩
    · rw [hgp]; decide
    · rw [hfrom, hto]; exact hne
    · rw [hfrom, hgp]; exact hpf
    · simp [hic]
    · intro _; rw [hto]; exact hpt
    · simp [hica]
    · rw [hipr]
      refine ⟨hgp, ?_, ?_, ?_⟩
      · rw [hto, Bitboard.isSet_eq_testBit _ _ ht]
        exact hempt.1 Piece.PAWN (by decide)
      · intro hcontra; rw [hic] at hcontra; exact absurd hcontra Bool.false_ne_true
      · intro _
        rw [hto, Bitboard.isSet_eq_testBit _ _ ht]
        exact hempt.1 m.getPromotedPiece hpplt
  · refine ⟨?_, ?_, ?_, ?_, ?_, ?_⟩
    · rw [hgk]; rcases hkind with rfl | rfl | rfl | rfl <;> decide
    · rw [hfrom, htc]; exact hcf
    · intro hcontra; rw [hic] at hcontra; exact absurd hcontra Bool.false_ne_true
    · intro hcontra; rw [hica] at hcontra; exact absurd hcontra Bool.false_ne_true
    · intro hd
      rw [hgk] at hd
      exact absurd hd (by rcases hkind with rfl | rfl | rfl | rfl <;> decide)
    · intro h
      exact absurd (hipr.symm.trans h.2) (by decide)

theorem moveOk_pawn_capture (p : Position) (hS : Position.StateOk p) (c f t kind : Nat)
    (htc : p.getTurnColor = c) (hc2 : c < 2)
    (hf : f < 64) (ht : t < 64) (hne : f ≠ t)
    (hkind : kind = 4 ∨ kind = 12 ∨ kind = 13 ∨ kind = 14 ∨ kind = 15)
    (hrange : kind = 4 → 8 ≤ t ∧ t < 56)
    (hpawnbit : kind ≠ 4 → (p.getPieceBitboard Piece.PAWN).testBit t = false)
    (hpf : p.getPieceAtOrNull f = some Piece.PAWN)
    (hcf : (p.getColorBitboard c).testBit f = true)
    (hopp : (p.getColorBitboard (getOtherPieceColor c)).testBit t = true)
    (hatt : Position.isAttacked p c t = true) :
    MoveConsistent p (Move.make (f : Int) (t : Int) kind Piece.PAWN
      (p.getPieceAtOrNull t)) ∧
    Position.MoveExtras p (Move.make (f : Int) (t : Int) kind Piece.PAWN
      (p.getPieceAtOrNull t)) := by
  obtain ⟨cp, hcp6, hcpat, hcpbit, -⟩ :=
    Position.opponent_pieceAt hS (getOtherPieceColor_lt hc2) ht hopp
  set m := Move.make (f : Int) (t : Int) kind Piece.PAWN (p.getPieceAtOrNull t) with hm
  have hkind16 : kind % 16 = kind := by
    rcases hkind with rfl | rfl | rfl | rfl | rfl <;> rfl
  have hfrom : m.getFrom = f := by rw [hm, Move.getFrom_make]; omega
  have hto : m.getTo = t := by rw [hm, Move.getTo_make]; omega
  have hgk : m.getKind = kind := by rw [hm, Move.getKind_make, hkind16]
  have hgp : m.getPiece = Piece.PAWN := by rw [hm, Move.getPiece_make]; rfl
  have hic : m.isCapture = true := by
    rw [hm, Move.isCapture_make]
    rcases hkind with rfl | rfl | rfl | rfl | rfl <;> rfl
  have hica : m.isCastle = false := by
    rw [hm, Move.isCastle_make]
    rcases hkind with rfl | rfl | rfl | rfl | rfl <;> rfl
  have hgc : m.getCapturedPiece = cp := by
    rw [hm, Move.getCapturedPiece_make, hcpat, Option.getD_some]
    omega
  have hcs : m.getCaptureSquare = t := by
    have h5 : m.getKind ≠ Kind.EN_PASSANT_CAPTURE := by
      rw [hgk]
      rcases hkind with rfl | rfl | rfl | rfl | rfl <;> decide
    unfold Move.getCaptureSquare
    rw [if_pos h5]
    exact hto
  have hnk := Position.not_king_of_attacked hS ht (by rw [htc]; exact hopp)
    (by rw [htc]; exact hatt)
  have hcpK : cp ≠ Piece.KING := fun e => hnk (e ▸ hcpat)
  have hcpP : kind ≠ 4 → cp ≠ Piece.PAWN := by
    intro hk4 e
    rw [e] at hcpbit
    rw [hpawnbit hk4] at hcpbit
    exact Bool.false_ne_true hcpbit
  constructor
  · refine ⟨hS.1, hS.2.1, hS.2.2.1, hS.2.2.2.1, ?_, ?_, ?_, ?_, ?_, ?_, ?_⟩
    · rw [hgp]; decide
    · rw [hfrom, hto]; exact hne
    · rw [hfrom, hgp]; exact hpf
    · rw [hic]
      simp only [if_true]
      refine ⟨?_, ?_, ?_, ?_, ?_, ?_⟩
      · rw [hgc]; exact hcp6
      · rw [hcs]; exact ht
      · rw [hcs, hgc]; exact hcpat
      · rw [hcs, hgc, Bitboard.isSet_eq_testBit _ _ ht]; exact hcpbit
      · rw [hcs, Bitboard.isSet_eq_testBit _ _ ht, htc]; exact hopp
      · exact Or.inl (hcs.trans hto.symm)
    · intro hn
      exact absurd ⟨hic, hcs.trans hto.symm⟩ hn
    · simp [hica]
    · by_cases hk4 : kind = 4
      · have : m.isPromotion = false := by
          rw [hm, Move.isPromotion_make, hk4]
          rfl
        simp [this]
      · have hipr : m.isPromotion = true := by
          rw [hm, Move.isPromotion_make]
          rcases hkind with rfl | rfl | rfl | rfl | rfl
          · exact absurd rfl hk4
          all_goals rfl
        rw [hipr]
        refine ⟨hgp, ?_, ?_, ?_⟩
        · rw [hto, Bitboard.isSet_eq_testBit _ _ ht]
          exact hpawnbit hk4
        · intro _
          rw [hgc]
          exact hcpP hk4
        · intro hn
          have hlt : m.getPromotedPiece < 6 := by
            rw [hm]
            unfold Move.getPromotedPiece Move.isPromotion
            rw [Move.getKind_make]
            rcases hkind with rfl | rfl | rfl | rfl | rfl <;> decide
          have hnecp : m.getPromotedPiece ≠ cp := by
            intro e
            exact hn ⟨hic, by rw [hgc, e]⟩
          rw [hto, Bitboard.isSet_eq_testBit _ _ ht]
          exact ((Position.bits_of_pieceAt hS ht hcpat).2.2.1) m.getPromotedPiece hlt hnecp
  · refine ⟨?_, ?_, ?_, ?_, ?_, ?_⟩
    · rw [hgk]; rcases hkind with rfl | rfl | rfl | rfl | rfl <;> decide
    · rw [hfrom, htc]; exact hcf
    · intro _
      rw [hgc]
      exact hcpK
    · intro hcontra; rw [hica] at hcontra; exact absurd hcontra Bool.false_ne_true
    · intro hd
      rw [hgk] at hd
      exact absurd hd (by rcases hkind with rfl | rfl | rfl | rfl | rfl <;> decide)
    · intro h
      by_cases hk4 : kind = 4
      · rw [hto]
        exact hrange hk4
      · have hipr : m.isPromotion = true := by
          rw [hm, Move.isPromotion_make]
          rcases hkind with rfl | rfl | rfl | rfl | rfl
          · exact absurd rfl hk4
          all_goals rfl
        exact absurd (hipr.symm.trans h.2) (by decide)

theorem moveOk_normal (p : Position) (hS : Position.StateOk p) (c k t pc : Nat)
    (htc : p.getTurnColor = c) (hc2 : c < 2)
    (hk : k < 64) (ht : t < 64)
    (hpc1 : 1 ≤ pc) (hpc6 : pc < 6)
    (hpk : p.getPieceAtOrNull k = some pc)
    (hck : (p.getColorBitboard c).testBit k = true)
    (hmt : (p.getColorBitboard c).testBit t = false)
    (hatt : Position.isAttacked p c t = true) :
    MoveConsistent p (Move.make (k : Int) (t : Int)
      (if Bitboard.isSet (p.getColorBitboard (getOtherPieceColor c)) t then Kind.CAPTURE
        else Kind.POSITIONAL) pc (p.getPieceAtOrNull t)) ∧
    Position.MoveExtras p (Move.make (k : Int) (t : Int)
      (if Bitboard.isSet (p.getColorBitboard (getOtherPieceColor c)) t then Kind.CAPTURE
        else Kind.POSITIONAL) pc (p.getPieceAtOrNull t)) := by
  have hne : k ≠ t := by
    intro e
    rw [e, hmt] at hck
    exact Bool.false_ne_true hck
  by_cases hob : Bitboard.isSet (p.getColorBitboard (getOtherPieceColor c)) t = true
  · simp only [hob, if_true]
    have hoppb : (p.getColorBitboard (getOtherPieceColor c)).testBit t = true := by
      rw [← Bitboard.isSet_eq_testBit _ _ ht]
      exact hob
    obtain ⟨cp, hcp6, hcpat, hcpbit, -⟩ :=
      Position.opponent_pieceAt hS (getOtherPieceColor_lt hc2) ht hoppb
    set m := Move.make (k : Int) (t : Int) Kind.CAPTURE pc (p.getPieceAtOrNull t) with hm
    have hfrom : m.getFrom = k := by rw [hm, Move.getFrom_make]; omega
    have hto : m.getTo = t := by rw [hm, Move.getTo_make]; omega
    have hgk : m.getKind = 4 := by rw [hm, Move.getKind_make]; rfl
    have hgp : m.getPiece = pc := by rw [hm, Move.getPiece_make]; omega
    have hic : m.isCapture = true := by rw [hm, Move.isCapture_make]; rfl
    have hica : m.isCastle = false := by rw [hm, Move.isCastle_make]; rfl
    have hipr : m.isPromotion = false := by rw [hm, Move.isPromotion_make]; rfl
    have hgc : m.getCapturedPiece = cp := by
      rw [hm, Move.getCapturedPiece_make, hcpat, Option.getD_some]
      omega
    have hcs : m.getCaptureSquare = t := by
      unfold Move.getCaptureSquare
      rw [if_pos (by rw [hgk]; decide)]
      exact hto
    have hnk := Position.not_king_of_attacked hS ht (by rw [htc]; exact hoppb)
      (by rw [htc]; exact hatt)
    have hcpK : cp ≠ Piece.KING := fun e => hnk (e ▸ hcpat)
    constructor
    · refine ⟨hS.1, hS.2.1, hS.2.2.1, hS.2.2.2.1, ?_, ?_, ?_, ?_, ?_, ?_, ?_⟩
      · rw [hgp]; exact hpc6
      · rw [hfrom, hto]; exact hne
      · rw [hfrom, hgp]; exact hpk
      · rw [hic]
        simp only [if_true]
        refine ⟨?_, ?_, ?_, ?_, ?_, ?_⟩
        · rw [hgc]; exact hcp6
        · rw [hcs]; exact ht
        · rw [hcs, hgc]; exact hcpat
        · rw [hcs, hgc, Bitboard.isSet_eq_testBit _ _ ht]; exact hcpbit
        · rw [hcs, Bitboard.isSet_eq_testBit _ _ ht, htc]; exact hoppb
        · exact Or.inl (hcs.trans hto.symm)
      · intro hn
        exact absurd ⟨hic, hcs.trans hto.symm⟩ hn
      · simp [hica]
      · simp [hipr]
    · refine ⟨?_, ?_, ?_, ?_, ?_, ?_⟩
      · rw [hgk]; decide
      · rw [hfrom, htc]; exact hck
      · intro _
        rw [hgc]
        exact hcpK
      · intro hcontra; rw [hica] at hcontra; exact absurd hcontra Bool.false_ne_true
      · intro hd
        rw [hgk] at hd
        exact absurd hd (by decide)
      · intro h
        exact absurd (hgp.symm.trans h.1) (by unfold Piece.PAWN; omega)
  · have hob2 : Bitboard.isSet (p.getColorBitboard (getOtherPieceColor c)) t = false := by
      revert hob
      cases Bitboard.isSet (p.getColorBitboard (getOtherPieceColor c)) t <;> simp
    simp only [hob2, Bool.false_eq_true, if_false]
    have hoppb : (p.getColorBitboard (getOtherPieceColor c)).testBit t = false := by
      rw [← Bitboard.isSet_eq_testBit _ _ ht]
      exact hob2
    have hpt : p.getPieceAtOrNull t = none := Position.empty_of_cbits hS hc2 ht hmt hoppb
    set m := Move.make (k : Int) (t : Int) Kind.POSITIONAL pc (p.getPieceAtOrNull t) with hm
    have hfrom : m.getFrom = k := by rw [hm, Move.getFrom_make]; omega
    have hto : m.getTo = t := by rw [hm, Move.getTo_make]; omega
    have hgk : m.getKind = 0 := by rw [hm, Move.getKind_make]; rfl
    have hgp : m.getPiece = pc := by rw [hm, Move.getPiece_make]; omega
    have hic : m.isCapture = false := by rw [hm, Move.isCapture_make]; rfl
    have hica : m.isCastle = false := by rw [hm, Move.isCastle_make]; rfl
    have hipr : m.isPromotion = false := by rw [hm, Move.isPromotion_make]; rfl
    constructor
    · refine ⟨hS.1, hS.2.1, hS.2.2.1, hS.2.2.2.1, ?_, ?_, ?_, ?_, ?_, ?_, ?_⟩
      · rw [hgp]; exact hpc6
      · rw [hfrom, hto]; exact hne
      · rw [hfrom, hgp]; exact hpk
      · simp [hic]
      · intro _; rw [hto]; exact hpt
      · simp [hica]
      · simp [hipr]
    · refine ⟨?_, ?_, ?_, ?_, ?_, ?_⟩
      · rw [hgk]; decide
      · rw [hfrom, htc]; exact hck
      · intro hcontra; rw [hic] at hcontra; exact absurd hcontra Bool.false_ne_true
      · intro hcontra; rw [hica] at hcontra; exact absurd hcontra Bool.false_ne_true
      · intro hd
        rw [hgk] at hd
        exact absurd hd (by decide)
      · intro h
        exact absurd (hgp.symm.trans h.1) (by unfold Piece.PAWN; omega)

theorem moveOk_ep (p : Position) (hS : Position.StateOk p) (c e f t : Nat)
    (htc : p.getTurnColor = c) (hc2 : c < 2)
    (he : p.enPassantSquare = (e : Int))
    (hf : f < 64)
    (hfe : f = e + 1 ∨ f = e - 1)
    (hte : t = if c = 0 then e + 8 else e - 8)
    (hwin : if c = 0 then 32 ≤ e ∧ e < 40 else 24 ≤ e ∧ e < 32)
    (hpf : p.getPieceAtOrNull f = some Piece.PAWN)
    (hcf : (p.getColorBitboard c).testBit f = true) :
    MoveConsistent p (Move.make (f : Int) (t : Int) Kind.EN_PASSANT_CAPTURE Piece.PAWN
      (p.getPieceAtOrNull t)) ∧
    Position.MoveExtras p (Move.make (f : Int) (t : Int) Kind.EN_PASSANT_CAPTURE Piece.PAWN
      (p.getPieceAtOrNull t)) := by
  have hep := hS.2.2.2.2.2.2.2.2.1
  unfold Position.EnPassantOk at hep
  rcases hep with hno | ⟨-, hwin2, hpe, hoce, hmid⟩
  · rw [he] at hno
    omega
  rw [he] at hpe hoce hmid
  have htceq : p.turn = c := htc
  rw [htceq] at hwin2 hmid
  have hetonat : ((e : Int)).toNat = e := by omega
  rw [hetonat] at hpe hoce hmid
  have hocbit : (p.getColorBitboard (getOtherPieceColor c)).testBit e = true := by
    rw [← htc]
    exact hoce
  have hcase : c = 0 ∨ c = 1 := by omega
  rcases hcase with rfl | rfl
  · rw [if_pos rfl] at hte hwin hmid
    have he64 : e < 64 := by omega
    have ht64 : t < 64 := by omega
    have hmid2 : p.getPieceAtOrNull t = none := by rw [hte]; exact hmid
    set m := Move.make (f : Int) (t : Int) Kind.EN_PASSANT_CAPTURE Piece.PAWN
      (p.getPieceAtOrNull t) with hm
    have hfrom : m.getFrom = f := by rw [hm, Move.getFrom_make]; omega
    have hto : m.getTo = t := by rw [hm, Move.getTo_make]; omega
    have hgk : m.getKind = 5 := by rw [hm, Move.getKind_make]; rfl
    have hgp : m.getPiece = Piece.PAWN := by rw [hm, Move.getPiece_make]; rfl
    have hic : m.isCapture = true := by rw [hm, Move.isCapture_make]; rfl
    have hica : m.isCastle = false := by rw [hm, Move.isCastle_make]; rfl
    have hipr : m.isPromotion = false := by rw [hm, Move.isPromotion_make]; rfl
    have hgc : m.getCapturedPiece = 0 := by
      rw [hm, Move.getCapturedPiece_make, hmid2]
      rfl
    have hne : f ≠ t := by omega
    have hcs : m.getCaptureSquare = e := by
      unfold Move.getCaptureSquare
      rw [if_neg (by rw [hgk]; decide), hfrom, hto]
      rw [if_pos (by omega : f < t)]
      unfold FILES
      omega
    have hpawnbite : (p.getPieceBitboard Piece.PAWN).testBit e = true :=
      (Position.bits_of_pieceAt hS he64 hpe).2.1
    constructor
    · refine ⟨hS.1, hS.2.1, hS.2.2.1, hS.2.2.2.1, ?_, ?_, ?_, ?_, ?_, ?_, ?_⟩
      · rw [hgp]; decide
      · rw [hfrom, hto]; exact hne
      · rw [hfrom, hgp]; exact hpf
      · rw [hic]
        simp only [if_true]
        refine ⟨?_, ?_, ?_, ?_, ?_, ?_⟩
        · rw [hgc]; decide
        · rw [hcs]; exact he64
        · rw [hcs, hgc]; exact hpe
        · rw [hcs, hgc, Bitboard.isSet_eq_testBit _ _ he64]
          exact hpawnbite
        · rw [hcs, Bitboard.isSet_eq_testBit _ _ he64, htc]
          exact hocbit
        · refine Or.inr ⟨hgk, ?_, ?_⟩
          · rw [hcs, hto]; omega
          · rw [hcs, hfrom]; omega
      · intro _
        rw [hto]
        exact hmid2
      · simp [hica]
      · simp [hipr]
    · refine ⟨?_, ?_, ?_, ?_, ?_, ?_⟩
      · rw [hgk]; decide
      · rw [hfrom, htc]; exact hcf
      · intro _
        rw [hgc]
        decide
      · intro hcontra; rw [hica] at hcontra; exact absurd hcontra Bool.false_ne_true
      · intro hd
        rw [hgk] at hd
        exact absurd hd (by decide)
      · intro _
        rw [hto]
        omega
  · rw [if_neg (by omega : ¬(1 : Nat) = 0)] at hte hwin hmid
    have he64 : e < 64 := by omega
    have ht64 : t < 64 := by omega
    have hmid2 : p.getPieceAtOrNull t = none := by rw [hte]; exact hmid
    set m := Move.make (f : Int) (t : Int) Kind.EN_PASSANT_CAPTURE Piece.PAWN
      (p.getPieceAtOrNull t) with hm
    have hfrom : m.getFrom = f := by rw [hm, Move.getFrom_make]; omega
    have hto : m.getTo = t := by rw [hm, Move.getTo_make]; omega
    have hgk : m.getKind = 5 := by rw [hm, Move.getKind_make]; rfl
    have hgp : m.getPiece = Piece.PAWN := by rw [hm, Move.getPiece_make]; rfl
    have hic : m.isCapture = true := by rw [hm, Move.isCapture_make]; rfl
    have hica : m.isCastle = false := by rw [hm, Move.isCastle_make]; rfl
    have hipr : m.isPromotion = false := by rw [hm, Move.isPromotion_make]; rfl
    have hgc : m.getCapturedPiece = 0 := by
      rw [hm, Move.getCapturedPiece_make, hmid2]
      rfl
    have hne : f ≠ t := by omega
    have hcs : m.getCaptureSquare = e := by
      unfold Move.getCaptureSquare
      rw [if_neg (by rw [hgk]; decide), hfrom, hto]
      rw [if_neg (by omega : ¬f < t)]
      unfold FILES
      omega
    have hpawnbite : (p.getPieceBitboard Piece.PAWN).testBit e = true :=
      (Position.bits_of_pieceAt hS he64 hpe).2.1
    constructor
    · refine ⟨hS.1, hS.2.1, hS.2.2.1, hS.2.2.2.1, ?_, ?_, ?_, ?_, ?_, ?_, ?_⟩
      · rw [hgp]; decide
      · rw [hfrom, hto]; exact hne
      · rw [hfrom, hgp]; exact hpf
      · rw [hic]
        simp only [if_true]
        refine ⟨?_, ?_, ?_, ?_, ?_, ?_⟩
        · rw [hgc]; decide
        · rw [hcs]; exact he64
        · rw [hcs, hgc]; exact hpe
        · rw [hcs, hgc, Bitboard.isSet_eq_testBit _ _ he64]
          exact hpawnbite
        · rw [hcs, Bitboard.isSet_eq_testBit _ _ he64, htc]
          exact hocbit
        · refine Or.inr ⟨hgk, ?_, ?_⟩
          · rw [hcs, hto]; omega
          · rw [hcs, hfrom]; omega
      · intro _
        rw [hto]
        exact hmid2
      · simp [hica]
      · simp [hipr]
    · refine ⟨?_, ?_, ?_, ?_, ?_, ?_⟩
      · rw [hgk]; decide
      · rw [hfrom, htc]; exact hcf
      · intro _
        rw [hgc]
        decide
      · intro hcontra; rw [hica] at hcontra; exact absurd hcontra Bool.false_ne_true
      · intro hd
        rw [hgk] at hd
        exact absurd hd (by decide)
      · intro _
        rw [hto]
        omega

/-! ### Decomposition of a successful castle-availability test -/

theorem bool_if_decomp {a X : Bool} (h : (if a = true then false else X) = true) :
    a = false ∧ X = true := by
  cases a <;> simp_all

theorem bool_if_or_decomp {a b X : Bool} (h : (if (a || b) = true then false else X) = true) :
    a = false ∧ b = false ∧ X = true := by
  cases a <;> cases b <;> simp_all

theorem Position.canCastle_decomp {p : Position} {c : Nat} {s ol : Bool}
    (h : Position.canCastle p c s ol = true) :
    Position.hasCastlingRight p c s = true ∧
    Bitboard.isSet p.getOccupiedBitboard
      (((if c = PieceColor.WHITE then (4 : Int) else 60) + (if s then 1 else -1)).toNat)
      = false ∧
    Bitboard.isSet p.getOccupiedBitboard
      (((if c = PieceColor.WHITE then (4 : Int) else 60) +
        2 * (if s then 1 else -1)).toNat) = false ∧
    (s = false → Bitboard.isSet p.getOccupiedBitboard
      (((if c = PieceColor.WHITE then (4 : Int) else 60) +
        3 * (if s then 1 else -1)).toNat) = false) := by
  unfold Position.canCastle at h
  dsimp only at h
  obtain ⟨ha, h⟩ := bool_if_decomp h
  obtain ⟨ho1, ho2, h⟩ := bool_if_or_decomp h
  obtain ⟨hb, -⟩ := bool_if_decomp h
  refine ⟨?_, ho1, ho2, ?_⟩
  · revert ha
    cases p.hasCastlingRight c s <;> simp
  · intro hs
    subst hs
    simpa using hb

/-! ### Consistency of the generated castle moves -/

theorem moveOk_castle_ks (p : Position) (hS : Position.StateOk p)
    (hcc : Position.canCastle p p.getTurnColor true true = true) :
    MoveConsistent p (Move.make ((p.getKingPosition p.getTurnColor : Nat) : Int)
      (((p.getKingPosition p.getTurnColor : Nat) : Int) + 2) Kind.KING_CASTLE Piece.KING
      none) ∧
    Position.MoveExtras p (Move.make ((p.getKingPosition p.getTurnColor : Nat) : Int)
      (((p.getKingPosition p.getTurnColor : Nat) : Int) + 2) Kind.KING_CASTLE Piece.KING
      none) := by
  have hturn : p.turn < 2 := hS.2.2.2.1
  have hco := hS.2.2.2.2.2.2.2.2.2.1
  have htcase : p.getTurnColor = 0 ∨ p.getTurnColor = 1 := by
    unfold Position.getTurnColor
    omega
  rcases htcase with htc | htc
  · rw [htc] at hcc ⊢
    obtain ⟨hr, ho1, ho2, -⟩ := Position.canCastle_decomp hcc
    rw [show ((if (0 : Nat) = PieceColor.WHITE then (4 : Int) else 60) +
        (if true then (1 : Int) else -1)).toNat = 5 by decide] at ho1
    rw [show ((if (0 : Nat) = PieceColor.WHITE then (4 : Int) else 60) +
        2 * (if true then (1 : Int) else -1)).toNat = 6 by decide] at ho2
    obtain ⟨hrook, hrookc, hking, hkingc⟩ := hco 0 (by decide) true hr
    rw [show Position.getCastlingRookSquare 0 true = 7 from rfl] at hrook hrookc
    rw [show (if (0 : Nat) = 0 then (4 : Nat) else 60) = 4 from rfl] at hking hkingc
    have hkp : p.getKingPosition 0 = 4 :=
      Position.king_unique hS (by decide) (by decide) hking hkingc
    rw [hkp]
    have hp5 : p.getPieceAtOrNull 5 = none := by
      apply Position.empty_of_not_occupied hS (by decide)
      rw [← Bitboard.isSet_eq_testBit _ _ (by decide)]
      exact ho1
    have hp6 : p.getPieceAtOrNull 6 = none := by
      apply Position.empty_of_not_occupied hS (by decide)
      rw [← Bitboard.isSet_eq_testBit _ _ (by decide)]
      exact ho2
    set m := Move.make ((4 : Nat) : Int) (((4 : Nat) : Int) + 2) Kind.KING_CASTLE
      Piece.KING none with hm
    have hfrom : m.getFrom = 4 := by rw [hm, Move.getFrom_make]; decide
    have hto : m.getTo = 6 := by rw [hm, Move.getTo_make]; decide
    have hgk : m.getKind = 2 := by rw [hm, Move.getKind_make]; rfl
    have hgp : m.getPiece = Piece.KING := by rw [hm, Move.getPiece_make]; rfl
    have hic : m.isCapture = false := by rw [hm, Move.isCapture_make]; rfl
    have hica : m.isCastle = true := by rw [hm, Move.isCastle_make]; rfl
    have hipr : m.isPromotion = false := by rw [hm, Move.isPromotion_make]; rfl
    constructor
    · refine ⟨hS.1, hS.2.1, hS.2.2.1, hS.2.2.2.1, ?_, ?_, ?_, ?_, ?_, ?_, ?_⟩
      · rw [hgp]; decide
      · rw [hfrom, hto]; decide
      · rw [hfrom, hgp]; exact hking
      · simp [hic]
      · intro _
        rw [hto]
        exact hp6
      · rw [hica]
        simp only [if_true]
        rw [hgk, htc]
        refine ⟨?_, ?_, ?_, ?_, ?_, ?_, ?_, ?_, ?_⟩
        · decide
        · rw [hfrom]; decide
        · rw [hto]; decide
        · rw [hfrom]; decide
        · rw [hto]; decide
        · decide
        · decide
        · exact hrook
        · exact hp5
      · simp [hipr]
    · refine ⟨?_, ?_, ?_, ?_, ?_, ?_⟩
      · rw [hgk]; decide
      · rw [hfrom, htc]; exact hkingc
      · intro hcontra; rw [hic] at hcontra; exact absurd hcontra Bool.false_ne_true
      · intro _
        refine ⟨hgp, ?_, ?_⟩
        · rw [hfrom, htc]; decide
        · rw [htc, hgk]
          exact hr
      · intro hd
        rw [hgk] at hd
        exact absurd hd (by decide)
      · intro h
        exact absurd (hgp.symm.trans h.1) (by decide)
  · rw [htc] at hcc ⊢
    obtain ⟨hr, ho1, ho2, -⟩ := Position.canCastle_decomp hcc
    rw [show ((if (1 : Nat) = PieceColor.WHITE then (4 : Int) else 60) +
        (if true then (1 : Int) else -1)).toNat = 61 by decide] at ho1
    rw [show ((if (1 : Nat) = PieceColor.WHITE then (4 : Int) else 60) +
        2 * (if true then (1 : Int) else -1)).toNat = 62 by decide] at ho2
    obtain ⟨hrook, hrookc, hking, hkingc⟩ := hco 1 (by decide) true hr
    rw [show Position.getCastlingRookSquare 1 true = 63 from rfl] at hrook hrookc
    rw [show (if (1 : Nat) = 0 then (4 : Nat) else 60) = 60 from rfl] at hking hkingc
    have hkp : p.getKingPosition 1 = 60 :=
      Position.king_unique hS (by decide) (by decide) hking hkingc
    rw [hkp]
    have hp61 : p.getPieceAtOrNull 61 = none := by
      apply Position.empty_of_not_occupied hS (by decide)
      rw [← Bitboard.isSet_eq_testBit _ _ (by decide)]
      exact ho1
    have hp62 : p.getPieceAtOrNull 62 = none := by
      apply Position.empty_of_not_occupied hS (by decide)
      rw [← Bitboard.isSet_eq_testBit _ _ (by decide)]
      exact ho2
    set m := Move.make ((60 : Nat) : Int) (((60 : Nat) : Int) + 2) Kind.KING_CASTLE
      Piece.KING none with hm
    have hfrom : m.getFrom = 60 := by rw [hm, Move.getFrom_make]; decide
    have hto : m.getTo = 62 := by rw [hm, Move.getTo_make]; decide
    have hgk : m.getKind = 2 := by rw [hm, Move.getKind_make]; rfl
    have hgp : m.getPiece = Piece.KING := by rw [hm, Move.getPiece_make]; rfl
    have hic : m.isCapture = false := by rw [hm, Move.isCapture_make]; rfl
    have hica : m.isCastle = true := by rw [hm, Move.isCastle_make]; rfl
    have hipr : m.isPromotion = false := by rw [hm, Move.isPromotion_make]; rfl
    constructor
    · refine ⟨hS.1, hS.2.1, hS.2.2.1, hS.2.2.2.1, ?_, ?_, ?_, ?_, ?_, ?_, ?_⟩
      · rw [hgp]; decide
      · rw [hfrom, hto]; decide
      · rw [hfrom, hgp]; exact hking
      · simp [hic]
      · intro _
        rw [hto]
        exact hp62
      · rw [hica]
        simp only [if_true]
        rw [hgk, htc]
        refine ⟨?_, ?_, ?_, ?_, ?_, ?_, ?_, ?_, ?_⟩
        · decide
        · rw [hfrom]; decide
        · rw [hto]; decide
        · rw [hfrom]; decide
        · rw [hto]; decide
        · decide
        · decide
        · exact hrook
        · exact hp61
      · simp [hipr]
    · refine ⟨?_, ?_, ?_, ?_, ?_, ?_⟩
      · rw [hgk]; decide
      · rw [hfrom, htc]; exact hkingc
      · intro hcontra; rw [hic] at hcontra; exact absurd hcontra Bool.false_ne_true
      · intro _
        refine ⟨hgp, ?_, ?_⟩
        · rw [hfrom, htc]; decide
        · rw [htc, hgk]
          exact hr
      · intro hd
        rw [hgk] at hd
        exact absurd hd (by decide)
      · intro h
        exact absurd (hgp.symm.trans h.1) (by decide)

theorem moveOk_castle_qs (p : Position) (hS : Position.StateOk p)
    (hcc : Position.canCastle p p.getTurnColor false true = true) :
    MoveConsistent p (Move.make ((p.getKingPosition p.getTurnColor : Nat) : Int)
      (((p.getKingPosition p.getTurnColor : Nat) : Int) - 2) Kind.QUEEN_CASTLE Piece.KING
      none) ∧
    Position.MoveExtras p (Move.make ((p.getKingPosition p.getTurnColor : Nat) : Int)
      (((p.getKingPosition p.getTurnColor : Nat) : Int) - 2) Kind.QUEEN_CASTLE Piece.KING
      none) := by
  have hturn : p.turn < 2 := hS.2.2.2.1
  have hco := hS.2.2.2.2.2.2.2.2.2.1
  have htcase : p.getTurnColor = 0 ∨ p.getTurnColor = 1 := by
    unfold Position.getTurnColor
    omega
  rcases htcase with htc | htc
  · rw [htc] at hcc ⊢
    obtain ⟨hr, ho1, ho2, ho3⟩ := Position.canCastle_decomp hcc
    have ho3' := ho3 rfl
    rw [show ((if (0 : Nat) = PieceColor.WHITE then (4 : Int) else 60) +
        (if false then (1 : Int) else -1)).toNat = 3 by decide] at ho1
    rw [show ((if (0 : Nat) = PieceColor.WHITE then (4 : Int) else 60) +
        2 * (if false then (1 : Int) else -1)).toNat = 2 by decide] at ho2
    rw [show ((if (0 : Nat) = PieceColor.WHITE then (4 : Int) else 60) +
        3 * (if false then (1 : Int) else -1)).toNat = 1 by decide] at ho3'
    obtain ⟨hrook, hrookc, hking, hkingc⟩ := hco 0 (by decide) false hr
    rw [show Position.getCastlingRookSquare 0 false = 0 from rfl] at hrook hrookc
    rw [show (if (0 : Nat) = 0 then (4 : Nat) else 60) = 4 from rfl] at hking hkingc
    have hkp : p.getKingPosition 0 = 4 :=
      Position.king_unique hS (by decide) (by decide) hking hkingc
    rw [hkp]
    have hp3 : p.getPieceAtOrNull 3 = none := by
      apply Position.empty_of_not_occupied hS (by decide)
      rw [← Bitboard.isSet_eq_testBit _ _ (by decide)]
      exact ho1
    have hp2 : p.getPieceAtOrNull 2 = none := by
      apply Position.empty_of_not_occupied hS (by decide)
      rw [← Bitboard.isSet_eq_testBit _ _ (by decide)]
      exact ho2
    set m := Move.make ((4 : Nat) : Int) (((4 : Nat) : Int) - 2) Kind.QUEEN_CASTLE
      Piece.KING none with hm
    have hfrom : m.getFrom = 4 := by rw [hm, Move.getFrom_make]; decide
    have hto : m.getTo = 2 := by rw [hm, Move.getTo_make]; decide
    have hgk : m.getKind = 3 := by rw [hm, Move.getKind_make]; rfl
    have hgp : m.getPiece = Piece.KING := by rw [hm, Move.getPiece_make]; rfl
    have hic : m.isCapture = false := by rw [hm, Move.isCapture_make]; rfl
    have hica : m.isCastle = true := by rw [hm, Move.isCastle_make]; rfl
    have hipr : m.isPromotion = false := by rw [hm, Move.isPromotion_make]; rfl
    constructor
    · refine ⟨hS.1, hS.2.1, hS.2.2.1, hS.2.2.2.1, ?_, ?_, ?_, ?_, ?_, ?_, ?_⟩
      · rw [hgp]; decide
      · rw [hfrom, hto]; decide
      · rw [hfrom, hgp]; exact hking
      · simp [hic]
      · intro _
        rw [hto]
        exact hp2
      · rw [hica]
        simp only [if_true]
        rw [hgk, htc]
        refine ⟨?_, ?_, ?_, ?_, ?_, ?_, ?_, ?_, ?_⟩
        · decide
        · rw [hfrom]; decide
        · rw [hto]; decide
        · rw [hfrom]; decide
        · rw [hto]; decide
        · decide
        · decide
        · exact hrook
        · exact hp3
      · simp [hipr]
    · refine ⟨?_, ?_, ?_, ?_, ?_, ?_⟩
      · rw [hgk]; decide
      · rw [hfrom, htc]; exact hkingc
      · intro hcontra; rw [hic] at hcontra; exact absurd hcontra Bool.false_ne_true
      · intro _
        refine ⟨hgp, ?_, ?_⟩
        · rw [hfrom, htc]; decide
        · rw [htc, hgk]
          exact hr
      · intro hd
        rw [hgk] at hd
        exact absurd hd (by decide)
      · intro h
        exact absurd (hgp.symm.trans h.1) (by decide)
  · rw [htc] at hcc ⊢
    obtain ⟨hr, ho1, ho2, ho3⟩ := Position.canCastle_decomp hcc
    have ho3' := ho3 rfl
    rw [show ((if (1 : Nat) = PieceColor.WHITE then (4 : Int) else 60) +
        (if false then (1 : Int) else -1)).toNat = 59 by decide] at ho1
    rw [show ((if (1 : Nat) = PieceColor.WHITE then (4 : Int) else 60) +
        2 * (if false then (1 : Int) else -1)).toNat = 58 by decide] at ho2
    rw [show ((if (1 : Nat) = PieceColor.WHITE then (4 : Int) else 60) +
        3 * (if false then (1 : Int) else -1)).toNat = 57 by decide] at ho3'
    obtain ⟨hrook, hrookc, hking, hkingc⟩ := hco 1 (by decide) false hr
    rw [show Position.getCastlingRookSquare 1 false = 56 from rfl] at hrook hrookc
    rw [show (if (1 : Nat) = 0 then (4 : Nat) else 60) = 60 from rfl] at hking hkingc
    have hkp : p.getKingPosition 1 = 60 :=
      Position.king_unique hS (by decide) (by decide) hking hkingc
    rw [hkp]
    have hp59 : p.getPieceAtOrNull 59 = none := by
      apply Position.empty_of_not_occupied hS (by decide)
      rw [← Bitboard.isSet_eq_testBit _ _ (by decide)]
      exact ho1
    have hp58 : p.getPieceAtOrNull 58 = none := by
      apply Position.empty_of_not_occupied hS (by decide)
      rw [← Bitboard.isSet_eq_testBit _ _ (by decide)]
      exact ho2
    set m := Move.make ((60 : Nat) : Int) (((60 : Nat) : Int) - 2) Kind.QUEEN_CASTLE
      Piece.KING none with hm
    have hfrom : m.getFrom = 60 := by rw [hm, Move.getFrom_make]; decide
    have hto : m.getTo = 58 := by rw [hm, Move.getTo_make]; decide
    have hgk : m.getKind = 3 := by rw [hm, Move.getKind_make]; rfl
    have hgp : m.getPiece = Piece.KING := by rw [hm, Move.getPiece_make]; rfl
    have hic : m.isCapture = false := by rw [hm, Move.isCapture_make]; rfl
    have hica : m.isCastle = true := by rw [hm, Move.isCastle_make]; rfl
    have hipr : m.isPromotion = false := by rw [hm, Move.isPromotion_make]; rfl
    constructor
    · refine ⟨hS.1, hS.2.1, hS.2.2.1, hS.2.2.2.1, ?_, ?_, ?_, ?_, ?_, ?_, ?_⟩
      · rw [hgp]; decide
      · rw [hfrom, hto]; decide
      · rw [hfrom, hgp]; exact hking
      · simp [hic]
      · intro _
        rw [hto]
        exact hp58
      · rw [hica]
        simp only [if_true]
        rw [hgk, htc]
        refine ⟨?_, ?_, ?_, ?_, ?_, ?_, ?_, ?_, ?_⟩
        · decide
        · rw [hfrom]; decide
        · rw [hto]; decide
        · rw [hfrom]; decide
        · rw [hto]; decide
        · decide
        · decide
        · exact hrook
        · exact hp59
      · simp [hipr]
    · refine ⟨?_, ?_, ?_, ?_, ?_, ?_⟩
      · rw [hgk]; decide
      · rw [hfrom, htc]; exact hkingc
      · intro hcontra; rw [hic] at hcontra; exact absurd hcontra Bool.false_ne_true
      · intro _
        refine ⟨hgp, ?_, ?_⟩
        · rw [hfrom, htc]; decide
        · rw [htc, hgk]
          exact hr
      · intro hd
        rw [hgk] at hd
        exact absurd hd (by decide)
      · intro h
        exact absurd (hgp.symm.trans h.1) (by decide)


theorem Bitboard.andNot_lt (v w : Nat) (h : v < 2 ^ 64) : Bitboard.andNot v w < 2 ^ 64 := by
  unfold Bitboard.andNot
  exact Bitboard.and_lt_left _ _ h

theorem Bitboard.bnot_lt (v : Nat) (h : v < 2 ^ 64) : Bitboard.bnot v < 2 ^ 64 := by
  unfold Bitboard.bnot
  exact Nat.xor_lt_two_pow h (by norm_num [Bitboard.MASK64])

theorem pcb_decode {p : Position} {pc c i : Nat}
    (h : (p.getPieceColorBitboard pc c).testBit i = true) :
    (p.getPieceBitboard pc).testBit i = true ∧ (p.getColorBitboard c).testBit i = true := by
  unfold Position.getPieceColorBitboard at h
  exact testBit_and_decode h

/-- Every move of the pseudo-legal generator is consistent with the position
it was generated from, and carries the additional generated-move facts. -/
theorem Position.generateMoves_ok (p : Position) (hS : Position.StateOk p) :
    ∀ m ∈ Position.generateMoves p false, MoveConsistent p m ∧ Position.MoveExtras p m := by
  intro m hm
  have hturn : p.turn < 2 := hS.2.2.2.1
  have hpr := hS.2.2.2.2.2.2.2.1
  have h64 : ∀ j, p.getBitboard j < 2 ^ 64 := Position.getBitboard_lt p hS.2.1
  have hocc64 : p.getOccupiedBitboard < 2 ^ 64 := by
    unfold Position.getOccupiedBitboard
    exact Nat.or_lt_two_pow (h64 _) (h64 _)
  have hpcb64 : ∀ pc c, p.getPieceColorBitboard pc c < 2 ^ 64 := fun pc c =>
    Bitboard.and_lt_left _ _ (h64 _)
  have hcol64 : ∀ c, p.getColorBitboard c < 2 ^ 64 := fun c => h64 _
  have htcase : p.getTurnColor = 0 ∨ p.getTurnColor = 1 := by
    unfold Position.getTurnColor
    omega
  unfold Position.generateMoves at hm
  simp only [Bool.not_false, if_true, Bool.false_eq_true, if_false, List.mem_append,
    List.append_nil, List.nil_append, or_assoc] at hm
  rcases hm with h | h | h | h | h | h | h | h | h | h | h | h | h | h | h | h | h | h |
    h | h | h | h | h | h
  -- 1: double pawn pushes
  case _ =>
    rcases htcase with htc | htc
    · rw [htc] at h
      norm_num [FILES, LAST_RANK, RANKS] at h
      obtain ⟨i, hi64, hbit, hmeq⟩ := movesFromMask_mem_strong
        (Bitboard.andNot_lt _ _ (Bitboard.andNot_lt _ _
          (Bitboard.shiftLeft_lt _ _ (Bitboard.and_lt_left _ _ (hpcb64 Piece.PAWN 0))))) h
      -- beta already reduced
      rw [show ∀ x : Nat, Bitboard.shiftLeft x (16 : Int) = Bitboard.shl x 16 from
        fun _ => rfl] at hbit
      rw [show ∀ x : Nat, Bitboard.shiftLeft x (8 : Int) = Bitboard.shl x 8 from
        fun _ => rfl] at hbit
      obtain ⟨hb1, hmid8⟩ := testBit_andNot_decode hi64 hbit
      obtain ⟨hshl, hocc_i⟩ := testBit_andNot_decode hi64 hb1
      obtain ⟨h16le, hb2⟩ := testBit_shl_decode hi64 hshl
      obtain ⟨hpbit, hrank⟩ := testBit_and_decode hb2
      rw [ranks_testBit 1 (by decide) (i - 16) (by omega)] at hrank
      have hwin := of_decide_eq_true hrank
      obtain ⟨hpawnf, hcolf⟩ := pcb_decode hpbit
      rw [Bitboard.testBit_shl _ _ _ hi64] at hmid8
      rw [show decide (8 ≤ i) = true by simp only [decide_eq_true_eq]; omega,
        Bool.true_and] at hmid8
      have hmid : p.getPieceAtOrNull (i - 8) = none :=
        Position.empty_of_not_occupied hS (by omega) hmid8
      have hte : p.getPieceAtOrNull i = none :=
        Position.empty_of_not_occupied hS hi64 hocc_i
      have hpf : p.getPieceAtOrNull (i - 16) = some Piece.PAWN :=
        Position.pieceAt_of_pieceBit hS (by decide) (by omega) hpawnf
      rw [show ((i : Int) - 16) = ((i - 16 : Nat) : Int) by omega] at hmeq
      rw [hmeq]
      exact moveOk_pawn_push p hS 0 (i - 16) i Kind.DOUBLE_PAWN_PUSH htc (by omega) hi64
        (by omega) (by decide) (by omega) hpf hcolf hte
        (fun _ => by rw [if_pos rfl]; exact ⟨by omega, by omega, by omega, hmid⟩) _
    · rw [htc] at h
      norm_num [FILES, LAST_RANK, RANKS] at h
      obtain ⟨i, hi64, hbit, hmeq⟩ := movesFromMask_mem_strong
        (Bitboard.andNot_lt _ _ (Bitboard.andNot_lt _ _
          (Bitboard.shiftLeft_lt _ _ (Bitboard.and_lt_left _ _ (hpcb64 Piece.PAWN 1))))) h
      -- beta already reduced
      rw [show ∀ x : Nat, Bitboard.shiftLeft x (-16 : Int) = Bitboard.shr x 16 from
        fun _ => rfl] at hbit
      rw [show ∀ x : Nat, Bitboard.shiftLeft x (-8 : Int) = Bitboard.shr x 8 from
        fun _ => rfl] at hbit
      obtain ⟨hb1, hmid8⟩ := testBit_andNot_decode hi64 hbit
      obtain ⟨hshr, hocc_i⟩ := testBit_andNot_decode hi64 hb1
      have hb2 := testBit_shr_decode hshr
      have h16i : 16 + i < 64 :=
        Bitboard.testBit_lt_64 _ _ (Bitboard.and_lt_left _ _ (hpcb64 Piece.PAWN 1)) hb2
      obtain ⟨hpbit, hrank⟩ := testBit_and_decode hb2
      rw [ranks_testBit 6 (by decide) (16 + i) (by omega)] at hrank
      have hwin := of_decide_eq_true hrank
      obtain ⟨hpawnf, hcolf⟩ := pcb_decode hpbit
      rw [Bitboard.testBit_shr] at hmid8
      have hmid : p.getPieceAtOrNull (i + 8) = none := by
        have := Position.empty_of_not_occupied hS (by omega : 8 + i < 64) hmid8
        rwa [Nat.add_comm] at this
      have hte : p.getPieceAtOrNull i = none :=
        Position.empty_of_not_occupied hS hi64 hocc_i
      have hpf : p.getPieceAtOrNull (i + 16) = some Piece.PAWN := by
        have := Position.pieceAt_of_pieceBit hS (by decide) (by omega) hpawnf
        rwa [Nat.add_comm] at this
      have hcolf2 : (p.getColorBitboard 1).testBit (i + 16) = true := by
        rwa [Nat.add_comm]
      rw [show ((i : Int) + 16) = ((i + 16 : Nat) : Int) by omega] at hmeq
      rw [hmeq]
      exact moveOk_pawn_push p hS 1 (i + 16) i Kind.DOUBLE_PAWN_PUSH htc (by omega) hi64
        (by omega) (by decide) (by omega) hpf hcolf2 hte
        (fun _ => by
          rw [if_neg (by decide)]
          exact ⟨by omega, by omega, by omega, hmid⟩) _
  -- 2: positional pawn pushes
  case _ =>
    rcases htcase with htc | htc
    · rw [htc] at h
      norm_num [FILES, LAST_RANK, RANKS] at h
      obtain ⟨i, hi64, hbit, hmeq⟩ := movesFromMask_mem_strong
        (Bitboard.andNot_lt _ _ (Bitboard.andNot_lt _ _
          (Bitboard.shiftLeft_lt _ _ (hpcb64 Piece.PAWN 0)))) h
      -- beta already reduced
      rw [show ∀ x : Nat, Bitboard.shiftLeft x (8 : Int) = Bitboard.shl x 8 from
        fun _ => rfl] at hbit
      obtain ⟨hb1, hlast⟩ := testBit_andNot_decode hi64 hbit
      obtain ⟨hshl, hocc_i⟩ := testBit_andNot_decode hi64 hb1
      obtain ⟨h8le, hpbit⟩ := testBit_shl_decode hi64 hshl
      rw [ranks_testBit 7 (by decide) i hi64] at hlast
      have hlt56 := of_decide_eq_false hlast
      obtain ⟨hpawnf, hcolf⟩ := pcb_decode hpbit
      have hte : p.getPieceAtOrNull i = none :=
        Position.empty_of_not_occupied hS hi64 hocc_i
      have hpf : p.getPieceAtOrNull (i - 8) = some Piece.PAWN :=
        Position.pieceAt_of_pieceBit hS (by decide) (by omega) hpawnf
      rw [show ((i : Int) - 8) = ((i - 8 : Nat) : Int) by omega] at hmeq
      rw [hmeq]
      exact moveOk_pawn_push p hS 0 (i - 8) i Kind.POSITIONAL htc (by omega) hi64
        (by omega) (by decide) (by omega) hpf hcolf hte
        (fun hcon => absurd hcon (by decide)) _
    · rw [htc] at h
      norm_num [FILES, LAST_RANK, RANKS] at h
      obtain ⟨i, hi64, hbit, hmeq⟩ := movesFromMask_mem_strong
        (Bitboard.andNot_lt _ _ (Bitboard.andNot_lt _ _
          (Bitboard.shiftLeft_lt _ _ (hpcb64 Piece.PAWN 1)))) h
      -- beta already reduced
      rw [show ∀ x : Nat, Bitboard.shiftLeft x (-8 : Int) = Bitboard.shr x 8 from
        fun _ => rfl] at hbit
      obtain ⟨hb1, hlast⟩ := testBit_andNot_decode hi64 hbit
      obtain ⟨hshr, hocc_i⟩ := testBit_andNot_decode hi64 hb1
      have hpbit := testBit_shr_decode hshr
      have h8i : 8 + i < 64 := Bitboard.testBit_lt_64 _ _ (hpcb64 Piece.PAWN 1) hpbit
      rw [ranks_testBit 0 (by decide) i hi64] at hlast
      have hge8 := of_decide_eq_false hlast
      obtain ⟨hpawnf, hcolf⟩ := pcb_decode hpbit
      have hte : p.getPieceAtOrNull i = none :=
        Position.empty_of_not_occupied hS hi64 hocc_i
      have hpf : p.getPieceAtOrNull (i + 8) = some Piece.PAWN := by
        have := Position.pieceAt_of_pieceBit hS (by decide) (by omega) hpawnf
        rwa [Nat.add_comm] at this
      have hcolf2 : (p.getColorBitboard 1).testBit (i + 8) = true := by
        rwa [Nat.add_comm]
      rw [show ((i : Int) + 8) = ((i + 8 : Nat) : Int) by omega] at hmeq
      rw [hmeq]
      exact moveOk_pawn_push p hS 1 (i + 8) i Kind.POSITIONAL htc (by omega) hi64
        (by omega) (by decide) (by omega) hpf hcolf2 hte
        (fun hcon => absurd hcon (by decide)) _
  -- 3-6: push promotions (queen, rook, bishop, knight)
  case _ =>
    rcases htcase with htc | htc
    · rw [htc] at h
      norm_num [FILES, LAST_RANK, RANKS] at h
      obtain ⟨i, hi64, hbit, hmeq⟩ := movesFromMask_mem_strong
        (Bitboard.and_lt_left _ _ (Bitboard.andNot_lt _ _
          (Bitboard.shiftLeft_lt _ _ (hpcb64 Piece.PAWN 0)))) h
      -- beta already reduced
      rw [show ∀ x : Nat, Bitboard.shiftLeft x (8 : Int) = Bitboard.shl x 8 from
        fun _ => rfl] at hbit
      obtain ⟨hb1, -⟩ := testBit_and_decode hbit
      obtain ⟨hshl, hocc_i⟩ := testBit_andNot_decode hi64 hb1
      obtain ⟨h8le, hpbit⟩ := testBit_shl_decode hi64 hshl
      obtain ⟨hpawnf, hcolf⟩ := pcb_decode hpbit
      have hte : p.getPieceAtOrNull i = none :=
        Position.empty_of_not_occupied hS hi64 hocc_i
      have hpf : p.getPieceAtOrNull (i - 8) = some Piece.PAWN :=
        Position.pieceAt_of_pieceBit hS (by decide) (by omega) hpawnf
      rw [show ((i : Int) - 8) = ((i - 8 : Nat) : Int) by omega] at hmeq
      rw [hmeq]
      exact moveOk_pawn_push_promo p hS 0 (i - 8) i Kind.QUEEN_PROMOTION htc (by omega)
        hi64 (by omega) (by decide) hpf hcolf hte _
    · rw [htc] at h
      norm_num [FILES, LAST_RANK, RANKS] at h
      obtain ⟨i, hi64, hbit, hmeq⟩ := movesFromMask_mem_strong
        (Bitboard.and_lt_left _ _ (Bitboard.andNot_lt _ _
          (Bitboard.shiftLeft_lt _ _ (hpcb64 Piece.PAWN 1)))) h
      -- beta already reduced
      rw [show ∀ x : Nat, Bitboard.shiftLeft x (-8 : Int) = Bitboard.shr x 8 from
        fun _ => rfl] at hbit
      obtain ⟨hb1, -⟩ := testBit_and_decode hbit
      obtain ⟨hshr, hocc_i⟩ := testBit_andNot_decode hi64 hb1
      have hpbit := testBit_shr_decode hshr
      have h8i : 8 + i < 64 := Bitboard.testBit_lt_64 _ _ (hpcb64 Piece.PAWN 1) hpbit
      obtain ⟨hpawnf, hcolf⟩ := pcb_decode hpbit
      have hte : p.getPieceAtOrNull i = none :=
        Position.empty_of_not_occupied hS hi64 hocc_i
      have hpf : p.getPieceAtOrNull (i + 8) = some Piece.PAWN := by
        have := Position.pieceAt_of_pieceBit hS (by decide) (by omega) hpawnf
        rwa [Nat.add_comm] at this
      have hcolf2 : (p.getColorBitboard 1).testBit (i + 8) = true := by
        rwa [Nat.add_comm]
      rw [show ((i : Int) + 8) = ((i + 8 : Nat) : Int) by omega] at hmeq
      rw [hmeq]
      exact moveOk_pawn_push_promo p hS 1 (i + 8) i Kind.QUEEN_PROMOTION htc (by omega)
        hi64 (by omega) (by decide) hpf hcolf2 hte _
  case _ =>
    rcases htcase with htc | htc
    · rw [htc] at h
      norm_num [FILES, LAST_RANK, RANKS] at h
      obtain ⟨i, hi64, hbit, hmeq⟩ := movesFromMask_mem_strong
        (Bitboard.and_lt_left _ _ (Bitboard.andNot_lt _ _
          (Bitboard.shiftLeft_lt _ _ (hpcb64 Piece.PAWN 0)))) h
      -- beta already reduced
      rw [show ∀ x : Nat, Bitboard.shiftLeft x (8 : Int) = Bitboard.shl x 8 from
        fun _ => rfl] at hbit
      obtain ⟨hb1, -⟩ := testBit_and_decode hbit
      obtain ⟨hshl, hocc_i⟩ := testBit_andNot_decode hi64 hb1
      obtain ⟨h8le, hpbit⟩ := testBit_shl_decode hi64 hshl
      obtain ⟨hpawnf, hcolf⟩ := pcb_decode hpbit
      have hte : p.getPieceAtOrNull i = none :=
        Position.empty_of_not_occupied hS hi64 hocc_i
      have hpf : p.getPieceAtOrNull (i - 8) = some Piece.PAWN :=
        Position.pieceAt_of_pieceBit hS (by decide) (by omega) hpawnf
      rw [show ((i : Int) - 8) = ((i - 8 : Nat) : Int) by omega] at hmeq
      rw [hmeq]
      exact moveOk_pawn_push_promo p hS 0 (i - 8) i Kind.ROOK_PROMOTION htc (by omega)
        hi64 (by omega) (by decide) hpf hcolf hte _
    · rw [htc] at h
      norm_num [FILES, LAST_RANK, RANKS] at h
      obtain ⟨i, hi64, hbit, hmeq⟩ := movesFromMask_mem_strong
        (Bitboard.and_lt_left _ _ (Bitboard.andNot_lt _ _
          (Bitboard.shiftLeft_lt _ _ (hpcb64 Piece.PAWN 1)))) h
      -- beta already reduced
      rw [show ∀ x : Nat, Bitboard.shiftLeft x (-8 : Int) = Bitboard.shr x 8 from
        fun _ => rfl] at hbit
      obtain ⟨hb1, -⟩ := testBit_and_decode hbit
      obtain ⟨hshr, hocc_i⟩ := testBit_andNot_decode hi64 hb1
      have hpbit := testBit_shr_decode hshr
      have h8i : 8 + i < 64 := Bitboard.testBit_lt_64 _ _ (hpcb64 Piece.PAWN 1) hpbit
      obtain ⟨hpawnf, hcolf⟩ := pcb_decode hpbit
      have hte : p.getPieceAtOrNull i = none :=
        Position.empty_of_not_occupied hS hi64 hocc_i
      have hpf : p.getPieceAtOrNull (i + 8) = some Piece.PAWN := by
        have := Position.pieceAt_of_pieceBit hS (by decide) (by omega) hpawnf
        rwa [Nat.add_comm] at this
      have hcolf2 : (p.getColorBitboard 1).testBit (i + 8) = true := by
        rwa [Nat.add_comm]
      rw [show ((i : Int) + 8) = ((i + 8 : Nat) : Int) by omega] at hmeq
      rw [hmeq]
      exact moveOk_pawn_push_promo p hS 1 (i + 8) i Kind.ROOK_PROMOTION htc (by omega)
        hi64 (by omega) (by decide) hpf hcolf2 hte _
  case _ =>
    rcases htcase with htc | htc
    · rw [htc] at h
      norm_num [FILES, LAST_RANK, RANKS] at h
      obtain ⟨i, hi64, hbit, hmeq⟩ := movesFromMask_mem_strong
        (Bitboard.and_lt_left _ _ (Bitboard.andNot_lt _ _
          (Bitboard.shiftLeft_lt _ _ (hpcb64 Piece.PAWN 0)))) h
      -- beta already reduced
      rw [show ∀ x : Nat, Bitboard.shiftLeft x (8 : Int) = Bitboard.shl x 8 from
        fun _ => rfl] at hbit
      obtain ⟨hb1, -⟩ := testBit_and_decode hbit
      obtain ⟨hshl, hocc_i⟩ := testBit_andNot_decode hi64 hb1
      obtain ⟨h8le, hpbit⟩ := testBit_shl_decode hi64 hshl
      obtain ⟨hpawnf, hcolf⟩ := pcb_decode hpbit
      have hte : p.getPieceAtOrNull i = none :=
        Position.empty_of_not_occupied hS hi64 hocc_i
      have hpf : p.getPieceAtOrNull (i - 8) = some Piece.PAWN :=
        Position.pieceAt_of_pieceBit hS (by decide) (by omega) hpawnf
      rw [show ((i : Int) - 8) = ((i - 8 : Nat) : Int) by omega] at hmeq
      rw [hmeq]
      exact moveOk_pawn_push_promo p hS 0 (i - 8) i Kind.BISHOP_PROMOTION htc (by omega)
        hi64 (by omega) (by decide) hpf hcolf hte _
    · rw [htc] at h
      norm_num [FILES, LAST_RANK, RANKS] at h
      obtain ⟨i, hi64, hbit, hmeq⟩ := movesFromMask_mem_strong
        (Bitboard.and_lt_left _ _ (Bitboard.andNot_lt _ _
          (Bitboard.shiftLeft_lt _ _ (hpcb64 Piece.PAWN 1)))) h
      -- beta already reduced
      rw [show ∀ x : Nat, Bitboard.shiftLeft x (-8 : Int) = Bitboard.shr x 8 from
        fun _ => rfl] at hbit
      obtain ⟨hb1, -⟩ := testBit_and_decode hbit
      obtain ⟨hshr, hocc_i⟩ := testBit_andNot_decode hi64 hb1
      have hpbit := testBit_shr_decode hshr
      have h8i : 8 + i < 64 := Bitboard.testBit_lt_64 _ _ (hpcb64 Piece.PAWN 1) hpbit
      obtain ⟨hpawnf, hcolf⟩ := pcb_decode hpbit
      have hte : p.getPieceAtOrNull i = none :=
        Position.empty_of_not_occupied hS hi64 hocc_i
      have hpf : p.getPieceAtOrNull (i + 8) = some Piece.PAWN := by
        have := Position.pieceAt_of_pieceBit hS (by decide) (by omega) hpawnf
        rwa [Nat.add_comm] at this
      have hcolf2 : (p.getColorBitboard 1).testBit (i + 8) = true := by
        rwa [Nat.add_comm]
      rw [show ((i : Int) + 8) = ((i + 8 : Nat) : Int) by omega] at hmeq
      rw [hmeq]
      exact moveOk_pawn_push_promo p hS 1 (i + 8) i Kind.BISHOP_PROMOTION htc (by omega)
        hi64 (by omega) (by decide) hpf hcolf2 hte _
  case _ =>
    rcases htcase with htc | htc
    · rw [htc] at h
      norm_num [FILES, LAST_RANK, RANKS] at h
      obtain ⟨i, hi64, hbit, hmeq⟩ := movesFromMask_mem_strong
        (Bitboard.and_lt_left _ _ (Bitboard.andNot_lt _ _
          (Bitboard.shiftLeft_lt _ _ (hpcb64 Piece.PAWN 0)))) h
      -- beta already reduced
      rw [show ∀ x : Nat, Bitboard.shiftLeft x (8 : Int) = Bitboard.shl x 8 from
        fun _ => rfl] at hbit
      obtain ⟨hb1, -⟩ := testBit_and_decode hbit
      obtain ⟨hshl, hocc_i⟩ := testBit_andNot_decode hi64 hb1
      obtain ⟨h8le, hpbit⟩ := testBit_shl_decode hi64 hshl
      obtain ⟨hpawnf, hcolf⟩ := pcb_decode hpbit
      have hte : p.getPieceAtOrNull i = none :=
        Position.empty_of_not_occupied hS hi64 hocc_i
      have hpf : p.getPieceAtOrNull (i - 8) = some Piece.PAWN :=
        Position.pieceAt_of_pieceBit hS (by decide) (by omega) hpawnf
      rw [show ((i : Int) - 8) = ((i - 8 : Nat) : Int) by omega] at hmeq
      rw [hmeq]
      exact moveOk_pawn_push_promo p hS 0 (i - 8) i Kind.KNIGHT_PROMOTION htc (by omega)
        hi64 (by omega) (by decide) hpf hcolf hte _
    · rw [htc] at h
      norm_num [FILES, LAST_RANK, RANKS] at h
      obtain ⟨i, hi64, hbit, hmeq⟩ := movesFromMask_mem_strong
        (Bitboard.and_lt_left _ _ (Bitboard.andNot_lt _ _
          (Bitboard.shiftLeft_lt _ _ (hpcb64 Piece.PAWN 1)))) h
      -- beta already reduced
      rw [show ∀ x : Nat, Bitboard.shiftLeft x (-8 : Int) = Bitboard.shr x 8 from
        fun _ => rfl] at hbit
      obtain ⟨hb1, -⟩ := testBit_and_decode hbit
      obtain ⟨hshr, hocc_i⟩ := testBit_andNot_decode hi64 hb1
      have hpbit := testBit_shr_decode hshr
      have h8i : 8 + i < 64 := Bitboard.testBit_lt_64 _ _ (hpcb64 Piece.PAWN 1) hpbit
      obtain ⟨hpawnf, hcolf⟩ := pcb_decode hpbit
      have hte : p.getPieceAtOrNull i = none :=
        Position.empty_of_not_occupied hS hi64 hocc_i
      have hpf : p.getPieceAtOrNull (i + 8) = some Piece.PAWN := by
        have := Position.pieceAt_of_pieceBit hS (by decide) (by omega) hpawnf
        rwa [Nat.add_comm] at this
      have hcolf2 : (p.getColorBitboard 1).testBit (i + 8) = true := by
        rwa [Nat.add_comm]
      rw [show ((i : Int) + 8) = ((i + 8 : Nat) : Int) by omega] at hmeq
      rw [hmeq]
      exact moveOk_pawn_push_promo p hS 1 (i + 8) i Kind.KNIGHT_PROMOTION htc (by omega)
        hi64 (by omega) (by decide) hpf hcolf2 hte _
  case _ =>
    rcases htcase with htc | htc
    · rw [htc] at h
      norm_num [FILES, LAST_RANK, RANKS, LAST_FILE] at h
      obtain ⟨i, hi64, hbit, hmeq⟩ := movesFromMask_mem_strong
        (Bitboard.andNot_lt _ _ (Bitboard.and_lt_left _ _
          (Bitboard.shiftLeft_lt _ _ (Bitboard.andNot_lt _ _ (hpcb64 Piece.PAWN 0))))) h
      rw [show ∀ x : Nat, Bitboard.shiftLeft x (7 : Int) = Bitboard.shl x 7 from
        fun _ => rfl] at hbit
      obtain ⟨hb1, hlast⟩ := testBit_andNot_decode hi64 hbit
      obtain ⟨hshl, hopp⟩ := testBit_and_decode hb1
      obtain ⟨hdle, hb2⟩ := testBit_shl_decode hi64 hshl
      obtain ⟨hpbit, hfl⟩ := testBit_andNot_decode (by omega : i - 7 < 64) hb2
      obtain ⟨hpawnf, hcolf⟩ := pcb_decode hpbit
      obtain ⟨hf8, hf56⟩ := hpr (i - 7) (by omega) hpawnf
      rw [ranks_testBit 7 (by decide) i hi64] at hlast
      have hlt56 := of_decide_eq_false hlast
      have hpf : p.getPieceAtOrNull (i - 7) = some Piece.PAWN :=
        Position.pieceAt_of_pieceBit hS (by decide) (by omega) hpawnf
      have hatt := Position.attack_pawn_wl p hi64 hdle hpbit hfl
      rw [show ((i : Int) - 7) = ((i - 7 : Nat) : Int) by omega] at hmeq
      rw [hmeq]
      exact moveOk_pawn_capture p hS 0 (i - 7) i Kind.CAPTURE htc (by decide) (by omega)
        hi64 (by omega) (by decide) (fun _ => by omega)
        (fun hk => absurd rfl hk) hpf hcolf hopp hatt
    · rw [htc] at h
      norm_num [FILES, LAST_RANK, RANKS, LAST_FILE] at h
      obtain ⟨i, hi64, hbit, hmeq⟩ := movesFromMask_mem_strong
        (Bitboard.andNot_lt _ _ (Bitboard.and_lt_left _ _
          (Bitboard.shiftLeft_lt _ _ (Bitboard.andNot_lt _ _ (hpcb64 Piece.PAWN 1))))) h
      rw [show ∀ x : Nat, Bitboard.shiftLeft x (-7 : Int) = Bitboard.shr x 7 from
        fun _ => rfl] at hbit
      obtain ⟨hb1, hlast⟩ := testBit_andNot_decode hi64 hbit
      obtain ⟨hshr, hopp⟩ := testBit_and_decode hb1
      have hb2 := testBit_shr_decode hshr
      have hdi : 7 + i < 64 :=
        Bitboard.testBit_lt_64 _ _ (Bitboard.andNot_lt _ _ (hpcb64 Piece.PAWN 1)) hb2
      obtain ⟨hpbit, hfl⟩ := testBit_andNot_decode (by omega : 7 + i < 64) hb2
      obtain ⟨hpawnf, hcolf⟩ := pcb_decode hpbit
      obtain ⟨hf8, hf56⟩ := hpr (7 + i) (by omega) hpawnf
      rw [ranks_testBit 0 (by decide) i hi64] at hlast
      have hge8 := of_decide_eq_false hlast
      have hpf : p.getPieceAtOrNull (i + 7) = some Piece.PAWN := by
        have := Position.pieceAt_of_pieceBit hS (by decide) (by omega) hpawnf
        rwa [Nat.add_comm] at this
      have hcolf2 : (p.getColorBitboard 1).testBit (i + 7) = true := by
        rwa [Nat.add_comm]
      have hpbit2 : (p.getPieceColorBitboard Piece.PAWN 1).testBit (i + 7) = true := by
        rwa [Nat.add_comm]
      have hfl2 := hfl
      rw [Nat.add_comm] at hfl2
      have hatt := Position.attack_pawn_bl p hi64 (by omega) hpbit2 hfl2
      rw [show ((i : Int) + 7) = ((i + 7 : Nat) : Int) by omega] at hmeq
      rw [hmeq]
      exact moveOk_pawn_capture p hS 1 (i + 7) i Kind.CAPTURE htc (by decide) (by omega)
        hi64 (by omega) (by decide) (fun _ => by omega)
        (fun hk => absurd rfl hk) hpf hcolf2 hopp hatt
  case _ =>
    rcases htcase with htc | htc
    · rw [htc] at h
      norm_num [FILES, LAST_RANK, RANKS, LAST_FILE] at h
      obtain ⟨i, hi64, hbit, hmeq⟩ := movesFromMask_mem_strong
        (Bitboard.and_lt_left _ _ (Bitboard.and_lt_left _ _
          (Bitboard.shiftLeft_lt _ _ (Bitboard.andNot_lt _ _ (hpcb64 Piece.PAWN 0))))) h
      rw [show ∀ x : Nat, Bitboard.shiftLeft x (7 : Int) = Bitboard.shl x 7 from
        fun _ => rfl] at hbit
      obtain ⟨hb1, hlast⟩ := testBit_and_decode hbit
      obtain ⟨hshl, hopp⟩ := testBit_and_decode hb1
      obtain ⟨hdle, hb2⟩ := testBit_shl_decode hi64 hshl
      obtain ⟨hpbit, hfl⟩ := testBit_andNot_decode (by omega : i - 7 < 64) hb2
      obtain ⟨hpawnf, hcolf⟩ := pcb_decode hpbit
      obtain ⟨hf8, hf56⟩ := hpr (i - 7) (by omega) hpawnf
      rw [ranks_testBit 7 (by decide) i hi64] at hlast
      have h56 := of_decide_eq_true hlast
      have hpb : (p.getPieceBitboard Piece.PAWN).testBit i = false := by
        cases hx : (p.getPieceBitboard Piece.PAWN).testBit i
        · rfl
        · exact absurd (hpr i hi64 hx) (by omega)
      have hpf : p.getPieceAtOrNull (i - 7) = some Piece.PAWN :=
        Position.pieceAt_of_pieceBit hS (by decide) (by omega) hpawnf
      have hatt := Position.attack_pawn_wl p hi64 hdle hpbit hfl
      rw [show ((i : Int) - 7) = ((i - 7 : Nat) : Int) by omega] at hmeq
      rw [hmeq]
      exact moveOk_pawn_capture p hS 0 (i - 7) i Kind.QUEEN_PROMOTION_CAPTURE htc (by decide) (by omega)
        hi64 (by omega) (by decide) (fun h4 => absurd h4 (by decide))
        (fun _ => hpb) hpf hcolf hopp hatt
    · rw [htc] at h
      norm_num [FILES, LAST_RANK, RANKS, LAST_FILE] at h
      obtain ⟨i, hi64, hbit, hmeq⟩ := movesFromMask_mem_strong
        (Bitboard.and_lt_left _ _ (Bitboard.and_lt_left _ _
          (Bitboard.shiftLeft_lt _ _ (Bitboard.andNot_lt _ _ (hpcb64 Piece.PAWN 1))))) h
      rw [show ∀ x : Nat, Bitboard.shiftLeft x (-7 : Int) = Bitboard.shr x 7 from
        fun _ => rfl] at hbit
      obtain ⟨hb1, hlast⟩ := testBit_and_decode hbit
      obtain ⟨hshr, hopp⟩ := testBit_and_decode hb1
      have hb2 := testBit_shr_decode hshr
      have hdi : 7 + i < 64 :=
        Bitboard.testBit_lt_64 _ _ (Bitboard.andNot_lt _ _ (hpcb64 Piece.PAWN 1)) hb2
      obtain ⟨hpbit, hfl⟩ := testBit_andNot_decode (by omega : 7 + i < 64) hb2
      obtain ⟨hpawnf, hcolf⟩ := pcb_decode hpbit
      obtain ⟨hf8, hf56⟩ := hpr (7 + i) (by omega) hpawnf
      rw [ranks_testBit 0 (by decide) i hi64] at hlast
      have hlt8 := of_decide_eq_true hlast
      have hpb : (p.getPieceBitboard Piece.PAWN).testBit i = false := by
        cases hx : (p.getPieceBitboard Piece.PAWN).testBit i
        · rfl
        · exact absurd (hpr i hi64 hx) (by omega)
      have hpf : p.getPieceAtOrNull (i + 7) = some Piece.PAWN := by
        have := Position.pieceAt_of_pieceBit hS (by decide) (by omega) hpawnf
        rwa [Nat.add_comm] at this
      have hcolf2 : (p.getColorBitboard 1).testBit (i + 7) = true := by
        rwa [Nat.add_comm]
      have hpbit2 : (p.getPieceColorBitboard Piece.PAWN 1).testBit (i + 7) = true := by
        rwa [Nat.add_comm]
      have hfl2 := hfl
      rw [Nat.add_comm] at hfl2
      have hatt := Position.attack_pawn_bl p hi64 (by omega) hpbit2 hfl2
      rw [show ((i : Int) + 7) = ((i + 7 : Nat) : Int) by omega] at hmeq
      rw [hmeq]
      exact moveOk_pawn_capture p hS 1 (i + 7) i Kind.QUEEN_PROMOTION_CAPTURE htc (by decide) (by omega)
        hi64 (by omega) (by decide) (fun h4 => absurd h4 (by decide))
        (fun _ => hpb) hpf hcolf2 hopp hatt
  case _ =>
    rcases htcase with htc | htc
    · rw [htc] at h
      norm_num [FILES, LAST_RANK, RANKS, LAST_FILE] at h
      obtain ⟨i, hi64, hbit, hmeq⟩ := movesFromMask_mem_strong
        (Bitboard.and_lt_left _ _ (Bitboard.and_lt_left _ _
          (Bitboard.shiftLeft_lt _ _ (Bitboard.andNot_lt _ _ (hpcb64 Piece.PAWN 0))))) h
      rw [show ∀ x : Nat, Bitboard.shiftLeft x (7 : Int) = Bitboard.shl x 7 from
        fun _ => rfl] at hbit
      obtain ⟨hb1, hlast⟩ := testBit_and_decode hbit
      obtain ⟨hshl, hopp⟩ := testBit_and_decode hb1
      obtain ⟨hdle, hb2⟩ := testBit_shl_decode hi64 hshl
      obtain ⟨hpbit, hfl⟩ := testBit_andNot_decode (by omega : i - 7 < 64) hb2
      obtain ⟨hpawnf, hcolf⟩ := pcb_decode hpbit
      obtain ⟨hf8, hf56⟩ := hpr (i - 7) (by omega) hpawnf
      rw [ranks_testBit 7 (by decide) i hi64] at hlast
      have h56 := of_decide_eq_true hlast
      have hpb : (p.getPieceBitboard Piece.PAWN).testBit i = false := by
        cases hx : (p.getPieceBitboard Piece.PAWN).testBit i
        · rfl
        · exact absurd (hpr i hi64 hx) (by omega)
      have hpf : p.getPieceAtOrNull (i - 7) = some Piece.PAWN :=
        Position.pieceAt_of_pieceBit hS (by decide) (by omega) hpawnf
      have hatt := Position.attack_pawn_wl p hi64 hdle hpbit hfl
      rw [show ((i : Int) - 7) = ((i - 7 : Nat) : Int) by omega] at hmeq
      rw [hmeq]
      exact moveOk_pawn_capture p hS 0 (i - 7) i Kind.ROOK_PROMOTION_CAPTURE htc (by decide) (by omega)
        hi64 (by omega) (by decide) (fun h4 => absurd h4 (by decide))
        (fun _ => hpb) hpf hcolf hopp hatt
    · rw [htc] at h
      norm_num [FILES, LAST_RANK, RANKS, LAST_FILE] at h
      obtain ⟨i, hi64, hbit, hmeq⟩ := movesFromMask_mem_strong
        (Bitboard.and_lt_left _ _ (Bitboard.and_lt_left _ _
          (Bitboard.shiftLeft_lt _ _ (Bitboard.andNot_lt _ _ (hpcb64 Piece.PAWN 1))))) h
      rw [show ∀ x : Nat, Bitboard.shiftLeft x (-7 : Int) = Bitboard.shr x 7 from
        fun _ => rfl] at hbit
      obtain ⟨hb1, hlast⟩ := testBit_and_decode hbit
      obtain ⟨hshr, hopp⟩ := testBit_and_decode hb1
      have hb2 := testBit_shr_decode hshr
      have hdi : 7 + i < 64 :=
        Bitboard.testBit_lt_64 _ _ (Bitboard.andNot_lt _ _ (hpcb64 Piece.PAWN 1)) hb2
      obtain ⟨hpbit, hfl⟩ := testBit_andNot_decode (by omega : 7 + i < 64) hb2
      obtain ⟨hpawnf, hcolf⟩ := pcb_decode hpbit
      obtain ⟨hf8, hf56⟩ := hpr (7 + i) (by omega) hpawnf
      rw [ranks_testBit 0 (by decide) i hi64] at hlast
      have hlt8 := of_decide_eq_true hlast
      have hpb : (p.getPieceBitboard Piece.PAWN).testBit i = false := by
        cases hx : (p.getPieceBitboard Piece.PAWN).testBit i
        · rfl
        · exact absurd (hpr i hi64 hx) (by omega)
      have hpf : p.getPieceAtOrNull (i + 7) = some Piece.PAWN := by
        have := Position.pieceAt_of_pieceBit hS (by decide) (by omega) hpawnf
        rwa [Nat.add_comm] at this
      have hcolf2 : (p.getColorBitboard 1).testBit (i + 7) = true := by
        rwa [Nat.add_comm]
      have hpbit2 : (p.getPieceColorBitboard Piece.PAWN 1).testBit (i + 7) = true := by
        rwa [Nat.add_comm]
      have hfl2 := hfl
      rw [Nat.add_comm] at hfl2
      have hatt := Position.attack_pawn_bl p hi64 (by omega) hpbit2 hfl2
      rw [show ((i : Int) + 7) = ((i + 7 : Nat) : Int) by omega] at hmeq
      rw [hmeq]
      exact moveOk_pawn_capture p hS 1 (i + 7) i Kind.ROOK_PROMOTION_CAPTURE htc (by decide) (by omega)
        hi64 (by omega) (by decide) (fun h4 => absurd h4 (by decide))
        (fun _ => hpb) hpf hcolf2 hopp hatt
  case _ =>
    rcases htcase with htc | htc
    · rw [htc] at h
      norm_num [FILES, LAST_RANK, RANKS, LAST_FILE] at h
      obtain ⟨i, hi64, hbit, hmeq⟩ := movesFromMask_mem_strong
        (Bitboard.and_lt_left _ _ (Bitboard.and_lt_left _ _
          (Bitboard.shiftLeft_lt _ _ (Bitboard.andNot_lt _ _ (hpcb64 Piece.PAWN 0))))) h
      rw [show ∀ x : Nat, Bitboard.shiftLeft x (7 : Int) = Bitboard.shl x 7 from
        fun _ => rfl] at hbit
      obtain ⟨hb1, hlast⟩ := testBit_and_decode hbit
      obtain ⟨hshl, hopp⟩ := testBit_and_decode hb1
      obtain ⟨hdle, hb2⟩ := testBit_shl_decode hi64 hshl
      obtain ⟨hpbit, hfl⟩ := testBit_andNot_decode (by omega : i - 7 < 64) hb2
      obtain ⟨hpawnf, hcolf⟩ := pcb_decode hpbit
      obtain ⟨hf8, hf56⟩ := hpr (i - 7) (by omega) hpawnf
      rw [ranks_testBit 7 (by decide) i hi64] at hlast
      have h56 := of_decide_eq_true hlast
      have hpb : (p.getPieceBitboard Piece.PAWN).testBit i = false := by
        cases hx : (p.getPieceBitboard Piece.PAWN).testBit i
        · rfl
        · exact absurd (hpr i hi64 hx) (by omega)
      have hpf : p.getPieceAtOrNull (i - 7) = some Piece.PAWN :=
        Position.pieceAt_of_pieceBit hS (by decide) (by omega) hpawnf
      have hatt := Position.attack_pawn_wl p hi64 hdle hpbit hfl
      rw [show ((i : Int) - 7) = ((i - 7 : Nat) : Int) by omega] at hmeq
      rw [hmeq]
      exact moveOk_pawn_capture p hS 0 (i - 7) i Kind.BISHOP_PROMOTION_CAPTURE htc (by decide) (by omega)
        hi64 (by omega) (by decide) (fun h4 => absurd h4 (by decide))
        (fun _ => hpb) hpf hcolf hopp hatt
    · rw [htc] at h
      norm_num [FILES, LAST_RANK, RANKS, LAST_FILE] at h
      obtain ⟨i, hi64, hbit, hmeq⟩ := movesFromMask_mem_strong
        (Bitboard.and_lt_left _ _ (Bitboard.and_lt_left _ _
          (Bitboard.shiftLeft_lt _ _ (Bitboard.andNot_lt _ _ (hpcb64 Piece.PAWN 1))))) h
      rw [show ∀ x : Nat, Bitboard.shiftLeft x (-7 : Int) = Bitboard.shr x 7 from
        fun _ => rfl] at hbit
      obtain ⟨hb1, hlast⟩ := testBit_and_decode hbit
      obtain ⟨hshr, hopp⟩ := testBit_and_decode hb1
      have hb2 := testBit_shr_decode hshr
      have hdi : 7 + i < 64 :=
        Bitboard.testBit_lt_64 _ _ (Bitboard.andNot_lt _ _ (hpcb64 Piece.PAWN 1)) hb2
      obtain ⟨hpbit, hfl⟩ := testBit_andNot_decode (by omega : 7 + i < 64) hb2
      obtain ⟨hpawnf, hcolf⟩ := pcb_decode hpbit
      obtain ⟨hf8, hf56⟩ := hpr (7 + i) (by omega) hpawnf
      rw [ranks_testBit 0 (by decide) i hi64] at hlast
      have hlt8 := of_decide_eq_true hlast
      have hpb : (p.getPieceBitboard Piece.PAWN).testBit i = false := by
        cases hx : (p.getPieceBitboard Piece.PAWN).testBit i
        · rfl
        · exact absurd (hpr i hi64 hx) (by omega)
      have hpf : p.getPieceAtOrNull (i + 7) = some Piece.PAWN := by
        have := Position.pieceAt_of_pieceBit hS (by decide) (by omega) hpawnf
        rwa [Nat.add_comm] at this
      have hcolf2 : (p.getColorBitboard 1).testBit (i + 7) = true := by
        rwa [Nat.add_comm]
      have hpbit2 : (p.getPieceColorBitboard Piece.PAWN 1).testBit (i + 7) = true := by
        rwa [Nat.add_comm]
      have hfl2 := hfl
      rw [Nat.add_comm] at hfl2
      have hatt := Position.attack_pawn_bl p hi64 (by omega) hpbit2 hfl2
      rw [show ((i : Int) + 7) = ((i + 7 : Nat) : Int) by omega] at hmeq
      rw [hmeq]
      exact moveOk_pawn_capture p hS 1 (i + 7) i Kind.BISHOP_PROMOTION_CAPTURE htc (by decide) (by omega)
        hi64 (by omega) (by decide) (fun h4 => absurd h4 (by decide))
        (fun _ => hpb) hpf hcolf2 hopp hatt
  case _ =>
    rcases htcase with htc | htc
    · rw [htc] at h
      norm_num [FILES, LAST_RANK, RANKS, LAST_FILE] at h
      obtain ⟨i, hi64, hbit, hmeq⟩ := movesFromMask_mem_strong
        (Bitboard.and_lt_left _ _ (Bitboard.and_lt_left _ _
          (Bitboard.shiftLeft_lt _ _ (Bitboard.andNot_lt _ _ (hpcb64 Piece.PAWN 0))))) h
      rw [show ∀ x : Nat, Bitboard.shiftLeft x (7 : Int) = Bitboard.shl x 7 from
        fun _ => rfl] at hbit
      obtain ⟨hb1, hlast⟩ := testBit_and_decode hbit
      obtain ⟨hshl, hopp⟩ := testBit_and_decode hb1
      obtain ⟨hdle, hb2⟩ := testBit_shl_decode hi64 hshl
      obtain ⟨hpbit, hfl⟩ := testBit_andNot_decode (by omega : i - 7 < 64) hb2
      obtain ⟨hpawnf, hcolf⟩ := pcb_decode hpbit
      obtain ⟨hf8, hf56⟩ := hpr (i - 7) (by omega) hpawnf
      rw [ranks_testBit 7 (by decide) i hi64] at hlast
      have h56 := of_decide_eq_true hlast
      have hpb : (p.getPieceBitboard Piece.PAWN).testBit i = false := by
        cases hx : (p.getPieceBitboard Piece.PAWN).testBit i
        · rfl
        · exact absurd (hpr i hi64 hx) (by omega)
      have hpf : p.getPieceAtOrNull (i - 7) = some Piece.PAWN :=
        Position.pieceAt_of_pieceBit hS (by decide) (by omega) hpawnf
      have hatt := Position.attack_pawn_wl p hi64 hdle hpbit hfl
      rw [show ((i : Int) - 7) = ((i - 7 : Nat) : Int) by omega] at hmeq
      rw [hmeq]
      exact moveOk_pawn_capture p hS 0 (i - 7) i Kind.KNIGHT_PROMOTION_CAPTURE htc (by decide) (by omega)
        hi64 (by omega) (by decide) (fun h4 => absurd h4 (by decide))
        (fun _ => hpb) hpf hcolf hopp hatt
    · rw [htc] at h
      norm_num [FILES, LAST_RANK, RANKS, LAST_FILE] at h
      obtain ⟨i, hi64, hbit, hmeq⟩ := movesFromMask_mem_strong
        (Bitboard.and_lt_left _ _ (Bitboard.and_lt_left _ _
          (Bitboard.shiftLeft_lt _ _ (Bitboard.andNot_lt _ _ (hpcb64 Piece.PAWN 1))))) h
      rw [show ∀ x : Nat, Bitboard.shiftLeft x (-7 : Int) = Bitboard.shr x 7 from
        fun _ => rfl] at hbit
      obtain ⟨hb1, hlast⟩ := testBit_and_decode hbit
      obtain ⟨hshr, hopp⟩ := testBit_and_decode hb1
      have hb2 := testBit_shr_decode hshr
      have hdi : 7 + i < 64 :=
        Bitboard.testBit_lt_64 _ _ (Bitboard.andNot_lt _ _ (hpcb64 Piece.PAWN 1)) hb2
      obtain ⟨hpbit, hfl⟩ := testBit_andNot_decode (by omega : 7 + i < 64) hb2
      obtain ⟨hpawnf, hcolf⟩ := pcb_decode hpbit
      obtain ⟨hf8, hf56⟩ := hpr (7 + i) (by omega) hpawnf
      rw [ranks_testBit 0 (by decide) i hi64] at hlast
      have hlt8 := of_decide_eq_true hlast
      have hpb : (p.getPieceBitboard Piece.PAWN).testBit i = false := by
        cases hx : (p.getPieceBitboard Piece.PAWN).testBit i
        · rfl
        · exact absurd (hpr i hi64 hx) (by omega)
      have hpf : p.getPieceAtOrNull (i + 7) = some Piece.PAWN := by
        have := Position.pieceAt_of_pieceBit hS (by decide) (by omega) hpawnf
        rwa [Nat.add_comm] at this
      have hcolf2 : (p.getColorBitboard 1).testBit (i + 7) = true := by
        rwa [Nat.add_comm]
      have hpbit2 : (p.getPieceColorBitboard Piece.PAWN 1).testBit (i + 7) = true := by
        rwa [Nat.add_comm]
      have hfl2 := hfl
      rw [Nat.add_comm] at hfl2
      have hatt := Position.attack_pawn_bl p hi64 (by omega) hpbit2 hfl2
      rw [show ((i : Int) + 7) = ((i + 7 : Nat) : Int) by omega] at hmeq
      rw [hmeq]
      exact moveOk_pawn_capture p hS 1 (i + 7) i Kind.KNIGHT_PROMOTION_CAPTURE htc (by decide) (by omega)
        hi64 (by omega) (by decide) (fun h4 => absurd h4 (by decide))
        (fun _ => hpb) hpf hcolf2 hopp hatt
  case _ =>
    rcases htcase with htc | htc
    · rw [htc] at h
      norm_num [FILES, LAST_RANK, RANKS, LAST_FILE] at h
      obtain ⟨i, hi64, hbit, hmeq⟩ := movesFromMask_mem_strong
        (Bitboard.andNot_lt _ _ (Bitboard.and_lt_left _ _
          (Bitboard.shiftLeft_lt _ _ (Bitboard.andNot_lt _ _ (hpcb64 Piece.PAWN 0))))) h
      rw [show ∀ x : Nat, Bitboard.shiftLeft x (9 : Int) = Bitboard.shl x 9 from
        fun _ => rfl] at hbit
      obtain ⟨hb1, hlast⟩ := testBit_andNot_decode hi64 hbit
      obtain ⟨hshl, hopp⟩ := testBit_and_decode hb1
      obtain ⟨hdle, hb2⟩ := testBit_shl_decode hi64 hshl
      obtain ⟨hpbit, hfl⟩ := testBit_andNot_decode (by omega : i - 9 < 64) hb2
      obtain ⟨hpawnf, hcolf⟩ := pcb_decode hpbit
      obtain ⟨hf8, hf56⟩ := hpr (i - 9) (by omega) hpawnf
      rw [ranks_testBit 7 (by decide) i hi64] at hlast
      have hlt56 := of_decide_eq_false hlast
      have hpf : p.getPieceAtOrNull (i - 9) = some Piece.PAWN :=
        Position.pieceAt_of_pieceBit hS (by decide) (by omega) hpawnf
      have hatt := Position.attack_pawn_wr p hi64 hdle hpbit hfl
      rw [show ((i : Int) - 9) = ((i - 9 : Nat) : Int) by omega] at hmeq
      rw [hmeq]
      exact moveOk_pawn_capture p hS 0 (i - 9) i Kind.CAPTURE htc (by decide) (by omega)
        hi64 (by omega) (by decide) (fun _ => by omega)
        (fun hk => absurd rfl hk) hpf hcolf hopp hatt
    · rw [htc] at h
      norm_num [FILES, LAST_RANK, RANKS, LAST_FILE] at h
      obtain ⟨i, hi64, hbit, hmeq⟩ := movesFromMask_mem_strong
        (Bitboard.andNot_lt _ _ (Bitboard.and_lt_left _ _
          (Bitboard.shiftLeft_lt _ _ (Bitboard.andNot_lt _ _ (hpcb64 Piece.PAWN 1))))) h
      rw [show ∀ x : Nat, Bitboard.shiftLeft x (-9 : Int) = Bitboard.shr x 9 from
        fun _ => rfl] at hbit
      obtain ⟨hb1, hlast⟩ := testBit_andNot_decode hi64 hbit
      obtain ⟨hshr, hopp⟩ := testBit_and_decode hb1
      have hb2 := testBit_shr_decode hshr
      have hdi : 9 + i < 64 :=
        Bitboard.testBit_lt_64 _ _ (Bitboard.andNot_lt _ _ (hpcb64 Piece.PAWN 1)) hb2
      obtain ⟨hpbit, hfl⟩ := testBit_andNot_decode (by omega : 9 + i < 64) hb2
      obtain ⟨hpawnf, hcolf⟩ := pcb_decode hpbit
      obtain ⟨hf8, hf56⟩ := hpr (9 + i) (by omega) hpawnf
      rw [ranks_testBit 0 (by decide) i hi64] at hlast
      have hge8 := of_decide_eq_false hlast
      have hpf : p.getPieceAtOrNull (i + 9) = some Piece.PAWN := by
        have := Position.pieceAt_of_pieceBit hS (by decide) (by omega) hpawnf
        rwa [Nat.add_comm] at this
      have hcolf2 : (p.getColorBitboard 1).testBit (i + 9) = true := by
        rwa [Nat.add_comm]
      have hpbit2 : (p.getPieceColorBitboard Piece.PAWN 1).testBit (i + 9) = true := by
        rwa [Nat.add_comm]
      have hfl2 := hfl
      rw [Nat.add_comm] at hfl2
      have hatt := Position.attack_pawn_br p hi64 (by omega) hpbit2 hfl2
      rw [show ((i : Int) + 9) = ((i + 9 : Nat) : Int) by omega] at hmeq
      rw [hmeq]
      exact moveOk_pawn_capture p hS 1 (i + 9) i Kind.CAPTURE htc (by decide) (by omega)
        hi64 (by omega) (by decide) (fun _ => by omega)
        (fun hk => absurd rfl hk) hpf hcolf2 hopp hatt
  case _ =>
    rcases htcase with htc | htc
    · rw [htc] at h
      norm_num [FILES, LAST_RANK, RANKS, LAST_FILE] at h
      obtain ⟨i, hi64, hbit, hmeq⟩ := movesFromMask_mem_strong
        (Bitboard.and_lt_left _ _ (Bitboard.and_lt_left _ _
          (Bitboard.shiftLeft_lt _ _ (Bitboard.andNot_lt _ _ (hpcb64 Piece.PAWN 0))))) h
      rw [show ∀ x : Nat, Bitboard.shiftLeft x (9 : Int) = Bitboard.shl x 9 from
        fun _ => rfl] at hbit
      obtain ⟨hb1, hlast⟩ := testBit_and_decode hbit
      obtain ⟨hshl, hopp⟩ := testBit_and_decode hb1
      obtain ⟨hdle, hb2⟩ := testBit_shl_decode hi64 hshl
      obtain ⟨hpbit, hfl⟩ := testBit_andNot_decode (by omega : i - 9 < 64) hb2
      obtain ⟨hpawnf, hcolf⟩ := pcb_decode hpbit
      obtain ⟨hf8, hf56⟩ := hpr (i - 9) (by omega) hpawnf
      rw [ranks_testBit 7 (by decide) i hi64] at hlast
      have h56 := of_decide_eq_true hlast
      have hpb : (p.getPieceBitboard Piece.PAWN).testBit i = false := by
        cases hx : (p.getPieceBitboard Piece.PAWN).testBit i
        · rfl
        · exact absurd (hpr i hi64 hx) (by omega)
      have hpf : p.getPieceAtOrNull (i - 9) = some Piece.PAWN :=
        Position.pieceAt_of_pieceBit hS (by decide) (by omega) hpawnf
      have hatt := Position.attack_pawn_wr p hi64 hdle hpbit hfl
      rw [show ((i : Int) - 9) = ((i - 9 : Nat) : Int) by omega] at hmeq
      rw [hmeq]
      exact moveOk_pawn_capture p hS 0 (i - 9) i Kind.QUEEN_PROMOTION_CAPTURE htc (by decide) (by omega)
        hi64 (by omega) (by decide) (fun h4 => absurd h4 (by decide))
        (fun _ => hpb) hpf hcolf hopp hatt
    · rw [htc] at h
      norm_num [FILES, LAST_RANK, RANKS, LAST_FILE] at h
      obtain ⟨i, hi64, hbit, hmeq⟩ := movesFromMask_mem_strong
        (Bitboard.and_lt_left _ _ (Bitboard.and_lt_left _ _
          (Bitboard.shiftLeft_lt _ _ (Bitboard.andNot_lt _ _ (hpcb64 Piece.PAWN 1))))) h
      rw [show ∀ x : Nat, Bitboard.shiftLeft x (-9 : Int) = Bitboard.shr x 9 from
        fun _ => rfl] at hbit
      obtain ⟨hb1, hlast⟩ := testBit_and_decode hbit
      obtain ⟨hshr, hopp⟩ := testBit_and_decode hb1
      have hb2 := testBit_shr_decode hshr
      have hdi : 9 + i < 64 :=
        Bitboard.testBit_lt_64 _ _ (Bitboard.andNot_lt _ _ (hpcb64 Piece.PAWN 1)) hb2
      obtain ⟨hpbit, hfl⟩ := testBit_andNot_decode (by omega : 9 + i < 64) hb2
      obtain ⟨hpawnf, hcolf⟩ := pcb_decode hpbit
      obtain ⟨hf8, hf56⟩ := hpr (9 + i) (by omega) hpawnf
      rw [ranks_testBit 0 (by decide) i hi64] at hlast
      have hlt8 := of_decide_eq_true hlast
      have hpb : (p.getPieceBitboard Piece.PAWN).testBit i = false := by
        cases hx : (p.getPieceBitboard Piece.PAWN).testBit i
        · rfl
        · exact absurd (hpr i hi64 hx) (by omega)
      have hpf : p.getPieceAtOrNull (i + 9) = some Piece.PAWN := by
        have := Position.pieceAt_of_pieceBit hS (by decide) (by omega) hpawnf
        rwa [Nat.add_comm] at this
      have hcolf2 : (p.getColorBitboard 1).testBit (i + 9) = true := by
        rwa [Nat.add_comm]
      have hpbit2 : (p.getPieceColorBitboard Piece.PAWN 1).testBit (i + 9) = true := by
        rwa [Nat.add_comm]
      have hfl2 := hfl
      rw [Nat.add_comm] at hfl2
      have hatt := Position.attack_pawn_br p hi64 (by omega) hpbit2 hfl2
      rw [show ((i : Int) + 9) = ((i + 9 : Nat) : Int) by omega] at hmeq
      rw [hmeq]
      exact moveOk_pawn_capture p hS 1 (i + 9) i Kind.QUEEN_PROMOTION_CAPTURE htc (by decide) (by omega)
        hi64 (by omega) (by decide) (fun h4 => absurd h4 (by decide))
        (fun _ => hpb) hpf hcolf2 hopp hatt
  case _ =>
    rcases htcase with htc | htc
    · rw [htc] at h
      norm_num [FILES, LAST_RANK, RANKS, LAST_FILE] at h
      obtain ⟨i, hi64, hbit, hmeq⟩ := movesFromMask_mem_strong
        (Bitboard.and_lt_left _ _ (Bitboard.and_lt_left _ _
          (Bitboard.shiftLeft_lt _ _ (Bitboard.andNot_lt _ _ (hpcb64 Piece.PAWN 0))))) h
      rw [show ∀ x : Nat, Bitboard.shiftLeft x (9 : Int) = Bitboard.shl x 9 from
        fun _ => rfl] at hbit
      obtain ⟨hb1, hlast⟩ := testBit_and_decode hbit
      obtain ⟨hshl, hopp⟩ := testBit_and_decode hb1
      obtain ⟨hdle, hb2⟩ := testBit_shl_decode hi64 hshl
      obtain ⟨hpbit, hfl⟩ := testBit_andNot_decode (by omega : i - 9 < 64) hb2
      obtain ⟨hpawnf, hcolf⟩ := pcb_decode hpbit
      obtain ⟨hf8, hf56⟩ := hpr (i - 9) (by omega) hpawnf
      rw [ranks_testBit 7 (by decide) i hi64] at hlast
      have h56 := of_decide_eq_true hlast
      have hpb : (p.getPieceBitboard Piece.PAWN).testBit i = false := by
        cases hx : (p.getPieceBitboard Piece.PAWN).testBit i
        · rfl
        · exact absurd (hpr i hi64 hx) (by omega)
      have hpf : p.getPieceAtOrNull (i - 9) = some Piece.PAWN :=
        Position.pieceAt_of_pieceBit hS (by decide) (by omega) hpawnf
      have hatt := Position.attack_pawn_wr p hi64 hdle hpbit hfl
      rw [show ((i : Int) - 9) = ((i - 9 : Nat) : Int) by omega] at hmeq
      rw [hmeq]
      exact moveOk_pawn_capture p hS 0 (i - 9) i Kind.ROOK_PROMOTION_CAPTURE htc (by decide) (by omega)
        hi64 (by omega) (by decide) (fun h4 => absurd h4 (by decide))
        (fun _ => hpb) hpf hcolf hopp hatt
    · rw [htc] at h
      norm_num [FILES, LAST_RANK, RANKS, LAST_FILE] at h
      obtain ⟨i, hi64, hbit, hmeq⟩ := movesFromMask_mem_strong
        (Bitboard.and_lt_left _ _ (Bitboard.and_lt_left _ _
          (Bitboard.shiftLeft_lt _ _ (Bitboard.andNot_lt _ _ (hpcb64 Piece.PAWN 1))))) h
      rw [show ∀ x : Nat, Bitboard.shiftLeft x (-9 : Int) = Bitboard.shr x 9 from
        fun _ => rfl] at hbit
      obtain ⟨hb1, hlast⟩ := testBit_and_decode hbit
      obtain ⟨hshr, hopp⟩ := testBit_and_decode hb1
      have hb2 := testBit_shr_decode hshr
      have hdi : 9 + i < 64 :=
        Bitboard.testBit_lt_64 _ _ (Bitboard.andNot_lt _ _ (hpcb64 Piece.PAWN 1)) hb2
      obtain ⟨hpbit, hfl⟩ := testBit_andNot_decode (by omega : 9 + i < 64) hb2
      obtain ⟨hpawnf, hcolf⟩ := pcb_decode hpbit
      obtain ⟨hf8, hf56⟩ := hpr (9 + i) (by omega) hpawnf
      rw [ranks_testBit 0 (by decide) i hi64] at hlast
      have hlt8 := of_decide_eq_true hlast
      have hpb : (p.getPieceBitboard Piece.PAWN).testBit i = false := by
        cases hx : (p.getPieceBitboard Piece.PAWN).testBit i
        · rfl
        · exact absurd (hpr i hi64 hx) (by omega)
      have hpf : p.getPieceAtOrNull (i + 9) = some Piece.PAWN := by
        have := Position.pieceAt_of_pieceBit hS (by decide) (by omega) hpawnf
        rwa [Nat.add_comm] at this
      have hcolf2 : (p.getColorBitboard 1).testBit (i + 9) = true := by
        rwa [Nat.add_comm]
      have hpbit2 : (p.getPieceColorBitboard Piece.PAWN 1).testBit (i + 9) = true := by
        rwa [Nat.add_comm]
      have hfl2 := hfl
      rw [Nat.add_comm] at hfl2
      have hatt := Position.attack_pawn_br p hi64 (by omega) hpbit2 hfl2
      rw [show ((i : Int) + 9) = ((i + 9 : Nat) : Int) by omega] at hmeq
      rw [hmeq]
      exact moveOk_pawn_capture p hS 1 (i + 9) i Kind.ROOK_PROMOTION_CAPTURE htc (by decide) (by omega)
        hi64 (by omega) (by decide) (fun h4 => absurd h4 (by decide))
        (fun _ => hpb) hpf hcolf2 hopp hatt
  case _ =>
    rcases htcase with htc | htc
    · rw [htc] at h
      norm_num [FILES, LAST_RANK, RANKS, LAST_FILE] at h
      obtain ⟨i, hi64, hbit, hmeq⟩ := movesFromMask_mem_strong
        (Bitboard.and_lt_left _ _ (Bitboard.and_lt_left _ _
          (Bitboard.shiftLeft_lt _ _ (Bitboard.andNot_lt _ _ (hpcb64 Piece.PAWN 0))))) h
      rw [show ∀ x : Nat, Bitboard.shiftLeft x (9 : Int) = Bitboard.shl x 9 from
        fun _ => rfl] at hbit
      obtain ⟨hb1, hlast⟩ := testBit_and_decode hbit
      obtain ⟨hshl, hopp⟩ := testBit_and_decode hb1
      obtain ⟨hdle, hb2⟩ := testBit_shl_decode hi64 hshl
      obtain ⟨hpbit, hfl⟩ := testBit_andNot_decode (by omega : i - 9 < 64) hb2
      obtain ⟨hpawnf, hcolf⟩ := pcb_decode hpbit
      obtain ⟨hf8, hf56⟩ := hpr (i - 9) (by omega) hpawnf
      rw [ranks_testBit 7 (by decide) i hi64] at hlast
      have h56 := of_decide_eq_true hlast
      have hpb : (p.getPieceBitboard Piece.PAWN).testBit i = false := by
        cases hx : (p.getPieceBitboard Piece.PAWN).testBit i
        · rfl
        · exact absurd (hpr i hi64 hx) (by omega)
      have hpf : p.getPieceAtOrNull (i - 9) = some Piece.PAWN :=
        Position.pieceAt_of_pieceBit hS (by decide) (by omega) hpawnf
      have hatt := Position.attack_pawn_wr p hi64 hdle hpbit hfl
      rw [show ((i : Int) - 9) = ((i - 9 : Nat) : Int) by omega] at hmeq
      rw [hmeq]
      exact moveOk_pawn_capture p hS 0 (i - 9) i Kind.BISHOP_PROMOTION_CAPTURE htc (by decide) (by omega)
        hi64 (by omega) (by decide) (fun h4 => absurd h4 (by decide))
        (fun _ => hpb) hpf hcolf hopp hatt
    · rw [htc] at h
      norm_num [FILES, LAST_RANK, RANKS, LAST_FILE] at h
      obtain ⟨i, hi64, hbit, hmeq⟩ := movesFromMask_mem_strong
        (Bitboard.and_lt_left _ _ (Bitboard.and_lt_left _ _
          (Bitboard.shiftLeft_lt _ _ (Bitboard.andNot_lt _ _ (hpcb64 Piece.PAWN 1))))) h
      rw [show ∀ x : Nat, Bitboard.shiftLeft x (-9 : Int) = Bitboard.shr x 9 from
        fun _ => rfl] at hbit
      obtain ⟨hb1, hlast⟩ := testBit_and_decode hbit
      obtain ⟨hshr, hopp⟩ := testBit_and_decode hb1
      have hb2 := testBit_shr_decode hshr
      have hdi : 9 + i < 64 :=
        Bitboard.testBit_lt_64 _ _ (Bitboard.andNot_lt _ _ (hpcb64 Piece.PAWN 1)) hb2
      obtain ⟨hpbit, hfl⟩ := testBit_andNot_decode (by omega : 9 + i < 64) hb2
      obtain ⟨hpawnf, hcolf⟩ := pcb_decode hpbit
      obtain ⟨hf8, hf56⟩ := hpr (9 + i) (by omega) hpawnf
      rw [ranks_testBit 0 (by decide) i hi64] at hlast
      have hlt8 := of_decide_eq_true hlast
      have hpb : (p.getPieceBitboard Piece.PAWN).testBit i = false := by
        cases hx : (p.getPieceBitboard Piece.PAWN).testBit i
        · rfl
        · exact absurd (hpr i hi64 hx) (by omega)
      have hpf : p.getPieceAtOrNull (i + 9) = some Piece.PAWN := by
        have := Position.pieceAt_of_pieceBit hS (by decide) (by omega) hpawnf
        rwa [Nat.add_comm] at this
      have hcolf2 : (p.getColorBitboard 1).testBit (i + 9) = true := by
        rwa [Nat.add_comm]
      have hpbit2 : (p.getPieceColorBitboard Piece.PAWN 1).testBit (i + 9) = true := by
        rwa [Nat.add_comm]
      have hfl2 := hfl
      rw [Nat.add_comm] at hfl2
      have hatt := Position.attack_pawn_br p hi64 (by omega) hpbit2 hfl2
      rw [show ((i : Int) + 9) = ((i + 9 : Nat) : Int) by omega] at hmeq
      rw [hmeq]
      exact moveOk_pawn_capture p hS 1 (i + 9) i Kind.BISHOP_PROMOTION_CAPTURE htc (by decide) (by omega)
        hi64 (by omega) (by decide) (fun h4 => absurd h4 (by decide))
        (fun _ => hpb) hpf hcolf2 hopp hatt
  case _ =>
    rcases htcase with htc | htc
    · rw [htc] at h
      norm_num [FILES, LAST_RANK, RANKS, LAST_FILE] at h
      obtain ⟨i, hi64, hbit, hmeq⟩ := movesFromMask_mem_strong
        (Bitboard.and_lt_left _ _ (Bitboard.and_lt_left _ _
          (Bitboard.shiftLeft_lt _ _ (Bitboard.andNot_lt _ _ (hpcb64 Piece.PAWN 0))))) h
      rw [show ∀ x : Nat, Bitboard.shiftLeft x (9 : Int) = Bitboard.shl x 9 from
        fun _ => rfl] at hbit
      obtain ⟨hb1, hlast⟩ := testBit_and_decode hbit
      obtain ⟨hshl, hopp⟩ := testBit_and_decode hb1
      obtain ⟨hdle, hb2⟩ := testBit_shl_decode hi64 hshl
      obtain ⟨hpbit, hfl⟩ := testBit_andNot_decode (by omega : i - 9 < 64) hb2
      obtain ⟨hpawnf, hcolf⟩ := pcb_decode hpbit
      obtain ⟨hf8, hf56⟩ := hpr (i - 9) (by omega) hpawnf
      rw [ranks_testBit 7 (by decide) i hi64] at hlast
      have h56 := of_decide_eq_true hlast
      have hpb : (p.getPieceBitboard Piece.PAWN).testBit i = false := by
        cases hx : (p.getPieceBitboard Piece.PAWN).testBit i
        · rfl
        · exact absurd (hpr i hi64 hx) (by omega)
      have hpf : p.getPieceAtOrNull (i - 9) = some Piece.PAWN :=
        Position.pieceAt_of_pieceBit hS (by decide) (by omega) hpawnf
      have hatt := Position.attack_pawn_wr p hi64 hdle hpbit hfl
      rw [show ((i : Int) - 9) = ((i - 9 : Nat) : Int) by omega] at hmeq
      rw [hmeq]
      exact moveOk_pawn_capture p hS 0 (i - 9) i Kind.KNIGHT_PROMOTION_CAPTURE htc (by decide) (by omega)
        hi64 (by omega) (by decide) (fun h4 => absurd h4 (by decide))
        (fun _ => hpb) hpf hcolf hopp hatt
    · rw [htc] at h
      norm_num [FILES, LAST_RANK, RANKS, LAST_FILE] at h
      obtain ⟨i, hi64, hbit, hmeq⟩ := movesFromMask_mem_strong
        (Bitboard.and_lt_left _ _ (Bitboard.and_lt_left _ _
          (Bitboard.shiftLeft_lt _ _ (Bitboard.andNot_lt _ _ (hpcb64 Piece.PAWN 1))))) h
      rw [show ∀ x : Nat, Bitboard.shiftLeft x (-9 : Int) = Bitboard.shr x 9 from
        fun _ => rfl] at hbit
      obtain ⟨hb1, hlast⟩ := testBit_and_decode hbit
      obtain ⟨hshr, hopp⟩ := testBit_and_decode hb1
      have hb2 := testBit_shr_decode hshr
      have hdi : 9 + i < 64 :=
        Bitboard.testBit_lt_64 _ _ (Bitboard.andNot_lt _ _ (hpcb64 Piece.PAWN 1)) hb2
      obtain ⟨hpbit, hfl⟩ := testBit_andNot_decode (by omega : 9 + i < 64) hb2
      obtain ⟨hpawnf, hcolf⟩ := pcb_decode hpbit
      obtain ⟨hf8, hf56⟩ := hpr (9 + i) (by omega) hpawnf
      rw [ranks_testBit 0 (by decide) i hi64] at hlast
      have hlt8 := of_decide_eq_true hlast
      have hpb : (p.getPieceBitboard Piece.PAWN).testBit i = false := by
        cases hx : (p.getPieceBitboard Piece.PAWN).testBit i
        · rfl
        · exact absurd (hpr i hi64 hx) (by omega)
      have hpf : p.getPieceAtOrNull (i + 9) = some Piece.PAWN := by
        have := Position.pieceAt_of_pieceBit hS (by decide) (by omega) hpawnf
        rwa [Nat.add_comm] at this
      have hcolf2 : (p.getColorBitboard 1).testBit (i + 9) = true := by
        rwa [Nat.add_comm]
      have hpbit2 : (p.getPieceColorBitboard Piece.PAWN 1).testBit (i + 9) = true := by
        rwa [Nat.add_comm]
      have hfl2 := hfl
      rw [Nat.add_comm] at hfl2
      have hatt := Position.attack_pawn_br p hi64 (by omega) hpbit2 hfl2
      rw [show ((i : Int) + 9) = ((i + 9 : Nat) : Int) by omega] at hmeq
      rw [hmeq]
      exact moveOk_pawn_capture p hS 1 (i + 9) i Kind.KNIGHT_PROMOTION_CAPTURE htc (by decide) (by omega)
        hi64 (by omega) (by decide) (fun h4 => absurd h4 (by decide))
        (fun _ => hpb) hpf hcolf2 hopp hatt
  case _ =>
    by_cases hep : Position.canEnPassant p = true
    · have he0 : (0 : Int) ≤ p.enPassantSquare := by
        unfold Position.canEnPassant at hep
        exact of_decide_eq_true hep
      obtain ⟨e, he⟩ : ∃ e : Nat, p.enPassantSquare = (e : Int) :=
        ⟨p.enPassantSquare.toNat, (Int.toNat_of_nonneg he0).symm⟩
      have hepOk := hS.2.2.2.2.2.2.2.2.1
      unfold Position.EnPassantOk at hepOk
      rcases hepOk with hno | hepOk2
      · rw [he] at hno
        omega
      obtain ⟨-, hwin, -, -, -⟩ := hepOk2
      rw [he] at hwin
      rw [if_pos hep] at h
      rcases List.mem_append.mp h with h | h
      · rcases htcase with htc | htc
        · have hwin2 : 32 ≤ e ∧ e < 40 := by
            have ht0 : p.turn = 0 := htc
            rw [if_pos ht0] at hwin
            omega
          rw [htc] at h
          norm_num [FILES, LAST_RANK, RANKS, LAST_FILE] at h
          rw [he] at h
          rw [show Bitboard.makeIndexI ((e : Int) + 1) = Bitboard.makeIndex (e + 1) by
            unfold Bitboard.makeIndexI; congr 1 <;> omega] at h
          rw [show ∀ x : Nat, Bitboard.shiftLeft x (7 : Int) = Bitboard.shl x 7 from
            fun _ => rfl] at h
          obtain ⟨i, hi64, hbit, hmeq⟩ := movesFromMask_mem_strong (Bitboard.shl_lt _ _) h
          obtain ⟨h7le, hb1⟩ := testBit_shl_decode hi64 hbit
          obtain ⟨hb2, hf0⟩ := testBit_andNot_decode (by omega : i - 7 < 64) hb1
          obtain ⟨hmk, hpw⟩ := testBit_and_decode hb2
          rw [Bitboard.makeIndex_eq (e + 1) (by omega), Nat.testBit_two_pow] at hmk
          have hie : e + 1 = i - 7 := of_decide_eq_true hmk
          rw [← hie] at hpw
          obtain ⟨hpawnf, hcolf⟩ := pcb_decode hpw
          have hpf := Position.pieceAt_of_pieceBit hS (by decide) (by omega) hpawnf
          rw [show ((i : Int) - 7) = ((e + 1 : Nat) : Int) by omega] at hmeq
          rw [hmeq]
          exact moveOk_ep p hS 0 e (e + 1) i htc (by decide) he (by omega) (Or.inl rfl)
            (by rw [if_pos rfl]; omega) (by rw [if_pos rfl]; exact hwin2) hpf hcolf
        · have hwin2 : 24 ≤ e ∧ e < 32 := by
            have ht1 : p.turn = 1 := htc
            rw [if_neg (by omega)] at hwin
            omega
          rw [htc] at h
          norm_num [FILES, LAST_RANK, RANKS, LAST_FILE] at h
          rw [he] at h
          rw [show Bitboard.makeIndexI ((e : Int) + -1) = Bitboard.makeIndex (e - 1) by
            unfold Bitboard.makeIndexI; congr 1 <;> omega] at h
          rw [show ∀ x : Nat, Bitboard.shiftLeft x (-7 : Int) = Bitboard.shr x 7 from
            fun _ => rfl] at h
          obtain ⟨i, hi64, hbit, hmeq⟩ := movesFromMask_mem_strong
            (Bitboard.shr_lt _ _ (Bitboard.andNot_lt _ _
              (Bitboard.and_lt_right _ _ (hpcb64 Piece.PAWN 1)))) h
          have hb1 := testBit_shr_decode hbit
          have h7i : 7 + i < 64 := Bitboard.testBit_lt_64 _ _
            (Bitboard.andNot_lt _ _ (Bitboard.and_lt_right _ _ (hpcb64 Piece.PAWN 1))) hb1
          obtain ⟨hb2, hf7⟩ := testBit_andNot_decode (by omega : 7 + i < 64) hb1
          obtain ⟨hmk, hpw⟩ := testBit_and_decode hb2
          rw [Bitboard.makeIndex_eq (e - 1) (by omega), Nat.testBit_two_pow] at hmk
          have hie : e - 1 = 7 + i := of_decide_eq_true hmk
          rw [← hie] at hpw
          obtain ⟨hpawnf, hcolf⟩ := pcb_decode hpw
          have hpf := Position.pieceAt_of_pieceBit hS (by decide) (by omega) hpawnf
          rw [show ((i : Int) + 7) = ((e - 1 : Nat) : Int) by omega] at hmeq
          rw [hmeq]
          exact moveOk_ep p hS 1 e (e - 1) i htc (by decide) he (by omega) (Or.inr rfl)
            (by rw [if_neg (by decide)]; omega)
            (by rw [if_neg (by decide)]; exact hwin2) hpf hcolf
      · rcases htcase with htc | htc
        · have hwin2 : 32 ≤ e ∧ e < 40 := by
            have ht0 : p.turn = 0 := htc
            rw [if_pos ht0] at hwin
            omega
          rw [htc] at h
          norm_num [FILES, LAST_RANK, RANKS, LAST_FILE] at h
          rw [he] at h
          rw [show Bitboard.makeIndexI ((e : Int) - 1) = Bitboard.makeIndex (e - 1) by
            unfold Bitboard.makeIndexI; congr 1 <;> omega] at h
          rw [show ∀ x : Nat, Bitboard.shiftLeft x (9 : Int) = Bitboard.shl x 9 from
            fun _ => rfl] at h
          obtain ⟨i, hi64, hbit, hmeq⟩ := movesFromMask_mem_strong (Bitboard.shl_lt _ _) h
          obtain ⟨h9le, hb1⟩ := testBit_shl_decode hi64 hbit
          obtain ⟨hb2, hf7⟩ := testBit_andNot_decode (by omega : i - 9 < 64) hb1
          obtain ⟨hmk, hpw⟩ := testBit_and_decode hb2
          rw [Bitboard.makeIndex_eq (e - 1) (by omega), Nat.testBit_two_pow] at hmk
          have hie : e - 1 = i - 9 := of_decide_eq_true hmk
          rw [← hie] at hpw
          obtain ⟨hpawnf, hcolf⟩ := pcb_decode hpw
          have hpf := Position.pieceAt_of_pieceBit hS (by decide) (by omega) hpawnf
          rw [show ((i : Int) - 9) = ((e - 1 : Nat) : Int) by omega] at hmeq
          rw [hmeq]
          exact moveOk_ep p hS 0 e (e - 1) i htc (by decide) he (by omega) (Or.inr rfl)
            (by rw [if_pos rfl]; omega) (by rw [if_pos rfl]; exact hwin2) hpf hcolf
        · have hwin2 : 24 ≤ e ∧ e < 32 := by
            have ht1 : p.turn = 1 := htc
            rw [if_neg (by omega)] at hwin
            omega
          rw [htc] at h
          norm_num [FILES, LAST_RANK, RANKS, LAST_FILE] at h
          rw [he] at h
          rw [show Bitboard.makeIndexI ((e : Int) + 1) = Bitboard.makeIndex (e + 1) by
            unfold Bitboard.makeIndexI; congr 1 <;> omega] at h
          rw [show ∀ x : Nat, Bitboard.shiftLeft x (-9 : Int) = Bitboard.shr x 9 from
            fun _ => rfl] at h
          obtain ⟨i, hi64, hbit, hmeq⟩ := movesFromMask_mem_strong
            (Bitboard.shr_lt _ _ (Bitboard.andNot_lt _ _
              (Bitboard.and_lt_right _ _ (hpcb64 Piece.PAWN 1)))) h
          have hb1 := testBit_shr_decode hbit
          have h9i : 9 + i < 64 := Bitboard.testBit_lt_64 _ _
            (Bitboard.andNot_lt _ _ (Bitboard.and_lt_right _ _ (hpcb64 Piece.PAWN 1))) hb1
          obtain ⟨hb2, hf0⟩ := testBit_andNot_decode (by omega : 9 + i < 64) hb1
          obtain ⟨hmk, hpw⟩ := testBit_and_decode hb2
          rw [Bitboard.makeIndex_eq (e + 1) (by omega), Nat.testBit_two_pow] at hmk
          have hie : e + 1 = 9 + i := of_decide_eq_true hmk
          rw [← hie] at hpw
          obtain ⟨hpawnf, hcolf⟩ := pcb_decode hpw
          have hpf := Position.pieceAt_of_pieceBit hS (by decide) (by omega) hpawnf
          rw [show ((i : Int) + 9) = ((e + 1 : Nat) : Int) by omega] at hmeq
          rw [hmeq]
          exact moveOk_ep p hS 1 e (e + 1) i htc (by decide) he (by omega) (Or.inl rfl)
            (by rw [if_neg (by decide)]; omega)
            (by rw [if_neg (by decide)]; exact hwin2) hpf hcolf
    · rw [if_neg hep] at h
      exact absurd h (List.not_mem_nil _)
  case _ =>
    rcases htcase with htc | htc
    · rw [htc] at h
      obtain ⟨k, hk64, hkbit, h2⟩ := piecesFromMask_mem_strong (hpcb64 Piece.KNIGHT 0) h
      obtain ⟨t, ht64, htbit, hmeq⟩ := movesFromMask_mem_strong
        (Bitboard.and_lt_right _ _ (Bitboard.bnot_lt _ (hcol64 0))) h2
      obtain ⟨hmov, hnotown⟩ := testBit_and_decode htbit
      have hmt : (p.getColorBitboard 0).testBit t = false := by
        rw [Bitboard.testBit_bnot _ _ ht64] at hnotown
        simpa using hnotown
      obtain ⟨hkp, hkc⟩ := pcb_decode hkbit
      have hpk := Position.pieceAt_of_pieceBit hS (by decide) hk64 hkp
      have hatt := Position.isAttacked_of_knights p 0 t k ht64 hk64 hkbit hmov
      rw [hmeq]
      exact moveOk_normal p hS 0 k t Piece.KNIGHT htc (by decide) hk64 ht64 (by decide)
        (by decide) hpk hkc hmt hatt
    · rw [htc] at h
      obtain ⟨k, hk64, hkbit, h2⟩ := piecesFromMask_mem_strong (hpcb64 Piece.KNIGHT 1) h
      obtain ⟨t, ht64, htbit, hmeq⟩ := movesFromMask_mem_strong
        (Bitboard.and_lt_right _ _ (Bitboard.bnot_lt _ (hcol64 1))) h2
      obtain ⟨hmov, hnotown⟩ := testBit_and_decode htbit
      have hmt : (p.getColorBitboard 1).testBit t = false := by
        rw [Bitboard.testBit_bnot _ _ ht64] at hnotown
        simpa using hnotown
      obtain ⟨hkp, hkc⟩ := pcb_decode hkbit
      have hpk := Position.pieceAt_of_pieceBit hS (by decide) hk64 hkp
      have hatt := Position.isAttacked_of_knights p 1 t k ht64 hk64 hkbit hmov
      rw [hmeq]
      exact moveOk_normal p hS 1 k t Piece.KNIGHT htc (by decide) hk64 ht64 (by decide)
        (by decide) hpk hkc hmt hatt
  case _ =>
    rcases htcase with htc | htc
    · rw [htc] at h
      obtain ⟨k, hk64, hkbit, h2⟩ := piecesFromMask_mem_strong (hpcb64 Piece.QUEEN 0) h
      obtain ⟨t, ht64, htbit, hmeq⟩ := movesFromMask_mem_strong
        (Bitboard.and_lt_right _ _ (Bitboard.bnot_lt _ (hcol64 0))) h2
      obtain ⟨hmov, hnotown⟩ := testBit_and_decode htbit
      have hmt : (p.getColorBitboard 0).testBit t = false := by
        rw [Bitboard.testBit_bnot _ _ ht64] at hnotown
        simpa using hnotown
      obtain ⟨hkp, hkc⟩ := pcb_decode hkbit
      have hpk := Position.pieceAt_of_pieceBit hS (by decide) hk64 hkp
      have hatt : Position.isAttacked p 0 t = true := by
        rw [Nat.testBit_or] at hmov
        rcases Bool.or_eq_true_iff.mp hmov with hbp | hrp
        · exact Position.isAttacked_of_bishop p 0 t k ht64 hk64
            (by rw [Nat.testBit_or, hkbit]; simp) hbp
        · exact Position.isAttacked_of_rook p 0 t k ht64 hk64
            (by rw [Nat.testBit_or, hkbit]; simp) hrp
      rw [hmeq]
      exact moveOk_normal p hS 0 k t Piece.QUEEN htc (by decide) hk64 ht64 (by decide)
        (by decide) hpk hkc hmt hatt
    · rw [htc] at h
      obtain ⟨k, hk64, hkbit, h2⟩ := piecesFromMask_mem_strong (hpcb64 Piece.QUEEN 1) h
      obtain ⟨t, ht64, htbit, hmeq⟩ := movesFromMask_mem_strong
        (Bitboard.and_lt_right _ _ (Bitboard.bnot_lt _ (hcol64 1))) h2
      obtain ⟨hmov, hnotown⟩ := testBit_and_decode htbit
      have hmt : (p.getColorBitboard 1).testBit t = false := by
        rw [Bitboard.testBit_bnot _ _ ht64] at hnotown
        simpa using hnotown
      obtain ⟨hkp, hkc⟩ := pcb_decode hkbit
      have hpk := Position.pieceAt_of_pieceBit hS (by decide) hk64 hkp
      have hatt : Position.isAttacked p 1 t = true := by
        rw [Nat.testBit_or] at hmov
        rcases Bool.or_eq_true_iff.mp hmov with hbp | hrp
        · exact Position.isAttacked_of_bishop p 1 t k ht64 hk64
            (by rw [Nat.testBit_or, hkbit]; simp) hbp
        · exact Position.isAttacked_of_rook p 1 t k ht64 hk64
            (by rw [Nat.testBit_or, hkbit]; simp) hrp
      rw [hmeq]
      exact moveOk_normal p hS 1 k t Piece.QUEEN htc (by decide) hk64 ht64 (by decide)
        (by decide) hpk hkc hmt hatt
  case _ =>
    rcases htcase with htc | htc
    · rw [htc] at h
      obtain ⟨k, hk64, hkbit, h2⟩ := piecesFromMask_mem_strong (hpcb64 Piece.BISHOP 0) h
      obtain ⟨t, ht64, htbit, hmeq⟩ := movesFromMask_mem_strong
        (Bitboard.and_lt_right _ _ (Bitboard.bnot_lt _ (hcol64 0))) h2
      obtain ⟨hmov, hnotown⟩ := testBit_and_decode htbit
      have hmt : (p.getColorBitboard 0).testBit t = false := by
        rw [Bitboard.testBit_bnot _ _ ht64] at hnotown
        simpa using hnotown
      obtain ⟨hkp, hkc⟩ := pcb_decode hkbit
      have hpk := Position.pieceAt_of_pieceBit hS (by decide) hk64 hkp
      have hatt := Position.isAttacked_of_bishop p 0 t k ht64 hk64
        (by rw [Nat.testBit_or, hkbit]; rfl) hmov
      rw [hmeq]
      exact moveOk_normal p hS 0 k t Piece.BISHOP htc (by decide) hk64 ht64 (by decide)
        (by decide) hpk hkc hmt hatt
    · rw [htc] at h
      obtain ⟨k, hk64, hkbit, h2⟩ := piecesFromMask_mem_strong (hpcb64 Piece.BISHOP 1) h
      obtain ⟨t, ht64, htbit, hmeq⟩ := movesFromMask_mem_strong
        (Bitboard.and_lt_right _ _ (Bitboard.bnot_lt _ (hcol64 1))) h2
      obtain ⟨hmov, hnotown⟩ := testBit_and_decode htbit
      have hmt : (p.getColorBitboard 1).testBit t = false := by
        rw [Bitboard.testBit_bnot _ _ ht64] at hnotown
        simpa using hnotown
      obtain ⟨hkp, hkc⟩ := pcb_decode hkbit
      have hpk := Position.pieceAt_of_pieceBit hS (by decide) hk64 hkp
      have hatt := Position.isAttacked_of_bishop p 1 t k ht64 hk64
        (by rw [Nat.testBit_or, hkbit]; rfl) hmov
      rw [hmeq]
      exact moveOk_normal p hS 1 k t Piece.BISHOP htc (by decide) hk64 ht64 (by decide)
        (by decide) hpk hkc hmt hatt
  case _ =>
    rcases htcase with htc | htc
    · rw [htc] at h
      obtain ⟨k, hk64, hkbit, h2⟩ := piecesFromMask_mem_strong (hpcb64 Piece.ROOK 0) h
      obtain ⟨t, ht64, htbit, hmeq⟩ := movesFromMask_mem_strong
        (Bitboard.and_lt_right _ _ (Bitboard.bnot_lt _ (hcol64 0))) h2
      obtain ⟨hmov, hnotown⟩ := testBit_and_decode htbit
      have hmt : (p.getColorBitboard 0).testBit t = false := by
        rw [Bitboard.testBit_bnot _ _ ht64] at hnotown
        simpa using hnotown
      obtain ⟨hkp, hkc⟩ := pcb_decode hkbit
      have hpk := Position.pieceAt_of_pieceBit hS (by decide) hk64 hkp
      have hatt := Position.isAttacked_of_rook p 0 t k ht64 hk64
        (by rw [Nat.testBit_or, hkbit]; rfl) hmov
      rw [hmeq]
      exact moveOk_normal p hS 0 k t Piece.ROOK htc (by decide) hk64 ht64 (by decide)
        (by decide) hpk hkc hmt hatt
    · rw [htc] at h
      obtain ⟨k, hk64, hkbit, h2⟩ := piecesFromMask_mem_strong (hpcb64 Piece.ROOK 1) h
      obtain ⟨t, ht64, htbit, hmeq⟩ := movesFromMask_mem_strong
        (Bitboard.and_lt_right _ _ (Bitboard.bnot_lt _ (hcol64 1))) h2
      obtain ⟨hmov, hnotown⟩ := testBit_and_decode htbit
      have hmt : (p.getColorBitboard 1).testBit t = false := by
        rw [Bitboard.testBit_bnot _ _ ht64] at hnotown
        simpa using hnotown
      obtain ⟨hkp, hkc⟩ := pcb_decode hkbit
      have hpk := Position.pieceAt_of_pieceBit hS (by decide) hk64 hkp
      have hatt := Position.isAttacked_of_rook p 1 t k ht64 hk64
        (by rw [Nat.testBit_or, hkbit]; rfl) hmov
      rw [hmeq]
      exact moveOk_normal p hS 1 k t Piece.ROOK htc (by decide) hk64 ht64 (by decide)
        (by decide) hpk hkc hmt hatt
  case _ =>
    rcases htcase with htc | htc
    · rw [htc] at h
      obtain ⟨hk64, hkbb, hpkK, hkcK⟩ := Position.kingPos_spec hS (show (0 : Nat) < 2 by decide)
      obtain ⟨t, ht64, htbit, hmeq⟩ := movesFromMask_mem_strong
        (Bitboard.and_lt_right _ _ (Bitboard.bnot_lt _ (hcol64 0))) h
      obtain ⟨hmov, hnotown⟩ := testBit_and_decode htbit
      have hmt : (p.getColorBitboard 0).testBit t = false := by
        rw [Bitboard.testBit_bnot _ _ ht64] at hnotown
        simpa using hnotown
      have hkbit : (p.getPieceColorBitboard Piece.KING 0).testBit
          (p.getKingPosition 0) = true := by
        rw [hkbb, Nat.testBit_two_pow]
        simp
      have hatt := Position.isAttacked_of_king p 0 t (p.getKingPosition 0) ht64 hk64
        hkbit hmov
      rw [hmeq]
      exact moveOk_normal p hS 0 (p.getKingPosition 0) t Piece.KING htc (by decide) hk64
        ht64 (by decide) (by decide) hpkK hkcK hmt hatt
    · rw [htc] at h
      obtain ⟨hk64, hkbb, hpkK, hkcK⟩ := Position.kingPos_spec hS (show (1 : Nat) < 2 by decide)
      obtain ⟨t, ht64, htbit, hmeq⟩ := movesFromMask_mem_strong
        (Bitboard.and_lt_right _ _ (Bitboard.bnot_lt _ (hcol64 1))) h
      obtain ⟨hmov, hnotown⟩ := testBit_and_decode htbit
      have hmt : (p.getColorBitboard 1).testBit t = false := by
        rw [Bitboard.testBit_bnot _ _ ht64] at hnotown
        simpa using hnotown
      have hkbit : (p.getPieceColorBitboard Piece.KING 1).testBit
          (p.getKingPosition 1) = true := by
        rw [hkbb, Nat.testBit_two_pow]
        simp
      have hatt := Position.isAttacked_of_king p 1 t (p.getKingPosition 1) ht64 hk64
        hkbit hmov
      rw [hmeq]
      exact moveOk_normal p hS 1 (p.getKingPosition 1) t Piece.KING htc (by decide) hk64
        ht64 (by decide) (by decide) hpkK hkcK hmt hatt
  case _ =>
    by_cases hcc : Position.canCastle p p.getTurnColor true true = true
    · rw [if_pos hcc] at h
      rw [List.mem_singleton] at h
      rw [h]
      exact moveOk_castle_ks p hS hcc
    · rw [if_neg hcc] at h
      exact absurd h (List.not_mem_nil _)
  case _ =>
    by_cases hcc : Position.canCastle p p.getTurnColor false true = true
    · rw [if_pos hcc] at h
      rw [List.mem_singleton] at h
      rw [h]
      exact moveOk_castle_qs p hS hcc
    · rw [if_neg hcc] at h
      exact absurd h (List.not_mem_nil _)

/-! ### XOR helpers -/

theorem xor_left_comm (a b c : Nat) : a ^^^ (b ^^^ c) = b ^^^ (a ^^^ c) := by
  rw [← Nat.xor_assoc, Nat.xor_comm a b, Nat.xor_assoc]

theorem xor_cancel_left (a b : Nat) : a ^^^ (a ^^^ b) = b := by
  rw [← Nat.xor_assoc, Nat.xor_self, Nat.zero_xor]

theorem two_pow_lor_eq_xor (f t : Nat) (hne : f ≠ t) : 2 ^ f ||| 2 ^ t = 2 ^ f ^^^ 2 ^ t := by
  apply Nat.eq_of_testBit_eq
  intro j
  rw [Nat.testBit_or, Nat.testBit_xor, Nat.testBit_two_pow, Nat.testBit_two_pow]
  by_cases h1 : f = j
  · by_cases h2 : t = j
    · exact absurd (h1.trans h2.symm) hne
    · simp [h1, h2]
  · by_cases h2 : t = j
    · simp [h1, h2]
    · simp [h1, h2]

/-! ### Normal forms for setBit and clearBit below 64 -/

theorem Bitboard.testBit_setBit (v i j : Nat) (hi : i < 64) :
    (Bitboard.setBit v i).testBit j = if j = i then true else v.testBit j := by
  rw [Bitboard.setBit_eq v i hi, Nat.testBit_or, Nat.testBit_two_pow]
  by_cases h : j = i
  · simp [h]
  · have : ¬ i = j := fun e => h e.symm
    simp [h, this]

theorem Bitboard.testBit_clearBit (v i j : Nat) (hi : i < 64) (hj : j < 64) :
    (Bitboard.clearBit v i).testBit j = if j = i then false else v.testBit j := by
  rw [Bitboard.clearBit_eq v i hi, Nat.testBit_and, Nat.testBit_xor,
    Bitboard.testBit_MASK64, Nat.testBit_two_pow]
  by_cases h : j = i
  · simp [h, hi]
  · have : ¬ i = j := fun e => h e.symm
    simp [h, this, hj]

/-! ### The lowest set bit as a power of two -/

theorem Bitboard.lowestBitAux_and_char :
    ∀ (fuel v : Nat), v ≠ 0 → v < 2 ^ fuel →
      v &&& (v - 1) = v ^^^ 2 ^ Bitboard.lowestBitAux fuel v
  | 0, v, hv, hlt => absurd (Nat.lt_one_iff.mp hlt) hv
  | fuel + 1, v, hv, hlt => by
    unfold Bitboard.lowestBitAux
    split
    · rename_i hodd
      apply Nat.eq_of_testBit_eq
      intro j
      cases j with
      | zero =>
        rw [Nat.testBit_and, Nat.testBit_xor, Nat.testBit_zero, Nat.testBit_zero,
          Nat.testBit_zero]
        have h1 : (v - 1) % 2 = 0 := by omega
        simp [hodd, h1]
      | succ j =>
        rw [Nat.testBit_and, Nat.testBit_xor, Nat.testBit_succ, Nat.testBit_succ,
          Nat.testBit_succ]
        have h2 : (v - 1) / 2 = v / 2 := by omega
        have h3 : 2 ^ 0 / 2 = 0 := by norm_num
        rw [h2, h3, Nat.zero_testBit, Bool.xor_false, Bool.and_self]
    · rename_i hodd
      have hv2 : v / 2 ≠ 0 := by omega
      have hlt2 : v / 2 < 2 ^ fuel := by
        rw [Nat.pow_succ] at hlt
        omega
      have ih := Bitboard.lowestBitAux_and_char fuel (v / 2) hv2 hlt2
      apply Nat.eq_of_testBit_eq
      intro j
      cases j with
      | zero =>
        rw [Nat.testBit_and, Nat.testBit_xor, Nat.testBit_zero, Nat.testBit_zero,
          Nat.testBit_zero]
        have h1 : v % 2 = 0 := by omega
        have h2 : 2 ^ (1 + Bitboard.lowestBitAux fuel (v / 2)) % 2 = 0 := by
          have h3 : 1 + Bitboard.lowestBitAux fuel (v / 2) =
              (Bitboard.lowestBitAux fuel (v / 2)) + 1 := by omega
          rw [h3, Nat.pow_succ]
          omega
        simp [h1, h2]
      | succ j =>
        rw [Nat.testBit_and, Nat.testBit_xor, Nat.testBit_succ, Nat.testBit_succ,
          Nat.testBit_succ]
        have h2 : (v - 1) / 2 = v / 2 - 1 := by omega
        have h3 : 2 ^ (1 + Bitboard.lowestBitAux fuel (v / 2)) / 2 =
            2 ^ Bitboard.lowestBitAux fuel (v / 2) := by
          rw [Nat.add_comm, Nat.pow_succ]
          omega
        rw [h2, h3, ← Nat.testBit_and, ih, Nat.testBit_xor]

theorem Bitboard.popLowestBit_char (v : Nat) (hv : v ≠ 0) (h64 : v < 2 ^ 64) :
    Bitboard.popLowestBit v = v ^^^ 2 ^ Bitboard.getLowestBitPosition v :=
  Bitboard.lowestBitAux_and_char 64 v hv h64

/-! ### Bit counting -/

theorem bitCount_le (bb : Nat) : bitCount bb ≤ 64 := by
  unfold bitCount
  simpa using List.countP_le_length (fun i => Nat.testBit bb i)

theorem countP_flip_aux :
    ∀ (l : List Nat), l.Nodup → ∀ (k bb : Nat), k ∈ l → bb.testBit k = true →
      List.countP (fun i => (bb ^^^ 2 ^ k).testBit i) l + 1 =
        List.countP (fun i => bb.testBit i) l := by
  intro l
  induction l with
  | nil => intro _ k bb hk _; exact absurd hk (List.not_mem_nil k)
  | cons a l ih =>
    intro hnd k bb hk hbit
    rw [List.nodup_cons] at hnd
    rw [List.countP_cons, List.countP_cons]
    rcases List.mem_cons.mp hk with hka | hkl
    · subst hka
      have hflip : (bb ^^^ 2 ^ k).testBit k = false := by
        rw [Nat.testBit_xor, hbit, Nat.testBit_two_pow_self]
        rfl
      have hsame : List.countP (fun i => (bb ^^^ 2 ^ k).testBit i) l =
          List.countP (fun i => bb.testBit i) l := by
        apply List.countP_congr
        intro i hi
        have hik : ¬ k = i := fun h => hnd.1 (h ▸ hi)
        rw [Nat.testBit_xor, Nat.testBit_two_pow]
        simp [hik]
      rw [hflip, hbit, hsame]
      simp
    · have hka : ¬ k = a := fun h => hnd.1 (h ▸ hkl)
      have hstep : (bb ^^^ 2 ^ k).testBit a = bb.testBit a := by
        rw [Nat.testBit_xor, Nat.testBit_two_pow]
        simp [hka]
      rw [hstep]
      have hrec := ih hnd.2 k bb hkl hbit
      cases hab : bb.testBit a with
      | false =>
        have hif : (if (false : Bool) = true then (1 : Nat) else 0) = 0 := rfl
        rw [hif]
        omega
      | true =>
        have hif : (if (true : Bool) = true then (1 : Nat) else 0) = 1 := rfl
        rw [hif]
        omega

theorem bitCount_pop (bb : Nat) (hbb : bb ≠ 0) (h64 : bb < 2 ^ 64) :
    bitCount (Bitboard.popLowestBit bb) < bitCount bb := by
  have hk : bb.testBit (Bitboard.getLowestBitPosition bb) = true :=
    Bitboard.lowestBitAux_testBit 64 bb hbb h64
  have hk64 : Bitboard.getLowestBitPosition bb < 64 := Bitboard.testBit_lt_64 bb _ h64 hk
  have h := countP_flip_aux (List.range 64) (List.nodup_range 64) _ bb
    (List.mem_range.mpr hk64) hk
  rw [Bitboard.popLowestBit_char bb hbb h64]
  unfold bitCount
  omega

/-! ### slotFold lemmas -/

theorem slotFoldL_congr (R : Nat → Nat) (piece color : Nat) :
    ∀ (l : List Nat) (b1 b2 : Nat), (∀ i ∈ l, b1.testBit i = b2.testBit i) →
      slotFoldL R piece color l b1 = slotFoldL R piece color l b2 := by
  intro l
  induction l with
  | nil => intro b1 b2 _; rfl
  | cons a l ih =>
    intro b1 b2 h
    simp only [slotFoldL]
    rw [h a (List.mem_cons_self a l), ih b1 b2 (fun i hi => h i (List.mem_cons_of_mem a hi))]

theorem slotFoldL_flip (R : Nat → Nat) (piece color : Nat) :
    ∀ (l : List Nat), l.Nodup → ∀ (k bb : Nat), k ∈ l → bb.testBit k = true →
      slotFoldL R piece color l bb =
        R (pcsSlot piece color k) ^^^ slotFoldL R piece color l (bb ^^^ 2 ^ k) := by
  intro l
  induction l with
  | nil => intro _ k bb hk _; exact absurd hk (List.not_mem_nil k)
  | cons a l ih =>
    intro hnd k bb hk hbit
    rw [List.nodup_cons] at hnd
    rcases List.mem_cons.mp hk with hka | hkl
    · subst hka
      have hflip : (bb ^^^ 2 ^ k).testBit k = false := by
        rw [Nat.testBit_xor, hbit, Nat.testBit_two_pow_self]
        rfl
      have hsame : slotFoldL R piece color l (bb ^^^ 2 ^ k) =
          slotFoldL R piece color l bb := by
        apply slotFoldL_congr
        intro i hi
        have hik : ¬ k = i := fun h => hnd.1 (h ▸ hi)
        rw [Nat.testBit_xor, Nat.testBit_two_pow]
        simp [hik]
      simp only [slotFoldL, hbit, hflip]
      rw [if_pos trivial, if_neg (fun h => Bool.false_ne_true h), hsame]
    · have hka : ¬ k = a := fun h => hnd.1 (h ▸ hkl)
      have hstep : (bb ^^^ 2 ^ k).testBit a = bb.testBit a := by
        rw [Nat.testBit_xor, Nat.testBit_two_pow]
        simp [hka]
      have ihh := ih hnd.2 k bb hkl hbit
      simp only [slotFoldL, hstep]
      by_cases hab : bb.testBit a = true
      · rw [if_pos hab, if_pos hab, ihh, xor_left_comm]
      · rw [if_neg hab, if_neg hab, ihh]

theorem slotFold_flip (R : Nat → Nat) (piece color k bb : Nat) (hk : k < 64)
    (hbit : bb.testBit k = true) :
    slotFold R piece color bb =
      R (pcsSlot piece color k) ^^^ slotFold R piece color (bb ^^^ 2 ^ k) :=
  slotFoldL_flip R piece color (List.range 64) (List.nodup_range 64) k bb
    (List.mem_range.mpr hk) hbit

theorem slotFold_xor_pow (R : Nat → Nat) (piece color k bb : Nat) (hk : k < 64) :
    slotFold R piece color (bb ^^^ 2 ^ k) =
      R (pcsSlot piece color k) ^^^ slotFold R piece color bb := by
  cases hbit : bb.testBit k with
  | true =>
    have h := slotFold_flip R piece color k bb hk hbit
    rw [h, ← Nat.xor_assoc, Nat.xor_self, Nat.zero_xor]
  | false =>
    have h1 : (bb ^^^ 2 ^ k).testBit k = true := by
      rw [Nat.testBit_xor, hbit, Nat.testBit_two_pow_self]
      rfl
    have h2 := slotFold_flip R piece color k (bb ^^^ 2 ^ k) hk h1
    rw [h2, xor_cancel]

theorem slotFold_zero (R : Nat → Nat) (piece color : Nat) :
    slotFold R piece color 0 = 0 := by
  have h : ∀ l, slotFoldL R piece color l 0 = 0 := by
    intro l
    induction l with
    | nil => rfl
    | cons a l ih => simp [slotFoldL, Nat.zero_testBit, ih]
  exact h _

theorem slotFold_xor_ft (R : Nat → Nat) (piece color bb f t : Nat) (hf : f < 64)
    (ht : t < 64) (hne : f ≠ t) :
    slotFold R piece color (bb ^^^ (Bitboard.makeIndex f ||| Bitboard.makeIndex t)) =
      (R (pcsSlot piece color f) ^^^ R (pcsSlot piece color t)) ^^^
        slotFold R piece color bb := by
  rw [Bitboard.makeIndex_eq f hf, Bitboard.makeIndex_eq t ht, two_pow_lor_eq_xor f t hne,
    ← Nat.xor_assoc, slotFold_xor_pow R piece color t _ ht,
    slotFold_xor_pow R piece color f bb hf, xor_left_comm, ← Nat.xor_assoc]

/-! ### updatePieceColorBitboard canonicalized -/

theorem updatePieceColorBitboardAux_char (R : Nat → Nat) (piece color : Nat) :
    ∀ (fuel z bb : Nat), bb < 2 ^ 64 → bitCount bb ≤ fuel →
      Zobrist.updatePieceColorBitboardAux R piece color fuel z bb =
        z ^^^ slotFold R piece color bb := by
  intro fuel
  induction fuel with
  | zero =>
    intro z bb h64 hcnt
    have hbb : bb = 0 := by
      by_contra hne
      obtain ⟨i, hi⟩ := exists_testBit_of_ne_zero hne
      have hi64 : i < 64 := Bitboard.testBit_lt_64 bb i h64 hi
      have hpos : 0 < bitCount bb := by
        unfold bitCount
        rw [List.countP_pos_iff]
        exact ⟨i, List.mem_range.mpr hi64, hi⟩
      omega
    subst hbb
    rw [slotFold_zero]
    simp [Zobrist.updatePieceColorBitboardAux]
  | succ fuel ih =>
    intro z bb h64 hcnt
    by_cases hbb : bb = 0
    · subst hbb
      rw [slotFold_zero]
      simp [Zobrist.updatePieceColorBitboardAux]
    · have hk : bb.testBit (Bitboard.getLowestBitPosition bb) = true :=
        Bitboard.lowestBitAux_testBit 64 bb hbb h64
      have hk64 := Bitboard.testBit_lt_64 bb _ h64 hk
      have hpop64 : Bitboard.popLowestBit bb < 2 ^ 64 := Bitboard.and_lt_left _ _ h64
      have hcnt2 : bitCount (Bitboard.popLowestBit bb) ≤ fuel := by
        have := bitCount_pop bb hbb h64
        omega
      have hstep : Zobrist.updatePieceColorBitboardAux R piece color (fuel + 1) z bb =
          Zobrist.updatePieceColorBitboardAux R piece color fuel
            (z ^^^ R (pcsSlot piece color (Bitboard.getLowestBitPosition bb)))
            (Bitboard.popLowestBit bb) := by
        conv_lhs => rw [Zobrist.updatePieceColorBitboardAux]
        rw [if_neg hbb]
        rfl
      rw [hstep, ih _ _ hpop64 hcnt2, Bitboard.popLowestBit_char bb hbb h64,
        slotFold_flip R piece color _ bb hk64 hk, ← Nat.xor_assoc]

theorem updatePieceColorBitboard_char (R : Nat → Nat) (z piece color bb : Nat)
    (h64 : bb < 2 ^ 64) :
    Zobrist.updatePieceColorBitboard R z piece color bb =
      z ^^^ slotFold R piece color bb :=
  updatePieceColorBitboardAux_char R piece color 64 z bb h64 (bitCount_le bb)

/-! ### pairFold lemmas -/

theorem pairFold_congr (R : Nat → Nat) (F G : Nat → Nat → Nat) :
    ∀ (l : List (Nat × Nat)), (∀ pr ∈ l, F pr.1 pr.2 = G pr.1 pr.2) →
      pairFold R F l = pairFold R G l := by
  intro l
  induction l with
  | nil => intro _; rfl
  | cons a l ih =>
    intro h
    simp only [pairFold]
    rw [h a (List.mem_cons_self a l), ih (fun pr hpr => h pr (List.mem_cons_of_mem a hpr))]

theorem pairFold_flip (R : Nat → Nat) (F G : Nat → Nat → Nat) :
    ∀ (l : List (Nat × Nat)), l.Nodup → ∀ (pc c dz : Nat), (pc, c) ∈ l →
      slotFold R pc c (F pc c) = dz ^^^ slotFold R pc c (G pc c) →
      (∀ pr ∈ l, pr ≠ (pc, c) → F pr.1 pr.2 = G pr.1 pr.2) →
      pairFold R F l = dz ^^^ pairFold R G l := by
  intro l
  induction l with
  | nil => intro _ pc c dz hk _ _; exact absurd hk (List.not_mem_nil (pc, c))
  | cons a l ih =>
    intro hnd pc c dz hk hch hoth
    rw [List.nodup_cons] at hnd
    rcases List.mem_cons.mp hk with hka | hkl
    · subst hka
      have hsame : pairFold R F l = pairFold R G l := by
        apply pairFold_congr
        intro pr hpr
        apply hoth pr (List.mem_cons_of_mem _ hpr)
        intro he
        apply hnd.1
        rw [← he]
        exact hpr
      simp only [pairFold]
      rw [hch, hsame, Nat.xor_assoc]
    · have hka : a ≠ (pc, c) := fun h => hnd.1 (h ▸ hkl)
      have hstep : F a.1 a.2 = G a.1 a.2 := hoth a (List.mem_cons_self a l) hka
      have ihh := ih hnd.2 pc c dz hkl hch
        (fun pr hpr hne => hoth pr (List.mem_cons_of_mem a hpr) hne)
      simp only [pairFold]
      rw [hstep, ihh, xor_left_comm]

/-! ### computeHashKey canonical form -/

theorem Position.computeHashKey_char (R : Nat → Nat) (p : Position)
    (h64 : ∀ b ∈ p.bitboards, b < 2 ^ 64) :
    Position.computeHashKey R p =
      (if p.getTurnColor ≠ 0 then R 0 else 0) ^^^ boardFold R p ^^^
        R (Zobrist.POSITION_CASTLING_RIGHTS + p.castlingRights) ^^^
        (if 0 ≤ p.enPassantSquare then
          R (Zobrist.POSITION_EN_PASSANT_FILE + getFile p.enPassantSquare.toNat)
        else 0) := by
  have hb : ∀ pc c : Nat, p.getPieceColorBitboard pc c < 2 ^ 64 := fun pc c =>
    Bitboard.and_lt_left _ _ (Position.getBitboard_lt p h64 pc)
  unfold Position.computeHashKey
  dsimp only
  rw [show List.range 2 = [0, 1] from rfl, show List.range 6 = [0, 1, 2, 3, 4, 5] from rfl]
  dsimp only [List.foldl]
  rw [updatePieceColorBitboard_char R _ 0 0 _ (hb 0 0),
    updatePieceColorBitboard_char R _ 1 0 _ (hb 1 0),
    updatePieceColorBitboard_char R _ 2 0 _ (hb 2 0),
    updatePieceColorBitboard_char R _ 3 0 _ (hb 3 0),
    updatePieceColorBitboard_char R _ 4 0 _ (hb 4 0),
    updatePieceColorBitboard_char R _ 5 0 _ (hb 5 0),
    updatePieceColorBitboard_char R _ 0 1 _ (hb 0 1),
    updatePieceColorBitboard_char R _ 1 1 _ (hb 1 1),
    updatePieceColorBitboard_char R _ 2 1 _ (hb 2 1),
    updatePieceColorBitboard_char R _ 3 1 _ (hb 3 1),
    updatePieceColorBitboard_char R _ 4 1 _ (hb 4 1),
    updatePieceColorBitboard_char R _ 5 1 _ (hb 5 1)]
  have hturn : (if p.getTurnColor ≠ 0 then Zobrist.updateTurn R 0 else 0) =
      (if p.getTurnColor ≠ 0 then R 0 else 0) := by
    split
    · simp [Zobrist.updateTurn, Zobrist.update, Zobrist.POSITION_TURN]
    · rfl
  rw [hturn]
  have hcrslot : Zobrist.POSITION_EN_PASSANT_FILE - 16 * 2 =
      Zobrist.POSITION_CASTLING_RIGHTS := by decide
  unfold Zobrist.updateEnPassantSquare
  by_cases hep : (0 : Int) ≤ p.enPassantSquare
  · rw [if_pos hep, if_pos hep]
    unfold Zobrist.updateEnPassantFile Zobrist.updateCastlingRights Zobrist.update
    rw [hcrslot]
    simp only [boardFold, allPairs, pairFold, slotFold]
    simp only [Nat.xor_assoc, Nat.xor_zero]
  · rw [if_neg hep, if_neg hep]
    unfold Zobrist.updateCastlingRights Zobrist.update
    rw [hcrslot]
    simp only [boardFold, allPairs, pairFold, slotFold]
    simp only [Nat.xor_assoc, Nat.xor_zero]

/-! ### Move field bounds and exclusivity -/

theorem Move.getTo_lt (m : Move) : m.getTo < 64 := by
  unfold Move.getTo
  rw [show (0x3F : Nat) = 63 from rfl, and63_eq_mod]
  omega

theorem Move.getFrom_lt (m : Move) : m.getFrom < 64 := by
  unfold Move.getFrom
  rw [show (0x3F : Nat) = 63 from rfl, and63_eq_mod]
  omega

theorem Move.castle_kind (m : Move) (h : m.isCastle = true) :
    m.getKind = 2 ∨ m.getKind = 3 := by
  unfold Move.isCastle at h
  rcases of_decide_eq_true h with h2 | h3
  · exact Or.inl h2
  · exact Or.inr h3

theorem Move.castle_not_capture (m : Move) (h : m.isCastle = true) :
    m.isCapture = false := by
  rcases Move.castle_kind m h with h2 | h2 <;>
    (unfold Move.isCapture; rw [h2]; decide)

theorem Move.castle_not_promotion (m : Move) (h : m.isCastle = true) :
    m.isPromotion = false := by
  rcases Move.castle_kind m h with h2 | h2 <;>
    (unfold Move.isPromotion; rw [h2]; decide)

theorem Move.getPromotedPiece_lt (m : Move) : m.getPromotedPiece < 6 := by
  unfold Move.getPromotedPiece
  split
  · have h : m.getKind &&& 3 < 4 := by
      have := Nat.and_le_right (n := m.getKind) (m := 3)
      omega
    unfold Piece.KNIGHT
    omega
  · unfold Piece.PAWN
    omega

theorem Move.promoted_ne_pawn (m : Move) (h : m.isPromotion = true) :
    m.getPromotedPiece ≠ Piece.PAWN := by
  unfold Move.getPromotedPiece
  rw [h]
  have he : (if (true : Bool) = true then Piece.KNIGHT + (m.getKind &&& 3) else Piece.PAWN) =
      Piece.KNIGHT + (m.getKind &&& 3) := rfl
  rw [he]
  unfold Piece.KNIGHT Piece.PAWN
  omega

/-! ### allPairs facts -/

theorem mem_allPairs (pc c : Nat) (hpc : pc < 6) (hc : c < 2) : (pc, c) ∈ allPairs := by
  unfold allPairs
  simp only [List.mem_cons, List.not_mem_nil, or_false, Prod.mk.injEq]
  omega

theorem allPairs_nodup : allPairs.Nodup := by decide

/-! ### List set-chain helpers -/

theorem list_forall_set {α : Type} (l : List α) (i : Nat) (x : α) (P : α → Prop)
    (hl : ∀ b ∈ l, P b) (hx : P x) : ∀ b ∈ l.set i x, P b := by
  intro b hb
  rcases List.mem_or_eq_of_mem_set hb with h | h
  · exact hl b h
  · rw [h]; exact hx

/-! ### Square-level characterization of the three piece primitives -/

theorem Position.capturePiece_square_char (R : Nat → Nat) (q : Position) (cp c cs : Nat)
    (hlb : q.bitboards.length = 8) (hlp : q.pieces.length = 64)
    (hcp : cp < 6) (hc : c < 2) (hcs : cs < 64) :
    (∀ i, i < 64 → (Position.capturePiece R q cp c cs).pieces.getD i none =
      (if i = cs then none else q.pieces.getD i none)) ∧
    (∀ i, i < 64 → ∀ pc', pc' < 6 →
      ((Position.capturePiece R q cp c cs).getPieceBitboard pc').testBit i =
        (if pc' = cp ∧ i = cs then false else (q.getPieceBitboard pc').testBit i)) ∧
    (∀ i, i < 64 → ∀ c', c' < 2 →
      ((Position.capturePiece R q cp c cs).getColorBitboard c').testBit i =
        (if c' = c ∧ i = cs then false else (q.getColorBitboard c').testBit i)) := by
  have hne : cp ≠ ANY_WHITE + c := by unfold ANY_WHITE Piece.KING; omega
  have hbb := Position.capturePiece_bitboards R q cp c cs hne
  refine ⟨?_, ?_, ?_⟩
  · intro i hi
    rw [Position.capturePiece_pieces]
    by_cases he : i = cs
    · subst he
      rw [if_pos rfl, list_getD_set_self _ _ _ _ (by omega)]
    · rw [if_neg he, list_getD_set_ne _ _ _ _ _ (fun e => he e.symm)]
  · intro i hi pc' hpc'
    unfold Position.getPieceBitboard Position.getBitboard
    rw [hbb]
    have hpcw : ANY_WHITE + c ≠ pc' := by unfold ANY_WHITE Piece.KING; omega
    rw [list_getD_set_ne _ _ _ _ _ hpcw]
    by_cases he : pc' = cp
    · subst he
      rw [list_getD_set_self _ _ _ _ (by omega),
        Bitboard.testBit_clearBit _ _ _ hcs hi]
      by_cases hics : i = cs
      · rw [if_pos hics, if_pos ⟨rfl, hics⟩]
      · rw [if_neg hics, if_neg (fun h => hics h.2)]
    · rw [list_getD_set_ne _ _ _ _ _ (fun e => he e.symm),
        if_neg (fun h => he h.1)]
  · intro i hi c' hc'
    unfold Position.getColorBitboard Position.getBitboard
    rw [hbb]
    by_cases he : c' = c
    · subst he
      rw [list_getD_set_self _ _ _ _ (by rw [List.length_set]; unfold ANY_WHITE Piece.KING; omega),
        Bitboard.testBit_clearBit _ _ _ hcs hi]
      by_cases hics : i = cs
      · rw [if_pos hics, if_pos ⟨rfl, hics⟩]
      · rw [if_neg hics, if_neg (fun h => hics h.2)]
    · have hne2 : ANY_WHITE + c ≠ ANY_WHITE + c' := by omega
      have hne3 : cp ≠ ANY_WHITE + c' := by unfold ANY_WHITE Piece.KING; omega
      rw [list_getD_set_ne _ _ _ _ _ hne2, list_getD_set_ne _ _ _ _ _ hne3,
        if_neg (fun h => he h.1)]

theorem Position.movePiece_square_char (R : Nat → Nat) (q : Position) (pc c f t : Nat)
    (hlb : q.bitboards.length = 8) (hlp : q.pieces.length = 64)
    (hpc : pc < 6) (hc : c < 2) (hf : f < 64) (ht : t < 64) (hft : f ≠ t) :
    (∀ i, i < 64 → (Position.movePiece R q pc c f t).pieces.getD i none =
      (if i = t then some pc else if i = f then none else q.pieces.getD i none)) ∧
    (∀ i, i < 64 → ∀ pc', pc' < 6 →
      ((Position.movePiece R q pc c f t).getPieceBitboard pc').testBit i =
        (if pc' = pc ∧ (i = f ∨ i = t) then !((q.getPieceBitboard pc').testBit i)
         else (q.getPieceBitboard pc').testBit i)) ∧
    (∀ i, i < 64 → ∀ c', c' < 2 →
      ((Position.movePiece R q pc c f t).getColorBitboard c').testBit i =
        (if c' = c ∧ (i = f ∨ i = t) then !((q.getColorBitboard c').testBit i)
         else (q.getColorBitboard c').testBit i)) := by
  have hne : pc ≠ ANY_WHITE + c := by unfold ANY_WHITE Piece.KING; omega
  have hbb := Position.movePiece_bitboards R q pc c f t hne
  have hxor : ∀ v : Nat, ∀ i, i < 64 →
      (v ^^^ (Bitboard.makeIndex f ||| Bitboard.makeIndex t)).testBit i =
        (if i = f ∨ i = t then !(v.testBit i) else v.testBit i) := by
    intro v i hi
    rw [Nat.testBit_xor, Bitboard.testBit_lor_makeIndex f t i hf ht]
    by_cases hif : f = i
    · rw [if_pos (Or.inl hif.symm)]
      simp [hif, fun e : t = i => hft (hif.trans e.symm), Bool.xor_comm]
    · by_cases hit : t = i
      · rw [if_pos (Or.inr hit.symm)]
        simp [hif, hit, Bool.xor_comm]
      · rw [if_neg (fun h => h.elim (fun e => hif e.symm) (fun e => hit e.symm))]
        simp [hif, hit]
  refine ⟨?_, ?_, ?_⟩
  · intro i hi
    rw [Position.movePiece_pieces]
    by_cases hit : i = t
    · subst hit
      rw [if_pos rfl, list_getD_set_self _ _ _ _ (by rw [List.length_set]; omega)]
    · rw [if_neg hit, list_getD_set_ne _ _ _ _ _ (fun e => hit e.symm)]
      by_cases hif : i = f
      · subst hif
        rw [if_pos rfl, list_getD_set_self _ _ _ _ (by omega)]
      · rw [if_neg hif, list_getD_set_ne _ _ _ _ _ (fun e => hif e.symm)]
  · intro i hi pc' hpc'
    unfold Position.getPieceBitboard Position.getBitboard
    rw [hbb]
    have hpcw : ANY_WHITE + c ≠ pc' := by unfold ANY_WHITE Piece.KING; omega
    rw [list_getD_set_ne _ _ _ _ _ hpcw]
    by_cases he : pc' = pc
    · subst he
      rw [list_getD_set_self _ _ _ _ (by omega), hxor _ i hi]
      by_cases hor : i = f ∨ i = t
      · rw [if_pos hor, if_pos ⟨rfl, hor⟩]
      · rw [if_neg hor, if_neg (fun h => hor h.2)]
    · rw [list_getD_set_ne _ _ _ _ _ (fun e => he e.symm), if_neg (fun h => he h.1)]
  · intro i hi c' hc'
    unfold Position.getColorBitboard Position.getBitboard
    rw [hbb]
    by_cases he : c' = c
    · subst he
      rw [list_getD_set_self _ _ _ _ (by rw [List.length_set]; unfold ANY_WHITE Piece.KING; omega),
        hxor _ i hi]
      by_cases hor : i = f ∨ i = t
      · rw [if_pos hor, if_pos ⟨rfl, hor⟩]
      · rw [if_neg hor, if_neg (fun h => hor h.2)]
    · have hne2 : ANY_WHITE + c ≠ ANY_WHITE + c' := by omega
      have hne3 : pc ≠ ANY_WHITE + c' := by unfold ANY_WHITE Piece.KING; omega
      rw [list_getD_set_ne _ _ _ _ _ hne2, list_getD_set_ne _ _ _ _ _ hne3,
        if_neg (fun h => he h.1)]

theorem Position.promotePiece_square_char (R : Nat → Nat) (q : Position)
    (po pn c s : Nat) (hlb : q.bitboards.length = 8) (hlp : q.pieces.length = 64)
    (hpo : po < 6) (hpn : pn < 6) (hpone : po ≠ pn) (hs : s < 64) :
    (∀ i, i < 64 → (Position.promotePiece R q po pn c s).pieces.getD i none =
      (if i = s then some pn else q.pieces.getD i none)) ∧
    (∀ i, i < 64 → ∀ pc', pc' < 6 →
      ((Position.promotePiece R q po pn c s).getPieceBitboard pc').testBit i =
        (if pc' = pn ∧ i = s then true
         else if pc' = po ∧ i = s then false
         else (q.getPieceBitboard pc').testBit i)) ∧
    (∀ i, i < 64 → ∀ c', c' < 2 →
      ((Position.promotePiece R q po pn c s).getColorBitboard c').testBit i =
        (q.getColorBitboard c').testBit i) := by
  have hbb := Position.promotePiece_bitboards R q po pn c s hpone
  refine ⟨?_, ?_, ?_⟩
  · intro i hi
    rw [Position.promotePiece_pieces]
    by_cases he : i = s
    · subst he
      rw [if_pos rfl, list_getD_set_self _ _ _ _ (by omega)]
    · rw [if_neg he, list_getD_set_ne _ _ _ _ _ (fun e => he e.symm)]
  · intro i hi pc' hpc'
    unfold Position.getPieceBitboard Position.getBitboard
    rw [hbb]
    by_cases hn : pc' = pn
    · subst hn
      rw [list_getD_set_self _ _ _ _ (by rw [List.length_set]; omega),
        Bitboard.testBit_setBit _ _ _ hs]
      by_cases his : i = s
      · rw [if_pos his, if_pos ⟨rfl, his⟩]
      · rw [if_neg his, if_neg (fun h => his h.2), if_neg (fun h => hpone h.1.symm)]
    · rw [list_getD_set_ne _ _ _ _ _ (fun e => hn e.symm)]
      by_cases ho : pc' = po
      · subst ho
        rw [list_getD_set_self _ _ _ _ (by omega),
          Bitboard.testBit_clearBit _ _ _ hs hi]
        by_cases his : i = s
        · rw [if_pos his, if_neg (fun h => hn h.1), if_pos ⟨rfl, his⟩]
        · rw [if_neg his, if_neg (fun h => his h.2), if_neg (fun h => his h.2)]
      · rw [list_getD_set_ne _ _ _ _ _ (fun e => ho e.symm),
          if_neg (fun h => hn h.1), if_neg (fun h => ho h.1)]
  · intro i hi c' hc'
    unfold Position.getColorBitboard Position.getBitboard
    rw [hbb]
    have hne2 : pn ≠ ANY_WHITE + c' := by unfold ANY_WHITE Piece.KING; omega
    have hne3 : po ≠ ANY_WHITE + c' := by unfold ANY_WHITE Piece.KING; omega
    rw [list_getD_set_ne _ _ _ _ _ hne2, list_getD_set_ne _ _ _ _ _ hne3]

/-! ### Lengths and bounds through the primitives -/

theorem Position.setBitboard_bitboards (q : Position) (j v : Nat) :
    (Position.setBitboard q j v).bitboards = q.bitboards.set j v := rfl

theorem Position.setBitboard_pieces (q : Position) (j v : Nat) :
    (Position.setBitboard q j v).pieces = q.pieces := rfl

theorem Position.setBitboard_len (q : Position) (j v : Nat) :
    (Position.setBitboard q j v).bitboards.length = q.bitboards.length := by
  rw [Position.setBitboard_bitboards, List.length_set]

theorem Position.setBitboard_b64 (q : Position) (j v : Nat)
    (hb64 : ∀ b ∈ q.bitboards, b < 2 ^ 64) (hv : v < 2 ^ 64) :
    ∀ b ∈ (Position.setBitboard q j v).bitboards, b < 2 ^ 64 := by
  rw [Position.setBitboard_bitboards]
  exact list_forall_set _ _ _ _ hb64 hv

theorem Position.capturePiece_lens (R : Nat → Nat) (q : Position) (cp c cs : Nat)
    (hlb : q.bitboards.length = 8) (hlp : q.pieces.length = 64)
    (hb64 : ∀ b ∈ q.bitboards, b < 2 ^ 64) :
    (Position.capturePiece R q cp c cs).bitboards.length = 8 ∧
    (Position.capturePiece R q cp c cs).pieces.length = 64 ∧
    (∀ b ∈ (Position.capturePiece R q cp c cs).bitboards, b < 2 ^ 64) := by
  unfold Position.capturePiece
  dsimp only
  have h1 := Position.setBitboard_b64 q cp
    (Bitboard.clearBit (Position.getPieceBitboard q cp) cs) hb64
    (Bitboard.clearBit_lt _ _ (Position.getBitboard_lt q hb64 cp))
  refine ⟨?_, ?_, ?_⟩
  · rw [Position.setBitboard_len, Position.setBitboard_len, hlb]
  · rw [List.length_set, Position.setBitboard_pieces, Position.setBitboard_pieces, hlp]
  · exact Position.setBitboard_b64 _ _ _ h1
      (Bitboard.clearBit_lt _ _ (Position.getBitboard_lt _ h1 _))

theorem Position.movePiece_lens (R : Nat → Nat) (q : Position) (pc c f t : Nat)
    (hlb : q.bitboards.length = 8) (hlp : q.pieces.length = 64)
    (hb64 : ∀ b ∈ q.bitboards, b < 2 ^ 64) (hf : f < 64) (ht : t < 64) :
    (Position.movePiece R q pc c f t).bitboards.length = 8 ∧
    (Position.movePiece R q pc c f t).pieces.length = 64 ∧
    (∀ b ∈ (Position.movePiece R q pc c f t).bitboards, b < 2 ^ 64) := by
  unfold Position.movePiece
  dsimp only
  have hftlt := Bitboard.lor_makeIndex_lt f t hf ht
  have h1 := Position.setBitboard_b64 q pc
    (Position.getPieceBitboard q pc ^^^ (Bitboard.makeIndex f ||| Bitboard.makeIndex t)) hb64
    (Nat.xor_lt_two_pow (Position.getBitboard_lt q hb64 pc) hftlt)
  refine ⟨?_, ?_, ?_⟩
  · rw [Position.setBitboard_len, Position.setBitboard_len, hlb]
  · rw [List.length_set, List.length_set, Position.setBitboard_pieces,
      Position.setBitboard_pieces, hlp]
  · exact Position.setBitboard_b64 _ _ _ h1
      (Nat.xor_lt_two_pow (Position.getBitboard_lt _ h1 _) hftlt)

theorem Position.promotePiece_lens (R : Nat → Nat) (q : Position) (po pn c s : Nat)
    (hlb : q.bitboards.length = 8) (hlp : q.pieces.length = 64)
    (hb64 : ∀ b ∈ q.bitboards, b < 2 ^ 64) (hs : s < 64) :
    (Position.promotePiece R q po pn c s).bitboards.length = 8 ∧
    (Position.promotePiece R q po pn c s).pieces.length = 64 ∧
    (∀ b ∈ (Position.promotePiece R q po pn c s).bitboards, b < 2 ^ 64) := by
  unfold Position.promotePiece
  dsimp only
  have h1 := Position.setBitboard_b64 q po
    (Bitboard.clearBit (Position.getPieceBitboard q po) s) hb64
    (Bitboard.clearBit_lt _ _ (Position.getBitboard_lt q hb64 po))
  refine ⟨?_, ?_, ?_⟩
  · rw [Position.setBitboard_len, Position.setBitboard_len, hlb]
  · rw [List.length_set, Position.setBitboard_pieces, Position.setBitboard_pieces, hlp]
  · exact Position.setBitboard_b64 _ _ _ h1
      (Bitboard.setBit_lt _ _ (Position.getBitboard_lt _ h1 _) hs)

theorem if_true_bool {α : Sort _} (a b : α) : (if (true : Bool) = true then a else b) = a := rfl

theorem if_false_bool {α : Sort _} (a b : α) : (if (false : Bool) = true then a else b) = b :=
  rfl

theorem bool_eq_false {b : Bool} (h : ¬ b = true) : b = false := by
  cases b
  · rfl
  · exact absurd rfl h

theorem other_other (c : Nat) : getOtherPieceColor (getOtherPieceColor c) = c := by
  unfold getOtherPieceColor
  rw [Nat.xor_assoc, Nat.xor_self, Nat.xor_zero]

theorem other_ne (c : Nat) : getOtherPieceColor c ≠ c := by
  unfold getOtherPieceColor
  intro h
  have h2 := congrArg (fun x => x.testBit 0) h
  simp only [Nat.testBit_xor] at h2
  rw [show Nat.testBit 1 0 = true from rfl] at h2
  cases hx : (c).testBit 0 <;> rw [hx] at h2 <;> exact absurd h2 (by simp)

theorem other_eq (c : Nat) (hc : c < 2) : getOtherPieceColor c = 1 - c := by
  rcases c with _ | c
  · rfl
  · rcases c with _ | c
    · rfl
    · exact absurd hc (by omega)

theorem eq_other_of_ne {c' tc : Nat} (hc' : c' < 2) (htc : tc < 2) (h : ¬ c' = tc) :
    c' = getOtherPieceColor tc := by
  rw [other_eq tc htc]
  omega

theorem colorBit_false_of_empty {q : Position} (hS : Position.StateOk q) {i c' : Nat}
    (hi : i < 64) (hc' : c' < 2) (hx : q.getPieceAtOrNull i = none) :
    (q.getColorBitboard c').testBit i = false := by
  obtain ⟨-, h0, h1⟩ := Position.bits_of_empty hS hi hx
  rcases c' with _ | c'
  · exact h0
  · rcases c' with _ | c'
    · exact h1
    · exact absurd hc' (by omega)

theorem Position.pieceBit_eq_decide {p : Position} (hS : Position.StateOk p)
    {i pc' : Nat} (hi : i < 64) (hpc' : pc' < 6) :
    (p.getPieceBitboard pc').testBit i = decide (p.getPieceAtOrNull i = some pc') := by
  cases hx : p.getPieceAtOrNull i with
  | none =>
    obtain ⟨hall, -, -⟩ := Position.bits_of_empty hS hi hx
    rw [hall pc' hpc']
    simp
  | some pc2 =>
    obtain ⟨hlt2, hbit, hoth, -⟩ := Position.bits_of_pieceAt hS hi hx
    by_cases he : pc2 = pc'
    · subst he
      rw [hbit]
      simp
    · rw [hoth pc' hpc' (fun e => he e.symm)]
      simp [he]

theorem Position.color_other_false {p : Position} (hS : Position.StateOk p)
    {c i : Nat} (hc : c < 2) (hi : i < 64)
    (hb : (p.getColorBitboard c).testBit i = true) :
    (p.getColorBitboard (getOtherPieceColor c)).testBit i = false := by
  obtain ⟨pc2, -, -, -, h⟩ := Position.opponent_pieceAt hS hc hi hb
  exact h

/-- Composed square-level characterization of `updatePieces` for non-castle
moves. -/
theorem Position.updatePieces_square_char_noncastle (R : Nat → Nat) (q : Position)
    (m : Move) (hS : Position.StateOk q) (hmc : MoveConsistent q m)
    (hx : Position.MoveExtras q m) (hil : m.isCastle = false) :
    (Position.updatePieces R q m).bitboards.length = 8 ∧
    (Position.updatePieces R q m).pieces.length = 64 ∧
    (∀ b ∈ (Position.updatePieces R q m).bitboards, b < 2 ^ 64) ∧
    (∀ i, i < 64 → (Position.updatePieces R q m).pieces.getD i none =
      Position.postPieceAt q m i) ∧
    (∀ i, i < 64 → ∀ pc', pc' < 6 →
      ((Position.updatePieces R q m).getPieceBitboard pc').testBit i =
        decide (Position.postPieceAt q m i = some pc')) ∧
    (∀ i, i < 64 → ∀ c', c' < 2 →
      ((Position.updatePieces R q m).getColorBitboard c').testBit i =
        Position.postColorBit q m c' i) := by
  obtain ⟨hlb, hb64, hlp, hturn, hpclt, hft, hpf, hcap, hpt, hcastle, hpromo⟩ := hmc
  obtain ⟨hkind, hcolorf, hnoking, hcastlex, hdpp, hpawnt⟩ := hx
  have hf64 := Move.getFrom_lt m
  have ht64 := Move.getTo_lt m
  have htc2 : q.getTurnColor < 2 := hturn
  have hoc2 : getOtherPieceColor q.getTurnColor < 2 := getOtherPieceColor_lt htc2
  have hcapfacts : m.isCapture = true →
      m.getCapturedPiece < 6 ∧ m.getCaptureSquare < 64 ∧
      q.getPieceAtOrNull m.getCaptureSquare = some m.getCapturedPiece ∧
      Bitboard.isSet (q.getPieceBitboard m.getCapturedPiece) m.getCaptureSquare = true ∧
      Bitboard.isSet (q.getColorBitboard (getOtherPieceColor q.getTurnColor))
        m.getCaptureSquare = true ∧
      (m.getCaptureSquare = m.getTo ∨
        (m.getKind = Kind.EN_PASSANT_CAPTURE ∧ m.getCaptureSquare ≠ m.getTo ∧
          m.getCaptureSquare ≠ m.getFrom)) := by
    intro hcb
    rw [hcb, if_true_bool] at hcap
    exact hcap
  have hpromofacts : m.isPromotion = true →
      m.getPiece = Piece.PAWN ∧
      Bitboard.isSet (q.getPieceBitboard Piece.PAWN) m.getTo = false ∧
      (m.isCapture = true → m.getCapturedPiece ≠ Piece.PAWN) ∧
      (¬(m.isCapture = true ∧ m.getCapturedPiece = m.getPromotedPiece) →
        Bitboard.isSet (q.getPieceBitboard m.getPromotedPiece) m.getTo = false) := by
    intro hpb
    rw [hpb, if_true_bool] at hpromo
    exact hpromo
  set pa := (if m.isCapture then
      Position.capturePiece R q m.getCapturedPiece (getOtherPieceColor q.getTurnColor)
        m.getCaptureSquare
    else q) with hpadef
  have hpaturn : pa.turn = q.turn := by
    rw [hpadef]
    split
    · exact (Position.capturePiece_frame R q _ _ _).1
    · rfl
  have hpat : pa.getTurnColor = q.getTurnColor := hpaturn
  have hpaL : pa.bitboards.length = 8 ∧ pa.pieces.length = 64 ∧
      (∀ b ∈ pa.bitboards, b < 2 ^ 64) := by
    rw [hpadef]
    split
    · exact Position.capturePiece_lens R q _ _ _ hlb hlp hb64
    · exact ⟨hlb, hlp, hb64⟩
  have hpaP : ∀ i, i < 64 → pa.pieces.getD i none =
      (if m.isCapture = true ∧ i = m.getCaptureSquare then none
       else q.pieces.getD i none) := by
    intro i hi
    by_cases hcb : m.isCapture = true
    · obtain ⟨hcp6, hcs64, hpcs, hcsb, hcsoc, hcsalt⟩ := hcapfacts hcb
      rw [hpadef, hcb, if_true_bool,
        (Position.capturePiece_square_char R q _ _ _ hlb hlp hcp6 hoc2 hcs64).1 i hi]
      simp only [hcb, true_and]
    · rw [hpadef, bool_eq_false hcb, if_false_bool]
      simp only [bool_eq_false hcb, Bool.false_eq_true, false_and, if_false]
  have hpaB : ∀ i, i < 64 → ∀ pc', pc' < 6 → (pa.getPieceBitboard pc').testBit i =
      (if m.isCapture = true ∧ pc' = m.getCapturedPiece ∧ i = m.getCaptureSquare then false
       else (q.getPieceBitboard pc').testBit i) := by
    intro i hi pc' hpc'
    by_cases hcb : m.isCapture = true
    · obtain ⟨hcp6, hcs64, hpcs, hcsb, hcsoc, hcsalt⟩ := hcapfacts hcb
      rw [hpadef, hcb, if_true_bool,
        (Position.capturePiece_square_char R q _ _ _ hlb hlp hcp6 hoc2 hcs64).2.1 i hi
          pc' hpc']
      simp only [hcb, true_and]
    · rw [hpadef, bool_eq_false hcb, if_false_bool]
      simp only [bool_eq_false hcb, Bool.false_eq_true, false_and, if_false]
  have hpaC : ∀ i, i < 64 → ∀ c', c' < 2 → (pa.getColorBitboard c').testBit i =
      (if m.isCapture = true ∧ c' = getOtherPieceColor q.getTurnColor ∧
          i = m.getCaptureSquare then false
       else (q.getColorBitboard c').testBit i) := by
    intro i hi c' hc'
    by_cases hcb : m.isCapture = true
    · obtain ⟨hcp6, hcs64, hpcs, hcsb, hcsoc, hcsalt⟩ := hcapfacts hcb
      rw [hpadef, hcb, if_true_bool,
        (Position.capturePiece_square_char R q _ _ _ hlb hlp hcp6 hoc2 hcs64).2.2 i hi
          c' hc']
      simp only [hcb, true_and]
    · rw [hpadef, bool_eq_false hcb, if_false_bool]
      simp only [bool_eq_false hcb, Bool.false_eq_true, false_and, if_false]
  have hred : Position.updatePieces R q m =
      (if m.isPromotion then
        Position.promotePiece R
          (Position.movePiece R pa m.getPiece q.getTurnColor m.getFrom m.getTo)
          Piece.PAWN m.getPromotedPiece q.getTurnColor m.getTo
      else Position.movePiece R pa m.getPiece q.getTurnColor m.getFrom m.getTo) := by
    have hmt : (Position.movePiece R pa m.getPiece q.getTurnColor m.getFrom
        m.getTo).getTurnColor = q.getTurnColor := by
      show (Position.movePiece R pa m.getPiece q.getTurnColor m.getFrom m.getTo).turn = q.turn
      rw [(Position.movePiece_frame R pa _ _ _ _).1]
      exact hpaturn
    unfold Position.updatePieces
    dsimp only
    rw [hil]
    simp only [Bool.false_eq_true, if_false]
    rw [← hpadef, hpat, hmt]
  have hpbL := Position.movePiece_lens R pa m.getPiece q.getTurnColor m.getFrom m.getTo
    hpaL.1 hpaL.2.1 hpaL.2.2 hf64 ht64
  have hmchar := Position.movePiece_square_char R pa m.getPiece q.getTurnColor m.getFrom
    m.getTo hpaL.1 hpaL.2.1 hpclt htc2 hf64 ht64 hft
  have hpawn6 : Piece.PAWN < 6 := by decide
  have hpp6 := Move.getPromotedPiece_lt m
  obtain ⟨-, hbf_bit, hbf_oth, -⟩ := Position.bits_of_pieceAt hS hf64 hpf
  have hcof : (q.getColorBitboard (getOtherPieceColor q.getTurnColor)).testBit m.getFrom =
      false := Position.color_other_false hS htc2 hf64 hcolorf
  have hppa : ∀ i, Position.postPieceAt q m i =
      (if i = m.getTo then
        some (if m.isPromotion then m.getPromotedPiece else m.getPiece)
       else if i = m.getFrom then none
       else if m.isCapture = true ∧ i = m.getCaptureSquare then none
       else q.getPieceAtOrNull i) := by
    intro i
    unfold Position.postPieceAt Position.getPieceAtOrNull
    rw [hil]
    simp only [Bool.false_eq_true, false_and, if_false]
  have hpcb : ∀ c' i, Position.postColorBit q m c' i =
      (if i = m.getTo then decide (c' = q.getTurnColor)
       else if i = m.getFrom then false
       else if m.isCapture = true ∧ i = m.getCaptureSquare then false
       else (q.getColorBitboard c').testBit i) := by
    intro c' i
    unfold Position.postColorBit
    rw [hil]
    simp only [Bool.false_eq_true, false_and, if_false]
  refine ⟨?_, ?_, ?_, ?_, ?_, ?_⟩
  · rw [hred]
    by_cases hprob : m.isPromotion = true
    · rw [hprob, if_true_bool]
      exact (Position.promotePiece_lens R _ Piece.PAWN m.getPromotedPiece q.getTurnColor
        m.getTo hpbL.1 hpbL.2.1 hpbL.2.2 ht64).1
    · rw [bool_eq_false hprob, if_false_bool]
      exact hpbL.1
  · rw [hred]
    by_cases hprob : m.isPromotion = true
    · rw [hprob, if_true_bool]
      exact (Position.promotePiece_lens R _ Piece.PAWN m.getPromotedPiece q.getTurnColor
        m.getTo hpbL.1 hpbL.2.1 hpbL.2.2 ht64).2.1
    · rw [bool_eq_false hprob, if_false_bool]
      exact hpbL.2.1
  · rw [hred]
    by_cases hprob : m.isPromotion = true
    · rw [hprob, if_true_bool]
      exact (Position.promotePiece_lens R _ Piece.PAWN m.getPromotedPiece q.getTurnColor
        m.getTo hpbL.1 hpbL.2.1 hpbL.2.2 ht64).2.2
    · rw [bool_eq_false hprob, if_false_bool]
      exact hpbL.2.2
  · intro i hi
    rw [hppa i, hred]
    by_cases hprob : m.isPromotion = true
    · rw [hprob, if_true_bool, if_true_bool,
        (Position.promotePiece_square_char R _ Piece.PAWN m.getPromotedPiece q.getTurnColor
          m.getTo hpbL.1 hpbL.2.1 hpawn6 hpp6
          (fun e => Move.promoted_ne_pawn m hprob e.symm) ht64).1 i hi]
      by_cases hit : i = m.getTo
      · rw [if_pos hit, if_pos hit]
      · rw [if_neg hit, if_neg hit, hmchar.1 i hi, if_neg hit, hpaP i hi]
        rfl
    · rw [bool_eq_false hprob, if_false_bool, if_false_bool, hmchar.1 i hi, hpaP i hi]
      rfl
  · intro i hi pc' hpc'
    have hqbit := Position.pieceBit_eq_decide hS hi hpc'
    have hlayer : ((Position.updatePieces R q m).getPieceBitboard pc').testBit i =
        (if m.isPromotion = true ∧ (pc' = m.getPromotedPiece ∧ i = m.getTo) then true
         else if m.isPromotion = true ∧ (pc' = Piece.PAWN ∧ i = m.getTo) then false
         else if pc' = m.getPiece ∧ (i = m.getFrom ∨ i = m.getTo) then
           !(if m.isCapture = true ∧ pc' = m.getCapturedPiece ∧ i = m.getCaptureSquare then
               false
             else (q.getPieceBitboard pc').testBit i)
         else if m.isCapture = true ∧ pc' = m.getCapturedPiece ∧ i = m.getCaptureSquare then
           false
         else (q.getPieceBitboard pc').testBit i) := by
      rw [hred]
      by_cases hprob : m.isPromotion = true
      · rw [hprob, if_true_bool,
          (Position.promotePiece_square_char R _ Piece.PAWN m.getPromotedPiece
            q.getTurnColor m.getTo hpbL.1 hpbL.2.1 hpawn6 hpp6
            (fun e => Move.promoted_ne_pawn m hprob e.symm) ht64).2.1 i hi pc' hpc',
          hmchar.2.1 i hi pc' hpc', hpaB i hi pc' hpc']
        simp only [hprob, true_and]
      · rw [bool_eq_false hprob, if_false_bool, hmchar.2.1 i hi pc' hpc',
          hpaB i hi pc' hpc']
        simp only [bool_eq_false hprob, Bool.false_eq_true, false_and, if_false]
    rw [hlayer, hppa i]
    by_cases hit : i = m.getTo
    · rw [if_pos hit]
      by_cases hprob : m.isPromotion = true
      · by_cases hppeq : pc' = m.getPromotedPiece
        · rw [if_pos ⟨hprob, hppeq, hit⟩, hprob, if_true_bool]
          simp [hppeq]
        · rw [if_neg (fun h => hppeq h.2.1), hprob, if_true_bool]
          have hne : ¬ m.getPromotedPiece = pc' := fun e => hppeq e.symm
          by_cases hpawn : pc' = Piece.PAWN
          · rw [if_pos ⟨rfl, hpawn, hit⟩]
            simp [hne]
          · rw [if_neg (fun h => hpawn h.2.1)]
            have hpcP := (hpromofacts hprob).1
            have hne3 : ¬(pc' = m.getPiece ∧ (i = m.getFrom ∨ i = m.getTo)) :=
              fun h => hpawn (h.1.trans hpcP)
            rw [if_neg hne3]
            by_cases hcb : m.isCapture = true
            · obtain ⟨hcp6, hcs64, hpcs, hcsb, hcsoc, hcsalt⟩ := hcapfacts hcb
              by_cases hcpe : pc' = m.getCapturedPiece
              · have hcst : m.getCaptureSquare = m.getTo := by
                  rcases hcsalt with h | h
                  · exact h
                  · exfalso
                    have hk5 : m.getKind = Kind.EN_PASSANT_CAPTURE := h.1
                    unfold Move.isPromotion at hprob
                    rw [hk5] at hprob
                    exact absurd hprob (by decide)
                rw [if_pos ⟨hcb, hcpe, hit.trans hcst.symm⟩]
                simp [hne]
              · rw [if_neg (fun h => hcpe h.2.1)]
                rcases hcsalt with hcst | hep
                · have hptt : q.getPieceAtOrNull i = some m.getCapturedPiece := by
                    rw [hit, ← hcst]
                    exact hpcs
                  rw [hqbit, hptt]
                  have hcpn : ¬ m.getCapturedPiece = pc' := fun e => hcpe e.symm
                  simp [hcpn, hne]
                · have hptt : q.getPieceAtOrNull i = none := by
                    rw [hit]
                    exact hpt (fun hh => hep.2.1 hh.2)
                  rw [hqbit, hptt]
                  simp [hne]
            · rw [if_neg (fun h => hcb h.1)]
              have hptt : q.getPieceAtOrNull i = none := by
                rw [hit]
                exact hpt (fun hh => hcb hh.1)
              rw [hqbit, hptt]
              simp [hne]
      · rw [if_neg (show ¬(m.isPromotion = true ∧ (pc' = m.getPromotedPiece ∧ i = m.getTo))
            from fun h => hprob h.1),
          if_neg (show ¬(m.isPromotion = true ∧ (pc' = Piece.PAWN ∧ i = m.getTo))
            from fun h => hprob h.1),
          bool_eq_false hprob, if_false_bool]
        by_cases hpcq : pc' = m.getPiece
        · rw [if_pos ⟨hpcq, Or.inr hit⟩]
          by_cases hcb : m.isCapture = true
          · obtain ⟨hcp6, hcs64, hpcs, hcsb, hcsoc, hcsalt⟩ := hcapfacts hcb
            by_cases habc : pc' = m.getCapturedPiece ∧ i = m.getCaptureSquare
            · rw [if_pos ⟨hcb, habc.1, habc.2⟩]
              simp [hpcq]
            · rw [if_neg (fun h => habc ⟨h.2.1, h.2.2⟩)]
              rcases hcsalt with hcst | hep
              · have hptt : q.getPieceAtOrNull i = some m.getCapturedPiece := by
                  rw [hit, ← hcst]
                  exact hpcs
                rw [hqbit, hptt]
                have h1 : ¬ m.getCapturedPiece = pc' :=
                  fun e => habc ⟨e.symm, hit.trans hcst.symm⟩
                have h2 : ¬ m.getCapturedPiece = m.getPiece :=
                  fun e => habc ⟨hpcq.trans e.symm, hit.trans hcst.symm⟩
                simp [h1, h2, hpcq]
              · have hptt : q.getPieceAtOrNull i = none := by
                  rw [hit]
                  exact hpt (fun hh => hep.2.1 hh.2)
                rw [hqbit, hptt]
                simp [hpcq]
          · rw [if_neg (fun h => hcb h.1)]
            have hptt : q.getPieceAtOrNull i = none := by
              rw [hit]
              exact hpt (fun hh => hcb hh.1)
            rw [hqbit, hptt]
            simp [hpcq]
        · rw [if_neg (fun h => hpcq h.1)]
          have hns : ¬ m.getPiece = pc' := fun e => hpcq e.symm
          by_cases hcb : m.isCapture = true
          · obtain ⟨hcp6, hcs64, hpcs, hcsb, hcsoc, hcsalt⟩ := hcapfacts hcb
            by_cases habc : pc' = m.getCapturedPiece ∧ i = m.getCaptureSquare
            · rw [if_pos ⟨hcb, habc.1, habc.2⟩]
              simp [hns]
            · rw [if_neg (fun h => habc ⟨h.2.1, h.2.2⟩)]
              rcases hcsalt with hcst | hep
              · have hptt : q.getPieceAtOrNull i = some m.getCapturedPiece := by
                  rw [hit, ← hcst]
                  exact hpcs
                rw [hqbit, hptt]
                have h1 : ¬ m.getCapturedPiece = pc' :=
                  fun e => habc ⟨e.symm, hit.trans hcst.symm⟩
                simp [h1, hns]
              · have hptt : q.getPieceAtOrNull i = none := by
                  rw [hit]
                  exact hpt (fun hh => hep.2.1 hh.2)
                rw [hqbit, hptt]
                simp [hns]
          · rw [if_neg (fun h => hcb h.1)]
            have hptt : q.getPieceAtOrNull i = none := by
              rw [hit]
              exact hpt (fun hh => hcb hh.1)
            rw [hqbit, hptt]
            simp [hns]
    · rw [if_neg hit,
        if_neg (show ¬(m.isPromotion = true ∧ (pc' = m.getPromotedPiece ∧ i = m.getTo))
          from fun h => hit h.2.2),
        if_neg (show ¬(m.isPromotion = true ∧ (pc' = Piece.PAWN ∧ i = m.getTo))
          from fun h => hit h.2.2)]
      by_cases hif : i = m.getFrom
      · rw [if_pos hif]
        have hcsf : ¬(m.isCapture = true ∧ pc' = m.getCapturedPiece ∧
            i = m.getCaptureSquare) := by
          rintro ⟨hcb, -, hics⟩
          obtain ⟨-, -, -, -, -, hcsalt⟩ := hcapfacts hcb
          rcases hcsalt with hcst | hep
          · exact hit (hics.trans hcst)
          · exact hep.2.2 (hics.symm.trans hif)
        by_cases hpcq : pc' = m.getPiece
        · rw [if_pos ⟨hpcq, Or.inl hif⟩, if_neg hcsf, hqbit]
          have hpfi : q.getPieceAtOrNull i = some m.getPiece := by
            rw [hif]
            exact hpf
          rw [hpfi]
          simp [hpcq]
        · rw [if_neg (fun h => hpcq h.1), if_neg hcsf, hqbit]
          have hpfi : q.getPieceAtOrNull i = some m.getPiece := by
            rw [hif]
            exact hpf
          rw [hpfi]
          have hns : ¬ m.getPiece = pc' := fun e => hpcq e.symm
          simp [hns]
      · rw [if_neg hif]
        have hne3 : ¬(pc' = m.getPiece ∧ (i = m.getFrom ∨ i = m.getTo)) := by
          rintro ⟨-, h | h⟩
          exacts [hif h, hit h]
        by_cases hics : m.isCapture = true ∧ i = m.getCaptureSquare
        · rw [if_pos hics, if_neg hne3]
          obtain ⟨hcp6, hcs64, hpcs, hcsb, hcsoc, hcsalt⟩ := hcapfacts hics.1
          by_cases hcpe : pc' = m.getCapturedPiece
          · rw [if_pos ⟨hics.1, hcpe, hics.2⟩]
            simp
          · rw [if_neg (fun h => hcpe h.2.1), hqbit]
            have hpcsi : q.getPieceAtOrNull i = some m.getCapturedPiece := by
              rw [hics.2]
              exact hpcs
            rw [hpcsi]
            have hcpn : ¬ m.getCapturedPiece = pc' := fun e => hcpe e.symm
            simp [hcpn]
        · rw [if_neg hics, if_neg hne3, if_neg (fun h => hics ⟨h.1, h.2.2⟩), hqbit]
  · intro i hi c' hc'
    have hlayer : ((Position.updatePieces R q m).getColorBitboard c').testBit i =
        (if c' = q.getTurnColor ∧ (i = m.getFrom ∨ i = m.getTo) then
           !(if m.isCapture = true ∧ c' = getOtherPieceColor q.getTurnColor ∧
               i = m.getCaptureSquare then false
             else (q.getColorBitboard c').testBit i)
         else if m.isCapture = true ∧ c' = getOtherPieceColor q.getTurnColor ∧
             i = m.getCaptureSquare then false
         else (q.getColorBitboard c').testBit i) := by
      rw [hred]
      by_cases hprob : m.isPromotion = true
      · rw [hprob, if_true_bool,
          (Position.promotePiece_square_char R _ Piece.PAWN m.getPromotedPiece
            q.getTurnColor m.getTo hpbL.1 hpbL.2.1 hpawn6 hpp6
            (fun e => Move.promoted_ne_pawn m hprob e.symm) ht64).2.2 i hi c' hc',
          hmchar.2.2 i hi c' hc', hpaC i hi c' hc']
      · rw [bool_eq_false hprob, if_false_bool, hmchar.2.2 i hi c' hc', hpaC i hi c' hc']
    rw [hlayer, hpcb c' i]
    have hocn : ¬ q.getTurnColor = getOtherPieceColor q.getTurnColor :=
      fun e => other_ne _ e.symm
    by_cases hit : i = m.getTo
    · rw [if_pos hit]
      by_cases hceq : c' = q.getTurnColor
      · rw [if_pos ⟨hceq, Or.inr hit⟩,
          if_neg (fun h => hocn (hceq.symm.trans h.2.1))]
        have hbitf : (q.getColorBitboard c').testBit i = false := by
          by_cases hcb : m.isCapture = true
          · obtain ⟨hcp6, hcs64, hpcs, hcsb, hcsoc, hcsalt⟩ := hcapfacts hcb
            rcases hcsalt with hcst | hep
            · rw [Bitboard.isSet_eq_testBit _ _ hcs64] at hcsoc
              have h2 := Position.color_other_false hS hoc2 hcs64 hcsoc
              rw [other_other] at h2
              rw [hceq, hit, ← hcst]
              exact h2
            · exact colorBit_false_of_empty hS hi hc'
                (by rw [hit]; exact hpt (fun hh => hep.2.1 hh.2))
          · exact colorBit_false_of_empty hS hi hc'
              (by rw [hit]; exact hpt (fun hh => hcb hh.1))
        rw [hbitf]
        simp [hceq]
      · have hcoc : c' = getOtherPieceColor q.getTurnColor := eq_other_of_ne hc' htc2 hceq
        rw [if_neg (fun h => hceq h.1)]
        by_cases hcb : m.isCapture = true
        · obtain ⟨hcp6, hcs64, hpcs, hcsb, hcsoc, hcsalt⟩ := hcapfacts hcb
          rcases hcsalt with hcst | hep
          · rw [if_pos ⟨hcb, hcoc, hit.trans hcst.symm⟩]
            simp [hceq]
          · rw [if_neg (fun h => hep.2.1 (h.2.2.symm.trans hit))]
            rw [colorBit_false_of_empty hS hi hc'
              (by rw [hit]; exact hpt (fun hh => hep.2.1 hh.2))]
            simp [hceq]
        · rw [if_neg (fun h => hcb h.1)]
          rw [colorBit_false_of_empty hS hi hc'
            (by rw [hit]; exact hpt (fun hh => hcb hh.1))]
          simp [hceq]
    · rw [if_neg hit]
      by_cases hif : i = m.getFrom
      · rw [if_pos hif]
        have hcsf : ¬(m.isCapture = true ∧ c' = getOtherPieceColor q.getTurnColor ∧
            i = m.getCaptureSquare) := by
          rintro ⟨hcb, -, hics⟩
          obtain ⟨-, -, -, -, -, hcsalt⟩ := hcapfacts hcb
          rcases hcsalt with hcst | hep
          · exact hit (hics.trans hcst)
          · exact hep.2.2 (hics.symm.trans hif)
        by_cases hceq : c' = q.getTurnColor
        · rw [if_pos ⟨hceq, Or.inl hif⟩, if_neg hcsf, hceq, hif, hcolorf]
          rfl
        · have hcoc : c' = getOtherPieceColor q.getTurnColor := eq_other_of_ne hc' htc2 hceq
          rw [if_neg (fun h => hceq h.1), if_neg hcsf, hcoc, hif, hcof]
      · rw [if_neg hif]
        have hne3 : ¬(c' = q.getTurnColor ∧ (i = m.getFrom ∨ i = m.getTo)) := by
          rintro ⟨-, h | h⟩
          exacts [hif h, hit h]
        rw [if_neg hne3]
        by_cases hics : m.isCapture = true ∧ i = m.getCaptureSquare
        · rw [if_pos hics]
          obtain ⟨hcp6, hcs64, hpcs, hcsb, hcsoc, hcsalt⟩ := hcapfacts hics.1
          by_cases hcoc : c' = getOtherPieceColor q.getTurnColor
          · rw [if_pos ⟨hics.1, hcoc, hics.2⟩]
          · have hceq : c' = q.getTurnColor := by
              rcases Nat.lt_or_ge c' 1 with h1 | h1
              · have : c' = 0 := by omega
                rw [this]
                by_contra hne
                exact hcoc (eq_other_of_ne hc' htc2 (by rw [← this] at hne; exact hne))
              · have : c' = 1 := by omega
                rw [this]
                by_contra hne
                exact hcoc (eq_other_of_ne hc' htc2 (by rw [← this] at hne; exact hne))
            rw [if_neg (fun h => hcoc h.2.1)]
            rw [Bitboard.isSet_eq_testBit _ _ hcs64] at hcsoc
            have h2 := Position.color_other_false hS hoc2 hcs64 hcsoc
            rw [other_other] at h2
            rw [hceq, hics.2]
            exact h2
        · rw [if_neg hics, if_neg (fun h => hics ⟨h.1, h.2.2⟩)]

theorem Zobrist.updatePieceColorSquare_eq (R : Nat → Nat) (z piece color index : Nat) :
    Zobrist.updatePieceColorSquare R z piece color index =
      z ^^^ R (pcsSlot piece color index) := rfl

theorem Move.king_ne_rook_ne (m : Move) (h : m.getPiece = Piece.KING) :
    m.getPiece ≠ Piece.ROOK := by
  rw [h]
  decide

/-- Composed square-level characterization of `updatePieces` for castle
moves. -/
theorem Position.updatePieces_square_char_castle (R : Nat → Nat) (q : Position)
    (m : Move) (hS : Position.StateOk q) (hmc : MoveConsistent q m)
    (hx : Position.MoveExtras q m) (hil : m.isCastle = true) :
    (Position.updatePieces R q m).bitboards.length = 8 ∧
    (Position.updatePieces R q m).pieces.length = 64 ∧
    (∀ b ∈ (Position.updatePieces R q m).bitboards, b < 2 ^ 64) ∧
    (∀ i, i < 64 → (Position.updatePieces R q m).pieces.getD i none =
      Position.postPieceAt q m i) ∧
    (∀ i, i < 64 → ∀ pc', pc' < 6 →
      ((Position.updatePieces R q m).getPieceBitboard pc').testBit i =
        decide (Position.postPieceAt q m i = some pc')) ∧
    (∀ i, i < 64 → ∀ c', c' < 2 →
      ((Position.updatePieces R q m).getColorBitboard c').testBit i =
        Position.postColorBit q m c' i) := by
  obtain ⟨hlb, hb64, hlp, hturn, hpclt, hft, hpf, hcap, hpt, hcastle, hpromo⟩ := hmc
  obtain ⟨hkind, hcolorf, hnoking, hcastlex, hdpp, hpawnt⟩ := hx
  have hic := Move.castle_not_capture m hil
  have hip := Move.castle_not_promotion m hil
  have hf64 := Move.getFrom_lt m
  have ht64 := Move.getTo_lt m
  have htc2 : q.getTurnColor < 2 := hturn
  have hoc2 : getOtherPieceColor q.getTurnColor < 2 := getOtherPieceColor_lt htc2
  rw [hil, if_true_bool] at hcastle
  obtain ⟨hrfrt, hrff, hrft, hrtf, hrtt, hrf64, hrt64, hrook, hrtE⟩ := hcastle
  obtain ⟨hpcK, hfhome, hright⟩ := hcastlex hil
  have hcrf : Position.castleRookFrom q m =
      Position.getCastlingRookSquare q.getTurnColor
        (decide (m.getKind = Kind.KING_CASTLE)) := rfl
  have hcrt : Position.castleRookTo q m =
      (if (decide (m.getKind = Kind.KING_CASTLE) : Bool) = true then
        Position.castleRookFrom q m - 2
      else Position.castleRookFrom q m + 3) := by
    unfold Position.castleRookTo
    by_cases h : m.getKind = Kind.KING_CASTLE <;> simp [h]
  -- rename the castle squares
  rw [← hcrf] at hrfrt hrff hrft hrf64 hrook hrtf hrtt hrt64 hrtE
  rw [← hcrt] at hrfrt hrtf hrtt hrt64 hrtE
  -- facts
  have hcolorrf : (q.getColorBitboard q.getTurnColor).testBit
      (Position.castleRookFrom q m) = true := by
    have h := hS.2.2.2.2.2.2.2.2.2.1 q.getTurnColor htc2
      (decide (m.getKind = Kind.KING_CASTLE)) hright
    rw [← hcrf] at h
    exact h.2.1
  have hcorf : (q.getColorBitboard (getOtherPieceColor q.getTurnColor)).testBit
      (Position.castleRookFrom q m) = false :=
    Position.color_other_false hS htc2 hrf64 hcolorrf
  have hcof : (q.getColorBitboard (getOtherPieceColor q.getTurnColor)).testBit m.getFrom =
      false := Position.color_other_false hS htc2 hf64 hcolorf
  obtain ⟨-, hbf_bit, hbf_oth, -⟩ := Position.bits_of_pieceAt hS hf64 hpf
  obtain ⟨-, hbrf_bit, hbrf_oth, -⟩ := Position.bits_of_pieceAt hS hrf64 hrook
  have hptE : q.getPieceAtOrNull m.getTo = none := by
    apply hpt
    rintro ⟨h, -⟩
    rw [hic] at h
    exact absurd h (by decide)
  obtain ⟨hbt_all, hbt_0, hbt_1⟩ := Position.bits_of_empty hS ht64 hptE
  obtain ⟨hbrt_all, hbrt_0, hbrt_1⟩ := Position.bits_of_empty hS hrt64 hrtE
  have hcolort : ∀ c', c' < 2 → (q.getColorBitboard c').testBit m.getTo = false := by
    intro c' hc'
    exact colorBit_false_of_empty hS ht64 hc' hptE
  have hcolorrt : ∀ c', c' < 2 →
      (q.getColorBitboard c').testBit (Position.castleRookTo q m) = false := by
    intro c' hc'
    exact colorBit_false_of_empty hS hrt64 hc' hrtE
  -- reduction
  have hrook6 : Piece.ROOK < 6 := by decide
  have hred : Position.updatePieces R q m =
      Position.movePiece R
        (Position.movePiece R q Piece.ROOK q.getTurnColor (Position.castleRookFrom q m)
          (Position.castleRookTo q m))
        m.getPiece q.getTurnColor m.getFrom m.getTo := by
    have hct : (Position.castleRook R q q.getTurnColor
        (decide (m.getKind = Kind.KING_CASTLE))).getTurnColor = q.getTurnColor := by
      show (Position.castleRook R q q.getTurnColor _).turn = q.turn
      unfold Position.castleRook
      exact (Position.movePiece_frame R q _ _ _ _).1
    unfold Position.updatePieces
    dsimp only
    rw [hic, hil, hip]
    simp only [Bool.false_eq_true, if_false, if_true_bool, eq_self_iff_true, if_true]
    rw [hct]
    unfold Position.castleRook
    dsimp only
    rw [← hcrf, ← hcrt]
  have hmr := Position.movePiece_square_char R q Piece.ROOK q.getTurnColor
    (Position.castleRookFrom q m) (Position.castleRookTo q m) hlb hlp hrook6 htc2
    hrf64 hrt64 hrfrt
  have hmrL := Position.movePiece_lens R q Piece.ROOK q.getTurnColor
    (Position.castleRookFrom q m) (Position.castleRookTo q m) hlb hlp hb64 hrf64 hrt64
  have hmk := Position.movePiece_square_char R _ m.getPiece q.getTurnColor m.getFrom
    m.getTo hmrL.1 hmrL.2.1 hpclt htc2 hf64 ht64 hft
  have hmkL := Position.movePiece_lens R _ m.getPiece q.getTurnColor m.getFrom m.getTo
    hmrL.1 hmrL.2.1 hmrL.2.2 hf64 ht64
  have hppa : ∀ i, Position.postPieceAt q m i =
      (if i = m.getTo then some m.getPiece
       else if i = m.getFrom then none
       else if i = Position.castleRookFrom q m then none
       else if i = Position.castleRookTo q m then some Piece.ROOK
       else q.getPieceAtOrNull i) := by
    intro i
    unfold Position.postPieceAt Position.getPieceAtOrNull
    rw [hic, hip, hil]
    simp only [Bool.false_eq_true, false_and, if_false, true_and, if_false_bool]
  have hpcb : ∀ c' i, Position.postColorBit q m c' i =
      (if i = m.getTo then decide (c' = q.getTurnColor)
       else if i = m.getFrom then false
       else if i = Position.castleRookFrom q m then false
       else if i = Position.castleRookTo q m then decide (c' = q.getTurnColor)
       else (q.getColorBitboard c').testBit i) := by
    intro c' i
    unfold Position.postColorBit
    rw [hic, hil]
    simp only [Bool.false_eq_true, false_and, if_false, true_and]
  refine ⟨?_, ?_, ?_, ?_, ?_, ?_⟩
  · rw [hred]
    exact hmkL.1
  · rw [hred]
    exact hmkL.2.1
  · rw [hred]
    exact hmkL.2.2
  · intro i hi
    rw [hppa i, hred, hmk.1 i hi]
    by_cases hit : i = m.getTo
    · rw [if_pos hit, if_pos hit]
    · rw [if_neg hit, if_neg hit]
      by_cases hif : i = m.getFrom
      · rw [if_pos hif, if_pos hif]
      · rw [if_neg hif, if_neg hif, hmr.1 i hi]
        by_cases hirt : i = Position.castleRookTo q m
        · rw [if_pos hirt, if_neg (fun e => hrfrt (e.symm.trans hirt)),
            if_pos hirt]
        · rw [if_neg hirt]
          by_cases hirf : i = Position.castleRookFrom q m
          · rw [if_pos hirf, if_pos hirf]
          · rw [if_neg hirf, if_neg hirf, if_neg hirt]
            rfl
  · intro i hi pc' hpc'
    have hqbit := Position.pieceBit_eq_decide hS hi hpc'
    rw [hppa i, hred, hmk.2.1 i hi pc' hpc', hmr.2.1 i hi pc' hpc']
    by_cases hit : i = m.getTo
    · rw [if_pos hit]
      have hRno : ¬(pc' = Piece.ROOK ∧ (i = Position.castleRookFrom q m ∨
          i = Position.castleRookTo q m)) := by
        rintro ⟨-, e | e⟩
        · exact hrft (e.symm.trans hit)
        · exact hrtt (e.symm.trans hit)
      by_cases hpcq : pc' = m.getPiece
      · rw [if_pos ⟨hpcq, Or.inr hit⟩, if_neg hRno, hqbit,
          (show q.getPieceAtOrNull i = none by rw [hit]; exact hptE)]
        simp [hpcq]
      · rw [if_neg (fun h => hpcq h.1), if_neg hRno, hqbit,
          (show q.getPieceAtOrNull i = none by rw [hit]; exact hptE)]
        have hns : ¬ m.getPiece = pc' := fun e => hpcq e.symm
        simp [hns]
    · rw [if_neg hit]
      by_cases hif : i = m.getFrom
      · rw [if_pos hif]
        have hRno : ¬(pc' = Piece.ROOK ∧ (i = Position.castleRookFrom q m ∨
            i = Position.castleRookTo q m)) := by
          rintro ⟨-, e | e⟩
          · exact hrff (e.symm.trans hif)
          · exact hrtf (e.symm.trans hif)
        by_cases hpcq : pc' = m.getPiece
        · rw [if_pos ⟨hpcq, Or.inl hif⟩, if_neg hRno, hqbit,
            (show q.getPieceAtOrNull i = some m.getPiece by rw [hif]; exact hpf)]
          simp [hpcq]
        · rw [if_neg (fun h => hpcq h.1), if_neg hRno, hqbit,
            (show q.getPieceAtOrNull i = some m.getPiece by rw [hif]; exact hpf)]
          have hns : ¬ m.getPiece = pc' := fun e => hpcq e.symm
          simp [hns]
      · rw [if_neg hif]
        have hKno : ¬(pc' = m.getPiece ∧ (i = m.getFrom ∨ i = m.getTo)) := by
          rintro ⟨-, e | e⟩
          exacts [hif e, hit e]
        rw [if_neg hKno]
        by_cases hirf : i = Position.castleRookFrom q m
        · rw [if_pos hirf]
          by_cases hpcr : pc' = Piece.ROOK
          · rw [if_pos ⟨hpcr, Or.inl hirf⟩, hqbit,
              (show q.getPieceAtOrNull i = some Piece.ROOK by rw [hirf]; exact hrook)]
            simp [hpcr]
          · rw [if_neg (fun h => hpcr h.1), hqbit,
              (show q.getPieceAtOrNull i = some Piece.ROOK by rw [hirf]; exact hrook)]
            have hns : ¬ Piece.ROOK = pc' := fun e => hpcr e.symm
            simp [hns]
        · rw [if_neg hirf]
          by_cases hirt : i = Position.castleRookTo q m
          · rw [if_pos hirt]
            by_cases hpcr : pc' = Piece.ROOK
            · rw [if_pos ⟨hpcr, Or.inr hirt⟩, hqbit,
                (show q.getPieceAtOrNull i = none by rw [hirt]; exact hrtE)]
              simp [hpcr]
            · rw [if_neg (fun h => hpcr h.1), hqbit,
                (show q.getPieceAtOrNull i = none by rw [hirt]; exact hrtE)]
              have hns : ¬ Piece.ROOK = pc' := fun e => hpcr e.symm
              simp [hns]
          · rw [if_neg hirt,
              if_neg (show ¬(pc' = Piece.ROOK ∧ (i = Position.castleRookFrom q m ∨
                i = Position.castleRookTo q m)) from fun h => h.2.elim hirf hirt), hqbit]
  · intro i hi c' hc'
    rw [hpcb c' i, hred, hmk.2.2 i hi c' hc', hmr.2.2 i hi c' hc']
    by_cases hit : i = m.getTo
    · rw [if_pos hit]
      have hRno : ¬(c' = q.getTurnColor ∧ (i = Position.castleRookFrom q m ∨
          i = Position.castleRookTo q m)) := by
        rintro ⟨-, e | e⟩
        · exact hrft (e.symm.trans hit)
        · exact hrtt (e.symm.trans hit)
      by_cases hceq : c' = q.getTurnColor
      · rw [if_pos ⟨hceq, Or.inr hit⟩, if_neg hRno, hit, hcolort c' hc']
        simp [hceq]
      · rw [if_neg (fun h => hceq h.1), if_neg hRno, hit, hcolort c' hc']
        simp [hceq]
    · rw [if_neg hit]
      by_cases hif : i = m.getFrom
      · rw [if_pos hif]
        have hRno : ¬(c' = q.getTurnColor ∧ (i = Position.castleRookFrom q m ∨
            i = Position.castleRookTo q m)) := by
          rintro ⟨-, e | e⟩
          · exact hrff (e.symm.trans hif)
          · exact hrtf (e.symm.trans hif)
        by_cases hceq : c' = q.getTurnColor
        · rw [if_pos ⟨hceq, Or.inl hif⟩, if_neg hRno, hceq, hif, hcolorf]
          rfl
        · have hcoc := eq_other_of_ne hc' htc2 hceq
          rw [if_neg (fun h => hceq h.1), if_neg hRno, hcoc, hif, hcof]
      · rw [if_neg hif]
        have hKno : ¬(c' = q.getTurnColor ∧ (i = m.getFrom ∨ i = m.getTo)) := by
          rintro ⟨-, e | e⟩
          exacts [hif e, hit e]
        rw [if_neg hKno]
        by_cases hirf : i = Position.castleRookFrom q m
        · rw [if_pos hirf]
          by_cases hceq : c' = q.getTurnColor
          · rw [if_pos ⟨hceq, Or.inl hirf⟩, hceq, hirf, hcolorrf]
            rfl
          · have hcoc := eq_other_of_ne hc' htc2 hceq
            rw [if_neg (fun h => hceq h.1), hcoc, hirf, hcorf]
        · rw [if_neg hirf]
          by_cases hirt : i = Position.castleRookTo q m
          · rw [if_pos hirt]
            by_cases hceq : c' = q.getTurnColor
            · rw [if_pos ⟨hceq, Or.inr hirt⟩, hirt, hcolorrt c' hc']
              simp [hceq]
            · rw [if_neg (fun h => hceq h.1), hirt, hcolorrt c' hc']
              simp [hceq]
          · rw [if_neg hirt,
              if_neg (show ¬(c' = q.getTurnColor ∧ (i = Position.castleRookFrom q m ∨
                i = Position.castleRookTo q m)) from fun h => h.2.elim hirf hirt)]

end Chess
